import Mathlib

set_option autoImplicit false

/-! The tree-directed constraint evaluator (`src/solver/ConstraintSolver.cpp`).

A shallow embedding of `Vlab::Solver::ConstraintSolver`.  The evaluator is a
visitor over an SMT-style term tree; at every node it stores a symbolic
`Value` in the term-value map.  Everything the evaluator calls but does not
define (the `Value` class, the automaton library, the symbol table, the two
sub-engines, the variable value computer, the constraint-information oracle
and the option flags) is a field of the record `Env`, so every theorem about a
handler holds for all implementations of these collaborators.  A small
executable instance (`refEnv`) is used for concrete evaluations.  The
serialization of big integers (`src/utils/Serialize.h`) is embedded in
`Vlab.Util.Serialize`.
-/

namespace Vlab
namespace Solver

/-! ## Abstract syntax (`smt/ast.h`, only the parts the evaluator reads) -/

/-- The enumeration `SubString::Mode`; `NONE` stands for every value that is
not one of the twelve named cases of the switch in `visitSubString`. -/
inductive SubStringMode where
  | FROMINDEX | FROMFIRSTOF | FROMLASTOF | FROMINDEXTOINDEX
  | FROMINDEXTOFIRSTOF | FROMINDEXTOLASTOF
  | FROMFIRSTOFTOINDEX | FROMFIRSTOFTOFIRSTOF | FROMFIRSTOFTOLASTOF
  | FROMLASTOFTOINDEX | FROMLASTOFTOFIRSTOF | FROMLASTOFTOLASTOF
  | NONE
  deriving DecidableEq, Repr

/-- The enumeration `Primitive::Type`; `NONE` stands for every value outside
the cases of the switch in `visitTermConstant`. -/
inductive PrimitiveType where
  | BOOL | BINARY | HEXADECIMAL | DECIMAL | NUMERAL | STRING | REGEX | NONE
  deriving DecidableEq, Repr

/-- The enumeration `Term::Type`. -/
inductive TermType where
  | EXCLAMATION | EXISTS | FORALL | LET | AND | OR | NOT | UMINUS | MINUS | PLUS
  | TIMES | EQ | NOTEQ | GT | GE | LT | LE | CONCAT | IN | NOTIN | LEN | CONTAINS
  | NOTCONTAINS | BEGINS | NOTBEGINS | ENDS | NOTENDS | INDEXOF | LASTINDEXOF
  | CHARAT | SUBSTRING | TOUPPER | TOLOWER | TRIM | TOSTRING | TOINT | REPLACE
  | COUNT | ITE | RECONCAT | TOREGEX | REUNION | REINTER | RESTAR | REPLUS | REOPT
  | UNKNOWN | ASQUALIDENTIFIER | QUALIDENTIFIER | TERMCONSTANT
  deriving DecidableEq, Repr

/-- Term nodes.  The C++ code identifies a node by its address (`Term_ptr` is
the key of the term-value map); here every node carries an explicit identity
`id`.  Constructors are named after the node classes and their fields after
the members the evaluator reads.  Nodes whose handler has an empty body keep
only their identity. -/
inductive Term where
  | Exclamation (id : Nat)
  | Exists (id : Nat)
  | ForAll (id : Nat)
  | Let (id : Nat) (var_binding_list : List (String × Term)) (term : Term)
  | And (id : Nat) (term_list : List Term)
  | Or (id : Nat) (term_list : List Term)
  | Not (id : Nat) (term : Term)
  | UMinus (id : Nat) (term : Term)
  | Minus (id : Nat) (left_term right_term : Term)
  | Plus (id : Nat) (term_list : List Term)
  | Times (id : Nat) (term_list : List Term)
  | Eq (id : Nat) (left_term right_term : Term)
  | NotEq (id : Nat) (left_term right_term : Term)
  | Gt (id : Nat) (left_term right_term : Term)
  | Ge (id : Nat) (left_term right_term : Term)
  | Lt (id : Nat) (left_term right_term : Term)
  | Le (id : Nat) (left_term right_term : Term)
  | Concat (id : Nat) (term_list : List Term)
  | In (id : Nat) (left_term right_term : Term)
  | NotIn (id : Nat) (left_term right_term : Term)
  | Len (id : Nat) (term : Term)
  | Contains (id : Nat) (subject_term search_term : Term)
  | NotContains (id : Nat) (subject_term search_term : Term)
  | Begins (id : Nat) (subject_term search_term : Term)
  | NotBegins (id : Nat) (subject_term search_term : Term)
  | Ends (id : Nat) (subject_term search_term : Term)
  | NotEnds (id : Nat) (subject_term search_term : Term)
  | IndexOf (id : Nat) (subject_term search_term : Term)
  | LastIndexOf (id : Nat) (subject_term search_term : Term)
  | CharAt (id : Nat) (subject_term index_term : Term)
  | SubString (id : Nat) (mode : SubStringMode) (subject_term start_index_term : Term)
      (end_index_term : Option Term)
  | ToUpper (id : Nat) (subject_term : Term)
  | ToLower (id : Nat) (subject_term : Term)
  | Trim (id : Nat) (subject_term : Term)
  | ToString (id : Nat) (subject_term : Term)
  | ToInt (id : Nat) (subject_term : Term)
  | Replace (id : Nat) (subject_term search_term replace_term : Term)
  | Count (id : Nat) (children : List Term)
  | Ite (id : Nat)
  | ReConcat (id : Nat)
  | ToRegex (id : Nat)
  | ReUnion (id : Nat)
  | ReInter (id : Nat)
  | ReStar (id : Nat)
  | RePlus (id : Nat)
  | ReOpt (id : Nat)
  | Unknown (id : Nat) (term_list : List Term)
  | AsQualIdentifier (id : Nat)
  | QualIdentifier (id : Nat) (var_name : String)
  | TermConstant (id : Nat) (value_type : PrimitiveType) (value : String)

namespace Term

/-- Node identity (the address of the node in the C++ code). -/
def id : Term → Nat
  | Exclamation i | Exists i | ForAll i | Let i _ _ | And i _ | Or i _ | Not i _
  | UMinus i _ | Minus i _ _ | Plus i _ | Times i _ | Eq i _ _ | NotEq i _ _
  | Gt i _ _ | Ge i _ _ | Lt i _ _ | Le i _ _ | Concat i _ | In i _ _
  | NotIn i _ _ | Len i _ | Contains i _ _ | NotContains i _ _ | Begins i _ _
  | NotBegins i _ _ | Ends i _ _ | NotEnds i _ _ | IndexOf i _ _
  | LastIndexOf i _ _ | CharAt i _ _ | SubString i _ _ _ _ | ToUpper i _
  | ToLower i _ | Trim i _ | ToString i _ | ToInt i _ | Replace i _ _ _
  | Count i _ | Ite i | ReConcat i | ToRegex i | ReUnion i | ReInter i | ReStar i
  | RePlus i | ReOpt i | Unknown i _ | AsQualIdentifier i | QualIdentifier i _
  | TermConstant i _ _ => i

/-- The member function `Term::type()`. -/
def type : Term → TermType
  | Exclamation _ => .EXCLAMATION
  | Exists _ => .EXISTS
  | ForAll _ => .FORALL
  | Let _ _ _ => .LET
  | And _ _ => .AND
  | Or _ _ => .OR
  | Not _ _ => .NOT
  | UMinus _ _ => .UMINUS
  | Minus _ _ _ => .MINUS
  | Plus _ _ => .PLUS
  | Times _ _ => .TIMES
  | Eq _ _ _ => .EQ
  | NotEq _ _ _ => .NOTEQ
  | Gt _ _ _ => .GT
  | Ge _ _ _ => .GE
  | Lt _ _ _ => .LT
  | Le _ _ _ => .LE
  | Concat _ _ => .CONCAT
  | In _ _ _ => .IN
  | NotIn _ _ _ => .NOTIN
  | Len _ _ => .LEN
  | Contains _ _ _ => .CONTAINS
  | NotContains _ _ _ => .NOTCONTAINS
  | Begins _ _ _ => .BEGINS
  | NotBegins _ _ _ => .NOTBEGINS
  | Ends _ _ _ => .ENDS
  | NotEnds _ _ _ => .NOTENDS
  | IndexOf _ _ _ => .INDEXOF
  | LastIndexOf _ _ _ => .LASTINDEXOF
  | CharAt _ _ _ => .CHARAT
  | SubString _ _ _ _ _ => .SUBSTRING
  | ToUpper _ _ => .TOUPPER
  | ToLower _ _ => .TOLOWER
  | Trim _ _ => .TRIM
  | ToString _ _ => .TOSTRING
  | ToInt _ _ => .TOINT
  | Replace _ _ _ _ => .REPLACE
  | Count _ _ => .COUNT
  | Ite _ => .ITE
  | ReConcat _ => .RECONCAT
  | ToRegex _ => .TOREGEX
  | ReUnion _ => .REUNION
  | ReInter _ => .REINTER
  | ReStar _ => .RESTAR
  | RePlus _ => .REPLUS
  | ReOpt _ => .REOPT
  | Unknown _ _ => .UNKNOWN
  | AsQualIdentifier _ => .ASQUALIDENTIFIER
  | QualIdentifier _ _ => .QUALIDENTIFIER
  | TermConstant _ _ _ => .TERMCONSTANT

/-- Modelled from the spec: the children `Visitor::visit_children_of` walks
(the visitor and the node classes are not part of the sources at hand; §6 of
the specification: "walks children without emitting a result").  Children are
listed in member order; identifier and primitive leaves below a variable
reference or a constant have inert handlers and are left out. -/
def visit_children : Term → List Term
  | Let _ bs t => bs.map Prod.snd ++ [t]
  | And _ l | Or _ l | Plus _ l | Times _ l | Concat _ l | Count _ l
  | Unknown _ l => l
  | Not _ t | UMinus _ t | Len _ t | ToUpper _ t | ToLower _ t | Trim _ t
  | ToString _ t | ToInt _ t => [t]
  | Minus _ a b | Eq _ a b | NotEq _ a b | Gt _ a b | Ge _ a b | Lt _ a b
  | Le _ a b | In _ a b | NotIn _ a b | Contains _ a b | NotContains _ a b
  | Begins _ a b | NotBegins _ a b | Ends _ a b | NotEnds _ a b | IndexOf _ a b
  | LastIndexOf _ a b | CharAt _ a b => [a, b]
  | SubString _ _ a b c => [a, b] ++ c.toList
  | Replace _ a b c => [a, b, c]
  | _ => []

end Term

/-- Commands of a script: `Assert` carries its body, every other command is
handled by `visitCommand`. -/
inductive Command where
  | Assert (term : Term)
  | Other (name : String)

/-- The root node: a list of commands; `id` is its identity as a scope key. -/
structure Script where
  id : Nat
  command_list : List Command

/-! ## Values and collaborators -/

/-- Carrier types of the theory library the evaluator is linked against: the
automaton classes and the formula attached to a binary integer automaton. -/
structure Carrier where
  IntAutomaton : Type
  StringAutomaton : Type
  MultiTrackAutomaton : Type
  BinaryIntAutomaton : Type
  UnaryAutomaton : Type
  ArithmeticFormula : Type

/-- The enumeration `Value::Type` (spelling of `BOOl_CONSTANT` as in the
sources). -/
inductive ValueType where
  | BOOl_CONSTANT | INT_CONSTANT | BOOL_AUTOMATON | INT_AUTOMATON
  | INTBOOL_AUTOMATON | STRING_AUTOMATON | MULTITRACK_AUTOMATON
  | BINARYINT_AUTOMATON
  deriving DecidableEq, Repr

/-- Modelled from the spec: the tagged union `Value` (§3 of the
specification; `Value.h` is not part of the sources at hand).  One
constructor per tag, named after the tag; the two reserved tags carry no
payload. -/
inductive Value (C : Carrier) where
  | BOOl_CONSTANT (b : Bool)
  | INT_CONSTANT (n : Int)
  | BOOL_AUTOMATON
  | INT_AUTOMATON (a : C.IntAutomaton)
  | INTBOOL_AUTOMATON
  | STRING_AUTOMATON (a : C.StringAutomaton)
  | MULTITRACK_AUTOMATON (a : C.MultiTrackAutomaton)
  | BINARYINT_AUTOMATON (a : C.BinaryIntAutomaton)

namespace Value

variable {C : Carrier}

/-- The member function `Value::getType()`. -/
def getType : Value C → ValueType
  | BOOl_CONSTANT _ => .BOOl_CONSTANT
  | INT_CONSTANT _ => .INT_CONSTANT
  | BOOL_AUTOMATON => .BOOL_AUTOMATON
  | INT_AUTOMATON _ => .INT_AUTOMATON
  | INTBOOL_AUTOMATON => .INTBOOL_AUTOMATON
  | STRING_AUTOMATON _ => .STRING_AUTOMATON
  | MULTITRACK_AUTOMATON _ => .MULTITRACK_AUTOMATON
  | BINARYINT_AUTOMATON _ => .BINARYINT_AUTOMATON

/-- Modelled from the spec: `Value::clone()`, a deep copy.  Values are
immutable here, so the copy is the value itself. -/
def clone (v : Value C) : Value C := v

/-- Payload getter `getBoolConstant()`; `none` when the tag is another one. -/
def getBoolConstant : Value C → Option Bool
  | BOOl_CONSTANT b => some b
  | _ => none

/-- Payload getter `getIntConstant()`; `none` when the tag is another one. -/
def getIntConstant : Value C → Option Int
  | INT_CONSTANT n => some n
  | _ => none

/-- Payload getter `getIntAutomaton()`; `none` when the tag is another one. -/
def getIntAutomaton : Value C → Option C.IntAutomaton
  | INT_AUTOMATON a => some a
  | _ => none

/-- Payload getter `getStringAutomaton()`; `none` when the tag is another
one. -/
def getStringAutomaton : Value C → Option C.StringAutomaton
  | STRING_AUTOMATON a => some a
  | _ => none

/-- Payload getter `getMultiTrackAutomaton()`. -/
def getMultiTrackAutomaton : Value C → Option C.MultiTrackAutomaton
  | MULTITRACK_AUTOMATON a => some a
  | _ => none

/-- Payload getter `getBinaryIntAutomaton()`. -/
def getBinaryIntAutomaton : Value C → Option C.BinaryIntAutomaton
  | BINARYINT_AUTOMATON a => some a
  | _ => none

end Value

/-- A `Variable_ptr`; a variable is identified by its name. -/
abbrev Variable := String

/-- The term-value map `term_values_` (a `std::map<Term_ptr, Value_ptr>`): an
association list from node identities to value pointers.  A stored pointer may
be null (`none`). -/
abbrev TermValueMap (C : Carrier) := List (Nat × Option (Value C))

/-- Everything the evaluator calls and does not define: option flags, the
constraint-information oracle, the operations of `Value`, the automaton
library, the symbol table, the arithmetic engine, the relational string engine
and the variable value computer.  The type `W` (the world) is the joint state
of the symbol table and the two sub-engines; they share the symbol table, so
they are one piece of state.  Operations that read are functions of the world;
operations that write return the new world.  A variable is identified by its
name, so the overloads of `setValue` and `getVariable` taking a name or a
variable are one operation each. -/
structure Env (C : Carrier) (W : Type) where
  /- option flags (`Option::Solver`) -/
  LIA_ENGINE_ENABLED : Bool
  ENABLE_RELATIONAL_STRING_AUTOMATA : Bool
  MODEL_COUNTER_ENABLED : Bool
  /- the content of the uninitialised local `bool b` of `visitTermConstant` -/
  uninitialized_bool : Bool
  /- `constraint_information_` -/
  is_component : Term → Bool
  /- `Value` -/
  isSatisfiable : Value C → Bool
  isSingleValue : Value C → Bool
  complement : Value C → Value C
  intersect : Value C → Value C → Value C
  difference : Value C → Value C → Value C
  plus : Value C → Value C → Value C
  minus : Value C → Value C → Value C
  times : Value C → Value C → Value C
  concat : Value C → Value C → Value C
  /- `Theory::IntAutomaton` -/
  IntAutomaton_isAcceptingSingleInt : C.IntAutomaton → Bool
  IntAutomaton_getAnAcceptingInt : C.IntAutomaton → Int
  IntAutomaton_uminus : C.IntAutomaton → C.IntAutomaton
  IntAutomaton_isEmptyLanguage : C.IntAutomaton → Bool
  IntAutomaton_isLessThan : C.IntAutomaton → Int → Bool
  IntAutomaton_isLessThanOrEqual : C.IntAutomaton → Int → Bool
  IntAutomaton_isGreaterThan : C.IntAutomaton → Int → Bool
  IntAutomaton_isGreaterThanOrEqual : C.IntAutomaton → Int → Bool
  IntAutomaton_isLessThanAuto : C.IntAutomaton → C.IntAutomaton → Bool
  IntAutomaton_isLessThanOrEqualAuto : C.IntAutomaton → C.IntAutomaton → Bool
  IntAutomaton_isGreaterThanAuto : C.IntAutomaton → C.IntAutomaton → Bool
  IntAutomaton_isGreaterThanOrEqualAuto : C.IntAutomaton → C.IntAutomaton → Bool
  IntAutomaton_hasNegative1 : C.IntAutomaton → Bool
  IntAutomaton_getNumberOfVariables : C.IntAutomaton → Int
  IntAutomaton_toUnaryAutomaton : C.IntAutomaton → C.UnaryAutomaton
  IntAutomaton_DEFAULT_NUM_OF_VARIABLES : Int
  /- `Theory::StringAutomaton` -/
  StringAutomaton_makeString : String → C.StringAutomaton
  StringAutomaton_makeRegexAuto : String → C.StringAutomaton
  StringAutomaton_makeAnyString : C.StringAutomaton
  StringAutomaton_makePhi : C.StringAutomaton
  StringAutomaton_complement : C.StringAutomaton → C.StringAutomaton
  StringAutomaton_difference : C.StringAutomaton → C.StringAutomaton → C.StringAutomaton
  StringAutomaton_isAcceptingSingleString : C.StringAutomaton → Bool
  StringAutomaton_isEmptyLanguage : C.StringAutomaton → Bool
  StringAutomaton_length : C.StringAutomaton → C.IntAutomaton
  StringAutomaton_contains : C.StringAutomaton → C.StringAutomaton → C.StringAutomaton
  StringAutomaton_begins : C.StringAutomaton → C.StringAutomaton → C.StringAutomaton
  StringAutomaton_ends : C.StringAutomaton → C.StringAutomaton → C.StringAutomaton
  StringAutomaton_subStrings : C.StringAutomaton → C.StringAutomaton
  StringAutomaton_prefixes : C.StringAutomaton → C.StringAutomaton
  StringAutomaton_suffixes : C.StringAutomaton → C.StringAutomaton
  StringAutomaton_indexOf : C.StringAutomaton → C.StringAutomaton → C.IntAutomaton
  StringAutomaton_lastIndexOf : C.StringAutomaton → C.StringAutomaton → C.IntAutomaton
  StringAutomaton_charAt : C.StringAutomaton → Int → C.StringAutomaton
  StringAutomaton_subString : C.StringAutomaton → Int → C.StringAutomaton
  StringAutomaton_subStringTo : C.StringAutomaton → Int → Int → C.StringAutomaton
  StringAutomaton_subStringToAuto : C.StringAutomaton → Int → C.IntAutomaton → C.StringAutomaton
  StringAutomaton_subStringFirstOf : C.StringAutomaton → C.StringAutomaton → C.StringAutomaton
  StringAutomaton_subStringLastOf : C.StringAutomaton → C.StringAutomaton → C.StringAutomaton
  StringAutomaton_toUpperCase : C.StringAutomaton → C.StringAutomaton
  StringAutomaton_toLowerCase : C.StringAutomaton → C.StringAutomaton
  StringAutomaton_trim : C.StringAutomaton → C.StringAutomaton
  StringAutomaton_replace : C.StringAutomaton → C.StringAutomaton → C.StringAutomaton → C.StringAutomaton
  StringAutomaton_parseToIntAutomaton : C.StringAutomaton → C.IntAutomaton
  /- `Theory::UnaryAutomaton` -/
  UnaryAutomaton_toBinaryIntAutomaton : C.UnaryAutomaton → String → C.ArithmeticFormula → Bool → C.BinaryIntAutomaton
  UnaryAutomaton_toStringAutomaton : C.UnaryAutomaton → C.StringAutomaton
  UnaryAutomaton_toIntAutomaton : C.UnaryAutomaton → Int → Bool → C.IntAutomaton
  /- `Theory::BinaryIntAutomaton` -/
  BinaryIntAutomaton_getFormula : C.BinaryIntAutomaton → C.ArithmeticFormula
  BinaryIntAutomaton_makeAutomaton : Int → String → C.ArithmeticFormula → Bool → C.BinaryIntAutomaton
  BinaryIntAutomaton_intersect : C.BinaryIntAutomaton → C.BinaryIntAutomaton → C.BinaryIntAutomaton
  BinaryIntAutomaton_getBinaryAutomatonFor : C.BinaryIntAutomaton → String → C.BinaryIntAutomaton
  BinaryIntAutomaton_hasNegative1 : C.BinaryIntAutomaton → Bool
  BinaryIntAutomaton_getPositiveValuesFor : C.BinaryIntAutomaton → String → C.BinaryIntAutomaton
  BinaryIntAutomaton_toUnaryAutomaton : C.BinaryIntAutomaton → C.UnaryAutomaton
  /- the relation carried by a multi-track value: the value with the track of
     the second name also registered under the first name -/
  MultiTrackAutomaton_alias_track : C.MultiTrackAutomaton → String → String → C.MultiTrackAutomaton
  /- `symbol_table_` -/
  push_scope : W → Nat → W
  pop_scope : W → W
  top_scope : W → Nat
  updateSatisfiability : W → Bool → W
  setScopeSatisfiability : W → Bool → W
  getVariable : W → String → Variable
  getValue : W → Variable → Option (Value C)
  setValue : W → Variable → Option (Value C) → W
  updateValue : W → String → Option (Value C) → W
  clearLetScopes : W → W
  getSymbolicVariable : W → Option Variable
  get_representative_variable_of_at_scope : W → Nat → Variable → Option Variable
  get_var_name_for_expression : W → Term → String
  /- `arithmetic_constraint_solver_` -/
  arithmetic_start : W → Term → W
  arithmetic_getTermValue : W → Term → Option (Value C)
  arithmetic_get_int_variable_name : W → Term → String
  arithmetic_hasStringTerms : W → Term → Bool
  arithmetic_getStringTermsIn : W → Term → List Term
  arithmetic_updateTermValue : W → Term → Value C → W
  /- `string_constraint_solver_` -/
  string_start : W → Term → W
  string_get_term_value : W → Term → Option (Value C)
  string_get_variable_value : W → Variable → Option (Value C)
  string_get_variable_value_flag : W → Variable → Bool → Option (Value C)
  string_update_variable_value : W → Variable → Value C → Bool × W
  string_set_variable_trackmap : W → Variable → String → String → W
  /- `VariableValueComputer::start` on the symbol table, the variable path
     table and the term-value map -/
  value_updater_start : W → List (List Term) → TermValueMap C → W

/-- How an evaluation can end without returning: `fatal` is `LOG(FATAL)`
(the process aborts), `nullDeref` is the use of a null or wrongly tagged
payload pointer, `exception` is a thrown standard-library exception and
`outOfFuel` belongs to the embedding only (recursion budget exhausted). -/
inductive Err where
  | fatal (msg : String)
  | nullDeref
  | exception
  | outOfFuel
  deriving DecidableEq, Repr

/-- The mutable members of `ConstraintSolver`, together with the world of its
collaborators. -/
structure State (C : Carrier) (W : Type) where
  still_sat_ : Bool
  iteration_count_ : Int
  term_values_ : TermValueMap C
  path_trace_ : List Term
  variable_path_table_ : List (List Term)
  tagged_variables : List Variable
  world : W

/-- Result of a handler: the state after it returned, or the way it ended. -/
abbrev Res (C : Carrier) (W : Type) := Except Err (State C W)

section Evaluator

variable {C : Carrier} {W : Type}

/-- Semantics of `std::map::insert`: the pair is added only when the key has
no entry; the flag tells whether the insertion took place. -/
def TermValueMap.insert (m : TermValueMap C) (key : Nat) (value : Option (Value C)) :
    TermValueMap C × Bool :=
  match m.lookup key with
  | some _ => (m, false)
  | none => ((key, value) :: m, true)

/-- Semantics of `find` followed by `erase` on the map. -/
def TermValueMap.erase (m : TermValueMap C) (key : Nat) : TermValueMap C :=
  m.filter (fun entry => entry.1 != key)

/-- Embedding of `ConstraintSolver::getTermValue`. -/
def getTermValue (E : Env C W) (s : State C W) (term : Term) : Option (Value C) :=
  let engines : Option (Value C) :=
    match term with
    | .And _ _ => none
    | .Or _ _ => none
    | _ =>
      match E.arithmetic_getTermValue s.world term with
      | some value => some value
      | none => E.string_get_term_value s.world term
  match engines with
  | some value => some value
  | none =>
    match s.term_values_.lookup term.id with
    | some stored => stored
    | none => none

/-- Embedding of `ConstraintSolver::setTermValue`. -/
def setTermValue (s : State C W) (term : Term) (value : Option (Value C)) :
    Except Err (Bool × State C W) :=
  let result := TermValueMap.insert s.term_values_ term.id value
  if result.2 = false then
    .error (.fatal "value is already computed for term")
  else
    .ok (result.2, { s with term_values_ := result.1 })

/-- Embedding of `ConstraintSolver::clearTermValue`. -/
def clearTermValue (s : State C W) (term : Term) : State C W :=
  { s with term_values_ := TermValueMap.erase s.term_values_ term.id }

/-- Embedding of `ConstraintSolver::clearTermValuesAndLocalLetVars`. -/
def clearTermValuesAndLocalLetVars (E : Env C W) (s : State C W) : State C W :=
  { s with term_values_ := [], world := E.clearLetScopes s.world }

/-- Embedding of `ConstraintSolver::setVariablePath`: the path trace with the identifier
pushed, reversed, becomes a new last row of the variable path table. -/
def setVariablePath (s : State C W) (qi_term : Term) : State C W :=
  { s with variable_path_table_ :=
      s.variable_path_table_ ++ [(s.path_trace_ ++ [qi_term]).reverse] }

/-- Embedding of `ConstraintSolver::update_variables`. -/
def update_variables (E : Env C W) (s : State C W) : State C W :=
  if s.variable_path_table_.length = 0 then s
  else
    let s1 : State C W :=
      { s with
        world := E.value_updater_start s.world s.variable_path_table_ s.term_values_,
        variable_path_table_ := [] }
    let s2 : State C W := s.tagged_variables.foldl
      (fun st var =>
        match E.getValue st.world var with
        | none => st
        | some value =>
          let w := (E.string_update_variable_value st.world var value).2
          { st with
            still_sat_ := st.still_sat_ && E.isSatisfiable value,
            world := E.setValue w var none })
      s1
    { s2 with tagged_variables := [] }

/-- Dereference of a `Value_ptr`: a null pointer ends the run. -/
def deref (p : Option (Value C)) : Except Err (Value C) :=
  match p with
  | some value => .ok value
  | none => .error .nullDeref

/-- Use of a payload pointer obtained from a getter: a payload of another tag
ends the run. -/
def payload {α : Type} (p : Option α) : Except Err α :=
  match p with
  | some a => .ok a
  | none => .error .nullDeref

/-- State part of `setTermValue` (the returned flag is dropped by all
handlers). -/
def storeTermValue (s : State C W) (term : Term) (value : Option (Value C)) : Res C W :=
  match setTermValue s term value with
  | .error e => .error e
  | .ok (_, s1) => .ok s1

/-- Modelled from the spec: `Visitor::visit_children_of`, which visits the
children of a node one after the other (the visitor base class is not part of
the sources at hand). -/
def visit_list (visit : Term → State C W → Res C W) : List Term → State C W → Res C W
  | [], s => .ok s
  | term :: rest, s =>
    match visit term s with
    | .error e => .error e
    | .ok s1 => visit_list visit rest s1

/-- Embedding of `ConstraintSolver::visit_children_of`. -/
def visit_children_of (visit : Term → State C W → Res C W) (term : Term) (s : State C W) : Res C W :=
  match visit_list visit term.visit_children
      { s with path_trace_ := s.path_trace_ ++ [term] } with
  | .error e => .error e
  | .ok s1 => .ok { s1 with path_trace_ := s1.path_trace_.dropLast }

/-- Loop body and loop of
`ConstraintSolver::process_mixed_integer_string_constraints_in`. -/
def process_mixed_loop (E : Env C W) (visit : Term → State C W → Res C W) (term : Term) :
    List Term → State C W → Res C W
  | [], s => .ok s
  | string_term :: rest, s =>
    let result := getTermValue E s term
    match visit string_term s with
    | .error e => .error e
    | .ok s1 =>
      let string_term_var_name := E.get_var_name_for_expression s1.world string_term
      match deref (getTermValue E s1 string_term) with
      | .error e => .error e
      | .ok string_term_result =>
        let formula : Except Err C.ArithmeticFormula :=
          match deref result with
          | .error e => .error e
          | .ok r =>
            match payload r.getBinaryIntAutomaton with
            | .error e => .error e
            | .ok b => .ok (E.BinaryIntAutomaton_getFormula b)
        let converted : Except Err (Bool × Int × C.BinaryIntAutomaton) :=
          match string_term_result with
          | .INT_AUTOMATON a =>
            match formula with
            | .error e => .error e
            | .ok f =>
              .ok (E.IntAutomaton_hasNegative1 a, E.IntAutomaton_getNumberOfVariables a,
                E.UnaryAutomaton_toBinaryIntAutomaton (E.IntAutomaton_toUnaryAutomaton a)
                  string_term_var_name f (E.IntAutomaton_hasNegative1 a))
          | .INT_CONSTANT value =>
            match formula with
            | .error e => .error e
            | .ok f =>
              .ok (decide (value < 0), E.IntAutomaton_DEFAULT_NUM_OF_VARIABLES,
                E.BinaryIntAutomaton_makeAutomaton value string_term_var_name f true)
          | _ => .error (.fatal "unexpected type")
        match converted with
        | .error e => .error e
        | .ok (has_minus_one, number_of_variables_for_int_auto, string_term_binary_auto) =>
          match deref result with
          | .error e => .error e
          | .ok r =>
            match payload r.getBinaryIntAutomaton with
            | .error e => .error e
            | .ok stored =>
              let updated_arith_auto := E.BinaryIntAutomaton_intersect stored string_term_binary_auto
              let result1 : Value C := .BINARYINT_AUTOMATON updated_arith_auto
              let s2 : State C W :=
                { s1 with world := E.arithmetic_updateTermValue s1.world term result1 }
              if E.isSatisfiable result1 = false then .ok s2
              else
                let projected := E.BinaryIntAutomaton_getBinaryAutomatonFor updated_arith_auto
                  string_term_var_name
                let has_minus_one1 :=
                  if has_minus_one then E.BinaryIntAutomaton_hasNegative1 projected
                  else has_minus_one
                let projected1 :=
                  if has_minus_one then
                    E.BinaryIntAutomaton_getPositiveValuesFor projected string_term_var_name
                  else projected
                let updated_int_auto := E.UnaryAutomaton_toIntAutomaton
                  (E.BinaryIntAutomaton_toUnaryAutomaton projected1)
                  number_of_variables_for_int_auto has_minus_one1
                match storeTermValue (clearTermValue s2 string_term) string_term
                    (some (.INT_AUTOMATON updated_int_auto)) with
                | .error e => .error e
                | .ok s3 => process_mixed_loop E visit term rest (update_variables E s3)

/-- Embedding of `ConstraintSolver::process_mixed_integer_string_constraints_in`. -/
def process_mixed_integer_string_constraints_in (E : Env C W)
    (visit : Term → State C W → Res C W) (term : Term) (s : State C W) : Res C W :=
  process_mixed_loop E visit term (E.arithmetic_getStringTermsIn s.world term) s

/-- Embedding of `ConstraintSolver::check_and_visit`; the flag of the result is the
returned `bool`. -/
def check_and_visit (E : Env C W) (visit : Term → State C W → Res C W) (term : Term)
    (s : State C W) : Except Err (Bool × State C W) :=
  let cached : Option (Value C) :=
    if term.type ≠ TermType.OR ∧ term.type ≠ TermType.AND then getTermValue E s term
    else none
  match cached with
  | some result =>
    let mixed : Res C W :=
      if E.arithmetic_hasStringTerms s.world term && E.isSatisfiable result then
        match process_mixed_integer_string_constraints_in E visit term s with
        | .error e => .error e
        | .ok s1 =>
          match deref (getTermValue E s1 term) with
          | .error e => .error e
          | .ok result1 =>
            storeTermValue s1 term (some (.BOOl_CONSTANT (E.isSatisfiable result1)))
      else .ok s
    match mixed with
    | .error e => .error e
    | .ok s2 =>
      match E.string_get_term_value s2.world term with
      | some result2 =>
        match storeTermValue s2 term (some (.BOOl_CONSTANT (E.isSatisfiable result2))) with
        | .error e => .error e
        | .ok s3 => .ok (false, s3)
      | none => .ok (false, s2)
  | none =>
    match visit term s with
    | .error e => .error e
    | .ok s1 => .ok (true, s1)

/-! ### Boolean structure: `Assert`, `And`, `Or`, `Not`, `Let` -/

/-- Embedding of `ConstraintSolver::visitAssert`. -/
def visitAssert (E : Env C W) (visit : Term → State C W → Res C W) (term : Term)
    (s : State C W) : Res C W :=
  match check_and_visit E visit term s with
  | .error e => .error e
  | .ok (_, s1) =>
    match deref (getTermValue E s1 term) with
    | .error e => .error e
    | .ok result =>
      let is_satisfiable := E.isSatisfiable result
      let w1 := E.updateSatisfiability s1.world is_satisfiable
      let s2 : State C W := { s1 with world := E.setScopeSatisfiability w1 is_satisfiable }
      let s3 : State C W :=
        if TermType.OR ≠ term.type ∧ TermType.AND ≠ term.type then
          if is_satisfiable then update_variables E s2 else s2
        else s2
      .ok (clearTermValuesAndLocalLetVars E s3)

/-- Embedding of `ConstraintSolver::visitCommand`: an error is logged, nothing else
happens. -/
def visitCommand (s : State C W) : Res C W := .ok s

/-- Dispatch of one command of the script. -/
def visit_command (E : Env C W) (visit : Term → State C W → Res C W) (command : Command)
    (s : State C W) : Res C W :=
  match command with
  | .Assert term => visitAssert E visit term s
  | .Other _ => visitCommand s

/-- Modelled from the spec: `Visitor::visit_children_of` on the script, which
visits the commands in order. -/
def visit_commands (E : Env C W) (visit : Term → State C W → Res C W) :
    List Command → State C W → Res C W
  | [], s => .ok s
  | command :: rest, s =>
    match visit_command E visit command s with
    | .error e => .error e
    | .ok s1 => visit_commands E visit rest s1

/-- Embedding of `ConstraintSolver::visitScript`. -/
def visitScript (E : Env C W) (visit : Term → State C W → Res C W) (script : Script)
    (s : State C W) : Res C W :=
  match visit_commands E visit script.command_list
      { s with world := E.push_scope s.world script.id } with
  | .error e => .error e
  | .ok s1 => .ok { s1 with world := E.pop_scope s1.world }

/-- The loop over the binding list in `ConstraintSolver::visitLet`. -/
def visitLet_bindings (E : Env C W) (visit : Term → State C W → Res C W) (let_term : Term) :
    List (String × Term) → State C W → Res C W
  | [], s => .ok s
  | var_binding :: rest, s =>
    match check_and_visit E visit var_binding.2
        { s with path_trace_ := s.path_trace_ ++ [let_term] } with
    | .error e => .error e
    | .ok (_, s1) =>
      let s2 : State C W := { s1 with path_trace_ := s1.path_trace_.dropLast }
      match deref (getTermValue E s2 var_binding.2) with
      | .error e => .error e
      | .ok param =>
        visitLet_bindings E visit let_term rest
          { s2 with world := E.setValue s2.world var_binding.1 (some param.clone) }

/-- Embedding of `ConstraintSolver::visitLet`. -/
def visitLet (E : Env C W) (visit : Term → State C W → Res C W) (id : Nat)
    (var_binding_list : List (String × Term)) (term : Term) (s : State C W) : Res C W :=
  let let_term := Term.Let id var_binding_list term
  match visitLet_bindings E visit let_term var_binding_list
      { s with world := E.push_scope s.world id } with
  | .error e => .error e
  | .ok s1 =>
    match check_and_visit E visit term
        { s1 with path_trace_ := s1.path_trace_ ++ [let_term] } with
    | .error e => .error e
    | .ok (_, s2) =>
      let s3 : State C W := { s2 with path_trace_ := s2.path_trace_.dropLast }
      let param := getTermValue E s3 term
      let s4 : State C W := { s3 with world := E.pop_scope s3.world }
      match deref param with
      | .error e => .error e
      | .ok value => storeTermValue s4 let_term (some value.clone)

/-- One pass through the body of the loop over the conjuncts in
`ConstraintSolver::visitAnd`, entered with the local `is_satisfiable`; the
returned flag is `is_satisfiable` at the end of the body (the map has been
cleared on both ways out of the body). -/
def visitAnd_body (E : Env C W) (visit : Term → State C W → Res C W) (term : Term)
    (is_satisfiable : Bool) (s : State C W) : Except Err (Bool × State C W) :=
  match check_and_visit E visit term s with
  | .error e => .error e
  | .ok (_, s1) =>
    let conj : Except Err Bool :=
      if is_satisfiable then
        match deref (getTermValue E s1 term) with
        | .error e => .error e
        | .ok param => .ok (E.isSatisfiable param)
      else .ok false
    match conj with
    | .error e => .error e
    | .ok is_satisfiable1 =>
      let s2 : State C W :=
        if is_satisfiable1 then update_variables E { s1 with still_sat_ := true } else s1
      let is_satisfiable2 : Bool :=
        if is_satisfiable1 then is_satisfiable1 && s2.still_sat_ else is_satisfiable1
      .ok (is_satisfiable2, clearTermValuesAndLocalLetVars E s2)

/-- The loop over the conjuncts in `ConstraintSolver::visitAnd`: the body is
run for each conjunct until the flag is false (`break`). -/
def visitAnd_loop (E : Env C W) (visit : Term → State C W → Res C W) :
    List Term → Bool → State C W → Except Err (Bool × State C W)
  | [], is_satisfiable, s => .ok (is_satisfiable, s)
  | term :: rest, is_satisfiable, s =>
    match visitAnd_body E visit term is_satisfiable s with
    | .error e => .error e
    | .ok (is_satisfiable1, s1) =>
      if is_satisfiable1 = false then .ok (is_satisfiable1, s1)
      else visitAnd_loop E visit rest is_satisfiable1 s1

/-- The part of `ConstraintSolver::visitAnd` before the loop: the sub-engines
are started on a component in the first iteration. -/
def visitAnd_engines (E : Env C W) (and_term : Term) (s : State C W) : State C W :=
  if E.is_component and_term && decide (s.iteration_count_ = 0) then
    let w1 := if E.LIA_ENGINE_ENABLED then E.arithmetic_start s.world and_term else s.world
    let w2 := if E.ENABLE_RELATIONAL_STRING_AUTOMATA then E.string_start w1 and_term else w1
    { s with world := w2 }
  else s

/-- The first block of `ConstraintSolver::visitAnd` after the Value of the
node has been stored: the component Value of the arithmetic engine is copied
into the symbol table. -/
def visitAnd_arithmetic_result (E : Env C W) (and_term : Term) (s : State C W) : State C W :=
  if E.LIA_ENGINE_ENABLED && E.is_component and_term then
    match E.arithmetic_getTermValue s.world and_term with
    | some val =>
      let name := E.arithmetic_get_int_variable_name s.world and_term
      { s with world := E.setValue s.world name (some val.clone) }
    | none => s
  else s

/-- The last block of `ConstraintSolver::visitAnd`: the Value of the
representative of the symbolic variable is fetched from the relational string
engine, its track map is rewritten and it is stored for both variables. -/
def visitAnd_string_result (E : Env C W) (and_term : Term) (s : State C W) : Res C W :=
  if E.ENABLE_RELATIONAL_STRING_AUTOMATA && E.is_component and_term then
    match E.getSymbolicVariable s.world with
    | none => .ok s
    | some var =>
      match E.get_representative_variable_of_at_scope s.world (E.top_scope s.world) var with
      | none => .ok s
      | some rep_var =>
        match E.string_get_variable_value_flag s.world rep_var true with
        | none => .ok s
        | some val =>
          match payload val.getMultiTrackAutomaton with
          | .error e => .error e
          | .ok multi =>
            let val1 : Value C :=
              .MULTITRACK_AUTOMATON (E.MultiTrackAutomaton_alias_track multi var rep_var)
            let w1 := E.string_set_variable_trackmap s.world rep_var var rep_var
            let w2 := E.setValue w1 rep_var (some val1)
            .ok { s with world := E.setValue w2 var (some val1.clone) }
  else .ok s

/-- Embedding of `ConstraintSolver::visitAnd`. -/
def visitAnd (E : Env C W) (visit : Term → State C W → Res C W) (id : Nat)
    (term_list : List Term) (s : State C W) : Res C W :=
  let and_term := Term.And id term_list
  match visitAnd_loop E visit term_list true (visitAnd_engines E and_term s) with
  | .error e => .error e
  | .ok (is_satisfiable, s1) =>
    match storeTermValue s1 and_term (some (.BOOl_CONSTANT is_satisfiable)) with
    | .error e => .error e
    | .ok s2 => visitAnd_string_result E and_term (visitAnd_arithmetic_result E and_term s2)

/-- One pass through the body of the loop over the disjuncts in
`ConstraintSolver::visitOr`; the returned flag is `is_scope_satisfiable`. -/
def visitOr_body (E : Env C W) (visit : Term → State C W → Res C W) (term : Term)
    (s : State C W) : Except Err (Bool × State C W) :=
  match check_and_visit E visit term { s with world := E.push_scope s.world term.id } with
  | .error e => .error e
  | .ok (_, s1) =>
    match deref (getTermValue E s1 term) with
    | .error e => .error e
    | .ok param =>
      let is_scope_satisfiable := E.isSatisfiable param
      let s2 : State C W :=
        if TermType.AND ≠ term.type then
          clearTermValuesAndLocalLetVars E
            (if is_scope_satisfiable then update_variables E s1 else s1)
        else s1
      let w1 := E.setScopeSatisfiability s2.world is_scope_satisfiable
      .ok (is_scope_satisfiable, { s2 with world := E.pop_scope w1 })

/-- The loop over the disjuncts in `ConstraintSolver::visitOr`; the flag is
the local variable `is_satisfiable`. -/
def visitOr_loop (E : Env C W) (visit : Term → State C W → Res C W) :
    List Term → Bool → State C W → Except Err (Bool × State C W)
  | [], is_satisfiable, s => .ok (is_satisfiable, s)
  | term :: rest, is_satisfiable, s =>
    match visitOr_body E visit term s with
    | .error e => .error e
    | .ok (is_scope_satisfiable, s1) =>
      let is_satisfiable1 := is_satisfiable || is_scope_satisfiable
      if is_satisfiable1 && !E.MODEL_COUNTER_ENABLED then .ok (is_satisfiable1, s1)
      else visitOr_loop E visit rest is_satisfiable1 s1

/-- Embedding of `ConstraintSolver::visitOr`. -/
def visitOr (E : Env C W) (visit : Term → State C W → Res C W) (id : Nat)
    (term_list : List Term) (s : State C W) : Res C W :=
  match visitOr_loop E visit term_list false s with
  | .error e => .error e
  | .ok (is_satisfiable, s1) =>
    storeTermValue s1 (Term.Or id term_list) (some (.BOOl_CONSTANT is_satisfiable))

/-- The `switch` of `ConstraintSolver::visitNot` that computes `result` from
the Value of the child. -/
def visitNot_result (E : Env C W) (param : Value C) : Except Err (Value C) :=
  match param with
  | .BOOl_CONSTANT _ => .ok (E.complement param)
  | .BOOL_AUTOMATON => .error (.fatal "implement me")
  | .INT_AUTOMATON a =>
    if E.IntAutomaton_isAcceptingSingleInt a then .ok (E.complement param)
    else .ok param.clone
  | .INTBOOL_AUTOMATON => .error (.fatal "implement me")
  | .STRING_AUTOMATON a =>
    if E.StringAutomaton_isAcceptingSingleString a then .ok (E.complement param)
    else .ok param.clone
  | _ => .ok (E.complement param)

/-- Embedding of `ConstraintSolver::visitNot`. -/
def visitNot (E : Env C W) (visit : Term → State C W → Res C W) (id : Nat) (term : Term)
    (s : State C W) : Res C W :=
  let not_term := Term.Not id term
  match visit_children_of visit not_term s with
  | .error e => .error e
  | .ok s1 =>
    match deref (getTermValue E s1 term) with
    | .error e => .error e
    | .ok param =>
      match visitNot_result E param with
      | .error e => .error e
      | .ok value => storeTermValue s1 not_term (some value)

/-! ### Arithmetic and comparisons -/

/-- The value of an `int` whose mathematical value is `n`: the representative
of `n` modulo 2^32 in the range of a 32-bit two's complement `int`. -/
def wrap_int (n : Int) : Int :=
  (n + 2147483648) % 4294967296 - 2147483648

/-- Embedding of `ConstraintSolver::visitUMinus`; the negation is computed in
`int`. -/
def visitUMinus (E : Env C W) (visit : Term → State C W → Res C W) (id : Nat) (term : Term)
    (s : State C W) : Res C W :=
  let u_minus_term := Term.UMinus id term
  match visit_children_of visit u_minus_term s with
  | .error e => .error e
  | .ok s1 =>
    match deref (getTermValue E s1 term) with
    | .error e => .error e
    | .ok param =>
      let result : Except Err (Value C) :=
        match param with
        | .INT_CONSTANT n => .ok (.INT_CONSTANT (wrap_int (-n)))
        | .INT_AUTOMATON a =>
          if E.IntAutomaton_isAcceptingSingleInt a then
            .ok (.INT_CONSTANT (wrap_int (-(E.IntAutomaton_getAnAcceptingInt a))))
          else .ok (.INT_AUTOMATON (E.IntAutomaton_uminus a))
        | .INTBOOL_AUTOMATON => .error (.fatal "implement me")
        | _ => .error (.fatal "unary minus term child is not computed properly")
      match result with
      | .error e => .error e
      | .ok value => storeTermValue s1 u_minus_term (some value)

/-- Embedding of `ConstraintSolver::visitMinus`. -/
def visitMinus (E : Env C W) (visit : Term → State C W → Res C W) (id : Nat)
    (left_term right_term : Term) (s : State C W) : Res C W :=
  let minus_term := Term.Minus id left_term right_term
  match visit_children_of visit minus_term s with
  | .error e => .error e
  | .ok s1 =>
    match deref (getTermValue E s1 left_term) with
    | .error e => .error e
    | .ok param_left =>
      match deref (getTermValue E s1 right_term) with
      | .error e => .error e
      | .ok param_right => storeTermValue s1 minus_term (some (E.minus param_left param_right))

/-- The loop over the term list in `ConstraintSolver::visitPlus`; the
accumulator is the local variable `result` (null before the first child). -/
def visitPlus_loop (E : Env C W) (visit : Term → State C W → Res C W) :
    List Term → Option (Value C) → State C W → Except Err (Option (Value C) × State C W)
  | [], result, s => .ok (result, s)
  | term_ptr :: rest, result, s =>
    match visit term_ptr s with
    | .error e => .error e
    | .ok s1 =>
      match deref (getTermValue E s1 term_ptr) with
      | .error e => .error e
      | .ok param =>
        match result with
        | none => visitPlus_loop E visit rest (some param.clone) s1
        | some acc => visitPlus_loop E visit rest (some (E.plus acc param)) s1

/-- Embedding of `ConstraintSolver::visitPlus`. -/
def visitPlus (E : Env C W) (visit : Term → State C W → Res C W) (id : Nat)
    (term_list : List Term) (s : State C W) : Res C W :=
  let plus_term := Term.Plus id term_list
  match visitPlus_loop E visit term_list none
      { s with path_trace_ := s.path_trace_ ++ [plus_term] } with
  | .error e => .error e
  | .ok (result, s1) =>
    storeTermValue { s1 with path_trace_ := s1.path_trace_.dropLast } plus_term result

/-- The loop over the term list in `ConstraintSolver::visitTimes`; the
accumulator is the local variable `result` (null before the first child). -/
def visitTimes_loop (E : Env C W) (visit : Term → State C W → Res C W) :
    List Term → Option (Value C) → State C W → Except Err (Option (Value C) × State C W)
  | [], result, s => .ok (result, s)
  | term_ptr :: rest, result, s =>
    match visit term_ptr s with
    | .error e => .error e
    | .ok s1 =>
      match deref (getTermValue E s1 term_ptr) with
      | .error e => .error e
      | .ok param =>
        match result with
        | none => visitTimes_loop E visit rest (some param.clone) s1
        | some acc => visitTimes_loop E visit rest (some (E.times acc param)) s1

/-- Embedding of `ConstraintSolver::visitTimes`. -/
def visitTimes (E : Env C W) (visit : Term → State C W → Res C W) (id : Nat)
    (term_list : List Term) (s : State C W) : Res C W :=
  let times_term := Term.Times id term_list
  match visitTimes_loop E visit term_list none
      { s with path_trace_ := s.path_trace_ ++ [times_term] } with
  | .error e => .error e
  | .ok (result, s1) =>
    storeTermValue { s1 with path_trace_ := s1.path_trace_.dropLast } times_term result

/-- The `if` chain of `ConstraintSolver::visitEq` that computes `result` from
the Values of the two children. -/
def visitEq_result (E : Env C W) (param_left param_right : Value C) : Value C :=
  match param_left, param_right with
  | .BOOl_CONSTANT l, .BOOl_CONSTANT r => .BOOl_CONSTANT (l == r)
  | .INT_CONSTANT l, .INT_CONSTANT r => .BOOl_CONSTANT (l == r)
  | _, _ => E.intersect param_left param_right

/-- Embedding of `ConstraintSolver::visitEq`.  A null Value of a child ends the run (the
left one is dereferenced by the first test, the right one by a test or inside
`intersect`). -/
def visitEq (E : Env C W) (visit : Term → State C W → Res C W) (id : Nat)
    (left_term right_term : Term) (s : State C W) : Res C W :=
  let eq_term := Term.Eq id left_term right_term
  match visit_children_of visit eq_term s with
  | .error e => .error e
  | .ok s1 =>
    match deref (getTermValue E s1 left_term) with
    | .error e => .error e
    | .ok param_left =>
      match deref (getTermValue E s1 right_term) with
      | .error e => .error e
      | .ok param_right =>
        storeTermValue s1 eq_term (some (visitEq_result E param_left param_right))

/-- The `if` chain of `ConstraintSolver::visitNotEq` that computes `result`
from the Values of the two children on the fall-through path. -/
def visitNotEq_result (E : Env C W) (param_left param_right : Value C) : Value C :=
  match param_left, param_right with
  | .BOOl_CONSTANT l, .BOOl_CONSTANT r => .BOOl_CONSTANT (l != r)
  | .INT_CONSTANT l, .INT_CONSTANT r => .BOOl_CONSTANT (l != r)
  | _, _ =>
    if !(E.isSatisfiable param_left && E.isSatisfiable param_right) then
      .BOOl_CONSTANT false
    else
      let intersection := E.intersect param_left param_right
      if !E.isSatisfiable intersection then .BOOl_CONSTANT true
      else intersection

/-- The fall-through part of `ConstraintSolver::visitNotEq` (after the
relational shortcut was not taken). -/
def visitNotEq_default (E : Env C W) (visit : Term → State C W → Res C W) (id : Nat)
    (left_term right_term : Term) (s : State C W) : Res C W :=
  let not_eq_term := Term.NotEq id left_term right_term
  match visit_children_of visit not_eq_term s with
  | .error e => .error e
  | .ok s1 =>
    match deref (getTermValue E s1 left_term) with
    | .error e => .error e
    | .ok param_left =>
      match deref (getTermValue E s1 right_term) with
      | .error e => .error e
      | .ok param_right =>
        storeTermValue s1 not_eq_term (some (visitNotEq_result E param_left param_right))

/-- Embedding of `ConstraintSolver::visitNotEq`. -/
def visitNotEq (E : Env C W) (visit : Term → State C W → Res C W) (id : Nat)
    (left_term right_term : Term) (s : State C W) : Res C W :=
  let not_eq_term := Term.NotEq id left_term right_term
  match left_term, right_term with
  | .QualIdentifier _ var_name, .TermConstant _ _ value =>
    let var := E.getVariable s.world var_name
    let con := E.StringAutomaton_complement (E.StringAutomaton_makeString value)
    let val : Value C := .STRING_AUTOMATON con
    let v := E.string_update_variable_value s.world var val
    let s1 : State C W := { s with world := v.2 }
    if v.1 then storeTermValue s1 not_eq_term (some val)
    else visitNotEq_default E visit id left_term right_term s1
  | _, _ => visitNotEq_default E visit id left_term right_term s

/-- The nested `if` of `ConstraintSolver::visitGt` that computes `result`
from the Value of the left child and the pointer to the Value of the right
child (dereferenced only where the code does). -/
def visitGt_result (E : Env C W) (param_left : Value C) (param_right : Option (Value C)) :
    Except Err (Value C) :=
  match param_left with
  | .INT_CONSTANT l =>
    match deref param_right with
    | .error e => .error e
    | .ok (.INT_CONSTANT r) => .ok (.BOOl_CONSTANT (decide (l > r)))
    | .ok (.INT_AUTOMATON r) => .ok (.BOOl_CONSTANT (E.IntAutomaton_isLessThan r l))
    | .ok _ => .error (.fatal "Unexpected right parameter")
  | .INT_AUTOMATON l =>
    match deref param_right with
    | .error e => .error e
    | .ok (.INT_CONSTANT r) => .ok (.BOOl_CONSTANT (E.IntAutomaton_isGreaterThan l r))
    | .ok (.INT_AUTOMATON r) => .ok (.BOOl_CONSTANT (E.IntAutomaton_isGreaterThanAuto l r))
    | .ok _ => .error (.fatal "Unexpected right parameter")
  | _ => .error (.fatal "Unexpected left parameter")

/-- Embedding of `ConstraintSolver::visitGt`. -/
def visitGt (E : Env C W) (visit : Term → State C W → Res C W) (id : Nat)
    (left_term right_term : Term) (s : State C W) : Res C W :=
  let gt_term := Term.Gt id left_term right_term
  match visit_children_of visit gt_term s with
  | .error e => .error e
  | .ok s1 =>
    match deref (getTermValue E s1 left_term) with
    | .error e => .error e
    | .ok param_left =>
      match visitGt_result E param_left (getTermValue E s1 right_term) with
      | .error e => .error e
      | .ok value => storeTermValue s1 gt_term (some value)

/-- The nested `if` of `ConstraintSolver::visitGe` that computes `result`
from the Value of the left child and the pointer to the Value of the right
child (dereferenced only where the code does). -/
def visitGe_result (E : Env C W) (param_left : Value C) (param_right : Option (Value C)) :
    Except Err (Value C) :=
  match param_left with
  | .INT_CONSTANT l =>
    match deref param_right with
    | .error e => .error e
    | .ok (.INT_CONSTANT r) => .ok (.BOOl_CONSTANT (decide (l ≥ r)))
    | .ok (.INT_AUTOMATON r) => .ok (.BOOl_CONSTANT (E.IntAutomaton_isLessThanOrEqual r l))
    | .ok _ => .error (.fatal "Unexpected right parameter")
  | .INT_AUTOMATON l =>
    match deref param_right with
    | .error e => .error e
    | .ok (.INT_CONSTANT r) => .ok (.BOOl_CONSTANT (E.IntAutomaton_isGreaterThanOrEqual l r))
    | .ok (.INT_AUTOMATON r) => .ok (.BOOl_CONSTANT (E.IntAutomaton_isGreaterThanOrEqualAuto l r))
    | .ok _ => .error (.fatal "Unexpected right parameter")
  | _ => .error (.fatal "Unexpected left parameter")

/-- Embedding of `ConstraintSolver::visitGe`. -/
def visitGe (E : Env C W) (visit : Term → State C W → Res C W) (id : Nat)
    (left_term right_term : Term) (s : State C W) : Res C W :=
  let ge_term := Term.Ge id left_term right_term
  match visit_children_of visit ge_term s with
  | .error e => .error e
  | .ok s1 =>
    match deref (getTermValue E s1 left_term) with
    | .error e => .error e
    | .ok param_left =>
      match visitGe_result E param_left (getTermValue E s1 right_term) with
      | .error e => .error e
      | .ok value => storeTermValue s1 ge_term (some value)

/-- The nested `if` of `ConstraintSolver::visitLt` that computes `result`
from the Value of the left child and the pointer to the Value of the right
child (dereferenced only where the code does). -/
def visitLt_result (E : Env C W) (param_left : Value C) (param_right : Option (Value C)) :
    Except Err (Value C) :=
  match param_left with
  | .INT_CONSTANT l =>
    match deref param_right with
    | .error e => .error e
    | .ok (.INT_CONSTANT r) => .ok (.BOOl_CONSTANT (decide (l < r)))
    | .ok (.INT_AUTOMATON r) => .ok (.BOOl_CONSTANT (E.IntAutomaton_isGreaterThan r l))
    | .ok _ => .error (.fatal "Unexpected right parameter")
  | .INT_AUTOMATON l =>
    match deref param_right with
    | .error e => .error e
    | .ok (.INT_CONSTANT r) => .ok (.BOOl_CONSTANT (E.IntAutomaton_isLessThan l r))
    | .ok (.INT_AUTOMATON r) => .ok (.BOOl_CONSTANT (E.IntAutomaton_isLessThanAuto l r))
    | .ok _ => .error (.fatal "Unexpected right parameter")
  | _ => .error (.fatal "Unexpected left parameter")

/-- Embedding of `ConstraintSolver::visitLt`. -/
def visitLt (E : Env C W) (visit : Term → State C W → Res C W) (id : Nat)
    (left_term right_term : Term) (s : State C W) : Res C W :=
  let lt_term := Term.Lt id left_term right_term
  match visit_children_of visit lt_term s with
  | .error e => .error e
  | .ok s1 =>
    match deref (getTermValue E s1 left_term) with
    | .error e => .error e
    | .ok param_left =>
      match visitLt_result E param_left (getTermValue E s1 right_term) with
      | .error e => .error e
      | .ok value => storeTermValue s1 lt_term (some value)

/-- The nested `if` of `ConstraintSolver::visitLe` that computes `result`
from the Value of the left child and the pointer to the Value of the right
child (dereferenced only where the code does). -/
def visitLe_result (E : Env C W) (param_left : Value C) (param_right : Option (Value C)) :
    Except Err (Value C) :=
  match param_left with
  | .INT_CONSTANT l =>
    match deref param_right with
    | .error e => .error e
    | .ok (.INT_CONSTANT r) => .ok (.BOOl_CONSTANT (decide (l ≤ r)))
    | .ok (.INT_AUTOMATON r) => .ok (.BOOl_CONSTANT (E.IntAutomaton_isGreaterThanOrEqual r l))
    | .ok _ => .error (.fatal "Unexpected right parameter")
  | .INT_AUTOMATON l =>
    match deref param_right with
    | .error e => .error e
    | .ok (.INT_CONSTANT r) => .ok (.BOOl_CONSTANT (E.IntAutomaton_isLessThanOrEqual l r))
    | .ok (.INT_AUTOMATON r) => .ok (.BOOl_CONSTANT (E.IntAutomaton_isLessThanOrEqualAuto l r))
    | .ok _ => .error (.fatal "Unexpected right parameter")
  | _ => .error (.fatal "Unexpected left parameter")

/-- Embedding of `ConstraintSolver::visitLe`. -/
def visitLe (E : Env C W) (visit : Term → State C W → Res C W) (id : Nat)
    (left_term right_term : Term) (s : State C W) : Res C W :=
  let le_term := Term.Le id left_term right_term
  match visit_children_of visit le_term s with
  | .error e => .error e
  | .ok s1 =>
    match deref (getTermValue E s1 left_term) with
    | .error e => .error e
    | .ok param_left =>
      match visitLe_result E param_left (getTermValue E s1 right_term) with
      | .error e => .error e
      | .ok value => storeTermValue s1 le_term (some value)

/-! ### String operations -/

/-- The pattern shared by `visitLen`, `visitIndexOf`, `visitLastIndexOf` and
`visitToInt`: an integer automaton accepting a single integer becomes an Int
constant. -/
def collapseInt (E : Env C W) (int_auto : C.IntAutomaton) : Value C :=
  if E.IntAutomaton_isAcceptingSingleInt int_auto then
    .INT_CONSTANT (E.IntAutomaton_getAnAcceptingInt int_auto)
  else .INT_AUTOMATON int_auto

/-- The loop over the term list in `ConstraintSolver::visitConcat`; the
accumulator is the local variable `result` (null before the first child). -/
def visitConcat_loop (E : Env C W) (visit : Term → State C W → Res C W) :
    List Term → Option (Value C) → State C W → Except Err (Option (Value C) × State C W)
  | [], result, s => .ok (result, s)
  | term_ptr :: rest, result, s =>
    match visit term_ptr s with
    | .error e => .error e
    | .ok s1 =>
      match deref (getTermValue E s1 term_ptr) with
      | .error e => .error e
      | .ok param =>
        match result with
        | none => visitConcat_loop E visit rest (some param.clone) s1
        | some acc => visitConcat_loop E visit rest (some (E.concat acc param)) s1

/-- Embedding of `ConstraintSolver::visitConcat`. -/
def visitConcat (E : Env C W) (visit : Term → State C W → Res C W) (id : Nat)
    (term_list : List Term) (s : State C W) : Res C W :=
  let concat_term := Term.Concat id term_list
  match visitConcat_loop E visit term_list none
      { s with path_trace_ := s.path_trace_ ++ [concat_term] } with
  | .error e => .error e
  | .ok (result, s1) =>
    storeTermValue { s1 with path_trace_ := s1.path_trace_.dropLast } concat_term result

/-- The fall-through part of `ConstraintSolver::visitIn`. -/
def visitIn_default (E : Env C W) (visit : Term → State C W → Res C W) (id : Nat)
    (left_term right_term : Term) (s : State C W) : Res C W :=
  let in_term := Term.In id left_term right_term
  match visit_children_of visit in_term s with
  | .error e => .error e
  | .ok s1 =>
    match deref (getTermValue E s1 left_term) with
    | .error e => .error e
    | .ok param_left =>
      match param_left with
      | .STRING_AUTOMATON _ =>
        match deref (getTermValue E s1 right_term) with
        | .error e => .error e
        | .ok (.STRING_AUTOMATON r) =>
          storeTermValue s1 in_term (some (E.intersect param_left (.STRING_AUTOMATON r)))
        | .ok _ => .error (.fatal "unexpected parameter(s) of term")
      | _ => .error (.fatal "unexpected parameter(s) of term")

/-- Embedding of `ConstraintSolver::visitIn`. -/
def visitIn (E : Env C W) (visit : Term → State C W → Res C W) (id : Nat)
    (left_term right_term : Term) (s : State C W) : Res C W :=
  let in_term := Term.In id left_term right_term
  match left_term, right_term with
  | .QualIdentifier _ var_name, .TermConstant _ _ value =>
    let var := E.getVariable s.world var_name
    let val : Value C := .STRING_AUTOMATON (E.StringAutomaton_makeRegexAuto value)
    let v := E.string_update_variable_value s.world var val
    let s1 : State C W := { s with world := v.2 }
    if v.1 then storeTermValue s1 in_term (some val)
    else visitIn_default E visit id left_term right_term s1
  | _, _ => visitIn_default E visit id left_term right_term s

/-- Embedding of `ConstraintSolver::visitNotIn`. -/
def visitNotIn (E : Env C W) (visit : Term → State C W → Res C W) (id : Nat)
    (left_term right_term : Term) (s : State C W) : Res C W :=
  let not_in_term := Term.NotIn id left_term right_term
  match visit_children_of visit not_in_term s with
  | .error e => .error e
  | .ok s1 =>
    match deref (getTermValue E s1 left_term) with
    | .error e => .error e
    | .ok param_left =>
      match param_left with
      | .STRING_AUTOMATON _ =>
        match deref (getTermValue E s1 right_term) with
        | .error e => .error e
        | .ok (.STRING_AUTOMATON r) =>
          let result := E.difference param_left (.STRING_AUTOMATON r)
          let s2 : State C W :=
            match left_term with
            | .QualIdentifier _ var_name =>
              { s1 with world := E.updateValue s1.world var_name (some result) }
            | _ => s1
          storeTermValue s2 not_in_term (some result)
        | .ok _ => .error (.fatal "unexpected parameter(s) of term")
      | _ => .error (.fatal "unexpected parameter(s) of term")

/-- Embedding of `ConstraintSolver::visitLen`. -/
def visitLen (E : Env C W) (visit : Term → State C W → Res C W) (id : Nat) (term : Term)
    (s : State C W) : Res C W :=
  let len_term := Term.Len id term
  match visit_children_of visit len_term s with
  | .error e => .error e
  | .ok s1 =>
    match deref (getTermValue E s1 term) with
    | .error e => .error e
    | .ok param =>
      match payload param.getStringAutomaton with
      | .error e => .error e
      | .ok subject_auto =>
        storeTermValue s1 len_term (some (collapseInt E (E.StringAutomaton_length subject_auto)))

/-- Embedding of `ConstraintSolver::visitContains`. -/
def visitContains (E : Env C W) (visit : Term → State C W → Res C W) (id : Nat)
    (subject_term search_term : Term) (s : State C W) : Res C W :=
  let contains_term := Term.Contains id subject_term search_term
  match visit_children_of visit contains_term s with
  | .error e => .error e
  | .ok s1 =>
    match deref (getTermValue E s1 subject_term) with
    | .error e => .error e
    | .ok param_left =>
      match deref (getTermValue E s1 search_term) with
      | .error e => .error e
      | .ok param_right =>
        match payload param_left.getStringAutomaton with
        | .error e => .error e
        | .ok left_auto =>
          match payload param_right.getStringAutomaton with
          | .error e => .error e
          | .ok right_auto =>
            storeTermValue s1 contains_term (some (.STRING_AUTOMATON (E.StringAutomaton_contains left_auto right_auto)))

/-- Embedding of `ConstraintSolver::visitNotContains`; the first test is
`not (param_subject->isSatisfiable() and param_search->isSatisfiable())`, whose
`and` looks at the search Value only when the subject is satisfiable. -/
def visitNotContains (E : Env C W) (visit : Term → State C W → Res C W) (id : Nat)
    (subject_term search_term : Term) (s : State C W) : Res C W :=
  let not_contains_term := Term.NotContains id subject_term search_term
  match visit_children_of visit not_contains_term s with
  | .error e => .error e
  | .ok s1 =>
    match deref (getTermValue E s1 subject_term) with
    | .error e => .error e
    | .ok param_subject =>
      if E.isSatisfiable param_subject = false then
        storeTermValue s1 not_contains_term (some (.BOOl_CONSTANT false))
      else
        match deref (getTermValue E s1 search_term) with
        | .error e => .error e
        | .ok param_search =>
          if E.isSatisfiable param_search = false then
            storeTermValue s1 not_contains_term (some (.BOOl_CONSTANT false))
          else if E.isSingleValue param_search then
            match payload param_subject.getStringAutomaton with
            | .error e => .error e
            | .ok subject_auto =>
              match payload param_search.getStringAutomaton with
              | .error e => .error e
              | .ok search_auto =>
                let contains_auto := E.StringAutomaton_contains subject_auto search_auto
                storeTermValue s1 not_contains_term
                  (some (.STRING_AUTOMATON
                    (E.StringAutomaton_difference subject_auto contains_auto)))
          else if E.isSingleValue param_subject then
            match payload param_subject.getStringAutomaton with
            | .error e => .error e
            | .ok subject_auto =>
              match payload param_search.getStringAutomaton with
              | .error e => .error e
              | .ok search_auto =>
                let difference_auto :=
                  E.StringAutomaton_difference search_auto
                    (E.StringAutomaton_subStrings subject_auto)
                if E.StringAutomaton_isEmptyLanguage difference_auto then
                  storeTermValue s1 not_contains_term
                    (some (.STRING_AUTOMATON E.StringAutomaton_makePhi))
                else storeTermValue s1 not_contains_term (some param_subject.clone)
          else storeTermValue s1 not_contains_term (some param_subject.clone)

/-- Embedding of `ConstraintSolver::visitBegins`. -/
def visitBegins (E : Env C W) (visit : Term → State C W → Res C W) (id : Nat)
    (subject_term search_term : Term) (s : State C W) : Res C W :=
  let begins_term := Term.Begins id subject_term search_term
  match visit_children_of visit begins_term s with
  | .error e => .error e
  | .ok s1 =>
    match deref (getTermValue E s1 subject_term) with
    | .error e => .error e
    | .ok param_left =>
      match deref (getTermValue E s1 search_term) with
      | .error e => .error e
      | .ok param_right =>
        match payload param_left.getStringAutomaton with
        | .error e => .error e
        | .ok left_auto =>
          match payload param_right.getStringAutomaton with
          | .error e => .error e
          | .ok right_auto =>
            storeTermValue s1 begins_term (some (.STRING_AUTOMATON (E.StringAutomaton_begins left_auto right_auto)))

/-- Embedding of `ConstraintSolver::visitNotBegins`. -/
def visitNotBegins (E : Env C W) (visit : Term → State C W → Res C W) (id : Nat)
    (subject_term search_term : Term) (s : State C W) : Res C W :=
  let not_begins_term := Term.NotBegins id subject_term search_term
  match visit_children_of visit not_begins_term s with
  | .error e => .error e
  | .ok s1 =>
    match deref (getTermValue E s1 subject_term) with
    | .error e => .error e
    | .ok param_subject =>
      match deref (getTermValue E s1 search_term) with
      | .error e => .error e
      | .ok param_search =>
        if E.isSingleValue param_search then
          match payload param_subject.getStringAutomaton with
          | .error e => .error e
          | .ok subject_auto =>
            match payload param_search.getStringAutomaton with
            | .error e => .error e
            | .ok search_auto =>
              let begins_auto := E.StringAutomaton_begins subject_auto search_auto
              storeTermValue s1 not_begins_term
                (some (.STRING_AUTOMATON (E.StringAutomaton_difference subject_auto begins_auto)))
        else if E.isSingleValue param_subject then
          match payload param_subject.getStringAutomaton with
          | .error e => .error e
          | .ok subject_auto =>
            match payload param_search.getStringAutomaton with
            | .error e => .error e
            | .ok search_auto =>
              let difference_auto :=
                E.StringAutomaton_difference search_auto (E.StringAutomaton_prefixes subject_auto)
              if E.StringAutomaton_isEmptyLanguage difference_auto then
                storeTermValue s1 not_begins_term (some (.STRING_AUTOMATON E.StringAutomaton_makePhi))
              else storeTermValue s1 not_begins_term (some param_subject.clone)
        else storeTermValue s1 not_begins_term (some param_subject.clone)

/-- Embedding of `ConstraintSolver::visitEnds`. -/
def visitEnds (E : Env C W) (visit : Term → State C W → Res C W) (id : Nat)
    (subject_term search_term : Term) (s : State C W) : Res C W :=
  let ends_term := Term.Ends id subject_term search_term
  match visit_children_of visit ends_term s with
  | .error e => .error e
  | .ok s1 =>
    match deref (getTermValue E s1 subject_term) with
    | .error e => .error e
    | .ok param_left =>
      match deref (getTermValue E s1 search_term) with
      | .error e => .error e
      | .ok param_right =>
        match payload param_left.getStringAutomaton with
        | .error e => .error e
        | .ok left_auto =>
          match payload param_right.getStringAutomaton with
          | .error e => .error e
          | .ok right_auto =>
            storeTermValue s1 ends_term (some (.STRING_AUTOMATON (E.StringAutomaton_ends left_auto right_auto)))

/-- Embedding of `ConstraintSolver::visitNotEnds`. -/
def visitNotEnds (E : Env C W) (visit : Term → State C W → Res C W) (id : Nat)
    (subject_term search_term : Term) (s : State C W) : Res C W :=
  let not_ends_term := Term.NotEnds id subject_term search_term
  match visit_children_of visit not_ends_term s with
  | .error e => .error e
  | .ok s1 =>
    match deref (getTermValue E s1 subject_term) with
    | .error e => .error e
    | .ok param_subject =>
      match deref (getTermValue E s1 search_term) with
      | .error e => .error e
      | .ok param_search =>
        if E.isSingleValue param_search then
          match payload param_subject.getStringAutomaton with
          | .error e => .error e
          | .ok subject_auto =>
            match payload param_search.getStringAutomaton with
            | .error e => .error e
            | .ok search_auto =>
              let ends_auto := E.StringAutomaton_ends subject_auto search_auto
              storeTermValue s1 not_ends_term
                (some (.STRING_AUTOMATON (E.StringAutomaton_difference subject_auto ends_auto)))
        else if E.isSingleValue param_subject then
          match payload param_subject.getStringAutomaton with
          | .error e => .error e
          | .ok subject_auto =>
            match payload param_search.getStringAutomaton with
            | .error e => .error e
            | .ok search_auto =>
              let difference_auto :=
                E.StringAutomaton_difference search_auto (E.StringAutomaton_suffixes subject_auto)
              if E.StringAutomaton_isEmptyLanguage difference_auto then
                storeTermValue s1 not_ends_term (some (.STRING_AUTOMATON E.StringAutomaton_makePhi))
              else storeTermValue s1 not_ends_term (some param_subject.clone)
        else storeTermValue s1 not_ends_term (some param_subject.clone)

/-- Embedding of `ConstraintSolver::visitIndexOf`. -/
def visitIndexOf (E : Env C W) (visit : Term → State C W → Res C W) (id : Nat)
    (subject_term search_term : Term) (s : State C W) : Res C W :=
  let index_of_term := Term.IndexOf id subject_term search_term
  match visit_children_of visit index_of_term s with
  | .error e => .error e
  | .ok s1 =>
    match deref (getTermValue E s1 subject_term) with
    | .error e => .error e
    | .ok param_left =>
      match deref (getTermValue E s1 search_term) with
      | .error e => .error e
      | .ok param_right =>
        match payload param_left.getStringAutomaton with
        | .error e => .error e
        | .ok left_auto =>
          match payload param_right.getStringAutomaton with
          | .error e => .error e
          | .ok right_auto =>
            storeTermValue s1 index_of_term
              (some (collapseInt E (E.StringAutomaton_indexOf left_auto right_auto)))

/-- Embedding of `ConstraintSolver::visitLastIndexOf`. -/
def visitLastIndexOf (E : Env C W) (visit : Term → State C W → Res C W) (id : Nat)
    (subject_term search_term : Term) (s : State C W) : Res C W :=
  let last_index_of_term := Term.LastIndexOf id subject_term search_term
  match visit_children_of visit last_index_of_term s with
  | .error e => .error e
  | .ok s1 =>
    match deref (getTermValue E s1 subject_term) with
    | .error e => .error e
    | .ok param_left =>
      match deref (getTermValue E s1 search_term) with
      | .error e => .error e
      | .ok param_right =>
        match payload param_left.getStringAutomaton with
        | .error e => .error e
        | .ok left_auto =>
          match payload param_right.getStringAutomaton with
          | .error e => .error e
          | .ok right_auto =>
            storeTermValue s1 last_index_of_term
              (some (collapseInt E (E.StringAutomaton_lastIndexOf left_auto right_auto)))

/-- Embedding of `ConstraintSolver::visitCharAt`. -/
def visitCharAt (E : Env C W) (visit : Term → State C W → Res C W) (id : Nat)
    (subject_term index_term : Term) (s : State C W) : Res C W :=
  let char_at_term := Term.CharAt id subject_term index_term
  match visit_children_of visit char_at_term s with
  | .error e => .error e
  | .ok s1 =>
    match deref (getTermValue E s1 subject_term) with
    | .error e => .error e
    | .ok param_subject =>
      match deref (getTermValue E s1 index_term) with
      | .error e => .error e
      | .ok param_index =>
        match payload param_subject.getStringAutomaton with
        | .error e => .error e
        | .ok subject_auto =>
          match payload param_index.getIntConstant with
          | .error e => .error e
          | .ok index =>
            storeTermValue s1 char_at_term
              (some (.STRING_AUTOMATON (E.StringAutomaton_charAt subject_auto index)))

/-- The `switch` on the mode in `ConstraintSolver::visitSubString`: the
pointer that ends up in `result` (null when the default case falls through). -/
def visitSubString_result (E : Env C W) (s : State C W) (mode : SubStringMode)
    (subject_term start_index_term : Term) (end_index_term : Option Term) :
    Except Err (Option (Value C)) :=
  let param_subject := getTermValue E s subject_term
  let param_start_index := getTermValue E s start_index_term
  let subject_auto : Except Err C.StringAutomaton :=
    match deref param_subject with
    | .error e => .error e
    | .ok v => payload v.getStringAutomaton
  let start_constant : Except Err Int :=
    match deref param_start_index with
    | .error e => .error e
    | .ok v => payload v.getIntConstant
  let start_auto : Except Err C.StringAutomaton :=
    match deref param_start_index with
    | .error e => .error e
    | .ok v => payload v.getStringAutomaton
  match mode with
  | .FROMINDEX =>
    match subject_auto, start_constant with
    | .ok a, .ok i => .ok (some (.STRING_AUTOMATON (E.StringAutomaton_subString a i)))
    | .error e, _ => .error e
    | _, .error e => .error e
  | .FROMFIRSTOF =>
    match subject_auto, start_auto with
    | .ok a, .ok b => .ok (some (.STRING_AUTOMATON (E.StringAutomaton_subStringFirstOf a b)))
    | .error e, _ => .error e
    | _, .error e => .error e
  | .FROMLASTOF =>
    match subject_auto, start_auto with
    | .ok a, .ok b => .ok (some (.STRING_AUTOMATON (E.StringAutomaton_subStringLastOf a b)))
    | .error e, _ => .error e
    | _, .error e => .error e
  | .FROMINDEXTOINDEX =>
    let param_end_index : Option (Value C) :=
      match end_index_term with
      | some t => getTermValue E s t
      | none => none
    match deref param_end_index with
    | .error e => .error e
    | .ok (.INT_AUTOMATON end_auto) =>
      if E.IntAutomaton_isEmptyLanguage end_auto then
        .ok (some (.STRING_AUTOMATON E.StringAutomaton_makePhi))
      else
        match deref param_start_index with
        | .error e => .error e
        | .ok (.INT_CONSTANT i) =>
          match subject_auto with
          | .error e => .error e
          | .ok a => .ok (some (.STRING_AUTOMATON (E.StringAutomaton_subStringToAuto a i end_auto)))
        | .ok _ => .error (.fatal "Fully implement substring for symbolic ints")
    | .ok end_value =>
      match subject_auto, start_constant, payload end_value.getIntConstant with
      | .ok a, .ok i, .ok j => .ok (some (.STRING_AUTOMATON (E.StringAutomaton_subStringTo a i j)))
      | .error e, _, _ => .error e
      | _, .error e, _ => .error e
      | _, _, .error e => .error e
  | .FROMINDEXTOFIRSTOF | .FROMINDEXTOLASTOF | .FROMFIRSTOFTOINDEX | .FROMFIRSTOFTOFIRSTOF
  | .FROMFIRSTOFTOLASTOF | .FROMLASTOFTOINDEX | .FROMLASTOFTOFIRSTOF
  | .FROMLASTOFTOLASTOF => .error (.fatal "implement me")
  | .NONE =>
    if start_index_term.type ≠ TermType.QUALIDENTIFIER
        ∧ start_index_term.type ≠ TermType.TERMCONSTANT then
      .error (.fatal "Undefined subString semantic")
    else
      match end_index_term with
      | none => .error .nullDeref
      | some t =>
        if t.type ≠ TermType.QUALIDENTIFIER ∧ t.type ≠ TermType.TERMCONSTANT then
          .error (.fatal "Undefined subString semantic")
        else .ok none

/-- Embedding of `ConstraintSolver::visitSubString`. -/
def visitSubString (E : Env C W) (visit : Term → State C W → Res C W) (id : Nat)
    (mode : SubStringMode) (subject_term start_index_term : Term)
    (end_index_term : Option Term) (s : State C W) : Res C W :=
  let sub_string_term := Term.SubString id mode subject_term start_index_term end_index_term
  match visit_children_of visit sub_string_term s with
  | .error e => .error e
  | .ok s1 =>
    match visitSubString_result E s1 mode subject_term start_index_term end_index_term with
    | .error e => .error e
    | .ok result => storeTermValue s1 sub_string_term result

/-- Embedding of `ConstraintSolver::visitToUpper`. -/
def visitToUpper (E : Env C W) (visit : Term → State C W → Res C W) (id : Nat)
    (subject_term : Term) (s : State C W) : Res C W :=
  let to_upper_term := Term.ToUpper id subject_term
  match visit_children_of visit to_upper_term s with
  | .error e => .error e
  | .ok s1 =>
    match deref (getTermValue E s1 subject_term) with
    | .error e => .error e
    | .ok param =>
      match payload param.getStringAutomaton with
      | .error e => .error e
      | .ok subject_auto =>
        storeTermValue s1 to_upper_term
          (some (.STRING_AUTOMATON (E.StringAutomaton_toUpperCase subject_auto)))

/-- Embedding of `ConstraintSolver::visitToLower`. -/
def visitToLower (E : Env C W) (visit : Term → State C W → Res C W) (id : Nat)
    (subject_term : Term) (s : State C W) : Res C W :=
  let to_lower_term := Term.ToLower id subject_term
  match visit_children_of visit to_lower_term s with
  | .error e => .error e
  | .ok s1 =>
    match deref (getTermValue E s1 subject_term) with
    | .error e => .error e
    | .ok param =>
      match payload param.getStringAutomaton with
      | .error e => .error e
      | .ok subject_auto =>
        storeTermValue s1 to_lower_term
          (some (.STRING_AUTOMATON (E.StringAutomaton_toLowerCase subject_auto)))

/-- Embedding of `ConstraintSolver::visitTrim`. -/
def visitTrim (E : Env C W) (visit : Term → State C W → Res C W) (id : Nat)
    (subject_term : Term) (s : State C W) : Res C W :=
  let trim_term := Term.Trim id subject_term
  match visit_children_of visit trim_term s with
  | .error e => .error e
  | .ok s1 =>
    match deref (getTermValue E s1 subject_term) with
    | .error e => .error e
    | .ok param =>
      match payload param.getStringAutomaton with
      | .error e => .error e
      | .ok subject_auto =>
        storeTermValue s1 trim_term
          (some (.STRING_AUTOMATON (E.StringAutomaton_trim subject_auto)))

/-- Embedding of `ConstraintSolver::visitToString`. -/
def visitToString (E : Env C W) (visit : Term → State C W → Res C W) (id : Nat)
    (subject_term : Term) (s : State C W) : Res C W :=
  let to_string_term := Term.ToString id subject_term
  match visit_children_of visit to_string_term s with
  | .error e => .error e
  | .ok s1 =>
    match deref (getTermValue E s1 subject_term) with
    | .error e => .error e
    | .ok param =>
      match param with
      | .INT_CONSTANT n =>
        storeTermValue s1 to_string_term
          (some (.STRING_AUTOMATON (E.StringAutomaton_makeString (toString n))))
      | _ =>
        match payload param.getIntAutomaton with
        | .error e => .error e
        | .ok int_auto =>
          let unary_auto := E.IntAutomaton_toUnaryAutomaton int_auto
          storeTermValue s1 to_string_term
            (some (.STRING_AUTOMATON (E.UnaryAutomaton_toStringAutomaton unary_auto)))

/-- Embedding of `ConstraintSolver::visitToInt`. -/
def visitToInt (E : Env C W) (visit : Term → State C W → Res C W) (id : Nat)
    (subject_term : Term) (s : State C W) : Res C W :=
  let to_int_term := Term.ToInt id subject_term
  match visit_children_of visit to_int_term s with
  | .error e => .error e
  | .ok s1 =>
    match deref (getTermValue E s1 subject_term) with
    | .error e => .error e
    | .ok param =>
      match payload param.getStringAutomaton with
      | .error e => .error e
      | .ok subject_auto =>
        storeTermValue s1 to_int_term
          (some (collapseInt E (E.StringAutomaton_parseToIntAutomaton subject_auto)))

/-- Embedding of `ConstraintSolver::visitReplace`. -/
def visitReplace (E : Env C W) (visit : Term → State C W → Res C W) (id : Nat)
    (subject_term search_term replace_term : Term) (s : State C W) : Res C W :=
  let term := Term.Replace id subject_term search_term replace_term
  match visit_children_of visit term s with
  | .error e => .error e
  | .ok s1 =>
    match deref (getTermValue E s1 subject_term), deref (getTermValue E s1 search_term),
        deref (getTermValue E s1 replace_term) with
    | .ok param_subject, .ok param_search, .ok param_replace =>
      match payload param_subject.getStringAutomaton, payload param_search.getStringAutomaton,
          payload param_replace.getStringAutomaton with
      | .ok a, .ok b, .ok c =>
        storeTermValue s1 term (some (.STRING_AUTOMATON (E.StringAutomaton_replace a b c)))
      | _, _, _ => .error .nullDeref
    | _, _, _ => .error .nullDeref

/-- Embedding of `ConstraintSolver::visitCount`. -/
def visitCount (visit : Term → State C W → Res C W) (id : Nat) (children : List Term)
    (s : State C W) : Res C W :=
  match visit_children_of visit (Term.Count id children) s with
  | .error e => .error e
  | .ok _ => .error (.fatal "implement me")

/-- Embedding of `ConstraintSolver::visitUnknownTerm`. -/
def visitUnknownTerm (E : Env C W) (visit : Term → State C W → Res C W) (id : Nat)
    (term_list : List Term) (s : State C W) : Res C W :=
  let unknown_term := Term.Unknown id term_list
  match visit_list visit term_list
      { s with path_trace_ := s.path_trace_ ++ [unknown_term] } with
  | .error e => .error e
  | .ok s1 =>
    storeTermValue { s1 with path_trace_ := s1.path_trace_.dropLast } unknown_term
      (some (.STRING_AUTOMATON E.StringAutomaton_makeAnyString))

/-! ### Leaves -/

/-- White space as skipped by formatted stream input and by `std::stoi`. -/
def isSpaceChar (c : Char) : Bool :=
  c.toNat = 32 || (9 ≤ c.toNat && c.toNat ≤ 13)

/-- Extraction of a `bool` with `std::boolalpha` from the text of a constant:
leading white space is skipped; when text is left, the name `true` gives true
and everything else (the name `false`, or text that is neither name, for which
the extraction fails) gives false; when no text is left the extraction stops
before it assigns anything (`none`). -/
def parseBoolAlpha (value : String) : Option Bool :=
  match value.toList.dropWhile isSpaceChar with
  | [] => none
  | c :: rest => some ("true".toList.isPrefixOf (c :: rest))

/-- The function `std::stoi` in base ten: white space, an optional sign and
at least one digit; `none` when it throws (no digits, or a result outside the
range of `int`). -/
def stoi (value : String) : Option Int :=
  let cs := value.toList.dropWhile isSpaceChar
  let signed : Bool × List Char :=
    match cs with
    | c :: rest => if c = '-' then (true, rest) else if c = '+' then (false, rest) else (false, cs)
    | [] => (false, cs)
  let digits := signed.2.takeWhile Char.isDigit
  if digits.isEmpty then none
  else
    let magnitude : Nat := digits.foldl (fun acc c => 10 * acc + (c.toNat - 48)) 0
    let n : Int := if signed.1 then -(magnitude : Int) else (magnitude : Int)
    if -2147483648 ≤ n ∧ n ≤ 2147483647 then some n else none

/-- Embedding of `ConstraintSolver::visitQualIdentifier`. -/
def visitQualIdentifier (E : Env C W) (id : Nat) (var_name : String) (s : State C W) : Res C W :=
  let qi_term := Term.QualIdentifier id var_name
  let var := E.getVariable s.world var_name
  let relational : Option (Value C) :=
    if E.ENABLE_RELATIONAL_STRING_AUTOMATA then E.string_get_variable_value s.world var
    else none
  let fetched : Option (Value C) × State C W :=
    match relational with
    | some variable_value =>
      (some variable_value,
        { s with
          world := E.setValue s.world var (some variable_value),
          tagged_variables := s.tagged_variables ++ [var] })
    | none => (E.getValue s.world var, s)
  match deref fetched.1 with
  | .error e => .error e
  | .ok variable_value =>
    match storeTermValue fetched.2 qi_term (some variable_value.clone) with
    | .error e => .error e
    | .ok s1 => .ok (setVariablePath s1 qi_term)

/-- Embedding of `ConstraintSolver::visitTermConstant`. -/
def visitTermConstant (E : Env C W) (id : Nat) (value_type : PrimitiveType) (value : String)
    (s : State C W) : Res C W :=
  let term_constant := Term.TermConstant id value_type value
  let result : Except Err (Value C) :=
    match value_type with
    | .BOOL => .ok (.BOOl_CONSTANT ((parseBoolAlpha value).getD E.uninitialized_bool))
    | .BINARY => .error (.fatal "implement me")
    | .HEXADECIMAL => .error (.fatal "implement me")
    | .DECIMAL => .error (.fatal "implement me")
    | .NUMERAL =>
      match stoi value with
      | some n => .ok (.INT_CONSTANT n)
      | none => .error .exception
    | .STRING => .ok (.STRING_AUTOMATON (E.StringAutomaton_makeString value))
    | .REGEX => .ok (.STRING_AUTOMATON (E.StringAutomaton_makeRegexAuto value))
    | .NONE => .error (.fatal "unhandled term constant")
  match result with
  | .error e => .error e
  | .ok v => storeTermValue s term_constant (some v)

/-- Embedding of `ConstraintSolver::visitExclamation` (empty body). -/
def visitExclamation (s : State C W) : Res C W := .ok s

/-- Embedding of `ConstraintSolver::visitExists` (empty body). -/
def visitExists (s : State C W) : Res C W := .ok s

/-- Embedding of `ConstraintSolver::visitForAll` (empty body). -/
def visitForAll (s : State C W) : Res C W := .ok s

/-- Embedding of `ConstraintSolver::visitIte` (empty body). -/
def visitIte (s : State C W) : Res C W := .ok s

/-- Embedding of `ConstraintSolver::visitReConcat` (empty body). -/
def visitReConcat (s : State C W) : Res C W := .ok s

/-- Embedding of `ConstraintSolver::visitToRegex` (empty body). -/
def visitToRegex (s : State C W) : Res C W := .ok s

/-- Embedding of `ConstraintSolver::visitReUnion` (empty body). -/
def visitReUnion (s : State C W) : Res C W := .ok s

/-- Embedding of `ConstraintSolver::visitReInter` (empty body). -/
def visitReInter (s : State C W) : Res C W := .ok s

/-- Embedding of `ConstraintSolver::visitReStar` (empty body). -/
def visitReStar (s : State C W) : Res C W := .ok s

/-- Embedding of `ConstraintSolver::visitRePlus` (empty body). -/
def visitRePlus (s : State C W) : Res C W := .ok s

/-- Embedding of `ConstraintSolver::visitReOpt` (empty body). -/
def visitReOpt (s : State C W) : Res C W := .ok s

/-- Embedding of `ConstraintSolver::visitAsQualIdentifier` (empty body). -/
def visitAsQualIdentifier (s : State C W) : Res C W := .ok s

/-! ### Nodes that are not terms

The handlers of the remaining node classes have empty bodies. -/

/-- Embedding of `ConstraintSolver::visitTerm` (empty body). -/
def visitTerm (s : State C W) : Res C W := .ok s

/-- Embedding of `ConstraintSolver::visitIdentifier` (empty body). -/
def visitIdentifier (s : State C W) : Res C W := .ok s

/-- Embedding of `ConstraintSolver::visitPrimitive` (empty body). -/
def visitPrimitive (s : State C W) : Res C W := .ok s

/-- Embedding of `ConstraintSolver::visitTVariable` (empty body). -/
def visitTVariable (s : State C W) : Res C W := .ok s

/-- Embedding of `ConstraintSolver::visitTBool` (empty body). -/
def visitTBool (s : State C W) : Res C W := .ok s

/-- Embedding of `ConstraintSolver::visitTInt` (empty body). -/
def visitTInt (s : State C W) : Res C W := .ok s

/-- Embedding of `ConstraintSolver::visitTString` (empty body). -/
def visitTString (s : State C W) : Res C W := .ok s

/-- Embedding of `ConstraintSolver::visitVariable` (empty body). -/
def visitVariable (s : State C W) : Res C W := .ok s

/-- Embedding of `ConstraintSolver::visitSort` (empty body). -/
def visitSort (s : State C W) : Res C W := .ok s

/-- Embedding of `ConstraintSolver::visitAttribute` (empty body). -/
def visitAttribute (s : State C W) : Res C W := .ok s

/-- Embedding of `ConstraintSolver::visitSortedVar` (empty body). -/
def visitSortedVar (s : State C W) : Res C W := .ok s

/-- Embedding of `ConstraintSolver::visitVarBinding` (empty body). -/
def visitVarBinding (s : State C W) : Res C W := .ok s

/-! ### Dispatch -/

/-- The visitor dispatch `visit(term)`: the handler of the class of the node
is run; the handlers evaluate sub-terms with one unit of fuel less. -/
def visit (E : Env C W) : Nat → Term → State C W → Res C W
  | 0, _, _ => .error .outOfFuel
  | fuel + 1, term, s =>
    match term with
    | .Exclamation _ => visitExclamation s
    | .Exists _ => visitExists s
    | .ForAll _ => visitForAll s
    | .Let id var_binding_list t => visitLet E (visit E fuel) id var_binding_list t s
    | .And id term_list => visitAnd E (visit E fuel) id term_list s
    | .Or id term_list => visitOr E (visit E fuel) id term_list s
    | .Not id t => visitNot E (visit E fuel) id t s
    | .UMinus id t => visitUMinus E (visit E fuel) id t s
    | .Minus id l r => visitMinus E (visit E fuel) id l r s
    | .Plus id term_list => visitPlus E (visit E fuel) id term_list s
    | .Times id term_list => visitTimes E (visit E fuel) id term_list s
    | .Eq id l r => visitEq E (visit E fuel) id l r s
    | .NotEq id l r => visitNotEq E (visit E fuel) id l r s
    | .Gt id l r => visitGt E (visit E fuel) id l r s
    | .Ge id l r => visitGe E (visit E fuel) id l r s
    | .Lt id l r => visitLt E (visit E fuel) id l r s
    | .Le id l r => visitLe E (visit E fuel) id l r s
    | .Concat id term_list => visitConcat E (visit E fuel) id term_list s
    | .In id l r => visitIn E (visit E fuel) id l r s
    | .NotIn id l r => visitNotIn E (visit E fuel) id l r s
    | .Len id t => visitLen E (visit E fuel) id t s
    | .Contains id a b => visitContains E (visit E fuel) id a b s
    | .NotContains id a b => visitNotContains E (visit E fuel) id a b s
    | .Begins id a b => visitBegins E (visit E fuel) id a b s
    | .NotBegins id a b => visitNotBegins E (visit E fuel) id a b s
    | .Ends id a b => visitEnds E (visit E fuel) id a b s
    | .NotEnds id a b => visitNotEnds E (visit E fuel) id a b s
    | .IndexOf id a b => visitIndexOf E (visit E fuel) id a b s
    | .LastIndexOf id a b => visitLastIndexOf E (visit E fuel) id a b s
    | .CharAt id a b => visitCharAt E (visit E fuel) id a b s
    | .SubString id mode a b c => visitSubString E (visit E fuel) id mode a b c s
    | .ToUpper id t => visitToUpper E (visit E fuel) id t s
    | .ToLower id t => visitToLower E (visit E fuel) id t s
    | .Trim id t => visitTrim E (visit E fuel) id t s
    | .ToString id t => visitToString E (visit E fuel) id t s
    | .ToInt id t => visitToInt E (visit E fuel) id t s
    | .Replace id a b c => visitReplace E (visit E fuel) id a b c s
    | .Count id children => visitCount (visit E fuel) id children s
    | .Ite _ => visitIte s
    | .ReConcat _ => visitReConcat s
    | .ToRegex _ => visitToRegex s
    | .ReUnion _ => visitReUnion s
    | .ReInter _ => visitReInter s
    | .ReStar _ => visitReStar s
    | .RePlus _ => visitRePlus s
    | .ReOpt _ => visitReOpt s
    | .Unknown id term_list => visitUnknownTerm E (visit E fuel) id term_list s
    | .AsQualIdentifier _ => visitAsQualIdentifier s
    | .QualIdentifier id var_name => visitQualIdentifier E id var_name s
    | .TermConstant id value_type value => visitTermConstant E id value_type value s

/-- Embedding of `visit(root_)`: the script handler on the root with the given fuel for
each assertion body. -/
def visit_root (E : Env C W) (fuel : Nat) (root_ : Script) (s : State C W) : Res C W :=
  visitScript E (visit E fuel) root_ s

/-- Embedding of `ConstraintSolver::start()`. -/
def start (E : Env C W) (fuel : Nat) (root_ : Script) (s : State C W) : Res C W :=
  visit_root E fuel root_ s

/-- The loop of `ConstraintSolver::start(int)`: `remaining` walks are still to
be done, the member `iteration_count_` counts the finished ones. -/
def start_loop (E : Env C W) (fuel : Nat) (root_ : Script) : Nat → State C W → Res C W
  | 0, s => .ok s
  | remaining + 1, s =>
    match visit_root E fuel root_ s with
    | .error e => .error e
    | .ok s1 =>
      start_loop E fuel root_ remaining { s1 with iteration_count_ := s1.iteration_count_ + 1 }

/-- Embedding of `ConstraintSolver::start(int iteration_count)`. -/
def start_iterations (E : Env C W) (fuel : Nat) (root_ : Script) (iteration_count : Int)
    (s : State C W) : Res C W :=
  start_loop E fuel root_ iteration_count.toNat { s with iteration_count_ := 0 }

end Evaluator

/-! ## Reference collaborators

An executable instance of `Env`, used to run the evaluator on concrete
inputs.  Languages are finite or cofinite sets, which is closed under the
Boolean operations; the sub-engines hold no values. -/

/-- Modelled from the spec: the language of an automaton, read as a set (§3:
"Set of possible strings", "Set of possible integer values").  The set is
`words` when `cofinite` is false and the complement of `words` otherwise. -/
structure Lang (α : Type) where
  cofinite : Bool
  words : List α
  deriving DecidableEq, Repr

namespace Lang

variable {α : Type} [DecidableEq α]

/-- Membership of a word. -/
def mem (l : Lang α) (x : α) : Bool :=
  if l.cofinite then !decide (x ∈ l.words) else decide (x ∈ l.words)

/-- The language of one word. -/
def single (x : α) : Lang α := { cofinite := false, words := [x] }

/-- The language of all words. -/
def any : Lang α := { cofinite := true, words := [] }

/-- The empty language. -/
def phi : Lang α := { cofinite := false, words := [] }

/-- Set complement. -/
def complement (l : Lang α) : Lang α := { cofinite := !l.cofinite, words := l.words }

/-- Set intersection. -/
def intersect (a b : Lang α) : Lang α :=
  if a.cofinite then
    if b.cofinite then { cofinite := true, words := a.words ++ b.words }
    else { cofinite := false, words := b.words.filter (fun x => a.mem x) }
  else { cofinite := false, words := a.words.filter (fun x => b.mem x) }

/-- Set difference. -/
def difference (a b : Lang α) : Lang α := intersect a (complement b)

/-- Emptiness; the universe of words is infinite, so a cofinite set is not
empty. -/
def isEmptyLanguage (l : Lang α) : Bool := !l.cofinite && l.words.isEmpty

/-- The set has exactly one element. -/
def isSingle (l : Lang α) : Bool := !l.cofinite && decide (l.words.dedup.length = 1)

/-- Image of a finite set under a function; a cofinite set is sent to the
language of all words (an over-approximation). -/
def image {β : Type} (f : α → β) (l : Lang α) : Lang β :=
  if l.cofinite then { cofinite := true, words := [] }
  else { cofinite := false, words := l.words.map f }

/-- Image of a pair of finite sets under a binary function; as soon as one
set is cofinite the result is the language of all words. -/
def image2 {β γ : Type} (f : α → β → γ) (a : Lang α) (b : Lang β) : Lang γ :=
  if a.cofinite || b.cofinite then { cofinite := true, words := [] }
  else { cofinite := false, words := a.words.flatMap (fun x => b.words.map (f x)) }

/-- Some pair of members satisfies the relation; a cofinite operand always
has a suitable member. -/
def existsPair {β : Type} [DecidableEq β] (r : α → β → Bool) (a : Lang α) (b : Lang β) : Bool :=
  if a.cofinite || b.cofinite then !a.isEmptyLanguage && !b.isEmptyLanguage
  else a.words.any (fun x => b.words.any (r x))

end Lang

/-- The carriers of the reference library: languages of integers and of
strings; the relational automata are not represented. -/
abbrev refCarrier : Carrier where
  IntAutomaton := Lang Int
  StringAutomaton := Lang String
  MultiTrackAutomaton := Unit
  BinaryIntAutomaton := Unit
  UnaryAutomaton := Lang Int
  ArithmeticFormula := Unit

/-- Values over the reference library. -/
abbrev RefValue := Value refCarrier

/-- Modelled from the spec: the symbol table (§2: "scoped mapping from
variable name to current Value; tracks per-scope satisfiability"; §4.1: the
verdict of an assertion is "merged into both the global and scope-local
satisfiability").  A value is stored per scope and variable; the scope stack
has its top first.  The two sub-engines hold nothing, so the table is the whole
world. -/
structure RefWorld where
  values : List ((Nat × String) × Option RefValue)
  scope_stack : List Nat
  scope_satisfiability : List (Nat × Bool)
  global_assertion_result : Bool

namespace RefWorld

/-- The scope on top of the stack (0 when the stack is empty). -/
def top_scope (w : RefWorld) : Nat := w.scope_stack.headD 0

/-- Value of a variable: the entry of the innermost open scope that has one
(null when there is none). -/
def getValue (w : RefWorld) (var : Variable) : Option RefValue :=
  match w.scope_stack.findSome? (fun scope => w.values.lookup (scope, var)) with
  | some stored => stored
  | none => none

/-- The value of a variable in the current scope is replaced. -/
def setValue (w : RefWorld) (var : Variable) (value : Option RefValue) : RefWorld :=
  { w with values :=
      ((w.top_scope, var), value) :: w.values.filter (fun entry => entry.1 != (w.top_scope, var)) }

/-- The global verdict is the conjunction of the reported verdicts. -/
def updateSatisfiability (w : RefWorld) (value : Bool) : RefWorld :=
  { w with global_assertion_result := w.global_assertion_result && value }

/-- The verdict of the current scope is set. -/
def setScopeSatisfiability (w : RefWorld) (value : Bool) : RefWorld :=
  { w with scope_satisfiability :=
      (w.top_scope, value) :: w.scope_satisfiability.filter (fun entry => entry.1 != w.top_scope) }

end RefWorld

namespace RefValue

/-- Modelled from the spec: `Value::isSatisfiable` (§3, invariant (ii): false
iff the payload is the empty language or Boolean false). -/
def isSatisfiable : RefValue → Bool
  | .BOOl_CONSTANT b => b
  | .INT_AUTOMATON a => !a.isEmptyLanguage
  | .STRING_AUTOMATON a => !a.isEmptyLanguage
  | _ => true

/-- Modelled from the spec: `Value::isSingleValue`. -/
def isSingleValue : RefValue → Bool
  | .INT_CONSTANT _ => true
  | .INT_AUTOMATON a => a.isSingle
  | .STRING_AUTOMATON a => a.isSingle
  | _ => false

/-- Modelled from the spec: `Value::complement` (negation of a Boolean, set
complement of a language). -/
def complement : RefValue → RefValue
  | .BOOl_CONSTANT b => .BOOl_CONSTANT (!b)
  | .INT_CONSTANT n => .INT_AUTOMATON (Lang.single n).complement
  | .INT_AUTOMATON a => .INT_AUTOMATON a.complement
  | .STRING_AUTOMATON a => .STRING_AUTOMATON a.complement
  | v => v

/-- Modelled from the spec: `Value::intersect` (set intersection; an integer
constant is the set of that integer; operands of different kinds have nothing
in common). -/
def intersect : RefValue → RefValue → RefValue
  | .BOOl_CONSTANT a, .BOOl_CONSTANT b => .BOOl_CONSTANT (a && b)
  | .INT_CONSTANT a, .INT_CONSTANT b => .INT_AUTOMATON ((Lang.single a).intersect (Lang.single b))
  | .INT_CONSTANT a, .INT_AUTOMATON b => .INT_AUTOMATON ((Lang.single a).intersect b)
  | .INT_AUTOMATON a, .INT_CONSTANT b => .INT_AUTOMATON (a.intersect (Lang.single b))
  | .INT_AUTOMATON a, .INT_AUTOMATON b => .INT_AUTOMATON (a.intersect b)
  | .STRING_AUTOMATON a, .STRING_AUTOMATON b => .STRING_AUTOMATON (a.intersect b)
  | _, _ => .BOOl_CONSTANT false

/-- Modelled from the spec: `Value::difference` (set difference). -/
def difference : RefValue → RefValue → RefValue
  | .INT_AUTOMATON a, .INT_AUTOMATON b => .INT_AUTOMATON (a.difference b)
  | .INT_AUTOMATON a, .INT_CONSTANT b => .INT_AUTOMATON (a.difference (Lang.single b))
  | .STRING_AUTOMATON a, .STRING_AUTOMATON b => .STRING_AUTOMATON (a.difference b)
  | v, _ => v

/-- The set of integers a numeric value stands for. -/
def toIntLang : RefValue → Lang Int
  | .INT_CONSTANT n => Lang.single n
  | .INT_AUTOMATON a => a
  | _ => Lang.any

/-- Modelled from the spec: the numeric operations of `Value` ("constant with
constant yields a constant", otherwise an automaton). -/
def arith (f : Int → Int → Int) : RefValue → RefValue → RefValue
  | .INT_CONSTANT a, .INT_CONSTANT b => .INT_CONSTANT (f a b)
  | a, b => .INT_AUTOMATON (Lang.image2 f a.toIntLang b.toIntLang)

/-- Modelled from the spec: `Value::concat` on string automata. -/
def concat : RefValue → RefValue → RefValue
  | .STRING_AUTOMATON a, .STRING_AUTOMATON b =>
    .STRING_AUTOMATON (Lang.image2 (fun x y => String.mk (x.toList ++ y.toList)) a b)
  | _, _ => .STRING_AUTOMATON Lang.any

end RefValue

/-- Modelled from the spec: the variable value computer (§4.2: "the symbol
table's entry for each variable is updated to the intersection of its prior
set and the set implied by the context").  Only the context of an equality or
a membership directly above the variable is inverted (the set implied for the
variable is the Value of that node); every other path leaves the variable as
it is. -/
def refValueUpdater (w : RefWorld) (paths : List (List Term))
    (term_values : TermValueMap refCarrier) : RefWorld :=
  paths.foldl
    (fun world path =>
      match path with
      | [Term.QualIdentifier _ var_name, parent] =>
        if parent.type = TermType.EQ ∨ parent.type = TermType.IN then
          match term_values.lookup parent.id, world.getValue var_name with
          | some (some context), some prior =>
            world.setValue var_name (some (RefValue.intersect prior context))
          | _, _ => world
        else world
      | _ => world)
    w

/-- Contiguous factors of a list. -/
def factors {α : Type} (l : List α) : List (List α) :=
  l.tails.flatMap List.inits

/-- The list `t` occurs as a factor of `l`. -/
def isFactorOf (t l : List Char) : Bool :=
  l.tails.any (fun rest => t.isPrefixOf rest)

/-- Selection of the members of the subject that satisfy a relation with
some member of the search language (the form of `contains`, `begins` and
`ends`); a cofinite operand is over-approximated by the subject. -/
def selectRelated (r : String → String → Bool) (subject search : Lang String) : Lang String :=
  if subject.cofinite || search.cofinite then subject
  else { cofinite := false, words := subject.words.filter (fun x => search.words.any (r x)) }

/-- The reference collaborators. -/
def refEnv : Env refCarrier RefWorld where
  LIA_ENGINE_ENABLED := false
  ENABLE_RELATIONAL_STRING_AUTOMATA := false
  MODEL_COUNTER_ENABLED := false
  uninitialized_bool := false
  is_component := fun _ => false
  isSatisfiable := RefValue.isSatisfiable
  isSingleValue := RefValue.isSingleValue
  complement := RefValue.complement
  intersect := RefValue.intersect
  difference := RefValue.difference
  plus := RefValue.arith (fun a b => a + b)
  minus := RefValue.arith (fun a b => a - b)
  times := RefValue.arith (fun a b => a * b)
  concat := RefValue.concat
  IntAutomaton_isAcceptingSingleInt := Lang.isSingle
  IntAutomaton_getAnAcceptingInt := fun a => a.words.headD 0
  IntAutomaton_uminus := Lang.image (fun n => -n)
  IntAutomaton_isEmptyLanguage := Lang.isEmptyLanguage
  IntAutomaton_isLessThan := fun a n => Lang.existsPair (fun x y => decide (x < y)) a (Lang.single n)
  IntAutomaton_isLessThanOrEqual := fun a n => Lang.existsPair (fun x y => decide (x ≤ y)) a (Lang.single n)
  IntAutomaton_isGreaterThan := fun a n => Lang.existsPair (fun x y => decide (x > y)) a (Lang.single n)
  IntAutomaton_isGreaterThanOrEqual := fun a n => Lang.existsPair (fun x y => decide (x ≥ y)) a (Lang.single n)
  IntAutomaton_isLessThanAuto := Lang.existsPair (fun x y => decide (x < y))
  IntAutomaton_isLessThanOrEqualAuto := Lang.existsPair (fun x y => decide (x ≤ y))
  IntAutomaton_isGreaterThanAuto := Lang.existsPair (fun x y => decide (x > y))
  IntAutomaton_isGreaterThanOrEqualAuto := Lang.existsPair (fun x y => decide (x ≥ y))
  IntAutomaton_hasNegative1 := fun a => a.mem (-1)
  IntAutomaton_getNumberOfVariables := fun _ => 8
  IntAutomaton_toUnaryAutomaton := fun a => a
  IntAutomaton_DEFAULT_NUM_OF_VARIABLES := 8
  StringAutomaton_makeString := Lang.single
  StringAutomaton_makeRegexAuto := fun _ => Lang.any
  StringAutomaton_makeAnyString := Lang.any
  StringAutomaton_makePhi := Lang.phi
  StringAutomaton_complement := Lang.complement
  StringAutomaton_difference := Lang.difference
  StringAutomaton_isAcceptingSingleString := Lang.isSingle
  StringAutomaton_isEmptyLanguage := Lang.isEmptyLanguage
  StringAutomaton_length := Lang.image (fun x => (x.toList.length : Int))
  StringAutomaton_contains := selectRelated (fun x y => isFactorOf y.toList x.toList)
  StringAutomaton_begins := selectRelated (fun x y => y.toList.isPrefixOf x.toList)
  StringAutomaton_ends := selectRelated (fun x y => y.toList.isSuffixOf x.toList)
  StringAutomaton_subStrings := fun a =>
    if a.cofinite then Lang.any
    else { cofinite := false, words := a.words.flatMap (fun x => (factors x.toList).map String.mk) }
  StringAutomaton_prefixes := fun a =>
    if a.cofinite then Lang.any
    else { cofinite := false, words := a.words.flatMap (fun x => x.toList.inits.map String.mk) }
  StringAutomaton_suffixes := fun a =>
    if a.cofinite then Lang.any
    else { cofinite := false, words := a.words.flatMap (fun x => x.toList.tails.map String.mk) }
  StringAutomaton_indexOf := fun _ _ => Lang.any
  StringAutomaton_lastIndexOf := fun _ _ => Lang.any
  StringAutomaton_charAt := fun _ _ => Lang.any
  StringAutomaton_subString := fun a i => Lang.image (fun x => String.mk (x.toList.drop i.toNat)) a
  StringAutomaton_subStringTo := fun a i j =>
    Lang.image (fun x => String.mk ((x.toList.take j.toNat).drop i.toNat)) a
  StringAutomaton_subStringToAuto := fun _ _ _ => Lang.any
  StringAutomaton_subStringFirstOf := fun _ _ => Lang.any
  StringAutomaton_subStringLastOf := fun _ _ => Lang.any
  StringAutomaton_toUpperCase := Lang.image (fun x => String.mk (x.toList.map Char.toUpper))
  StringAutomaton_toLowerCase := Lang.image (fun x => String.mk (x.toList.map Char.toLower))
  StringAutomaton_trim := Lang.image (fun x =>
    String.mk (((x.toList.dropWhile isSpaceChar).reverse.dropWhile isSpaceChar).reverse))
  StringAutomaton_replace := fun _ _ _ => Lang.any
  StringAutomaton_parseToIntAutomaton := fun _ => Lang.any
  UnaryAutomaton_toBinaryIntAutomaton := fun _ _ _ _ => ()
  UnaryAutomaton_toStringAutomaton := Lang.image (fun n => toString n)
  UnaryAutomaton_toIntAutomaton := fun a _ _ => a
  BinaryIntAutomaton_getFormula := fun _ => ()
  BinaryIntAutomaton_makeAutomaton := fun _ _ _ _ => ()
  BinaryIntAutomaton_intersect := fun _ _ => ()
  BinaryIntAutomaton_getBinaryAutomatonFor := fun _ _ => ()
  BinaryIntAutomaton_hasNegative1 := fun _ => false
  BinaryIntAutomaton_getPositiveValuesFor := fun _ _ => ()
  BinaryIntAutomaton_toUnaryAutomaton := fun _ => Lang.any
  MultiTrackAutomaton_alias_track := fun _ _ _ => ()
  push_scope := fun w scope => { w with scope_stack := scope :: w.scope_stack }
  pop_scope := fun w => { w with scope_stack := w.scope_stack.tail }
  top_scope := RefWorld.top_scope
  updateSatisfiability := RefWorld.updateSatisfiability
  setScopeSatisfiability := RefWorld.setScopeSatisfiability
  getVariable := fun _ name => name
  getValue := RefWorld.getValue
  setValue := RefWorld.setValue
  updateValue := RefWorld.setValue
  clearLetScopes := fun w => w
  getSymbolicVariable := fun _ => none
  get_representative_variable_of_at_scope := fun _ _ _ => none
  get_var_name_for_expression := fun _ _ => ""
  arithmetic_start := fun w _ => w
  arithmetic_getTermValue := fun _ _ => none
  arithmetic_get_int_variable_name := fun _ _ => ""
  arithmetic_hasStringTerms := fun _ _ => false
  arithmetic_getStringTermsIn := fun _ _ => []
  arithmetic_updateTermValue := fun w _ _ => w
  string_start := fun w _ => w
  string_get_term_value := fun _ _ => none
  string_get_variable_value := fun _ _ => none
  string_get_variable_value_flag := fun _ _ _ => none
  string_update_variable_value := fun w _ _ => (false, w)
  string_set_variable_trackmap := fun w _ _ _ => w
  value_updater_start := refValueUpdater

/-- A symbol table with the given variable values in the global scope 0, which
is the only open scope, and no verdict reported yet. -/
def refWorld (values : List (String × Option RefValue)) : RefWorld where
  values := values.map (fun entry => ((0, entry.1), entry.2))
  scope_stack := [0]
  scope_satisfiability := []
  global_assertion_result := true

/-- The state of a freshly constructed `ConstraintSolver` (constructor of the
class: `still_sat_` false, `iteration_count_` 0, all containers empty) over
the given symbol table. -/
def refState (values : List (String × Option RefValue)) : State refCarrier RefWorld where
  still_sat_ := false
  iteration_count_ := 0
  term_values_ := []
  path_trace_ := []
  variable_path_table_ := []
  tagged_variables := []
  world := refWorld values

/-! ## Specification-side definitions

Definitions that follow the words of the specification; the theorems below
relate them to the handlers above. -/

section Specification

variable {C : Carrier} {W : Type}

/-- Specification of one conjunct (§4.1, `And`): evaluated in state `s`, the
conjunct has a satisfiable Value and the still-satisfiable flag is true after
the refinement pass that follows it. -/
def conjunct_holds (E : Env C W) (visit : Term → State C W → Res C W) (term : Term)
    (s : State C W) : Bool :=
  match check_and_visit E visit term s with
  | .error _ => false
  | .ok (_, s1) =>
    match getTermValue E s1 term with
    | none => false
    | some param =>
      E.isSatisfiable param && (update_variables E { s1 with still_sat_ := true }).still_sat_

/-- The state in which the conjunct after `term` is evaluated when `term`
holds: `term` has been evaluated, the variables refined and the term values
cleared. -/
def state_after_conjunct (E : Env C W) (visit : Term → State C W → Res C W) (term : Term)
    (s : State C W) : State C W :=
  match check_and_visit E visit term s with
  | .error _ => s
  | .ok (_, s1) =>
    clearTermValuesAndLocalLetVars E (update_variables E { s1 with still_sat_ := true })

/-- Specification of the verdict of an `And`: every conjunct, evaluated left
to right, holds. -/
def all_conjuncts_hold (E : Env C W) (visit : Term → State C W → Res C W) :
    List Term → State C W → Bool
  | [], _ => true
  | term :: rest, s =>
    conjunct_holds E visit term s &&
      all_conjuncts_hold E visit rest (state_after_conjunct E visit term s)

/-- The collaborators with the option `MODEL_COUNTER_ENABLED` set to `flag`
and everything else as in `E`. -/
def Env.withCounting (E : Env C W) (flag : Bool) : Env C W :=
  { E with MODEL_COUNTER_ENABLED := flag }

/-- The walk over the commands of a script with a log: the verdicts of the
assertions whose handler returns, in the order in which they are visited. -/
def assert_verdicts (E : Env C W) (visit : Term → State C W → Res C W) :
    List Command → State C W → List Bool
  | [], _ => []
  | .Other _ :: rest, s => assert_verdicts E visit rest s
  | .Assert term :: rest, s =>
    match check_and_visit E visit term s with
    | .error _ => []
    | .ok (_, s1) =>
      match getTermValue E s1 term, visitAssert E visit term s with
      | some result, .ok s2 => E.isSatisfiable result :: assert_verdicts E visit rest s2
      | _, _ => []

/-- The number of assertions among the commands. -/
def count_asserts : List Command → Nat
  | [] => 0
  | .Assert _ :: rest => count_asserts rest + 1
  | .Other _ :: rest => count_asserts rest

/-- Specification of the global verdict of the symbol table (§2:
"Satisfiability is the conjunction of all top-level assertion verdicts"): an
observer `verdict` of the world that `updateSatisfiability` merges by
conjunction and that nothing else the script walk does to the world changes
(the evaluation of the assertion bodies included). -/
structure VerdictFrame (E : Env C W) (visit : Term → State C W → Res C W)
    (verdict : W → Bool) (commands : List Command) : Prop where
  update : ∀ w b, verdict (E.updateSatisfiability w b) = (verdict w && b)
  scope : ∀ w b, verdict (E.setScopeSatisfiability w b) = verdict w
  refine : ∀ s : State C W, verdict (update_variables E s).world = verdict s.world
  clear : ∀ w, verdict (E.clearLetScopes w) = verdict w
  push : ∀ w n, verdict (E.push_scope w n) = verdict w
  pop : ∀ w, verdict (E.pop_scope w) = verdict w
  body : ∀ term, Command.Assert term ∈ commands → ∀ (s s1 : State C W) (flag : Bool),
    check_and_visit E visit term s = .ok (flag, s1) → verdict s1.world = verdict s.world

end Specification

/-! ## Example inputs -/

/-- The reference collaborators with model counting switched on. -/
def refEnvCounting : Env refCarrier RefWorld := refEnv.withCounting true

/-- A solver state in which `x` is a string variable whose value is the set
of all strings. -/
def state_x_any : State refCarrier RefWorld :=
  refState [("x", some (.STRING_AUTOMATON Lang.any))]

/-- The term `(and (= x "a") (not (= x "a")))`. -/
def and_eq_not_eq : Term :=
  .And 0 [.Eq 1 (.QualIdentifier 2 "x") (.TermConstant 3 .STRING "a"),
    .Not 4 (.Eq 5 (.QualIdentifier 6 "x") (.TermConstant 7 .STRING "a"))]

/-- The term `(or (= x "a") (> (count x "b") 0))`; the handler of `count` is
not implemented. -/
def or_eq_count : Term :=
  .Or 0 [.Eq 1 (.QualIdentifier 2 "x") (.TermConstant 3 .STRING "a"),
    .Gt 4 (.Count 5 [.QualIdentifier 6 "x", .TermConstant 7 .STRING "b"])
      (.TermConstant 8 .NUMERAL "0")]

/-- The term `(or (= x "a") (= x "b"))`. -/
def or_eq_eq : Term :=
  .Or 0 [.Eq 1 (.QualIdentifier 2 "x") (.TermConstant 3 .STRING "a"),
    .Eq 4 (.QualIdentifier 5 "x") (.TermConstant 6 .STRING "b")]

/-- The script `(assert (= "b" "a")) (assert (= x "foo"))`. -/
def script_unsat_then_eq : Script where
  id := 100
  command_list :=
    [.Assert (.Eq 1 (.TermConstant 2 .STRING "b") (.TermConstant 3 .STRING "a")),
     .Assert (.Eq 4 (.QualIdentifier 5 "x") (.TermConstant 6 .STRING "foo"))]

/-- The script `(assert false) (assert true)`. -/
def script_false_true : Script where
  id := 100
  command_list :=
    [.Assert (.TermConstant 1 .BOOL "false"), .Assert (.TermConstant 2 .BOOL "true")]

/-- The script `(assert (= "b" "a"))`. -/
def script_unsat : Script where
  id := 100
  command_list := [.Assert (.Eq 1 (.TermConstant 2 .STRING "b") (.TermConstant 3 .STRING "a"))]

/-- The term `(not (= "a" "b"))`: the negation of an equality that cannot
hold. -/
def not_eq_a_b : Term :=
  .Not 0 (.Eq 1 (.TermConstant 2 .STRING "a") (.TermConstant 3 .STRING "b"))

/-- The term `(not 5)`: a negation whose child evaluates to an Int
constant. -/
def not_five : Term := .Not 0 (.TermConstant 1 .NUMERAL "5")

/-- The Value is an Int constant or an integer automaton (the operand kinds
the arithmetic comparisons accept). -/
def Value.isIntOperand {C : Carrier} : Value C → Bool
  | .INT_CONSTANT _ => true
  | .INT_AUTOMATON _ => true
  | _ => false

/-- The term `(< 1 2)`. -/
def lt_one_two : Term := .Lt 0 (.TermConstant 1 .NUMERAL "1") (.TermConstant 2 .NUMERAL "2")

/-- The state in which the two children of `lt_one_two` have been evaluated. -/
def state_one_two : State refCarrier RefWorld :=
  { refState [] with
    term_values_ := [(2, some (.INT_CONSTANT 2)), (1, some (.INT_CONSTANT 1))] }

/-- The collaborators with the two `start` entry points of the sub-engines
replaced and everything else as in `E`. -/
def Env.withStarts {C : Carrier} {W : Type} (E : Env C W)
    (arithmetic_start string_start : W → Term → W) : Env C W :=
  { E with arithmetic_start := arithmetic_start, string_start := string_start }

/-- The collaborators with sub-engines whose `start` does nothing. -/
def Env.withoutStarts {C : Carrier} {W : Type} (E : Env C W) : Env C W :=
  E.withStarts (fun w _ => w) (fun w _ => w)

/-- The world after the sub-engines with the `start` entry points `f`
(arithmetic engine) and `g` (relational string engine) have been started on a
term in the order of the specification: the arithmetic engine first, if it is
enabled, then the relational string engine, if it is enabled. -/
def engines_started {C : Carrier} {W : Type} (E : Env C W) (f g : W → Term → W)
    (term : Term) (w : W) : W :=
  let w1 := if E.LIA_ENGINE_ENABLED then f w term else w
  if E.ENABLE_RELATIONAL_STRING_AUTOMATA then g w1 term else w1

/-- The term `(substring x 0 1)` with a mode outside the twelve named cases
of the switch. -/
def substring_none : Term :=
  .SubString 0 .NONE (.QualIdentifier 1 "x") (.TermConstant 2 .NUMERAL "0")
    (some (.TermConstant 3 .NUMERAL "1"))

/-- The reference collaborators with every `And` a component, both sub-engines
enabled, and engines whose `start` leaves a mark in the variable
`last_started`: 1 for the arithmetic engine, 2 for the relational string
engine. -/
def refEnvEngines : Env refCarrier RefWorld :=
  { refEnv with
    is_component := fun _ => true
    LIA_ENGINE_ENABLED := true
    ENABLE_RELATIONAL_STRING_AUTOMATA := true
    arithmetic_start := fun w _ => w.setValue "last_started" (some (.INT_CONSTANT 1))
    string_start := fun w _ => w.setValue "last_started" (some (.INT_CONSTANT 2)) }

/-- The fresh solver state after the arithmetic engine and then the relational
string engine of `refEnvEngines` have been started. -/
def state_engines_started : State refCarrier RefWorld :=
  let w1 := (refWorld []).setValue "last_started" (some (.INT_CONSTANT 1))
  { refState [] with world := w1.setValue "last_started" (some (.INT_CONSTANT 2)) }

/-! ### Size of the syntax tree -/

mutual
/-- The number of nodes of a term. -/
def Term.size : Term → Nat
  | .Let _ bs t => Term.size_bindings bs + t.size + 1
  | .And _ l | .Or _ l | .Plus _ l | .Times _ l | .Concat _ l | .Count _ l
  | .Unknown _ l => Term.size_list l + 1
  | .Not _ t | .UMinus _ t | .Len _ t | .ToUpper _ t | .ToLower _ t | .Trim _ t
  | .ToString _ t | .ToInt _ t => t.size + 1
  | .Minus _ a b | .Eq _ a b | .NotEq _ a b | .Gt _ a b | .Ge _ a b | .Lt _ a b
  | .Le _ a b | .In _ a b | .NotIn _ a b | .Contains _ a b | .NotContains _ a b
  | .Begins _ a b | .NotBegins _ a b | .Ends _ a b | .NotEnds _ a b | .IndexOf _ a b
  | .LastIndexOf _ a b | .CharAt _ a b => a.size + b.size + 1
  | .SubString _ _ a b c => a.size + b.size + Term.size_option c + 1
  | .Replace _ a b c => a.size + b.size + c.size + 1
  | .Exclamation _ | .Exists _ | .ForAll _ | .Ite _ | .ReConcat _ | .ToRegex _
  | .ReUnion _ | .ReInter _ | .ReStar _ | .RePlus _ | .ReOpt _ | .AsQualIdentifier _
  | .QualIdentifier _ _ | .TermConstant _ _ _ => 1
/-- The number of nodes of the terms of a list. -/
def Term.size_list : List Term → Nat
  | [] => 0
  | t :: rest => t.size + Term.size_list rest
/-- The number of nodes of the bound terms of a binding list. -/
def Term.size_bindings : List (String × Term) → Nat
  | [] => 0
  | (_, t) :: rest => t.size + Term.size_bindings rest
/-- The number of nodes of an optional term. -/
def Term.size_option : Option Term → Nat
  | none => 0
  | some t => t.size
end

/-- The number of nodes of the body of an assertion (0 for other commands). -/
def Command.size : Command → Nat
  | .Assert term => term.size
  | .Other _ => 0

/-- The largest size of a command of the list. -/
def Command.size_list : List Command → Nat
  | [] => 0
  | command :: rest => max command.size (Command.size_list rest)

/-- The largest size of an assertion body of the script: the depth of the
recursion of one walk of the script is at most this number. -/
def Script.size (script : Script) : Nat := Command.size_list script.command_list

/-! ### Definitions for the string and binding handlers -/

/-- The Value the fast path of `visitNotEq` offers to the relational string
engine: the complement of the automaton of the constant's text. -/
def notEq_fast_value {C : Carrier} {W : Type} (E : Env C W) (value : String) : Value C :=
  .STRING_AUTOMATON (E.StringAutomaton_complement (E.StringAutomaton_makeString value))

/-- The Value the fast path of `visitIn` offers to the relational string
engine: the regex automaton of the constant's text. -/
def in_fast_value {C : Carrier} {W : Type} (E : Env C W) (value : String) : Value C :=
  .STRING_AUTOMATON (E.StringAutomaton_makeRegexAuto value)

/-- The answer of the relational string engine (accepted or not, and the world
it leaves) when the fast path offers it the Value `val` for the variable named
`var_name`. -/
def fast_path_update {C : Carrier} {W : Type} (E : Env C W) (s : State C W)
    (var_name : String) (val : Value C) : Bool × W :=
  E.string_update_variable_value s.world (E.getVariable s.world var_name) val

/-- The reference collaborators with a relational string engine that accepts
every offered variable value (and keeps nothing). -/
def refEnvAccepting : Env refCarrier RefWorld :=
  { refEnv with string_update_variable_value := fun w _ _ => (true, w) }

/-- The term `(!= x 5)`: a variable on the left, a numeral on the right. -/
def not_eq_x_five : Term := .NotEq 0 (.QualIdentifier 1 "x") (.TermConstant 2 .NUMERAL "5")

/-- A solver state in which `x` is an integer variable whose value is the set
of all integers. -/
def state_x_any_int : State refCarrier RefWorld :=
  refState [("x", some (.INT_AUTOMATON Lang.any))]

/-- The term `(in x /a*/)`: a variable on the left, a regex constant on the
right. -/
def in_x_regex : Term := .In 0 (.QualIdentifier 1 "x") (.TermConstant 2 .REGEX "a*")

/-- Modelled from the spec: reading of the string automata of the library as
sets of strings ("Set of possible strings"): `accepts a w` tells whether `w` is
in the language of `a`, and the library's `difference` is set difference. -/
def IsSetDifference {C : Carrier} {W : Type} (E : Env C W)
    (accepts : C.StringAutomaton → String → Bool) : Prop :=
  ∀ x y w, accepts (E.StringAutomaton_difference x y) w = (accepts x w && !accepts y w)

/-- Modelled from the spec: the symbol table is a mapping from variables to
Values, so an update of one variable leaves the Values of the other variables
as they are. -/
def UpdatesOneVariable {C : Carrier} {W : Type} (E : Env C W) : Prop :=
  ∀ w x v y, y ≠ x → E.getValue (E.updateValue w x v) y = E.getValue w y

/-- The term `(notin x "a")`. -/
def not_in_x_a : Term := .NotIn 0 (.QualIdentifier 1 "x") (.TermConstant 2 .STRING "a")

/-- A solver state in which `y` is a string variable whose value is the set
of the two words `a` and `b`. -/
def state_y_a_b : State refCarrier RefWorld :=
  refState [("y", some (.STRING_AUTOMATON { cofinite := false, words := ["a", "b"] }))]

/-- The term `(not (contains "ab" y))`. -/
def not_contains_ab_y : Term :=
  .NotContains 0 (.TermConstant 1 .STRING "ab") (.QualIdentifier 2 "y")

/-- A solver state in which the string variables `x` and `y` both have the
empty language as their value. -/
def state_x_y_phi : State refCarrier RefWorld :=
  refState [("x", some (.STRING_AUTOMATON Lang.phi)), ("y", some (.STRING_AUTOMATON Lang.phi))]

/-- The Value `visitNotIn` computes from two string automata: the difference
of the left Value and the right Value. -/
def notIn_result {C : Carrier} {W : Type} (E : Env C W) (a b : C.StringAutomaton) : Value C :=
  E.difference (.STRING_AUTOMATON a) (.STRING_AUTOMATON b)

/-- The Value the second branch of `visitNotContains`, `visitNotBegins` and
`visitNotEnds` computes for the subject `a` and the automaton `related` of the
members of `a` that contain (begin with, end with) the search string: the
subject minus the related members. -/
def subject_minus {C : Carrier} {W : Type} (E : Env C W) (a related : C.StringAutomaton) :
    Value C :=
  .STRING_AUTOMATON (E.StringAutomaton_difference a related)

/-- The Value the third branch of `visitNotContains`, `visitNotBegins` and
`visitNotEnds` computes for the subject `a`, the search automaton `b` and the
automaton `parts` of the substrings (prefixes, suffixes) of the subject: the
empty language when the search language minus the parts is empty, and the
subject otherwise. -/
def subject_or_phi {C : Carrier} {W : Type} (E : Env C W) (a b parts : C.StringAutomaton) :
    Value C :=
  if E.StringAutomaton_isEmptyLanguage (E.StringAutomaton_difference b parts) then
    .STRING_AUTOMATON E.StringAutomaton_makePhi
  else .STRING_AUTOMATON a

/-- The term `(not (prefixof y x))`, subject `x`, search `y`. -/
def not_begins_x_y : Term := .NotBegins 0 (.QualIdentifier 1 "x") (.QualIdentifier 2 "y")

/-- The term `(not (suffixof y x))`, subject `x`, search `y`. -/
def not_ends_x_y : Term := .NotEnds 0 (.QualIdentifier 1 "x") (.QualIdentifier 2 "y")

/-- The term `(not (contains x y))`, subject `x`, search `y`. -/
def not_contains_x_y : Term := .NotContains 0 (.QualIdentifier 1 "x") (.QualIdentifier 2 "y")

/-- The term `(not (contains x "a"))`. -/
def not_contains_x_a : Term :=
  .NotContains 0 (.QualIdentifier 1 "x") (.TermConstant 2 .STRING "a")

/-- The state after the children of `not_contains_x_a` have been evaluated
from `state_x_any`: both have their Values and the path of `x` is recorded. -/
def state_x_any_children : State refCarrier RefWorld :=
  { state_x_any with
    term_values_ :=
      [(2, some (.STRING_AUTOMATON (Lang.single "a"))), (1, some (.STRING_AUTOMATON Lang.any))]
    variable_path_table_ := [[.QualIdentifier 1 "x", not_contains_x_a]] }

/-- The state after the children of `not_contains_ab_y` have been evaluated
from `state_y_a_b`. -/
def state_y_a_b_children : State refCarrier RefWorld :=
  { state_y_a_b with
    term_values_ :=
      [(2, some (.STRING_AUTOMATON { cofinite := false, words := ["a", "b"] })),
       (1, some (.STRING_AUTOMATON (Lang.single "ab")))]
    variable_path_table_ := [[.QualIdentifier 2 "y", not_contains_ab_y]] }

/-- The Values of the terms of a list, each read right after its term has
been evaluated, in list order; the state is the one after the last
evaluation. -/
def children_values {C : Carrier} {W : Type} (E : Env C W)
    (visit : Term → State C W → Res C W) :
    List Term → State C W → Except Err (List (Value C) × State C W)
  | [], s => .ok ([], s)
  | term :: rest, s =>
    match visit term s with
    | .error e => .error e
    | .ok s1 =>
      match deref (getTermValue E s1 term) with
      | .error e => .error e
      | .ok v =>
        match children_values E visit rest s1 with
        | .error e => .error e
        | .ok (vs, s2) => .ok (v :: vs, s2)

/-- The left fold `op(...op(op(v1, v2), v3)..., vn)` of a non-empty list of
Values, starting from a copy of the first one; there is no Value for the empty
list. -/
def fold_values {C : Carrier} (op : Value C → Value C → Value C) :
    List (Value C) → Option (Value C)
  | [] => none
  | v :: rest => some (rest.foldl op v.clone)

/-- The specification of `Concat`, `Plus` and `Times`: below the node on the
path trace the children are evaluated left to right, and the left fold of `op`
over their Values is recorded for the node. -/
def nary_fold_spec {C : Carrier} {W : Type} (E : Env C W)
    (visit : Term → State C W → Res C W) (op : Value C → Value C → Value C)
    (term : Term) (term_list : List Term) (s : State C W) : Res C W :=
  match children_values E visit term_list { s with path_trace_ := s.path_trace_ ++ [term] } with
  | .error e => .error e
  | .ok (vs, s1) =>
    storeTermValue { s1 with path_trace_ := s1.path_trace_.dropLast } term (fold_values op vs)

/-- The step of the specification of `Let` for one binding: the term of the
binding is evaluated below the `Let` node, and the bound symbol is installed in
the symbol table with a copy of the term's Value. -/
def let_install {C : Carrier} {W : Type} (E : Env C W) (visit : Term → State C W → Res C W)
    (let_term : Term) (s : State C W) (var_binding : String × Term) : Res C W :=
  match check_and_visit E visit var_binding.2
      { s with path_trace_ := s.path_trace_ ++ [let_term] } with
  | .error e => .error e
  | .ok (_, s1) =>
    match deref (getTermValue E s1 var_binding.2) with
    | .error e => .error e
    | .ok param =>
      .ok { s1 with
            path_trace_ := s1.path_trace_.dropLast
            world := E.setValue s1.world var_binding.1 (some param.clone) }

/-- Modelled from the spec: the scope stack of the symbol table ("Push a fresh
scope", "pop the scope"), read off the world by `stack`: `push_scope` puts the
scope on top, `pop_scope` removes the top, and `setValue` leaves the stack as
it is. -/
structure ScopeStackLaws {C : Carrier} {W : Type} (E : Env C W) (stack : W → List Nat) :
    Prop where
  push : ∀ w scope, stack (E.push_scope w scope) = scope :: stack w
  pop : ∀ w, stack (E.pop_scope w) = (stack w).tail
  setValue : ∀ w var value, stack (E.setValue w var value) = stack w

/-- The term `(let ((v "a")) v)`. -/
def let_v_a_v : Term := .Let 0 [("v", .TermConstant 1 .STRING "a")] (.QualIdentifier 2 "v")

/-- The state after the child of `(len "abc")` has been evaluated from the
fresh solver state. -/
def state_abc : State refCarrier RefWorld :=
  { refState [] with term_values_ := [(1, some (.STRING_AUTOMATON (Lang.single "abc")))] }

/-! ### Definitions for the cached terms and the bridge -/

/-- The term `(= x y)`. -/
def eq_x_y : Term := .Eq 0 (.QualIdentifier 1 "x") (.QualIdentifier 2 "y")

/-- The term `(= (len x) y)`: an arithmetic constraint with the string-derived
sub-term `(len x)`. -/
def eq_len_x_y : Term := .Eq 0 (.Len 1 (.QualIdentifier 2 "x")) (.QualIdentifier 3 "y")

/-- The answer of a sub-engine that holds the Value `value` for the node with
identity 0 and for no other node. -/
def holds_for_root (value : RefValue) (_ : RefWorld) (term : Term) : Option RefValue :=
  if term.id = 0 then some value else none

/-- The string-derived sub-terms an arithmetic engine reports for an equality
with identity 0: its left operand. -/
def string_terms_of_root (_ : RefWorld) (term : Term) : List Term :=
  match term with
  | .Eq 0 string_term _ => [string_term]
  | _ => []

/-- The reference collaborators with a relational string engine that holds a
multi-track Value for the node with identity 0. -/
def refEnvRelational : Env refCarrier RefWorld :=
  { refEnv with string_get_term_value := holds_for_root (.MULTITRACK_AUTOMATON ()) }

/-- The reference collaborators with an arithmetic engine that holds a binary
integer automaton for the node with identity 0 and reports the left operand of
that node as its string-derived sub-term. -/
def refEnvArithmetic : Env refCarrier RefWorld :=
  { refEnv with
    arithmetic_getTermValue := holds_for_root (.BINARYINT_AUTOMATON ())
    arithmetic_hasStringTerms := fun w term => !(string_terms_of_root w term).isEmpty
    arithmetic_getStringTermsIn := string_terms_of_root }

/-- The reference collaborators in which both sub-engines hold a Value for the
node with identity 0. -/
def refEnvBoth : Env refCarrier RefWorld :=
  { refEnvArithmetic with string_get_term_value := holds_for_root (.MULTITRACK_AUTOMATON ()) }

/-- The answer of `check_and_visit` when it dispatches the handler: the state
the handler leaves, with the flag `true`. -/
def dispatched {C : Carrier} {W : Type} (visit : Term → State C W → Res C W) (term : Term)
    (s : State C W) : Except Err (Bool × State C W) :=
  match visit term s with
  | .error e => .error e
  | .ok s1 => .ok (true, s1)

/-- The test of `check_and_visit` that starts the bridge: the arithmetic engine
reports string-derived sub-terms and the cached Value is satisfiable. -/
def bridge_runs {C : Carrier} {W : Type} (E : Env C W) (s : State C W) (term : Term)
    (result : Value C) : Bool :=
  E.arithmetic_hasStringTerms s.world term && E.isSatisfiable result

/-- The state with the Value `value` recorded for `term` in front of the
term-value map. -/
def recorded {C : Carrier} {W : Type} (s : State C W) (term : Term) (value : Value C) :
    State C W :=
  { s with term_values_ := (term.id, some value) :: s.term_values_ }

/-- The binary encoding of the Value of a string-derived sub-term in the
bridge: an integer automaton goes through its unary form, an integer constant
is encoded directly, both under the name of the sub-term and the formula of the
stored arithmetic solution; no other Value has an encoding. -/
def binary_encoding {C : Carrier} {W : Type} (E : Env C W) (name : String)
    (formula : C.ArithmeticFormula) : Value C → Option C.BinaryIntAutomaton
  | .INT_AUTOMATON a =>
    some (E.UnaryAutomaton_toBinaryIntAutomaton (E.IntAutomaton_toUnaryAutomaton a) name formula
      (E.IntAutomaton_hasNegative1 a))
  | .INT_CONSTANT value => some (E.BinaryIntAutomaton_makeAutomaton value name formula true)
  | _ => none

/-- The state in which the arithmetic engine has been given the binary
integer automaton `updated` as the new Value of `term`; nothing else differs
from `s`. -/
def installed {C : Carrier} {W : Type} (E : Env C W) (s : State C W) (term : Term)
    (updated : C.BinaryIntAutomaton) : State C W :=
  { s with world := E.arithmetic_updateTermValue s.world term (.BINARYINT_AUTOMATON updated) }

/-- Satisfiability over the reference library, except that no binary integer
automaton is satisfiable. -/
def unsat_binary (value : RefValue) : Bool :=
  match value with
  | .BINARYINT_AUTOMATON _ => false
  | _ => RefValue.isSatisfiable value

/-- The collaborators of `refEnvArithmetic` with an arithmetic solution that
no string-derived Value is compatible with. -/
def refEnvArithmeticUnsat : Env refCarrier RefWorld :=
  { refEnvArithmetic with isSatisfiable := unsat_binary }

/-- The integer automaton that replaces the Value of a string-derived sub-term
after a satisfiable round of the bridge: the refined arithmetic solution
`updated` is projected on the name of the sub-term (and cut down to its
non-negative values when the old Value `v` admitted -1), then converted
through the unary form. -/
def bridge_refined {C : Carrier} {W : Type} (E : Env C W) (name : String) (v : Value C)
    (updated : C.BinaryIntAutomaton) : C.IntAutomaton :=
  let has_minus_one : Bool :=
    match v with
    | .INT_AUTOMATON a => E.IntAutomaton_hasNegative1 a
    | .INT_CONSTANT value => decide (value < 0)
    | _ => false
  let number_of_variables : Int :=
    match v with
    | .INT_AUTOMATON a => E.IntAutomaton_getNumberOfVariables a
    | _ => E.IntAutomaton_DEFAULT_NUM_OF_VARIABLES
  let projected := E.BinaryIntAutomaton_getBinaryAutomatonFor updated name
  let has_minus_one1 :=
    if has_minus_one then E.BinaryIntAutomaton_hasNegative1 projected else has_minus_one
  let projected1 :=
    if has_minus_one then E.BinaryIntAutomaton_getPositiveValuesFor projected name
    else projected
  E.UnaryAutomaton_toIntAutomaton (E.BinaryIntAutomaton_toUnaryAutomaton projected1)
    number_of_variables has_minus_one1

/-- The state `state_x_any` with the Value of a constant `"b"` (node 9) left in
the term-value map by an earlier evaluation. -/
def state_x_any_b : State refCarrier RefWorld :=
  recorded state_x_any (.TermConstant 9 .STRING "b") (.STRING_AUTOMATON (Lang.single "b"))

/-! ### Definitions for the path trace and the variable paths -/

/-- The paths `ps`, each continued upwards by the node `t`. -/
def extend_paths (t : Term) (ps : List (List Term)) : List (List Term) :=
  ps.map (fun p => p ++ [t])

mutual
/-- The paths from the variable occurrences of a term up to the term, each
read from the occurrence upwards; the `And` and `Or` nodes on the way are left
out. -/
def Term.variable_paths : Term → List (List Term)
  | .QualIdentifier id var_name => [[.QualIdentifier id var_name]]
  | .And _ l | .Or _ l => Term.variable_paths_list l
  | .Let id bs t =>
    extend_paths (.Let id bs t) (Term.variable_paths_bindings bs ++ t.variable_paths)
  | .Plus id l => extend_paths (.Plus id l) (Term.variable_paths_list l)
  | .Times id l => extend_paths (.Times id l) (Term.variable_paths_list l)
  | .Concat id l => extend_paths (.Concat id l) (Term.variable_paths_list l)
  | .Count id l => extend_paths (.Count id l) (Term.variable_paths_list l)
  | .Unknown id l => extend_paths (.Unknown id l) (Term.variable_paths_list l)
  | .Not id t => extend_paths (.Not id t) t.variable_paths
  | .UMinus id t => extend_paths (.UMinus id t) t.variable_paths
  | .Len id t => extend_paths (.Len id t) t.variable_paths
  | .ToUpper id t => extend_paths (.ToUpper id t) t.variable_paths
  | .ToLower id t => extend_paths (.ToLower id t) t.variable_paths
  | .Trim id t => extend_paths (.Trim id t) t.variable_paths
  | .ToString id t => extend_paths (.ToString id t) t.variable_paths
  | .ToInt id t => extend_paths (.ToInt id t) t.variable_paths
  | .Minus id a b => extend_paths (.Minus id a b) (a.variable_paths ++ b.variable_paths)
  | .Eq id a b => extend_paths (.Eq id a b) (a.variable_paths ++ b.variable_paths)
  | .NotEq id a b => extend_paths (.NotEq id a b) (a.variable_paths ++ b.variable_paths)
  | .Gt id a b => extend_paths (.Gt id a b) (a.variable_paths ++ b.variable_paths)
  | .Ge id a b => extend_paths (.Ge id a b) (a.variable_paths ++ b.variable_paths)
  | .Lt id a b => extend_paths (.Lt id a b) (a.variable_paths ++ b.variable_paths)
  | .Le id a b => extend_paths (.Le id a b) (a.variable_paths ++ b.variable_paths)
  | .In id a b => extend_paths (.In id a b) (a.variable_paths ++ b.variable_paths)
  | .NotIn id a b => extend_paths (.NotIn id a b) (a.variable_paths ++ b.variable_paths)
  | .Contains id a b => extend_paths (.Contains id a b) (a.variable_paths ++ b.variable_paths)
  | .NotContains id a b =>
    extend_paths (.NotContains id a b) (a.variable_paths ++ b.variable_paths)
  | .Begins id a b => extend_paths (.Begins id a b) (a.variable_paths ++ b.variable_paths)
  | .NotBegins id a b => extend_paths (.NotBegins id a b) (a.variable_paths ++ b.variable_paths)
  | .Ends id a b => extend_paths (.Ends id a b) (a.variable_paths ++ b.variable_paths)
  | .NotEnds id a b => extend_paths (.NotEnds id a b) (a.variable_paths ++ b.variable_paths)
  | .IndexOf id a b => extend_paths (.IndexOf id a b) (a.variable_paths ++ b.variable_paths)
  | .LastIndexOf id a b =>
    extend_paths (.LastIndexOf id a b) (a.variable_paths ++ b.variable_paths)
  | .CharAt id a b => extend_paths (.CharAt id a b) (a.variable_paths ++ b.variable_paths)
  | .SubString id mode a b c =>
    extend_paths (.SubString id mode a b c)
      (a.variable_paths ++ (b.variable_paths ++ Term.variable_paths_option c))
  | .Replace id a b c =>
    extend_paths (.Replace id a b c)
      (a.variable_paths ++ (b.variable_paths ++ c.variable_paths))
  | .Exclamation _ | .Exists _ | .ForAll _ | .Ite _ | .ReConcat _ | .ToRegex _
  | .ReUnion _ | .ReInter _ | .ReStar _ | .RePlus _ | .ReOpt _ | .AsQualIdentifier _
  | .TermConstant _ _ _ => []
/-- The variable paths of the terms of a list, in list order. -/
def Term.variable_paths_list : List Term → List (List Term)
  | [] => []
  | t :: rest => t.variable_paths ++ Term.variable_paths_list rest
/-- The variable paths of the bound terms of a binding list. -/
def Term.variable_paths_bindings : List (String × Term) → List (List Term)
  | [] => []
  | (_, t) :: rest => t.variable_paths ++ Term.variable_paths_bindings rest
/-- The variable paths of an optional term. -/
def Term.variable_paths_option : Option Term → List (List Term)
  | none => []
  | some t => t.variable_paths
end

/-- The two states have the same path trace, the same variable path table and
the same tagged variables. -/
def same_paths {C : Carrier} {W : Type} (a b : State C W) : Prop :=
  b.path_trace_ = a.path_trace_ ∧ b.variable_path_table_ = a.variable_path_table_ ∧
    b.tagged_variables = a.tagged_variables

/-- The shape of the handlers of the operators: the state `s'` comes from `s`
by the evaluation of the children of `t` under `visit_children_of`, with steps
before and after it that leave the path trace, the path table and the tagged
variables alone; or no child is evaluated at all (the fast paths). -/
def children_then_store {C : Carrier} {W : Type} (visit : Term → State C W → Res C W)
    (t : Term) (s s' : State C W) : Prop :=
  same_paths s s' ∨
    ∃ s0 s1, same_paths s s0 ∧ visit_children_of visit t s0 = .ok s1 ∧ same_paths s1 s'

/-- The tagged variables are at most as many as the recorded variable
paths. -/
def tagged_within_paths {C : Carrier} {W : Type} (s : State C W) : Prop :=
  s.tagged_variables.length ≤ s.variable_path_table_.length

/-- The path trace of `s'` is the one of `s`, and the tagged variables stay
within the recorded paths. -/
def balanced {C : Carrier} {W : Type} (s s' : State C W) : Prop :=
  s'.path_trace_ = s.path_trace_ ∧ (tagged_within_paths s → tagged_within_paths s')

/-- The arithmetic engine never reports string-derived sub-terms, so the
bridge never runs. -/
def no_bridge {C : Carrier} {W : Type} (E : Env C W) : Prop :=
  ∀ w t, E.arithmetic_hasStringTerms w t = false

/-- Every row of the variable path table of `s'` is a row of the table of `s`
or one of the paths `P` continued by the path trace of `s` read upwards. -/
def rows_from {C : Carrier} {W : Type} (P : List (List Term)) (s s' : State C W) : Prop :=
  ∀ row, row ∈ s'.variable_path_table_ →
    row ∈ s.variable_path_table_ ∨ ∃ p, p ∈ P ∧ row = p ++ s.path_trace_.reverse

/-- The effect of a walk on the bookkeeping of the paths: it is balanced, and
when the bridge never runs the new rows of the path table are among the paths
`P`, continued by the path trace at the start. -/
def walked {C : Carrier} {W : Type} (E : Env C W) (P : List (List Term)) (s s' : State C W) :
    Prop :=
  balanced s s' ∧ (no_bridge E → rows_from P s s')

/-- The reference collaborators with a relational string engine that holds
the symbol table's Value of every variable, so that every variable reference is
tagged. -/
def refEnvTagging : Env refCarrier RefWorld :=
  { refEnv with
    ENABLE_RELATIONAL_STRING_AUTOMATA := true
    string_get_variable_value := RefWorld.getValue }

/-- The term `(and (not x))`. -/
def and_not_x : Term := .And 0 [.Not 1 (.QualIdentifier 2 "x")]

/-- A solver state in which `x` is a Boolean variable with the value true. -/
def state_x_true : State refCarrier RefWorld :=
  refState [("x", some (.BOOl_CONSTANT true))]

end Solver

/-! ## Serialization of big integers (`src/utils/Serialize.h`)

`save` and `load` for `Theory::BigInteger`, a multiprecision number with a
sign-magnitude backend.  The number class and the archive are not part of the
sources at hand; what the two functions use of them is the record
`BigIntegerOps` and the type `Item`. -/

namespace Util
namespace Serialize

/-- One item of a binary archive: a `bool`, a `std::size_t` or a block of
binary data (here always a block of limbs). -/
inductive Item where
  | boolean (b : Bool)
  | size (n : Nat)
  | binary_data (limbs : List Nat)
  deriving DecidableEq, Repr

/-- The archive: the items written so far, oldest first; reading takes items
from the front. -/
abbrev Archive := List Item

/-- What `save` and `load` call on a `Theory::BigInteger`: the member `sign()`
of the number, which is an `int` (negative, zero or positive as the number
is), and the members of its backend. -/
structure BigIntegerOps (B : Type) where
  /- `big_integer.sign()` -/
  sign : B → Int
  /- `big_integer.backend().size()`: the number of limbs -/
  backend_size : B → Nat
  /- the limbs `big_integer.backend().limbs()` points to, least significant first -/
  backend_limbs : B → List Nat
  /- `big_integer.backend().resize(new_size, min_size)` -/
  backend_resize : B → Nat → Nat → B
  /- writing a block of limbs through `big_integer.backend().limbs()` -/
  backend_write_limbs : B → List Nat → B
  /- `big_integer.backend().negate()` -/
  backend_negate : B → B
  /- `big_integer.backend().normalize()` -/
  backend_normalize : B → B

/-- Conversion of an `int` to `bool`: every value other than 0 is true. -/
def int_to_bool (n : Int) : Bool := decide (n ≠ 0)

/-- Promotion of a `bool` to `int` in a comparison with an `int`. -/
def bool_to_int (b : Bool) : Int := if b then 1 else 0

/-- Embedding of `Serialize::save` for a `BigInteger`: the sign flag, the limb
count and the limbs are written, in this order. -/
def save {B : Type} (K : BigIntegerOps B) (ar : Archive) (big_integer : B) : Archive :=
  let s : Bool := int_to_bool (K.sign big_integer)
  let ar1 := ar ++ [Item.boolean s]
  let c : Nat := K.backend_size big_integer
  let ar2 := ar1 ++ [Item.size c]
  ar2 ++ [Item.binary_data ((K.backend_limbs big_integer).take c)]

/-- Embedding of `Serialize::load` for a `BigInteger`: a flag, a count and a
block of that many limbs are read into the target; the result is the rest of
the archive and the target, or nothing when the archive does not start with
these three items. -/
def load {B : Type} (K : BigIntegerOps B) (ar : Archive) (big_integer : B) :
    Option (Archive × B) :=
  match ar with
  | Item.boolean s :: Item.size c :: Item.binary_data limbs :: rest =>
    if limbs.length = c then
      let b1 := K.backend_resize big_integer c c
      let b2 := K.backend_write_limbs b1 limbs
      let b3 := if bool_to_int s ≠ K.sign b2 then K.backend_negate b2 else b2
      some (rest, K.backend_normalize b3)
    else none
  | _ => none

/-- A big integer in sign-magnitude form: the flag `m_sign` is true for a
negative number, the limbs are listed least significant first. -/
structure SignMagnitude where
  m_sign : Bool
  m_limbs : List Nat
  deriving DecidableEq, Repr

namespace SignMagnitude

/-- The limbs without the zero limbs at the most significant end; one limb is
always kept. -/
def strip : List Nat → List Nat
  | [] => [0]
  | limb :: rest =>
    match strip rest with
    | [0] => [limb]
    | stripped => limb :: stripped

/-- The value is zero: a single limb that is 0. -/
def is_zero (b : SignMagnitude) : Bool := decide (b.m_limbs = [0])

/-- The integer a sign-magnitude number stands for, with limbs of 64 bits. -/
def toInt (b : SignMagnitude) : Int :=
  let magnitude : Nat := b.m_limbs.foldr (fun limb acc => limb + 2 ^ 64 * acc) 0
  if b.m_sign then -(magnitude : Int) else (magnitude : Int)

end SignMagnitude

/-- A reference library for the sign-magnitude numbers: `sign` is -1, 0 or 1;
`resize` sets the number of limbs and keeps the sign flag; `negate` flips the
sign flag, except that zero is never negative; `normalize` drops the zero
limbs at the most significant end. -/
def refBigInteger : BigIntegerOps SignMagnitude where
  sign := fun b => if b.is_zero then 0 else if b.m_sign then -1 else 1
  backend_size := fun b => b.m_limbs.length
  backend_limbs := fun b => b.m_limbs
  backend_resize := fun b new_size _ =>
    { b with m_limbs := (b.m_limbs ++ List.replicate new_size 0).take new_size }
  backend_write_limbs := fun b limbs => { b with m_limbs := limbs }
  backend_negate := fun b =>
    { b with m_sign := !b.m_sign && !b.is_zero }
  backend_normalize := fun b => { b with m_limbs := SignMagnitude.strip b.m_limbs }

/-- The number -5. -/
def minus_five : SignMagnitude := { m_sign := true, m_limbs := [5] }

/-- The number 5. -/
def plus_five : SignMagnitude := { m_sign := false, m_limbs := [5] }

/-- The number 0, the value of a freshly constructed `BigInteger`. -/
def zero : SignMagnitude := { m_sign := false, m_limbs := [0] }

end Serialize
end Util

namespace Solver

/-! ### Definitions for the substring modes and the disjunctions -/

/-- Specification (§4.1, `SubString`): "the fully-supported modes are
`FROMINDEX`, `FROMFIRSTOF`, `FROMLASTOF`, and `FROMINDEXTOINDEX`". -/
def SubStringMode.supported : SubStringMode → Bool
  | .FROMINDEX | .FROMFIRSTOF | .FROMLASTOF | .FROMINDEXTOINDEX => true
  | _ => false

/-- An index term that the default case of the switch in `visitSubString` lets
pass: an identifier or a constant. -/
def plain_index (t : Term) : Bool :=
  decide (t.type = TermType.QUALIDENTIFIER) || decide (t.type = TermType.TERMCONSTANT)

/-- The term `(substring x (len x) 1)` with a mode outside the twelve named
cases of the switch: the start index is neither an identifier nor a constant. -/
def substring_none_len : Term :=
  .SubString 0 .NONE (.QualIdentifier 1 "x") (.Len 2 (.QualIdentifier 4 "x"))
    (some (.TermConstant 3 .NUMERAL "1"))

/-- Specification of one disjunct (§4.1, `Or`: "satisfiability is the
disjunction"): the disjunct, evaluated in its own scope pushed on the state
`s`, has a satisfiable Value. -/
def disjunct_holds {C : Carrier} {W : Type} (E : Env C W)
    (visit : Term → State C W → Res C W) (term : Term) (s : State C W) : Bool :=
  match check_and_visit E visit term { s with world := E.push_scope s.world term.id } with
  | .error _ => false
  | .ok (_, s1) =>
    match getTermValue E s1 term with
    | none => false
    | some param => E.isSatisfiable param

/-- The state in which the disjunct after `term` is evaluated (§4.1, per
disjunct: "push-scope → evaluate → refine-if-applicable → clear → pop-scope"):
`term` has been evaluated in its own scope; when it is not an `And` the
variables have been refined if it holds and the term values cleared; the
verdict of the scope has been reported and the scope popped. -/
def state_after_disjunct {C : Carrier} {W : Type} (E : Env C W)
    (visit : Term → State C W → Res C W) (term : Term) (s : State C W) : State C W :=
  match check_and_visit E visit term { s with world := E.push_scope s.world term.id } with
  | .error _ => s
  | .ok (_, s1) =>
    let holds := disjunct_holds E visit term s
    let s2 : State C W :=
      if term.type = TermType.AND then s1
      else clearTermValuesAndLocalLetVars E (if holds then update_variables E s1 else s1)
    { s2 with world := E.pop_scope (E.setScopeSatisfiability s2.world holds) }

/-- The state after the disjuncts of a list have been evaluated one after the
other. -/
def state_after_disjuncts {C : Carrier} {W : Type} (E : Env C W)
    (visit : Term → State C W → Res C W) : List Term → State C W → State C W
  | [], s => s
  | term :: rest, s => state_after_disjuncts E visit rest (state_after_disjunct E visit term s)

/-- Specification of the verdict of an `Or` over the disjuncts of a list,
evaluated in source order: some disjunct holds. -/
def some_disjunct_holds {C : Carrier} {W : Type} (E : Env C W)
    (visit : Term → State C W → Res C W) : List Term → State C W → Bool
  | [], _ => false
  | term :: rest, s =>
    disjunct_holds E visit term s ||
      some_disjunct_holds E visit rest (state_after_disjunct E visit term s)

/-- The disjuncts of a list up to and including the first one that holds (all
of them when none holds). -/
def disjuncts_to_first_holding {C : Carrier} {W : Type} (E : Env C W)
    (visit : Term → State C W → Res C W) : List Term → State C W → List Term
  | [], _ => []
  | term :: rest, s =>
    if disjunct_holds E visit term s then [term]
    else term :: disjuncts_to_first_holding E visit rest (state_after_disjunct E visit term s)

/-- Specification of the disjuncts that `visitOr` evaluates (§4.1: "if
model-counting is disabled, short-circuit on the first satisfiable disjunct"):
all of them with `MODEL_COUNTER_ENABLED` on, those up to the first that holds
with it off. -/
def evaluated_disjuncts {C : Carrier} {W : Type} (E : Env C W)
    (visit : Term → State C W → Res C W) (term_list : List Term) (s : State C W) : List Term :=
  if E.MODEL_COUNTER_ENABLED then term_list
  else disjuncts_to_first_holding E visit term_list s

/-- The disjunction `(or (= "a" "b") (= x "a") (> (count x "b") 0))`: the
first disjunct is unsatisfiable, the second is satisfiable, the third cannot
be evaluated. -/
def or_three : List Term :=
  [.Eq 1 (.TermConstant 2 .STRING "a") (.TermConstant 3 .STRING "b"),
   .Eq 4 (.QualIdentifier 5 "x") (.TermConstant 6 .STRING "a"),
   .Gt 7 (.Count 8 [.QualIdentifier 9 "x", .TermConstant 10 .STRING "b"])
     (.TermConstant 11 .NUMERAL "0")]

mutual
/-- The term holds no `Or` node (the term itself included). -/
def Term.or_free : Term → Bool
  | .Or _ _ => false
  | .Let _ bs t => Term.or_free_bindings bs && t.or_free
  | .And _ l | .Plus _ l | .Times _ l | .Concat _ l | .Count _ l
  | .Unknown _ l => Term.or_free_list l
  | .Not _ t | .UMinus _ t | .Len _ t | .ToUpper _ t | .ToLower _ t | .Trim _ t
  | .ToString _ t | .ToInt _ t => t.or_free
  | .Minus _ a b | .Eq _ a b | .NotEq _ a b | .Gt _ a b | .Ge _ a b | .Lt _ a b
  | .Le _ a b | .In _ a b | .NotIn _ a b | .Contains _ a b | .NotContains _ a b
  | .Begins _ a b | .NotBegins _ a b | .Ends _ a b | .NotEnds _ a b | .IndexOf _ a b
  | .LastIndexOf _ a b | .CharAt _ a b => a.or_free && b.or_free
  | .SubString _ _ a b c => a.or_free && b.or_free && Term.or_free_option c
  | .Replace _ a b c => a.or_free && b.or_free && c.or_free
  | .Exclamation _ | .Exists _ | .ForAll _ | .Ite _ | .ReConcat _ | .ToRegex _
  | .ReUnion _ | .ReInter _ | .ReStar _ | .RePlus _ | .ReOpt _ | .AsQualIdentifier _
  | .QualIdentifier _ _ | .TermConstant _ _ _ => true
/-- No term of the list holds an `Or` node. -/
def Term.or_free_list : List Term → Bool
  | [] => true
  | t :: rest => t.or_free && Term.or_free_list rest
/-- No bound term of the binding list holds an `Or` node. -/
def Term.or_free_bindings : List (String × Term) → Bool
  | [] => true
  | (_, t) :: rest => t.or_free && Term.or_free_bindings rest
/-- The optional term holds no `Or` node. -/
def Term.or_free_option : Option Term → Bool
  | none => true
  | some t => t.or_free
end

/-- The reference collaborators with a relational string engine that keeps
the Values it is offered: it accepts every offered variable value, holds the
last one offered for each variable (in entries of the number 1000, which no
scope of the examples has, so that the symbol table does not see them), and
answers with it when asked for the Value of the variable. -/
def refEnvKeeping : Env refCarrier RefWorld :=
  { refEnv with
    ENABLE_RELATIONAL_STRING_AUTOMATA := true
    string_update_variable_value := fun w var val =>
      (true, { w with values :=
        ((1000, var), some val) :: w.values.filter (fun entry => entry.1 != (1000, var)) })
    string_get_variable_value := fun w var =>
      match w.values.lookup (1000, var) with
      | some kept => kept
      | none => none }

/-- The term `(or (and (or (= x "a") (!= y "c")) (= y "c")))`: an `Or` whose
only disjunct holds a nested `Or`. -/
def or_and_or : Term :=
  .Or 0 [.And 1 [.Or 2 [.Eq 3 (.QualIdentifier 4 "x") (.TermConstant 5 .STRING "a"),
                        .NotEq 6 (.QualIdentifier 7 "y") (.TermConstant 8 .STRING "c")],
                 .Eq 9 (.QualIdentifier 10 "y") (.TermConstant 11 .STRING "c")]]

/-- A solver state in which `x` and `y` are string variables whose values are
the set of all strings. -/
def state_x_y_any : State refCarrier RefWorld :=
  refState [("x", some (.STRING_AUTOMATON Lang.any)), ("y", some (.STRING_AUTOMATON Lang.any))]

/-- The term `(or (and (= x "a") (!= y "c")) (= y "c"))`: no `Or` inside a
disjunct. -/
def or_and_eq : Term :=
  .Or 0 [.And 1 [.Eq 3 (.QualIdentifier 4 "x") (.TermConstant 5 .STRING "a"),
                 .NotEq 6 (.QualIdentifier 7 "y") (.TermConstant 8 .STRING "c")],
         .Eq 9 (.QualIdentifier 10 "y") (.TermConstant 11 .STRING "c")]

/-! ## Theorems -/

section Lemmas

variable {C : Carrier} {W : Type}

theorem TermValueMap.insert_of_lookup_none (m : TermValueMap C) (key : Nat)
    (value : Option (Value C)) (h : m.lookup key = none) :
    TermValueMap.insert m key value = ((key, value) :: m, true) := by
  simp [TermValueMap.insert, h]

theorem TermValueMap.insert_of_lookup_some (m : TermValueMap C) (key : Nat)
    (value old : Option (Value C)) (h : m.lookup key = some old) :
    TermValueMap.insert m key value = (m, false) := by
  simp [TermValueMap.insert, h]

theorem storeTermValue_of_lookup_none (s : State C W) (term : Term) (value : Option (Value C))
    (h : s.term_values_.lookup term.id = none) :
    storeTermValue s term value =
      .ok { s with term_values_ := (term.id, value) :: s.term_values_ } := by
  simp [storeTermValue, setTermValue, TermValueMap.insert, h]

theorem storeTermValue_eq_ok (s s' : State C W) (term : Term) (value : Option (Value C))
    (h : storeTermValue s term value = .ok s') :
    s.term_values_.lookup term.id = none ∧
      s' = { s with term_values_ := (term.id, value) :: s.term_values_ } := by
  cases hl : s.term_values_.lookup term.id with
  | none =>
    rw [storeTermValue_of_lookup_none s term value hl] at h
    exact ⟨rfl, (Except.ok.inj h).symm⟩
  | some old =>
    simp [storeTermValue, setTermValue, TermValueMap.insert, hl] at h

theorem lookup_cons_self {β : Type} (k : Nat) (v : β) (m : List (Nat × β)) :
    List.lookup k ((k, v) :: m) = some v := by
  simp [List.lookup]

theorem lookup_cons_ne {β : Type} (k k' : Nat) (v : β) (m : List (Nat × β)) (h : k' ≠ k) :
    List.lookup k' ((k, v) :: m) = List.lookup k' m := by
  have : (k' == k) = false := by simpa using h
  simp [List.lookup, this]

theorem getTermValue_cons_of_some (E : Env C W) (s : State C W) (k : Nat)
    (v : Option (Value C)) (child : Term) (l : Value C)
    (hfresh : s.term_values_.lookup k = none)
    (hl : getTermValue E s child = some l) :
    getTermValue E { s with term_values_ := (k, v) :: s.term_values_ } child = some l := by
  unfold getTermValue at hl ⊢
  by_cases hk : child.id = k
  · -- the child had no map entry, so its value came from an engine
    subst hk
    simp only [hfresh] at hl
    split at hl <;> simp_all
  · rw [lookup_cons_ne k child.id v s.term_values_ hk]
    exact hl

theorem visitAnd_body_spec (E : Env C W) (visit : Term → State C W → Res C W) (term : Term)
    (s s' : State C W) (b : Bool) (h : visitAnd_body E visit term true s = .ok (b, s')) :
    b = conjunct_holds E visit term s ∧
      (b = true → s' = state_after_conjunct E visit term s) ∧ s'.term_values_ = [] := by
  unfold visitAnd_body at h
  unfold conjunct_holds state_after_conjunct
  cases hc : check_and_visit E visit term s with
  | error e => simp [hc] at h
  | ok p =>
    obtain ⟨flag, s1⟩ := p
    simp only [hc] at h ⊢
    cases hv : getTermValue E s1 term with
    | none => simp [hv, deref] at h
    | some param =>
      simp only [hv, deref, if_true] at h ⊢
      cases hs : E.isSatisfiable param with
      | false =>
        simp only [hs] at h
        simp at h
        obtain ⟨h1, h2⟩ := h
        subst h1; subst h2
        simp [clearTermValuesAndLocalLetVars]
      | true =>
        simp only [hs] at h
        simp at h
        obtain ⟨h1, h2⟩ := h
        subst h1; subst h2
        simp [clearTermValuesAndLocalLetVars]

theorem visitAnd_loop_spec (E : Env C W) (visit : Term → State C W → Res C W) :
    ∀ (l : List Term) (s s' : State C W) (b : Bool),
      visitAnd_loop E visit l true s = .ok (b, s') → b = all_conjuncts_hold E visit l s := by
  intro l
  induction l with
  | nil =>
    intro s s' b h
    simp [visitAnd_loop] at h
    simp [all_conjuncts_hold, h.1]
  | cons term rest ih =>
    intro s s' b h
    unfold visitAnd_loop at h
    cases hb : visitAnd_body E visit term true s with
    | error e => simp [hb] at h
    | ok p =>
      obtain ⟨b1, s1⟩ := p
      obtain ⟨hb1, hs1, _⟩ := visitAnd_body_spec E visit term s s1 b1 hb
      simp only [hb] at h
      cases b1 with
      | false =>
        simp at h
        simp [all_conjuncts_hold, ← hb1, h.1]
      | true =>
        simp at h
        have := ih s1 s' b h
        rw [all_conjuncts_hold, ← hb1, ← hs1 rfl, ← this]
        simp

theorem visitAnd_loop_clears (E : Env C W) (visit : Term → State C W → Res C W) :
    ∀ (l : List Term) (s s' : State C W) (b : Bool), l ≠ [] →
      visitAnd_loop E visit l true s = .ok (b, s') → s'.term_values_ = [] := by
  intro l
  induction l with
  | nil => intro s s' b hne; exact absurd rfl hne
  | cons term rest ih =>
    intro s s' b _ h
    unfold visitAnd_loop at h
    cases hb : visitAnd_body E visit term true s with
    | error e => simp [hb] at h
    | ok p =>
      obtain ⟨b1, s1⟩ := p
      obtain ⟨_, _, hm⟩ := visitAnd_body_spec E visit term s s1 b1 hb
      simp only [hb] at h
      cases b1 with
      | false =>
        simp at h
        rw [← h.2]; exact hm
      | true =>
        simp at h
        cases rest with
        | nil =>
          simp [visitAnd_loop] at h
          rw [← h.2]; exact hm
        | cons t2 r2 => exact ih s1 s' b (by simp) h

theorem visitAnd_arithmetic_result_map (E : Env C W) (and_term : Term) (s : State C W) :
    (visitAnd_arithmetic_result E and_term s).term_values_ = s.term_values_ := by
  unfold visitAnd_arithmetic_result
  split
  · split <;> rfl
  · rfl

theorem visitAnd_string_result_map (E : Env C W) (and_term : Term) (s s' : State C W)
    (h : visitAnd_string_result E and_term s = .ok s') : s'.term_values_ = s.term_values_ := by
  unfold visitAnd_string_result at h
  split at h
  · split at h
    · rw [← Except.ok.inj h]
    · split at h
      · rw [← Except.ok.inj h]
      · split at h
        · rw [← Except.ok.inj h]
        · split at h
          · exact absurd h (by simp)
          · rw [← Except.ok.inj h]
  · rw [← Except.ok.inj h]

theorem visitAnd_loop_cons (E : Env C W) (visit : Term → State C W → Res C W) (term : Term)
    (rest : List Term) (b : Bool) (s : State C W) :
    visitAnd_loop E visit (term :: rest) b s =
      match visitAnd_body E visit term b s with
      | .error e => .error e
      | .ok (is_satisfiable1, s1) =>
        if is_satisfiable1 = false then .ok (is_satisfiable1, s1)
        else visitAnd_loop E visit rest is_satisfiable1 s1 := by
  rw [visitAnd_loop]

theorem visitAnd_loop_append (E : Env C W) (visit : Term → State C W → Res C W) :
    ∀ (pre l : List Term) (s0 s1 : State C W),
      visitAnd_loop E visit pre true s0 = .ok (true, s1) →
      visitAnd_loop E visit (pre ++ l) true s0 = visitAnd_loop E visit l true s1 := by
  intro pre
  induction pre with
  | nil =>
    intro l s0 s1 h
    simp [visitAnd_loop] at h
    simp [h]
  | cons term rest ih =>
    intro l s0 s1 h
    rw [List.cons_append, visitAnd_loop_cons]
    rw [visitAnd_loop_cons] at h
    cases hb : visitAnd_body E visit term true s0 with
    | error e => simp [hb] at h
    | ok p =>
      obtain ⟨b1, s⟩ := p
      simp only [hb] at h ⊢
      cases b1 with
      | false => simp at h
      | true =>
        simp at h ⊢
        exact ih l s s1 h

theorem visitAnd_body_fails (E : Env C W) (visit : Term → State C W → Res C W) (k : Term)
    (s1 s1' : State C W) (flag : Bool) (param : Value C)
    (hk : check_and_visit E visit k s1 = .ok (flag, s1'))
    (hval : getTermValue E s1' k = some param)
    (hfail : E.isSatisfiable param = false ∨
      (update_variables E { s1' with still_sat_ := true }).still_sat_ = false) :
    visitAnd_body E visit k true s1 =
      .ok (false, clearTermValuesAndLocalLetVars E
        (if E.isSatisfiable param then update_variables E { s1' with still_sat_ := true }
         else s1')) := by
  simp only [visitAnd_body, hk, hval, deref, if_true]
  cases hs : E.isSatisfiable param with
  | false => simp
  | true =>
    rcases hfail with h | h
    · rw [hs] at h; exact absurd h (by simp)
    · simp [h]

theorem visitOr_loop_cons (E : Env C W) (visit : Term → State C W → Res C W) (term : Term)
    (rest : List Term) (b : Bool) (s : State C W) :
    visitOr_loop E visit (term :: rest) b s =
      match visitOr_body E visit term s with
      | .error e => .error e
      | .ok (is_scope_satisfiable, s1) =>
        if (b || is_scope_satisfiable) && !E.MODEL_COUNTER_ENABLED then
          .ok (b || is_scope_satisfiable, s1)
        else visitOr_loop E visit rest (b || is_scope_satisfiable) s1 := by
  rw [visitOr_loop]

theorem process_mixed_loop_flag (E : Env C W) (visit : Term → State C W → Res C W)
    (flag : Bool) (term : Term) :
    ∀ (l : List Term) (s : State C W),
      process_mixed_loop (E.withCounting flag) visit term l s =
        process_mixed_loop E visit term l s := by
  intro l
  induction l with
  | nil => intro s; rfl
  | cons string_term rest ih =>
    intro s
    unfold process_mixed_loop
    simp only [ih]
    rfl

theorem check_and_visit_flag (E : Env C W) (visit : Term → State C W → Res C W) (flag : Bool)
    (term : Term) (s : State C W) :
    check_and_visit (E.withCounting flag) visit term s =
      check_and_visit E visit term s := by
  unfold check_and_visit process_mixed_integer_string_constraints_in
  simp only [process_mixed_loop_flag]
  rfl

theorem visitOr_body_flag (E : Env C W) (visit : Term → State C W → Res C W) (flag : Bool)
    (term : Term) (s : State C W) :
    visitOr_body (E.withCounting flag) visit term s =
      visitOr_body E visit term s := by
  unfold visitOr_body
  simp only [check_and_visit_flag]
  rfl

theorem visitOr_loop_of_true (E : Env C W) (visit : Term → State C W → Res C W) :
    ∀ (l : List Term) (s s' : State C W) (b : Bool),
      visitOr_loop E visit l true s = .ok (b, s') → b = true := by
  intro l
  induction l with
  | nil => intro s s' b h; simp [visitOr_loop] at h; exact h.1
  | cons term rest ih =>
    intro s s' b h
    rw [visitOr_loop_cons] at h
    cases hb : visitOr_body E visit term s with
    | error e => simp [hb] at h
    | ok p =>
      obtain ⟨v, s1⟩ := p
      simp only [hb, Bool.true_or, Bool.true_and] at h
      split at h
      · simp at h; exact h.1
      · exact ih s1 s' b h

theorem withCounting_flag (E : Env C W) (flag : Bool) :
    (E.withCounting flag).MODEL_COUNTER_ENABLED = flag := rfl

theorem visitOr_loop_counting (E : Env C W) (visit : Term → State C W → Res C W) :
    ∀ (l : List Term) (acc : Bool) (s s_on : State C W) (b : Bool),
      visitOr_loop (E.withCounting true) visit l acc s = .ok (b, s_on) →
      ∃ s_off, visitOr_loop (E.withCounting false) visit l acc s = .ok (b, s_off) := by
  intro l
  induction l with
  | nil => intro acc s s_on b h; exact ⟨s_on, h⟩
  | cons term rest ih =>
    intro acc s s_on b h
    rw [visitOr_loop_cons, visitOr_body_flag, withCounting_flag] at h
    rw [visitOr_loop_cons, visitOr_body_flag, withCounting_flag]
    cases hb : visitOr_body E visit term s with
    | error e => simp [hb] at h
    | ok p =>
      obtain ⟨v, s1⟩ := p
      simp only [hb] at h ⊢
      simp only [Bool.not_true, Bool.and_false, Bool.false_eq_true, if_false] at h
      cases hv : (acc || v) with
      | true =>
        rw [hv] at h
        have := visitOr_loop_of_true _ visit rest s1 s_on b h
        exact ⟨s1, by simp [this]⟩
      | false =>
        rw [hv] at h
        simp only [Bool.not_false, Bool.and_true, Bool.false_eq_true, if_false]
        exact ih false s1 s_on b h

theorem visitAssert_of_evaluated (E : Env C W) (visit : Term → State C W → Res C W)
    (term : Term) (s s1 : State C W) (flag : Bool) (result : Value C)
    (hv : check_and_visit E visit term s = .ok (flag, s1))
    (hr : getTermValue E s1 term = some result) :
    visitAssert E visit term s =
      .ok (clearTermValuesAndLocalLetVars E
        (if term.type ≠ TermType.AND ∧ term.type ≠ TermType.OR ∧ E.isSatisfiable result = true then
          update_variables E
            { s1 with
              world := E.setScopeSatisfiability
                (E.updateSatisfiability s1.world (E.isSatisfiable result))
                (E.isSatisfiable result) }
        else
          { s1 with
            world := E.setScopeSatisfiability
              (E.updateSatisfiability s1.world (E.isSatisfiable result))
              (E.isSatisfiable result) })) := by
  simp only [visitAssert, hv, hr, deref]
  by_cases h1 : term.type = TermType.AND
  · simp [h1]
  · by_cases h2 : term.type = TermType.OR
    · simp [h2]
    · have h1' : TermType.AND ≠ term.type := fun h => h1 h.symm
      have h2' : TermType.OR ≠ term.type := fun h => h2 h.symm
      by_cases h3 : E.isSatisfiable result = true <;> simp [h1, h2, h1', h2', h3]

theorem visitAssert_verdict (E : Env C W) (visit : Term → State C W → Res C W)
    (verdict : W → Bool) (commands : List Command) (hf : VerdictFrame E visit verdict commands)
    (term : Term) (hmem : Command.Assert term ∈ commands) (s s2 : State C W)
    (h : visitAssert E visit term s = .ok s2) :
    ∃ (flag : Bool) (s1 : State C W) (result : Value C),
      check_and_visit E visit term s = .ok (flag, s1) ∧ getTermValue E s1 term = some result ∧
      verdict s2.world = (verdict s.world && E.isSatisfiable result) := by
  cases hc : check_and_visit E visit term s with
  | error e => simp [visitAssert, hc] at h
  | ok p =>
    obtain ⟨flag, s1⟩ := p
    cases hv : getTermValue E s1 term with
    | none => simp [visitAssert, hc, hv, deref] at h
    | some result =>
      refine ⟨flag, s1, result, rfl, hv, ?_⟩
      rw [visitAssert_of_evaluated E visit term s s1 flag result hc hv] at h
      have hs2 := Except.ok.inj h
      rw [← hs2]
      have hbody := hf.body term hmem s s1 flag hc
      simp only [clearTermValuesAndLocalLetVars]
      rw [hf.clear]
      split
      · rw [hf.refine]
        simp only []
        rw [hf.scope, hf.update, hbody]
      · simp only []
        rw [hf.scope, hf.update, hbody]

theorem VerdictFrame.tail (E : Env C W) (visit : Term → State C W → Res C W)
    (verdict : W → Bool) (command : Command) (rest : List Command)
    (hf : VerdictFrame E visit verdict (command :: rest)) : VerdictFrame E visit verdict rest :=
  { update := hf.update, scope := hf.scope, refine := hf.refine, clear := hf.clear,
    push := hf.push, pop := hf.pop,
    body := fun term hmem => hf.body term (List.mem_cons_of_mem _ hmem) }

theorem visit_commands_verdict (E : Env C W) (visit : Term → State C W → Res C W)
    (verdict : W → Bool) :
    ∀ (commands : List Command), VerdictFrame E visit verdict commands →
      ∀ (s s' : State C W), visit_commands E visit commands s = .ok s' →
      (assert_verdicts E visit commands s).length = count_asserts commands ∧
      verdict s'.world = (verdict s.world && (assert_verdicts E visit commands s).all (fun v => v)) := by
  intro commands
  induction commands with
  | nil =>
    intro _ s s' h
    simp [visit_commands] at h
    simp [assert_verdicts, count_asserts, h]
  | cons command rest ih =>
    intro hf s s' h
    have hrest := VerdictFrame.tail E visit verdict command rest hf
    cases command with
    | Other name =>
      simp only [visit_commands, visit_command, visitCommand] at h
      simp only [assert_verdicts, count_asserts]
      exact ih hrest s s' h
    | Assert term =>
      simp only [visit_commands, visit_command] at h
      cases ha : visitAssert E visit term s with
      | error e => simp [ha] at h
      | ok s2 =>
        simp only [ha] at h
        obtain ⟨flag, s1, result, hc, hv, hverdict⟩ :=
          visitAssert_verdict E visit verdict _ hf term (List.mem_cons_self _ _) s s2 ha
        obtain ⟨ih1, ih2⟩ := ih hrest s2 s' h
        simp only [assert_verdicts, hc, hv, ha, count_asserts, List.length_cons, List.all_cons]
        refine ⟨by rw [ih1], ?_⟩
        rw [ih2, hverdict, Bool.and_assoc]

theorem refValueUpdater_verdict (paths : List (List Term)) (term_values : TermValueMap refCarrier) :
    ∀ w : RefWorld, (refValueUpdater w paths term_values).global_assertion_result
      = w.global_assertion_result := by
  unfold refValueUpdater
  induction paths with
  | nil => intro w; rfl
  | cons path rest ih =>
    intro w
    rw [List.foldl_cons, ih]
    split
    · split
      · split <;> rfl
      · rfl
    · rfl

theorem foldl_state_invariant {β : Type} (f : W → β) (g : State C W → Variable → State C W)
    (hg : ∀ st var, f (g st var).world = f st.world) :
    ∀ (vars : List Variable) (st : State C W), f (vars.foldl g st).world = f st.world := by
  intro vars
  induction vars with
  | nil => intro st; rfl
  | cons var rest ih => intro st; rw [List.foldl_cons, ih, hg]

theorem update_variables_invariant {β : Type} (E : Env C W) (f : W → β)
    (h1 : ∀ w paths m, f (E.value_updater_start w paths m) = f w)
    (h2 : ∀ w var x, f (E.setValue w var x) = f w)
    (h3 : ∀ w var x, f (E.string_update_variable_value w var x).2 = f w)
    (s : State C W) : f (update_variables E s).world = f s.world := by
  unfold update_variables
  split
  · rfl
  · dsimp only
    refine (foldl_state_invariant f _ ?_ s.tagged_variables _).trans (h1 _ _ _)
    intro st var
    split
    · rfl
    · dsimp only
      rw [h2, h3]

theorem refEnv_update_variables_verdict (s : State refCarrier RefWorld) :
    (update_variables refEnv s).world.global_assertion_result
      = s.world.global_assertion_result :=
  update_variables_invariant refEnv (fun w => w.global_assertion_result)
    (fun w paths m => refValueUpdater_verdict paths m w) (fun _ _ _ => rfl) (fun _ _ _ => rfl) s

theorem refEnv_check_and_visit (visit : Term → State refCarrier RefWorld → Res refCarrier RefWorld)
    (term : Term) (s s1 : State refCarrier RefWorld) (flag : Bool)
    (h : check_and_visit refEnv visit term s = .ok (flag, s1)) :
    s1 = s ∨ visit term s = .ok s1 := by
  have e1 : ∀ w t, refEnv.arithmetic_hasStringTerms w t = false := fun _ _ => rfl
  have e2 : ∀ w t, refEnv.string_get_term_value w t = none := fun _ _ => rfl
  unfold check_and_visit at h
  simp only [e1, e2, Bool.false_and, Bool.false_eq_true, if_false] at h
  split at h
  · left
    exact (Prod.mk.inj (Except.ok.inj h)).2.symm
  · right
    split at h
    · exact absurd h (by simp)
    · rename_i s2 hv
      rw [hv, (Prod.mk.inj (Except.ok.inj h)).2]

theorem refEnv_verdictFrame_constants :
    VerdictFrame refEnv (visit refEnv 1) (fun w => w.global_assertion_result)
      script_false_true.command_list where
  update := fun _ _ => rfl
  scope := fun _ _ => rfl
  refine := refEnv_update_variables_verdict
  clear := fun _ => rfl
  push := fun _ _ => rfl
  pop := fun _ => rfl
  body := by
    intro term hmem s s1 flag h
    have hterm : term = .TermConstant 1 .BOOL "false" ∨ term = .TermConstant 2 .BOOL "true" := by
      simpa [script_false_true] using hmem
    have hworld : ∀ (id : Nat) (value : String),
        visit refEnv 1 (.TermConstant id .BOOL value) s = .ok s1 → s1.world = s.world := by
      intro id value h
      simp only [visit, visitTermConstant] at h
      rw [(storeTermValue_eq_ok _ _ _ _ h).2]
    rcases refEnv_check_and_visit _ _ _ _ _ h with h1 | h1
    · rw [h1]
    · rcases hterm with ht | ht <;> subst ht <;> exact congrArg _ (hworld _ _ h1)

theorem visitNot_of_child (E : Env C W) (visit : Term → State C W → Res C W) (id : Nat)
    (term : Term) (s s1 : State C W) (c : Value C)
    (hc : visit_children_of visit (Term.Not id term) s = .ok s1)
    (hv : getTermValue E s1 term = some c) :
    visitNot E visit id term s =
      match visitNot_result E c with
      | .error e => .error e
      | .ok value => storeTermValue s1 (Term.Not id term) (some value) := by
  simp only [visitNot, hc, hv, deref]

theorem visitNot_stores (E : Env C W) (visit : Term → State C W → Res C W) (id : Nat)
    (term : Term) (s s1 : State C W) (c value : Value C)
    (hc : visit_children_of visit (Term.Not id term) s = .ok s1)
    (hv : getTermValue E s1 term = some c)
    (hfresh : s1.term_values_.lookup id = none)
    (hres : visitNot_result E c = .ok value) :
    visitNot E visit id term s =
      .ok { s1 with term_values_ := (id, some value) :: s1.term_values_ } := by
  rw [visitNot_of_child E visit id term s s1 c hc hv, hres]
  exact storeTermValue_of_lookup_none s1 (Term.Not id term) (some value) hfresh

theorem visitNotEq_default_stores (E : Env C W) (visit : Term → State C W → Res C W) (id : Nat)
    (left_term right_term : Term) (s s1 : State C W) (l r : Value C)
    (hc : visit_children_of visit (Term.NotEq id left_term right_term) s = .ok s1)
    (hl : getTermValue E s1 left_term = some l)
    (hr : getTermValue E s1 right_term = some r)
    (hfresh : s1.term_values_.lookup id = none) :
    visitNotEq_default E visit id left_term right_term s =
      .ok { s1 with
            term_values_ := (id, some (visitNotEq_result E l r)) :: s1.term_values_ } := by
  simp only [visitNotEq_default, hc, hl, hr, deref]
  exact storeTermValue_of_lookup_none s1 (Term.NotEq id left_term right_term) _ hfresh

theorem visitLt_of_child (E : Env C W) (visit : Term → State C W → Res C W) (id : Nat)
    (left_term right_term : Term) (s s1 : State C W) (l : Value C)
    (hc : visit_children_of visit (Term.Lt id left_term right_term) s = .ok s1)
    (hl : getTermValue E s1 left_term = some l) :
    visitLt E visit id left_term right_term s =
      match visitLt_result E l (getTermValue E s1 right_term) with
      | .error e => .error e
      | .ok value => storeTermValue s1 (Term.Lt id left_term right_term) (some value) := by
  simp only [visitLt, hc, hl, deref]

theorem visitLt_result_cases (E : Env C W) (l r : Value C) :
    ((l.isIntOperand && r.isIntOperand) = true →
      ∃ v, visitLt_result E l (some r) = .ok (.BOOl_CONSTANT v)) ∧
    ((l.isIntOperand && r.isIntOperand) = false →
      ∃ msg, visitLt_result E l (some r) = .error (.fatal msg)) := by
  cases l <;> cases r <;> simp [Value.isIntOperand, visitLt_result, deref]

theorem visitLt_fatal_iff (E : Env C W) (visit : Term → State C W → Res C W) (id : Nat)
    (left_term right_term : Term) (s s1 : State C W) (l r : Value C)
    (hc : visit_children_of visit (Term.Lt id left_term right_term) s = .ok s1)
    (hl : getTermValue E s1 left_term = some l)
    (hr : getTermValue E s1 right_term = some r)
    (hfresh : s1.term_values_.lookup id = none) :
    ((∃ msg, visitLt E visit id left_term right_term s = .error (.fatal msg)) ↔
      (l.isIntOperand && r.isIntOperand) = false) ∧
    ((l.isIntOperand && r.isIntOperand) = true →
      ∃ v, visitLt E visit id left_term right_term s =
        .ok { s1 with term_values_ := (id, some (.BOOl_CONSTANT v)) :: s1.term_values_ }) := by
  rw [visitLt_of_child E visit id left_term right_term s s1 l hc hl, hr]
  have hgood : (l.isIntOperand && r.isIntOperand) = true →
      ∃ v, (match visitLt_result E l (some r) with
        | .error e => (.error e : Res C W)
        | .ok value => storeTermValue s1 (Term.Lt id left_term right_term) (some value)) =
        .ok { s1 with term_values_ := (id, some (.BOOl_CONSTANT v)) :: s1.term_values_ } := by
    intro h
    obtain ⟨v, hv⟩ := (visitLt_result_cases E l r).1 h
    refine ⟨v, ?_⟩
    rw [hv]
    exact storeTermValue_of_lookup_none s1 (Term.Lt id left_term right_term) _ hfresh
  refine ⟨⟨?_, ?_⟩, hgood⟩
  · rintro ⟨msg, hmsg⟩
    cases hb : (l.isIntOperand && r.isIntOperand) with
    | false => rfl
    | true =>
      obtain ⟨v, hv⟩ := hgood hb
      rw [hv] at hmsg
      exact absurd hmsg (by simp)
  · intro h
    obtain ⟨msg, hmsg⟩ := (visitLt_result_cases E l r).2 h
    exact ⟨msg, by rw [hmsg]⟩

theorem visitLe_of_child (E : Env C W) (visit : Term → State C W → Res C W) (id : Nat)
    (left_term right_term : Term) (s s1 : State C W) (l : Value C)
    (hc : visit_children_of visit (Term.Le id left_term right_term) s = .ok s1)
    (hl : getTermValue E s1 left_term = some l) :
    visitLe E visit id left_term right_term s =
      match visitLe_result E l (getTermValue E s1 right_term) with
      | .error e => .error e
      | .ok value => storeTermValue s1 (Term.Le id left_term right_term) (some value) := by
  simp only [visitLe, hc, hl, deref]

theorem visitLe_result_cases (E : Env C W) (l r : Value C) :
    ((l.isIntOperand && r.isIntOperand) = true →
      ∃ v, visitLe_result E l (some r) = .ok (.BOOl_CONSTANT v)) ∧
    ((l.isIntOperand && r.isIntOperand) = false →
      ∃ msg, visitLe_result E l (some r) = .error (.fatal msg)) := by
  cases l <;> cases r <;> simp [Value.isIntOperand, visitLe_result, deref]

theorem visitLe_fatal_iff (E : Env C W) (visit : Term → State C W → Res C W) (id : Nat)
    (left_term right_term : Term) (s s1 : State C W) (l r : Value C)
    (hc : visit_children_of visit (Term.Le id left_term right_term) s = .ok s1)
    (hl : getTermValue E s1 left_term = some l)
    (hr : getTermValue E s1 right_term = some r)
    (hfresh : s1.term_values_.lookup id = none) :
    ((∃ msg, visitLe E visit id left_term right_term s = .error (.fatal msg)) ↔
      (l.isIntOperand && r.isIntOperand) = false) ∧
    ((l.isIntOperand && r.isIntOperand) = true →
      ∃ v, visitLe E visit id left_term right_term s =
        .ok { s1 with term_values_ := (id, some (.BOOl_CONSTANT v)) :: s1.term_values_ }) := by
  rw [visitLe_of_child E visit id left_term right_term s s1 l hc hl, hr]
  have hgood : (l.isIntOperand && r.isIntOperand) = true →
      ∃ v, (match visitLe_result E l (some r) with
        | .error e => (.error e : Res C W)
        | .ok value => storeTermValue s1 (Term.Le id left_term right_term) (some value)) =
        .ok { s1 with term_values_ := (id, some (.BOOl_CONSTANT v)) :: s1.term_values_ } := by
    intro h
    obtain ⟨v, hv⟩ := (visitLe_result_cases E l r).1 h
    refine ⟨v, ?_⟩
    rw [hv]
    exact storeTermValue_of_lookup_none s1 (Term.Le id left_term right_term) _ hfresh
  refine ⟨⟨?_, ?_⟩, hgood⟩
  · rintro ⟨msg, hmsg⟩
    cases hb : (l.isIntOperand && r.isIntOperand) with
    | false => rfl
    | true =>
      obtain ⟨v, hv⟩ := hgood hb
      rw [hv] at hmsg
      exact absurd hmsg (by simp)
  · intro h
    obtain ⟨msg, hmsg⟩ := (visitLe_result_cases E l r).2 h
    exact ⟨msg, by rw [hmsg]⟩

theorem visitGt_of_child (E : Env C W) (visit : Term → State C W → Res C W) (id : Nat)
    (left_term right_term : Term) (s s1 : State C W) (l : Value C)
    (hc : visit_children_of visit (Term.Gt id left_term right_term) s = .ok s1)
    (hl : getTermValue E s1 left_term = some l) :
    visitGt E visit id left_term right_term s =
      match visitGt_result E l (getTermValue E s1 right_term) with
      | .error e => .error e
      | .ok value => storeTermValue s1 (Term.Gt id left_term right_term) (some value) := by
  simp only [visitGt, hc, hl, deref]

theorem visitGt_result_cases (E : Env C W) (l r : Value C) :
    ((l.isIntOperand && r.isIntOperand) = true →
      ∃ v, visitGt_result E l (some r) = .ok (.BOOl_CONSTANT v)) ∧
    ((l.isIntOperand && r.isIntOperand) = false →
      ∃ msg, visitGt_result E l (some r) = .error (.fatal msg)) := by
  cases l <;> cases r <;> simp [Value.isIntOperand, visitGt_result, deref]

theorem visitGt_fatal_iff (E : Env C W) (visit : Term → State C W → Res C W) (id : Nat)
    (left_term right_term : Term) (s s1 : State C W) (l r : Value C)
    (hc : visit_children_of visit (Term.Gt id left_term right_term) s = .ok s1)
    (hl : getTermValue E s1 left_term = some l)
    (hr : getTermValue E s1 right_term = some r)
    (hfresh : s1.term_values_.lookup id = none) :
    ((∃ msg, visitGt E visit id left_term right_term s = .error (.fatal msg)) ↔
      (l.isIntOperand && r.isIntOperand) = false) ∧
    ((l.isIntOperand && r.isIntOperand) = true →
      ∃ v, visitGt E visit id left_term right_term s =
        .ok { s1 with term_values_ := (id, some (.BOOl_CONSTANT v)) :: s1.term_values_ }) := by
  rw [visitGt_of_child E visit id left_term right_term s s1 l hc hl, hr]
  have hgood : (l.isIntOperand && r.isIntOperand) = true →
      ∃ v, (match visitGt_result E l (some r) with
        | .error e => (.error e : Res C W)
        | .ok value => storeTermValue s1 (Term.Gt id left_term right_term) (some value)) =
        .ok { s1 with term_values_ := (id, some (.BOOl_CONSTANT v)) :: s1.term_values_ } := by
    intro h
    obtain ⟨v, hv⟩ := (visitGt_result_cases E l r).1 h
    refine ⟨v, ?_⟩
    rw [hv]
    exact storeTermValue_of_lookup_none s1 (Term.Gt id left_term right_term) _ hfresh
  refine ⟨⟨?_, ?_⟩, hgood⟩
  · rintro ⟨msg, hmsg⟩
    cases hb : (l.isIntOperand && r.isIntOperand) with
    | false => rfl
    | true =>
      obtain ⟨v, hv⟩ := hgood hb
      rw [hv] at hmsg
      exact absurd hmsg (by simp)
  · intro h
    obtain ⟨msg, hmsg⟩ := (visitGt_result_cases E l r).2 h
    exact ⟨msg, by rw [hmsg]⟩

theorem visitGe_of_child (E : Env C W) (visit : Term → State C W → Res C W) (id : Nat)
    (left_term right_term : Term) (s s1 : State C W) (l : Value C)
    (hc : visit_children_of visit (Term.Ge id left_term right_term) s = .ok s1)
    (hl : getTermValue E s1 left_term = some l) :
    visitGe E visit id left_term right_term s =
      match visitGe_result E l (getTermValue E s1 right_term) with
      | .error e => .error e
      | .ok value => storeTermValue s1 (Term.Ge id left_term right_term) (some value) := by
  simp only [visitGe, hc, hl, deref]

theorem visitGe_result_cases (E : Env C W) (l r : Value C) :
    ((l.isIntOperand && r.isIntOperand) = true →
      ∃ v, visitGe_result E l (some r) = .ok (.BOOl_CONSTANT v)) ∧
    ((l.isIntOperand && r.isIntOperand) = false →
      ∃ msg, visitGe_result E l (some r) = .error (.fatal msg)) := by
  cases l <;> cases r <;> simp [Value.isIntOperand, visitGe_result, deref]

theorem visitGe_fatal_iff (E : Env C W) (visit : Term → State C W → Res C W) (id : Nat)
    (left_term right_term : Term) (s s1 : State C W) (l r : Value C)
    (hc : visit_children_of visit (Term.Ge id left_term right_term) s = .ok s1)
    (hl : getTermValue E s1 left_term = some l)
    (hr : getTermValue E s1 right_term = some r)
    (hfresh : s1.term_values_.lookup id = none) :
    ((∃ msg, visitGe E visit id left_term right_term s = .error (.fatal msg)) ↔
      (l.isIntOperand && r.isIntOperand) = false) ∧
    ((l.isIntOperand && r.isIntOperand) = true →
      ∃ v, visitGe E visit id left_term right_term s =
        .ok { s1 with term_values_ := (id, some (.BOOl_CONSTANT v)) :: s1.term_values_ }) := by
  rw [visitGe_of_child E visit id left_term right_term s s1 l hc hl, hr]
  have hgood : (l.isIntOperand && r.isIntOperand) = true →
      ∃ v, (match visitGe_result E l (some r) with
        | .error e => (.error e : Res C W)
        | .ok value => storeTermValue s1 (Term.Ge id left_term right_term) (some value)) =
        .ok { s1 with term_values_ := (id, some (.BOOl_CONSTANT v)) :: s1.term_values_ } := by
    intro h
    obtain ⟨v, hv⟩ := (visitGe_result_cases E l r).1 h
    refine ⟨v, ?_⟩
    rw [hv]
    exact storeTermValue_of_lookup_none s1 (Term.Ge id left_term right_term) _ hfresh
  refine ⟨⟨?_, ?_⟩, hgood⟩
  · rintro ⟨msg, hmsg⟩
    cases hb : (l.isIntOperand && r.isIntOperand) with
    | false => rfl
    | true =>
      obtain ⟨v, hv⟩ := hgood hb
      rw [hv] at hmsg
      exact absurd hmsg (by simp)
  · intro h
    obtain ⟨msg, hmsg⟩ := (visitGe_result_cases E l r).2 h
    exact ⟨msg, by rw [hmsg]⟩

theorem process_mixed_loop_starts (E : Env C W) (visit : Term → State C W → Res C W)
    (f g : W → Term → W) (term : Term) :
    ∀ (l : List Term) (s : State C W),
      process_mixed_loop (E.withStarts f g) visit term l s =
        process_mixed_loop E visit term l s := by
  intro l
  induction l with
  | nil => intro s; rfl
  | cons string_term rest ih =>
    intro s
    unfold process_mixed_loop
    simp only [ih]
    rfl

theorem check_and_visit_starts (E : Env C W) (visit : Term → State C W → Res C W)
    (f g : W → Term → W) (term : Term) (s : State C W) :
    check_and_visit (E.withStarts f g) visit term s = check_and_visit E visit term s := by
  unfold check_and_visit process_mixed_integer_string_constraints_in
  simp only [process_mixed_loop_starts]
  rfl

theorem visitAnd_body_starts (E : Env C W) (visit : Term → State C W → Res C W)
    (f g : W → Term → W) (term : Term) (b : Bool) (s : State C W) :
    visitAnd_body (E.withStarts f g) visit term b s = visitAnd_body E visit term b s := by
  unfold visitAnd_body
  simp only [check_and_visit_starts]
  rfl

theorem visitAnd_loop_starts (E : Env C W) (visit : Term → State C W → Res C W)
    (f g : W → Term → W) :
    ∀ (l : List Term) (b : Bool) (s : State C W),
      visitAnd_loop (E.withStarts f g) visit l b s = visitAnd_loop E visit l b s := by
  intro l
  induction l with
  | nil => intro b s; rfl
  | cons term rest ih =>
    intro b s
    rw [visitAnd_loop_cons, visitAnd_loop_cons, visitAnd_body_starts]
    simp only [ih]

theorem visitAnd_after_engines (E : Env C W) (visit : Term → State C W → Res C W)
    (f g : W → Term → W) (id : Nat) (term_list : List Term) (s : State C W) :
    visitAnd (E.withStarts f g) visit id term_list s =
      match visitAnd_loop E visit term_list true
          (visitAnd_engines (E.withStarts f g) (Term.And id term_list) s) with
      | .error e => .error e
      | .ok (is_satisfiable, s1) =>
        match storeTermValue s1 (Term.And id term_list)
            (some (.BOOl_CONSTANT is_satisfiable)) with
        | .error e => .error e
        | .ok s2 =>
          visitAnd_string_result E (Term.And id term_list)
            (visitAnd_arithmetic_result E (Term.And id term_list) s2) := by
  unfold visitAnd
  simp only [visitAnd_loop_starts]
  rfl

/-! ### Termination: fuel that suffices, and independence of the fuel -/

theorem Term.size_pos (t : Term) : 0 < t.size := by
  cases t <;> simp [Term.size]

theorem Term.size_le_size_list (u : Term) :
    ∀ l : List Term, u ∈ l → u.size ≤ Term.size_list l := by
  intro l
  induction l with
  | nil => intro h; simp at h
  | cons t rest ih =>
    intro h
    rw [Term.size_list]
    rcases List.mem_cons.1 h with h | h
    · subst h; omega
    · have := ih h; omega

theorem Term.size_le_size_bindings (u : Term) :
    ∀ bs : List (String × Term), u ∈ bs.map Prod.snd → u.size ≤ Term.size_bindings bs := by
  intro bs
  induction bs with
  | nil => intro h; simp at h
  | cons b rest ih =>
    intro h
    obtain ⟨name, t⟩ := b
    rw [Term.size_bindings]
    rw [List.map_cons] at h
    rcases List.mem_cons.1 h with h | h
    · subst h; simp
    · have := ih h; omega

theorem Term.size_lt_of_mem_visit_children (t u : Term) (h : u ∈ t.visit_children) :
    u.size < t.size := by
  cases t <;> simp only [Term.visit_children, List.not_mem_nil] at h
  case Let id bs body =>
    simp only [Term.size]
    rcases List.mem_append.1 h with h | h
    · have := Term.size_le_size_bindings u bs h; omega
    · simp at h; subst h; omega
  case SubString id mode a b c =>
    simp only [Term.size]
    cases c with
    | none => simp at h; rcases h with h | h <;> subst h <;> simp [Term.size_option] <;> omega
    | some c =>
      simp at h
      rcases h with h | h | h <;> subst h <;> simp [Term.size_option] <;> omega
  case Replace id a b c =>
    simp only [Term.size]; simp at h
    rcases h with h | h | h <;> subst h <;> omega
  all_goals
    simp only [Term.size]
    exact Nat.lt_succ_of_le (Term.size_le_size_list u _ h)

theorem deref_fuel (p : Option (Value C)) : deref p ≠ .error .outOfFuel := by
  cases p <;> simp [deref]

theorem payload_fuel {α : Type} (p : Option α) : payload p ≠ .error .outOfFuel := by
  cases p <;> simp [payload]

theorem storeTermValue_fuel (s : State C W) (term : Term) (value : Option (Value C)) :
    storeTermValue s term value ≠ .error .outOfFuel := by
  intro h
  simp only [storeTermValue, setTermValue] at h
  split at h
  · rename_i hq; split at hq <;> simp_all
  · simp at h

theorem visit_list_fuel (visit : Term → State C W → Res C W) :
    ∀ l : List Term, (∀ u, u ∈ l → ∀ s, visit u s ≠ .error .outOfFuel) →
      ∀ s, visit_list visit l s ≠ .error .outOfFuel := by
  intro l
  induction l with
  | nil => intro _ s; simp [visit_list]
  | cons t rest ih =>
    intro hv s
    rw [visit_list]
    have h1 := hv t (List.mem_cons_self _ _) s
    have h2 := ih (fun u hu => hv u (List.mem_cons_of_mem _ hu))
    split
    · rename_i e he; intro h; simp at h; subst h; exact h1 he
    · exact h2 _

theorem visit_children_of_fuel (visit : Term → State C W → Res C W) (n : Nat)
    (hv : ∀ u : Term, u.size ≤ n → ∀ s, visit u s ≠ .error .outOfFuel)
    (t : Term) (ht : t.size ≤ n + 1) (s : State C W) :
    visit_children_of visit t s ≠ .error .outOfFuel := by
  have h1 := visit_list_fuel visit t.visit_children
    (fun u hu => hv u (by have := Term.size_lt_of_mem_visit_children t u hu; omega))
  unfold visit_children_of
  split
  · rename_i e he; intro h; simp at h; subst h; exact h1 _ he
  · simp

theorem visitNot_result_fuel (E : Env C W) (param : Value C) :
    visitNot_result E param ≠ .error .outOfFuel := by
  intro h
  simp only [visitNot_result] at h
  repeat' split at h
  all_goals simp_all only [reduceCtorEq, Except.error.injEq, Except.ok.injEq, deref_fuel,
    payload_fuel, storeTermValue_fuel, ne_eq, not_false_eq_true, not_true_eq_false]

theorem visitGt_result_fuel (E : Env C W) (param_left : Value C) (param_right : Option (Value C)) :
    visitGt_result E param_left param_right ≠ .error .outOfFuel := by
  intro h
  simp only [visitGt_result] at h
  repeat' split at h
  all_goals simp_all only [reduceCtorEq, Except.error.injEq, Except.ok.injEq, deref_fuel,
    payload_fuel, storeTermValue_fuel, ne_eq, not_false_eq_true, not_true_eq_false]

theorem visitGe_result_fuel (E : Env C W) (param_left : Value C) (param_right : Option (Value C)) :
    visitGe_result E param_left param_right ≠ .error .outOfFuel := by
  intro h
  simp only [visitGe_result] at h
  repeat' split at h
  all_goals simp_all only [reduceCtorEq, Except.error.injEq, Except.ok.injEq, deref_fuel,
    payload_fuel, storeTermValue_fuel, ne_eq, not_false_eq_true, not_true_eq_false]

theorem visitLt_result_fuel (E : Env C W) (param_left : Value C) (param_right : Option (Value C)) :
    visitLt_result E param_left param_right ≠ .error .outOfFuel := by
  intro h
  simp only [visitLt_result] at h
  repeat' split at h
  all_goals simp_all only [reduceCtorEq, Except.error.injEq, Except.ok.injEq, deref_fuel,
    payload_fuel, storeTermValue_fuel, ne_eq, not_false_eq_true, not_true_eq_false]

theorem visitLe_result_fuel (E : Env C W) (param_left : Value C) (param_right : Option (Value C)) :
    visitLe_result E param_left param_right ≠ .error .outOfFuel := by
  intro h
  simp only [visitLe_result] at h
  repeat' split at h
  all_goals simp_all only [reduceCtorEq, Except.error.injEq, Except.ok.injEq, deref_fuel,
    payload_fuel, storeTermValue_fuel, ne_eq, not_false_eq_true, not_true_eq_false]

theorem visitSubString_result_fuel (E : Env C W) (s : State C W) (mode : SubStringMode)
    (subject_term start_index_term : Term) (end_index_term : Option Term) :
    visitSubString_result E s mode subject_term start_index_term end_index_term
      ≠ .error .outOfFuel := by
  intro h
  simp only [visitSubString_result] at h
  repeat' first
    | split at h
    | split at hq
    | ((try rename' hq => hdone); rename_i hq; split at hq)
    | ((try rename' hq => hdone); rename_i hq _; split at hq)
    | ((try rename' hq => hdone); rename_i hq _ _ _; split at hq)
  all_goals simp_all only [reduceCtorEq, Except.error.injEq, Except.ok.injEq, deref_fuel,
    payload_fuel, storeTermValue_fuel, ne_eq, not_false_eq_true, not_true_eq_false]

theorem visitAnd_string_result_fuel (E : Env C W) (and_term : Term) (s : State C W) :
    visitAnd_string_result E and_term s ≠ .error .outOfFuel := by
  intro h
  simp only [visitAnd_string_result] at h
  repeat' split at h
  all_goals simp_all only [reduceCtorEq, Except.error.injEq, Except.ok.injEq, deref_fuel,
    payload_fuel, storeTermValue_fuel, ne_eq, not_false_eq_true, not_true_eq_false]

theorem visitQualIdentifier_fuel (E : Env C W) (id : Nat) (var_name : String) (s : State C W) :
    visitQualIdentifier E id var_name s ≠ .error .outOfFuel := by
  intro h
  simp only [visitQualIdentifier] at h
  repeat' split at h
  all_goals simp_all only [reduceCtorEq, Except.error.injEq, Except.ok.injEq, deref_fuel,
    payload_fuel, storeTermValue_fuel, ne_eq, not_false_eq_true, not_true_eq_false]

theorem visitTermConstant_fuel (E : Env C W) (id : Nat) (value_type : PrimitiveType)
    (value : String) (s : State C W) :
    visitTermConstant E id value_type value s ≠ .error .outOfFuel := by
  intro h
  simp only [visitTermConstant] at h
  repeat' first
    | split at h
    | split at hq
    | ((try rename' hq => hdone); rename_i hq; split at hq)
  all_goals simp_all only [reduceCtorEq, Except.error.injEq, Except.ok.injEq, deref_fuel,
    payload_fuel, storeTermValue_fuel, ne_eq, not_false_eq_true, not_true_eq_false]

theorem visitNot_fuel (E : Env C W) (visit : Term → State C W → Res C W) (n : Nat)
    (hv : ∀ u : Term, u.size ≤ n → ∀ s, visit u s ≠ .error .outOfFuel)
    (id : Nat) (t : Term) (ht : (Term.Not id t).size ≤ n + 1) (s : State C W) :
    visitNot E visit id t s ≠ .error .outOfFuel := by
  have hc := visit_children_of_fuel visit n hv (Term.Not id t) ht
  intro h
  simp only [visitNot] at h
  repeat' split at h
  all_goals simp_all only [reduceCtorEq, Except.error.injEq, Except.ok.injEq, deref_fuel,
    payload_fuel, storeTermValue_fuel, visitNot_result_fuel, ne_eq, not_false_eq_true,
    not_true_eq_false]

theorem visitUMinus_fuel (E : Env C W) (visit : Term → State C W → Res C W) (n : Nat)
    (hv : ∀ u : Term, u.size ≤ n → ∀ s, visit u s ≠ .error .outOfFuel)
    (id : Nat) (t : Term) (ht : (Term.UMinus id t).size ≤ n + 1) (s : State C W) :
    visitUMinus E visit id t s ≠ .error .outOfFuel := by
  have hc := visit_children_of_fuel visit n hv (Term.UMinus id t) ht
  intro h
  simp only [visitUMinus] at h
  repeat' first
    | split at h
    | split at hq
    | ((try rename' hq => hdone); rename_i hq; split at hq)
  all_goals simp_all only [reduceCtorEq, Except.error.injEq, Except.ok.injEq, deref_fuel,
    payload_fuel, storeTermValue_fuel, ne_eq, not_false_eq_true, not_true_eq_false]

theorem visitMinus_fuel (E : Env C W) (visit : Term → State C W → Res C W) (n : Nat)
    (hv : ∀ u : Term, u.size ≤ n → ∀ s, visit u s ≠ .error .outOfFuel)
    (id : Nat) (l : Term) (r : Term) (ht : (Term.Minus id l r).size ≤ n + 1) (s : State C W) :
    visitMinus E visit id l r s ≠ .error .outOfFuel := by
  have hc := visit_children_of_fuel visit n hv (Term.Minus id l r) ht
  intro h
  simp only [visitMinus] at h
  repeat' split at h
  all_goals simp_all only [reduceCtorEq, Except.error.injEq, Except.ok.injEq, deref_fuel,
    payload_fuel, storeTermValue_fuel, ne_eq, not_false_eq_true, not_true_eq_false]

theorem visitEq_fuel (E : Env C W) (visit : Term → State C W → Res C W) (n : Nat)
    (hv : ∀ u : Term, u.size ≤ n → ∀ s, visit u s ≠ .error .outOfFuel)
    (id : Nat) (l : Term) (r : Term) (ht : (Term.Eq id l r).size ≤ n + 1) (s : State C W) :
    visitEq E visit id l r s ≠ .error .outOfFuel := by
  have hc := visit_children_of_fuel visit n hv (Term.Eq id l r) ht
  intro h
  simp only [visitEq] at h
  repeat' split at h
  all_goals simp_all only [reduceCtorEq, Except.error.injEq, Except.ok.injEq, deref_fuel,
    payload_fuel, storeTermValue_fuel, ne_eq, not_false_eq_true, not_true_eq_false]

theorem visitNotEq_default_fuel (E : Env C W) (visit : Term → State C W → Res C W) (n : Nat)
    (hv : ∀ u : Term, u.size ≤ n → ∀ s, visit u s ≠ .error .outOfFuel)
    (id : Nat) (l : Term) (r : Term) (ht : (Term.NotEq id l r).size ≤ n + 1) (s : State C W) :
    visitNotEq_default E visit id l r s ≠ .error .outOfFuel := by
  have hc := visit_children_of_fuel visit n hv (Term.NotEq id l r) ht
  intro h
  simp only [visitNotEq_default] at h
  repeat' split at h
  all_goals simp_all only [reduceCtorEq, Except.error.injEq, Except.ok.injEq, deref_fuel,
    payload_fuel, storeTermValue_fuel, ne_eq, not_false_eq_true, not_true_eq_false]

theorem visitNotEq_fuel (E : Env C W) (visit : Term → State C W → Res C W) (n : Nat)
    (hv : ∀ u : Term, u.size ≤ n → ∀ s, visit u s ≠ .error .outOfFuel)
    (id : Nat) (l : Term) (r : Term) (ht : (Term.NotEq id l r).size ≤ n + 1) (s : State C W) :
    visitNotEq E visit id l r s ≠ .error .outOfFuel := by
  have hc := visit_children_of_fuel visit n hv (Term.NotEq id l r) ht
  have hd := visitNotEq_default_fuel E visit n hv id l r ht
  intro h
  simp only [visitNotEq] at h
  repeat' split at h
  all_goals simp_all only [reduceCtorEq, Except.error.injEq, Except.ok.injEq, deref_fuel,
    payload_fuel, storeTermValue_fuel, ne_eq, not_false_eq_true, not_true_eq_false]

theorem visitGt_fuel (E : Env C W) (visit : Term → State C W → Res C W) (n : Nat)
    (hv : ∀ u : Term, u.size ≤ n → ∀ s, visit u s ≠ .error .outOfFuel)
    (id : Nat) (l : Term) (r : Term) (ht : (Term.Gt id l r).size ≤ n + 1) (s : State C W) :
    visitGt E visit id l r s ≠ .error .outOfFuel := by
  have hc := visit_children_of_fuel visit n hv (Term.Gt id l r) ht
  intro h
  simp only [visitGt] at h
  repeat' split at h
  all_goals simp_all only [reduceCtorEq, Except.error.injEq, Except.ok.injEq, deref_fuel,
    payload_fuel, storeTermValue_fuel, visitGt_result_fuel, ne_eq, not_false_eq_true,
    not_true_eq_false]

theorem visitGe_fuel (E : Env C W) (visit : Term → State C W → Res C W) (n : Nat)
    (hv : ∀ u : Term, u.size ≤ n → ∀ s, visit u s ≠ .error .outOfFuel)
    (id : Nat) (l : Term) (r : Term) (ht : (Term.Ge id l r).size ≤ n + 1) (s : State C W) :
    visitGe E visit id l r s ≠ .error .outOfFuel := by
  have hc := visit_children_of_fuel visit n hv (Term.Ge id l r) ht
  intro h
  simp only [visitGe] at h
  repeat' split at h
  all_goals simp_all only [reduceCtorEq, Except.error.injEq, Except.ok.injEq, deref_fuel,
    payload_fuel, storeTermValue_fuel, visitGe_result_fuel, ne_eq, not_false_eq_true,
    not_true_eq_false]

theorem visitLt_fuel (E : Env C W) (visit : Term → State C W → Res C W) (n : Nat)
    (hv : ∀ u : Term, u.size ≤ n → ∀ s, visit u s ≠ .error .outOfFuel)
    (id : Nat) (l : Term) (r : Term) (ht : (Term.Lt id l r).size ≤ n + 1) (s : State C W) :
    visitLt E visit id l r s ≠ .error .outOfFuel := by
  have hc := visit_children_of_fuel visit n hv (Term.Lt id l r) ht
  intro h
  simp only [visitLt] at h
  repeat' split at h
  all_goals simp_all only [reduceCtorEq, Except.error.injEq, Except.ok.injEq, deref_fuel,
    payload_fuel, storeTermValue_fuel, visitLt_result_fuel, ne_eq, not_false_eq_true,
    not_true_eq_false]

theorem visitLe_fuel (E : Env C W) (visit : Term → State C W → Res C W) (n : Nat)
    (hv : ∀ u : Term, u.size ≤ n → ∀ s, visit u s ≠ .error .outOfFuel)
    (id : Nat) (l : Term) (r : Term) (ht : (Term.Le id l r).size ≤ n + 1) (s : State C W) :
    visitLe E visit id l r s ≠ .error .outOfFuel := by
  have hc := visit_children_of_fuel visit n hv (Term.Le id l r) ht
  intro h
  simp only [visitLe] at h
  repeat' split at h
  all_goals simp_all only [reduceCtorEq, Except.error.injEq, Except.ok.injEq, deref_fuel,
    payload_fuel, storeTermValue_fuel, visitLe_result_fuel, ne_eq, not_false_eq_true,
    not_true_eq_false]

theorem visitIn_default_fuel (E : Env C W) (visit : Term → State C W → Res C W) (n : Nat)
    (hv : ∀ u : Term, u.size ≤ n → ∀ s, visit u s ≠ .error .outOfFuel)
    (id : Nat) (l : Term) (r : Term) (ht : (Term.In id l r).size ≤ n + 1) (s : State C W) :
    visitIn_default E visit id l r s ≠ .error .outOfFuel := by
  have hc := visit_children_of_fuel visit n hv (Term.In id l r) ht
  intro h
  simp only [visitIn_default] at h
  repeat' split at h
  all_goals simp_all only [reduceCtorEq, Except.error.injEq, Except.ok.injEq, deref_fuel,
    payload_fuel, storeTermValue_fuel, ne_eq, not_false_eq_true, not_true_eq_false]

theorem visitIn_fuel (E : Env C W) (visit : Term → State C W → Res C W) (n : Nat)
    (hv : ∀ u : Term, u.size ≤ n → ∀ s, visit u s ≠ .error .outOfFuel)
    (id : Nat) (l : Term) (r : Term) (ht : (Term.In id l r).size ≤ n + 1) (s : State C W) :
    visitIn E visit id l r s ≠ .error .outOfFuel := by
  have hc := visit_children_of_fuel visit n hv (Term.In id l r) ht
  have hd := visitIn_default_fuel E visit n hv id l r ht
  intro h
  simp only [visitIn] at h
  repeat' split at h
  all_goals simp_all only [reduceCtorEq, Except.error.injEq, Except.ok.injEq, deref_fuel,
    payload_fuel, storeTermValue_fuel, ne_eq, not_false_eq_true, not_true_eq_false]

theorem visitNotIn_fuel (E : Env C W) (visit : Term → State C W → Res C W) (n : Nat)
    (hv : ∀ u : Term, u.size ≤ n → ∀ s, visit u s ≠ .error .outOfFuel)
    (id : Nat) (l : Term) (r : Term) (ht : (Term.NotIn id l r).size ≤ n + 1) (s : State C W) :
    visitNotIn E visit id l r s ≠ .error .outOfFuel := by
  have hc := visit_children_of_fuel visit n hv (Term.NotIn id l r) ht
  intro h
  simp only [visitNotIn] at h
  repeat' split at h
  all_goals simp_all only [reduceCtorEq, Except.error.injEq, Except.ok.injEq, deref_fuel,
    payload_fuel, storeTermValue_fuel, ne_eq, not_false_eq_true, not_true_eq_false]

theorem visitLen_fuel (E : Env C W) (visit : Term → State C W → Res C W) (n : Nat)
    (hv : ∀ u : Term, u.size ≤ n → ∀ s, visit u s ≠ .error .outOfFuel)
    (id : Nat) (t : Term) (ht : (Term.Len id t).size ≤ n + 1) (s : State C W) :
    visitLen E visit id t s ≠ .error .outOfFuel := by
  have hc := visit_children_of_fuel visit n hv (Term.Len id t) ht
  intro h
  simp only [visitLen] at h
  repeat' split at h
  all_goals simp_all only [reduceCtorEq, Except.error.injEq, Except.ok.injEq, deref_fuel,
    payload_fuel, storeTermValue_fuel, ne_eq, not_false_eq_true, not_true_eq_false]

theorem visitContains_fuel (E : Env C W) (visit : Term → State C W → Res C W) (n : Nat)
    (hv : ∀ u : Term, u.size ≤ n → ∀ s, visit u s ≠ .error .outOfFuel)
    (id : Nat) (a : Term) (b : Term) (ht : (Term.Contains id a b).size ≤ n + 1) (s : State C W) :
    visitContains E visit id a b s ≠ .error .outOfFuel := by
  have hc := visit_children_of_fuel visit n hv (Term.Contains id a b) ht
  intro h
  simp only [visitContains] at h
  repeat' split at h
  all_goals simp_all only [reduceCtorEq, Except.error.injEq, Except.ok.injEq, deref_fuel,
    payload_fuel, storeTermValue_fuel, ne_eq, not_false_eq_true, not_true_eq_false]

theorem visitNotContains_fuel (E : Env C W) (visit : Term → State C W → Res C W) (n : Nat)
    (hv : ∀ u : Term, u.size ≤ n → ∀ s, visit u s ≠ .error .outOfFuel)
    (id : Nat) (a : Term) (b : Term) (ht : (Term.NotContains id a b).size ≤ n + 1) (s : State C W) :
    visitNotContains E visit id a b s ≠ .error .outOfFuel := by
  have hc := visit_children_of_fuel visit n hv (Term.NotContains id a b) ht
  intro h
  simp only [visitNotContains] at h
  repeat' split at h
  all_goals simp_all only [reduceCtorEq, Except.error.injEq, Except.ok.injEq, deref_fuel,
    payload_fuel, storeTermValue_fuel, ne_eq, not_false_eq_true, not_true_eq_false]

theorem visitBegins_fuel (E : Env C W) (visit : Term → State C W → Res C W) (n : Nat)
    (hv : ∀ u : Term, u.size ≤ n → ∀ s, visit u s ≠ .error .outOfFuel)
    (id : Nat) (a : Term) (b : Term) (ht : (Term.Begins id a b).size ≤ n + 1) (s : State C W) :
    visitBegins E visit id a b s ≠ .error .outOfFuel := by
  have hc := visit_children_of_fuel visit n hv (Term.Begins id a b) ht
  intro h
  simp only [visitBegins] at h
  repeat' split at h
  all_goals simp_all only [reduceCtorEq, Except.error.injEq, Except.ok.injEq, deref_fuel,
    payload_fuel, storeTermValue_fuel, ne_eq, not_false_eq_true, not_true_eq_false]

theorem visitNotBegins_fuel (E : Env C W) (visit : Term → State C W → Res C W) (n : Nat)
    (hv : ∀ u : Term, u.size ≤ n → ∀ s, visit u s ≠ .error .outOfFuel)
    (id : Nat) (a : Term) (b : Term) (ht : (Term.NotBegins id a b).size ≤ n + 1) (s : State C W) :
    visitNotBegins E visit id a b s ≠ .error .outOfFuel := by
  have hc := visit_children_of_fuel visit n hv (Term.NotBegins id a b) ht
  intro h
  simp only [visitNotBegins] at h
  repeat' split at h
  all_goals simp_all only [reduceCtorEq, Except.error.injEq, Except.ok.injEq, deref_fuel,
    payload_fuel, storeTermValue_fuel, ne_eq, not_false_eq_true, not_true_eq_false]

theorem visitEnds_fuel (E : Env C W) (visit : Term → State C W → Res C W) (n : Nat)
    (hv : ∀ u : Term, u.size ≤ n → ∀ s, visit u s ≠ .error .outOfFuel)
    (id : Nat) (a : Term) (b : Term) (ht : (Term.Ends id a b).size ≤ n + 1) (s : State C W) :
    visitEnds E visit id a b s ≠ .error .outOfFuel := by
  have hc := visit_children_of_fuel visit n hv (Term.Ends id a b) ht
  intro h
  simp only [visitEnds] at h
  repeat' split at h
  all_goals simp_all only [reduceCtorEq, Except.error.injEq, Except.ok.injEq, deref_fuel,
    payload_fuel, storeTermValue_fuel, ne_eq, not_false_eq_true, not_true_eq_false]

theorem visitNotEnds_fuel (E : Env C W) (visit : Term → State C W → Res C W) (n : Nat)
    (hv : ∀ u : Term, u.size ≤ n → ∀ s, visit u s ≠ .error .outOfFuel)
    (id : Nat) (a : Term) (b : Term) (ht : (Term.NotEnds id a b).size ≤ n + 1) (s : State C W) :
    visitNotEnds E visit id a b s ≠ .error .outOfFuel := by
  have hc := visit_children_of_fuel visit n hv (Term.NotEnds id a b) ht
  intro h
  simp only [visitNotEnds] at h
  repeat' split at h
  all_goals simp_all only [reduceCtorEq, Except.error.injEq, Except.ok.injEq, deref_fuel,
    payload_fuel, storeTermValue_fuel, ne_eq, not_false_eq_true, not_true_eq_false]

theorem visitIndexOf_fuel (E : Env C W) (visit : Term → State C W → Res C W) (n : Nat)
    (hv : ∀ u : Term, u.size ≤ n → ∀ s, visit u s ≠ .error .outOfFuel)
    (id : Nat) (a : Term) (b : Term) (ht : (Term.IndexOf id a b).size ≤ n + 1) (s : State C W) :
    visitIndexOf E visit id a b s ≠ .error .outOfFuel := by
  have hc := visit_children_of_fuel visit n hv (Term.IndexOf id a b) ht
  intro h
  simp only [visitIndexOf] at h
  repeat' split at h
  all_goals simp_all only [reduceCtorEq, Except.error.injEq, Except.ok.injEq, deref_fuel,
    payload_fuel, storeTermValue_fuel, ne_eq, not_false_eq_true, not_true_eq_false]

theorem visitLastIndexOf_fuel (E : Env C W) (visit : Term → State C W → Res C W) (n : Nat)
    (hv : ∀ u : Term, u.size ≤ n → ∀ s, visit u s ≠ .error .outOfFuel)
    (id : Nat) (a : Term) (b : Term) (ht : (Term.LastIndexOf id a b).size ≤ n + 1) (s : State C W) :
    visitLastIndexOf E visit id a b s ≠ .error .outOfFuel := by
  have hc := visit_children_of_fuel visit n hv (Term.LastIndexOf id a b) ht
  intro h
  simp only [visitLastIndexOf] at h
  repeat' split at h
  all_goals simp_all only [reduceCtorEq, Except.error.injEq, Except.ok.injEq, deref_fuel,
    payload_fuel, storeTermValue_fuel, ne_eq, not_false_eq_true, not_true_eq_false]

theorem visitCharAt_fuel (E : Env C W) (visit : Term → State C W → Res C W) (n : Nat)
    (hv : ∀ u : Term, u.size ≤ n → ∀ s, visit u s ≠ .error .outOfFuel)
    (id : Nat) (a : Term) (b : Term) (ht : (Term.CharAt id a b).size ≤ n + 1) (s : State C W) :
    visitCharAt E visit id a b s ≠ .error .outOfFuel := by
  have hc := visit_children_of_fuel visit n hv (Term.CharAt id a b) ht
  intro h
  simp only [visitCharAt] at h
  repeat' split at h
  all_goals simp_all only [reduceCtorEq, Except.error.injEq, Except.ok.injEq, deref_fuel,
    payload_fuel, storeTermValue_fuel, ne_eq, not_false_eq_true, not_true_eq_false]

theorem visitSubString_fuel (E : Env C W) (visit : Term → State C W → Res C W) (n : Nat)
    (hv : ∀ u : Term, u.size ≤ n → ∀ s, visit u s ≠ .error .outOfFuel)
    (id : Nat) (mode : SubStringMode) (a : Term) (b : Term) (c : Option Term)
    (ht : (Term.SubString id mode a b c).size ≤ n + 1) (s : State C W) :
    visitSubString E visit id mode a b c s ≠ .error .outOfFuel := by
  have hc := visit_children_of_fuel visit n hv (Term.SubString id mode a b c) ht
  intro h
  simp only [visitSubString] at h
  repeat' split at h
  all_goals simp_all only [reduceCtorEq, Except.error.injEq, Except.ok.injEq, deref_fuel,
    payload_fuel, storeTermValue_fuel, visitSubString_result_fuel, ne_eq, not_false_eq_true,
    not_true_eq_false]

theorem visitToUpper_fuel (E : Env C W) (visit : Term → State C W → Res C W) (n : Nat)
    (hv : ∀ u : Term, u.size ≤ n → ∀ s, visit u s ≠ .error .outOfFuel)
    (id : Nat) (t : Term) (ht : (Term.ToUpper id t).size ≤ n + 1) (s : State C W) :
    visitToUpper E visit id t s ≠ .error .outOfFuel := by
  have hc := visit_children_of_fuel visit n hv (Term.ToUpper id t) ht
  intro h
  simp only [visitToUpper] at h
  repeat' split at h
  all_goals simp_all only [reduceCtorEq, Except.error.injEq, Except.ok.injEq, deref_fuel,
    payload_fuel, storeTermValue_fuel, ne_eq, not_false_eq_true, not_true_eq_false]

theorem visitToLower_fuel (E : Env C W) (visit : Term → State C W → Res C W) (n : Nat)
    (hv : ∀ u : Term, u.size ≤ n → ∀ s, visit u s ≠ .error .outOfFuel)
    (id : Nat) (t : Term) (ht : (Term.ToLower id t).size ≤ n + 1) (s : State C W) :
    visitToLower E visit id t s ≠ .error .outOfFuel := by
  have hc := visit_children_of_fuel visit n hv (Term.ToLower id t) ht
  intro h
  simp only [visitToLower] at h
  repeat' split at h
  all_goals simp_all only [reduceCtorEq, Except.error.injEq, Except.ok.injEq, deref_fuel,
    payload_fuel, storeTermValue_fuel, ne_eq, not_false_eq_true, not_true_eq_false]

theorem visitTrim_fuel (E : Env C W) (visit : Term → State C W → Res C W) (n : Nat)
    (hv : ∀ u : Term, u.size ≤ n → ∀ s, visit u s ≠ .error .outOfFuel)
    (id : Nat) (t : Term) (ht : (Term.Trim id t).size ≤ n + 1) (s : State C W) :
    visitTrim E visit id t s ≠ .error .outOfFuel := by
  have hc := visit_children_of_fuel visit n hv (Term.Trim id t) ht
  intro h
  simp only [visitTrim] at h
  repeat' split at h
  all_goals simp_all only [reduceCtorEq, Except.error.injEq, Except.ok.injEq, deref_fuel,
    payload_fuel, storeTermValue_fuel, ne_eq, not_false_eq_true, not_true_eq_false]

theorem visitToString_fuel (E : Env C W) (visit : Term → State C W → Res C W) (n : Nat)
    (hv : ∀ u : Term, u.size ≤ n → ∀ s, visit u s ≠ .error .outOfFuel)
    (id : Nat) (t : Term) (ht : (Term.ToString id t).size ≤ n + 1) (s : State C W) :
    visitToString E visit id t s ≠ .error .outOfFuel := by
  have hc := visit_children_of_fuel visit n hv (Term.ToString id t) ht
  intro h
  simp only [visitToString] at h
  repeat' split at h
  all_goals simp_all only [reduceCtorEq, Except.error.injEq, Except.ok.injEq, deref_fuel,
    payload_fuel, storeTermValue_fuel, ne_eq, not_false_eq_true, not_true_eq_false]

theorem visitToInt_fuel (E : Env C W) (visit : Term → State C W → Res C W) (n : Nat)
    (hv : ∀ u : Term, u.size ≤ n → ∀ s, visit u s ≠ .error .outOfFuel)
    (id : Nat) (t : Term) (ht : (Term.ToInt id t).size ≤ n + 1) (s : State C W) :
    visitToInt E visit id t s ≠ .error .outOfFuel := by
  have hc := visit_children_of_fuel visit n hv (Term.ToInt id t) ht
  intro h
  simp only [visitToInt] at h
  repeat' split at h
  all_goals simp_all only [reduceCtorEq, Except.error.injEq, Except.ok.injEq, deref_fuel,
    payload_fuel, storeTermValue_fuel, ne_eq, not_false_eq_true, not_true_eq_false]

theorem visitReplace_fuel (E : Env C W) (visit : Term → State C W → Res C W) (n : Nat)
    (hv : ∀ u : Term, u.size ≤ n → ∀ s, visit u s ≠ .error .outOfFuel)
    (id : Nat) (a : Term) (b : Term) (c : Term)
    (ht : (Term.Replace id a b c).size ≤ n + 1) (s : State C W) :
    visitReplace E visit id a b c s ≠ .error .outOfFuel := by
  have hc := visit_children_of_fuel visit n hv (Term.Replace id a b c) ht
  intro h
  simp only [visitReplace] at h
  repeat' split at h
  all_goals simp_all only [reduceCtorEq, Except.error.injEq, Except.ok.injEq, deref_fuel,
    payload_fuel, storeTermValue_fuel, ne_eq, not_false_eq_true, not_true_eq_false]

theorem visitCount_fuel (visit : Term → State C W → Res C W) (n : Nat)
    (hv : ∀ u : Term, u.size ≤ n → ∀ s, visit u s ≠ .error .outOfFuel)
    (id : Nat) (children : List Term) (ht : (Term.Count id children).size ≤ n + 1) (s : State C W) :
    visitCount visit id children s ≠ .error .outOfFuel := by
  have hc := visit_children_of_fuel visit n hv (Term.Count id children) ht
  intro h
  simp only [visitCount] at h
  repeat' split at h
  all_goals simp_all only [reduceCtorEq, Except.error.injEq, Except.ok.injEq, deref_fuel,
    payload_fuel, storeTermValue_fuel, ne_eq, not_false_eq_true, not_true_eq_false]

theorem process_mixed_loop_fuel (E : Env C W) (visit : Term → State C W → Res C W)
    (term : Term) :
    ∀ l : List Term, (∀ u, u ∈ l → ∀ s, visit u s ≠ .error .outOfFuel) →
      ∀ s, process_mixed_loop E visit term l s ≠ .error .outOfFuel := by
  intro l
  induction l with
  | nil => intro _ s h; simp [process_mixed_loop] at h
  | cons string_term rest ih =>
    intro hl s h
    have h1 := hl string_term (List.mem_cons_self _ _)
    have h2 := ih (fun u hu => hl u (List.mem_cons_of_mem _ hu))
    clear ih hl
    simp only [process_mixed_loop] at h
    repeat' first
      | split at h
      | split at hq
      | ((try rename' hq => hdone); rename_i hq; split at hq)
    all_goals simp_all only [reduceCtorEq, Except.error.injEq, Except.ok.injEq, deref_fuel,
      payload_fuel, storeTermValue_fuel, ne_eq, not_false_eq_true, not_true_eq_false]

theorem check_and_visit_fuel (E : Env C W)
    (hsub : ∀ w t u, u ∈ E.arithmetic_getStringTermsIn w t → u.size ≤ t.size)
    (visit : Term → State C W → Res C W) (n : Nat)
    (hv : ∀ u : Term, u.size ≤ n → ∀ s, visit u s ≠ .error .outOfFuel)
    (term : Term) (ht : term.size ≤ n) (s : State C W) :
    check_and_visit E visit term s ≠ .error .outOfFuel := by
  have h1 := hv term ht
  have h2 : ∀ s, process_mixed_integer_string_constraints_in E visit term s ≠
      .error .outOfFuel := fun s =>
    process_mixed_loop_fuel E visit term _
      (fun u hu => hv u (Nat.le_trans (hsub _ _ _ hu) ht)) s
  clear hv hsub
  intro h
  simp only [check_and_visit] at h
  repeat' first
    | split at h
    | split at hq
    | ((try rename' hq => hdone); rename_i hq; split at hq)
  all_goals simp_all only [reduceCtorEq, Except.error.injEq, Except.ok.injEq, deref_fuel,
    payload_fuel, storeTermValue_fuel, ne_eq, not_false_eq_true, not_true_eq_false]

theorem visitAssert_fuel (E : Env C W)
    (hsub : ∀ w t u, u ∈ E.arithmetic_getStringTermsIn w t → u.size ≤ t.size)
    (visit : Term → State C W → Res C W) (n : Nat)
    (hv : ∀ u : Term, u.size ≤ n → ∀ s, visit u s ≠ .error .outOfFuel)
    (term : Term) (ht : term.size ≤ n) (s : State C W) :
    visitAssert E visit term s ≠ .error .outOfFuel := by
  have h1 := check_and_visit_fuel E hsub visit n hv term ht
  clear hv hsub
  intro h
  simp only [visitAssert] at h
  repeat' split at h
  all_goals simp_all only [reduceCtorEq, Except.error.injEq, Except.ok.injEq, deref_fuel,
    payload_fuel, storeTermValue_fuel, ne_eq, not_false_eq_true, not_true_eq_false]

theorem visit_commands_fuel (E : Env C W)
    (hsub : ∀ w t u, u ∈ E.arithmetic_getStringTermsIn w t → u.size ≤ t.size)
    (visit : Term → State C W → Res C W) (n : Nat)
    (hv : ∀ u : Term, u.size ≤ n → ∀ s, visit u s ≠ .error .outOfFuel) :
    ∀ l : List Command, (∀ term, Command.Assert term ∈ l → term.size ≤ n) →
      ∀ s, visit_commands E visit l s ≠ .error .outOfFuel := by
  intro l
  induction l with
  | nil => intro _ s h; simp [visit_commands] at h
  | cons command rest ih =>
    intro hl s h
    have h2 := ih (fun term hu => hl term (List.mem_cons_of_mem _ hu))
    have h1 : ∀ s, visit_command E visit command s ≠ .error .outOfFuel := by
      intro s
      cases command with
      | Assert term =>
        exact visitAssert_fuel E hsub visit n hv term (hl term (List.mem_cons_self _ _)) s
      | Other name => simp [visit_command, visitCommand]
    clear ih hl hv hsub
    simp only [visit_commands] at h
    repeat' split at h
    all_goals simp_all only [reduceCtorEq, Except.error.injEq, Except.ok.injEq, deref_fuel,
      payload_fuel, storeTermValue_fuel, ne_eq, not_false_eq_true, not_true_eq_false]

theorem visitScript_fuel (E : Env C W)
    (hsub : ∀ w t u, u ∈ E.arithmetic_getStringTermsIn w t → u.size ≤ t.size)
    (visit : Term → State C W → Res C W) (n : Nat)
    (hv : ∀ u : Term, u.size ≤ n → ∀ s, visit u s ≠ .error .outOfFuel)
    (script : Script) (hl : ∀ term, Command.Assert term ∈ script.command_list → term.size ≤ n)
    (s : State C W) : visitScript E visit script s ≠ .error .outOfFuel := by
  have h1 := visit_commands_fuel E hsub visit n hv script.command_list hl
  clear hv hsub hl
  intro h
  simp only [visitScript] at h
  repeat' split at h
  all_goals simp_all only [reduceCtorEq, Except.error.injEq, Except.ok.injEq, deref_fuel,
    payload_fuel, storeTermValue_fuel, ne_eq, not_false_eq_true, not_true_eq_false]

theorem visitLet_bindings_fuel (E : Env C W)
    (hsub : ∀ w t u, u ∈ E.arithmetic_getStringTermsIn w t → u.size ≤ t.size)
    (visit : Term → State C W → Res C W) (n : Nat)
    (hv : ∀ u : Term, u.size ≤ n → ∀ s, visit u s ≠ .error .outOfFuel) (let_term : Term) :
    ∀ l : List (String × Term), (∀ u, u ∈ l.map Prod.snd → u.size ≤ n) →
      ∀ s, visitLet_bindings E visit let_term l s ≠ .error .outOfFuel := by
  intro l
  induction l with
  | nil => intro _ s h; simp [visitLet_bindings] at h
  | cons var_binding rest ih =>
    intro hl s h
    have h1 := check_and_visit_fuel E hsub visit n hv var_binding.2
      (hl _ (by simp))
    have h2 := ih (fun u hu => hl u (by simp only [List.map_cons]; exact List.mem_cons_of_mem _ hu))
    clear ih hl hv hsub
    simp only [visitLet_bindings] at h
    repeat' split at h
    all_goals simp_all only [reduceCtorEq, Except.error.injEq, Except.ok.injEq, deref_fuel,
      payload_fuel, storeTermValue_fuel, ne_eq, not_false_eq_true, not_true_eq_false]

theorem visitLet_fuel (E : Env C W)
    (hsub : ∀ w t u, u ∈ E.arithmetic_getStringTermsIn w t → u.size ≤ t.size)
    (visit : Term → State C W → Res C W) (n : Nat)
    (hv : ∀ u : Term, u.size ≤ n → ∀ s, visit u s ≠ .error .outOfFuel)
    (id : Nat) (var_binding_list : List (String × Term)) (t : Term)
    (ht : (Term.Let id var_binding_list t).size ≤ n + 1) (s : State C W) :
    visitLet E visit id var_binding_list t s ≠ .error .outOfFuel := by
  have h1 := visitLet_bindings_fuel E hsub visit n hv (Term.Let id var_binding_list t)
    var_binding_list (fun u hu => by
      have := Term.size_le_size_bindings u _ hu
      simp only [Term.size] at ht
      omega)
  have h2 := check_and_visit_fuel E hsub visit n hv t (by simp only [Term.size] at ht; omega)
  clear hv hsub
  intro h
  simp only [visitLet] at h
  repeat' split at h
  all_goals simp_all only [reduceCtorEq, Except.error.injEq, Except.ok.injEq, deref_fuel,
    payload_fuel, storeTermValue_fuel, ne_eq, not_false_eq_true, not_true_eq_false]

theorem visitAnd_body_fuel (E : Env C W)
    (hsub : ∀ w t u, u ∈ E.arithmetic_getStringTermsIn w t → u.size ≤ t.size)
    (visit : Term → State C W → Res C W) (n : Nat)
    (hv : ∀ u : Term, u.size ≤ n → ∀ s, visit u s ≠ .error .outOfFuel)
    (term : Term) (ht : term.size ≤ n) (is_satisfiable : Bool) (s : State C W) :
    visitAnd_body E visit term is_satisfiable s ≠ .error .outOfFuel := by
  have h1 := check_and_visit_fuel E hsub visit n hv term ht
  clear hv hsub
  intro h
  simp only [visitAnd_body] at h
  repeat' first
    | split at h
    | split at hq
    | ((try rename' hq => hdone); rename_i hq; split at hq)
  all_goals simp_all only [reduceCtorEq, Except.error.injEq, Except.ok.injEq, deref_fuel,
    payload_fuel, storeTermValue_fuel, ne_eq, not_false_eq_true, not_true_eq_false]

theorem visitAnd_loop_fuel (E : Env C W)
    (hsub : ∀ w t u, u ∈ E.arithmetic_getStringTermsIn w t → u.size ≤ t.size)
    (visit : Term → State C W → Res C W) (n : Nat)
    (hv : ∀ u : Term, u.size ≤ n → ∀ s, visit u s ≠ .error .outOfFuel) :
    ∀ l : List Term, (∀ u, u ∈ l → u.size ≤ n) →
      ∀ b s, visitAnd_loop E visit l b s ≠ .error .outOfFuel := by
  intro l
  induction l with
  | nil => intro _ b s h; simp [visitAnd_loop] at h
  | cons term rest ih =>
    intro hl b s h
    have h1 := visitAnd_body_fuel E hsub visit n hv term (hl term (List.mem_cons_self _ _))
    have h2 := ih (fun u hu => hl u (List.mem_cons_of_mem _ hu))
    clear ih hl hv hsub
    simp only [visitAnd_loop] at h
    repeat' split at h
    all_goals simp_all only [reduceCtorEq, Except.error.injEq, Except.ok.injEq, deref_fuel,
      payload_fuel, storeTermValue_fuel, ne_eq, not_false_eq_true, not_true_eq_false]

theorem visitAnd_fuel (E : Env C W)
    (hsub : ∀ w t u, u ∈ E.arithmetic_getStringTermsIn w t → u.size ≤ t.size)
    (visit : Term → State C W → Res C W) (n : Nat)
    (hv : ∀ u : Term, u.size ≤ n → ∀ s, visit u s ≠ .error .outOfFuel)
    (id : Nat) (term_list : List Term) (ht : (Term.And id term_list).size ≤ n + 1)
    (s : State C W) : visitAnd E visit id term_list s ≠ .error .outOfFuel := by
  have h1 := visitAnd_loop_fuel E hsub visit n hv term_list (fun u hu => by
    have := Term.size_le_size_list u _ hu
    simp only [Term.size] at ht
    omega)
  clear hv hsub
  intro h
  simp only [visitAnd] at h
  repeat' split at h
  all_goals simp_all only [reduceCtorEq, Except.error.injEq, Except.ok.injEq, deref_fuel,
    payload_fuel, storeTermValue_fuel, visitAnd_string_result_fuel, ne_eq, not_false_eq_true,
    not_true_eq_false]

theorem visitOr_body_fuel (E : Env C W)
    (hsub : ∀ w t u, u ∈ E.arithmetic_getStringTermsIn w t → u.size ≤ t.size)
    (visit : Term → State C W → Res C W) (n : Nat)
    (hv : ∀ u : Term, u.size ≤ n → ∀ s, visit u s ≠ .error .outOfFuel)
    (term : Term) (ht : term.size ≤ n) (s : State C W) :
    visitOr_body E visit term s ≠ .error .outOfFuel := by
  have h1 := check_and_visit_fuel E hsub visit n hv term ht
  clear hv hsub
  intro h
  simp only [visitOr_body] at h
  repeat' split at h
  all_goals simp_all only [reduceCtorEq, Except.error.injEq, Except.ok.injEq, deref_fuel,
    payload_fuel, storeTermValue_fuel, ne_eq, not_false_eq_true, not_true_eq_false]

theorem visitOr_loop_fuel (E : Env C W)
    (hsub : ∀ w t u, u ∈ E.arithmetic_getStringTermsIn w t → u.size ≤ t.size)
    (visit : Term → State C W → Res C W) (n : Nat)
    (hv : ∀ u : Term, u.size ≤ n → ∀ s, visit u s ≠ .error .outOfFuel) :
    ∀ l : List Term, (∀ u, u ∈ l → u.size ≤ n) →
      ∀ b s, visitOr_loop E visit l b s ≠ .error .outOfFuel := by
  intro l
  induction l with
  | nil => intro _ b s h; simp [visitOr_loop] at h
  | cons term rest ih =>
    intro hl b s h
    have h1 := visitOr_body_fuel E hsub visit n hv term (hl term (List.mem_cons_self _ _))
    have h2 := ih (fun u hu => hl u (List.mem_cons_of_mem _ hu))
    clear ih hl hv hsub
    simp only [visitOr_loop] at h
    repeat' split at h
    all_goals simp_all only [reduceCtorEq, Except.error.injEq, Except.ok.injEq, deref_fuel,
      payload_fuel, storeTermValue_fuel, ne_eq, not_false_eq_true, not_true_eq_false]

theorem visitOr_fuel (E : Env C W)
    (hsub : ∀ w t u, u ∈ E.arithmetic_getStringTermsIn w t → u.size ≤ t.size)
    (visit : Term → State C W → Res C W) (n : Nat)
    (hv : ∀ u : Term, u.size ≤ n → ∀ s, visit u s ≠ .error .outOfFuel)
    (id : Nat) (term_list : List Term) (ht : (Term.Or id term_list).size ≤ n + 1)
    (s : State C W) : visitOr E visit id term_list s ≠ .error .outOfFuel := by
  have h1 := visitOr_loop_fuel E hsub visit n hv term_list (fun u hu => by
    have := Term.size_le_size_list u _ hu
    simp only [Term.size] at ht
    omega)
  clear hv hsub
  intro h
  simp only [visitOr] at h
  repeat' split at h
  all_goals simp_all only [reduceCtorEq, Except.error.injEq, Except.ok.injEq, deref_fuel,
    payload_fuel, storeTermValue_fuel, ne_eq, not_false_eq_true, not_true_eq_false]

theorem visitPlus_loop_fuel (E : Env C W) (visit : Term → State C W → Res C W) :
    ∀ l : List Term, (∀ u, u ∈ l → ∀ s, visit u s ≠ .error .outOfFuel) →
      ∀ acc s, visitPlus_loop E visit l acc s ≠ .error .outOfFuel := by
  intro l
  induction l with
  | nil => intro _ acc s h; simp [visitPlus_loop] at h
  | cons term_ptr rest ih =>
    intro hl acc s h
    have h1 := hl term_ptr (List.mem_cons_self _ _)
    have h2 := ih (fun u hu => hl u (List.mem_cons_of_mem _ hu))
    clear ih hl
    simp only [visitPlus_loop] at h
    repeat' split at h
    all_goals simp_all only [reduceCtorEq, Except.error.injEq, Except.ok.injEq, deref_fuel,
      payload_fuel, storeTermValue_fuel, ne_eq, not_false_eq_true, not_true_eq_false]

theorem visitPlus_fuel (E : Env C W) (visit : Term → State C W → Res C W) (n : Nat)
    (hv : ∀ u : Term, u.size ≤ n → ∀ s, visit u s ≠ .error .outOfFuel)
    (id : Nat) (term_list : List Term) (ht : (Term.Plus id term_list).size ≤ n + 1)
    (s : State C W) : visitPlus E visit id term_list s ≠ .error .outOfFuel := by
  have h1 := visitPlus_loop_fuel E visit term_list (fun u hu => hv u (by
    have := Term.size_le_size_list u _ hu
    simp only [Term.size] at ht
    omega))
  clear hv
  intro h
  simp only [visitPlus] at h
  repeat' split at h
  all_goals simp_all only [reduceCtorEq, Except.error.injEq, Except.ok.injEq, deref_fuel,
    payload_fuel, storeTermValue_fuel, ne_eq, not_false_eq_true, not_true_eq_false]

theorem visitTimes_loop_fuel (E : Env C W) (visit : Term → State C W → Res C W) :
    ∀ l : List Term, (∀ u, u ∈ l → ∀ s, visit u s ≠ .error .outOfFuel) →
      ∀ acc s, visitTimes_loop E visit l acc s ≠ .error .outOfFuel := by
  intro l
  induction l with
  | nil => intro _ acc s h; simp [visitTimes_loop] at h
  | cons term_ptr rest ih =>
    intro hl acc s h
    have h1 := hl term_ptr (List.mem_cons_self _ _)
    have h2 := ih (fun u hu => hl u (List.mem_cons_of_mem _ hu))
    clear ih hl
    simp only [visitTimes_loop] at h
    repeat' split at h
    all_goals simp_all only [reduceCtorEq, Except.error.injEq, Except.ok.injEq, deref_fuel,
      payload_fuel, storeTermValue_fuel, ne_eq, not_false_eq_true, not_true_eq_false]

theorem visitTimes_fuel (E : Env C W) (visit : Term → State C W → Res C W) (n : Nat)
    (hv : ∀ u : Term, u.size ≤ n → ∀ s, visit u s ≠ .error .outOfFuel)
    (id : Nat) (term_list : List Term) (ht : (Term.Times id term_list).size ≤ n + 1)
    (s : State C W) : visitTimes E visit id term_list s ≠ .error .outOfFuel := by
  have h1 := visitTimes_loop_fuel E visit term_list (fun u hu => hv u (by
    have := Term.size_le_size_list u _ hu
    simp only [Term.size] at ht
    omega))
  clear hv
  intro h
  simp only [visitTimes] at h
  repeat' split at h
  all_goals simp_all only [reduceCtorEq, Except.error.injEq, Except.ok.injEq, deref_fuel,
    payload_fuel, storeTermValue_fuel, ne_eq, not_false_eq_true, not_true_eq_false]

theorem visitConcat_loop_fuel (E : Env C W) (visit : Term → State C W → Res C W) :
    ∀ l : List Term, (∀ u, u ∈ l → ∀ s, visit u s ≠ .error .outOfFuel) →
      ∀ acc s, visitConcat_loop E visit l acc s ≠ .error .outOfFuel := by
  intro l
  induction l with
  | nil => intro _ acc s h; simp [visitConcat_loop] at h
  | cons term_ptr rest ih =>
    intro hl acc s h
    have h1 := hl term_ptr (List.mem_cons_self _ _)
    have h2 := ih (fun u hu => hl u (List.mem_cons_of_mem _ hu))
    clear ih hl
    simp only [visitConcat_loop] at h
    repeat' split at h
    all_goals simp_all only [reduceCtorEq, Except.error.injEq, Except.ok.injEq, deref_fuel,
      payload_fuel, storeTermValue_fuel, ne_eq, not_false_eq_true, not_true_eq_false]

theorem visitConcat_fuel (E : Env C W) (visit : Term → State C W → Res C W) (n : Nat)
    (hv : ∀ u : Term, u.size ≤ n → ∀ s, visit u s ≠ .error .outOfFuel)
    (id : Nat) (term_list : List Term) (ht : (Term.Concat id term_list).size ≤ n + 1)
    (s : State C W) : visitConcat E visit id term_list s ≠ .error .outOfFuel := by
  have h1 := visitConcat_loop_fuel E visit term_list (fun u hu => hv u (by
    have := Term.size_le_size_list u _ hu
    simp only [Term.size] at ht
    omega))
  clear hv
  intro h
  simp only [visitConcat] at h
  repeat' split at h
  all_goals simp_all only [reduceCtorEq, Except.error.injEq, Except.ok.injEq, deref_fuel,
    payload_fuel, storeTermValue_fuel, ne_eq, not_false_eq_true, not_true_eq_false]

theorem visitUnknownTerm_fuel (E : Env C W) (visit : Term → State C W → Res C W) (n : Nat)
    (hv : ∀ u : Term, u.size ≤ n → ∀ s, visit u s ≠ .error .outOfFuel)
    (id : Nat) (term_list : List Term) (ht : (Term.Unknown id term_list).size ≤ n + 1)
    (s : State C W) : visitUnknownTerm E visit id term_list s ≠ .error .outOfFuel := by
  have h1 := visit_list_fuel visit term_list (fun u hu => hv u (by
    have := Term.size_le_size_list u _ hu
    simp only [Term.size] at ht
    omega))
  clear hv
  intro h
  simp only [visitUnknownTerm] at h
  repeat' split at h
  all_goals simp_all only [reduceCtorEq, Except.error.injEq, Except.ok.injEq, deref_fuel,
    payload_fuel, storeTermValue_fuel, ne_eq, not_false_eq_true, not_true_eq_false]

theorem visit_fuel (E : Env C W)
    (hsub : ∀ w t u, u ∈ E.arithmetic_getStringTermsIn w t → u.size ≤ t.size) :
    ∀ (fuel : Nat) (t : Term), t.size ≤ fuel → ∀ s, visit E fuel t s ≠ .error .outOfFuel := by
  intro fuel
  induction fuel with
  | zero => intro t ht; have := t.size_pos; omega
  | succ n ih =>
    intro t ht s
    cases t with
    | Exclamation id => exact fun h => Except.noConfusion h
    | Exists id => exact fun h => Except.noConfusion h
    | ForAll id => exact fun h => Except.noConfusion h
    | Let id var_binding_list t => exact visitLet_fuel E hsub (visit E n) n ih id var_binding_list t ht s
    | And id term_list => exact visitAnd_fuel E hsub (visit E n) n ih id term_list ht s
    | Or id term_list => exact visitOr_fuel E hsub (visit E n) n ih id term_list ht s
    | Not id t => exact visitNot_fuel E (visit E n) n ih id t ht s
    | UMinus id t => exact visitUMinus_fuel E (visit E n) n ih id t ht s
    | Minus id l r => exact visitMinus_fuel E (visit E n) n ih id l r ht s
    | Plus id term_list => exact visitPlus_fuel E (visit E n) n ih id term_list ht s
    | Times id term_list => exact visitTimes_fuel E (visit E n) n ih id term_list ht s
    | Eq id l r => exact visitEq_fuel E (visit E n) n ih id l r ht s
    | NotEq id l r => exact visitNotEq_fuel E (visit E n) n ih id l r ht s
    | Gt id l r => exact visitGt_fuel E (visit E n) n ih id l r ht s
    | Ge id l r => exact visitGe_fuel E (visit E n) n ih id l r ht s
    | Lt id l r => exact visitLt_fuel E (visit E n) n ih id l r ht s
    | Le id l r => exact visitLe_fuel E (visit E n) n ih id l r ht s
    | Concat id term_list => exact visitConcat_fuel E (visit E n) n ih id term_list ht s
    | In id l r => exact visitIn_fuel E (visit E n) n ih id l r ht s
    | NotIn id l r => exact visitNotIn_fuel E (visit E n) n ih id l r ht s
    | Len id t => exact visitLen_fuel E (visit E n) n ih id t ht s
    | Contains id a b => exact visitContains_fuel E (visit E n) n ih id a b ht s
    | NotContains id a b => exact visitNotContains_fuel E (visit E n) n ih id a b ht s
    | Begins id a b => exact visitBegins_fuel E (visit E n) n ih id a b ht s
    | NotBegins id a b => exact visitNotBegins_fuel E (visit E n) n ih id a b ht s
    | Ends id a b => exact visitEnds_fuel E (visit E n) n ih id a b ht s
    | NotEnds id a b => exact visitNotEnds_fuel E (visit E n) n ih id a b ht s
    | IndexOf id a b => exact visitIndexOf_fuel E (visit E n) n ih id a b ht s
    | LastIndexOf id a b => exact visitLastIndexOf_fuel E (visit E n) n ih id a b ht s
    | CharAt id a b => exact visitCharAt_fuel E (visit E n) n ih id a b ht s
    | SubString id mode a b c => exact visitSubString_fuel E (visit E n) n ih id mode a b c ht s
    | ToUpper id t => exact visitToUpper_fuel E (visit E n) n ih id t ht s
    | ToLower id t => exact visitToLower_fuel E (visit E n) n ih id t ht s
    | Trim id t => exact visitTrim_fuel E (visit E n) n ih id t ht s
    | ToString id t => exact visitToString_fuel E (visit E n) n ih id t ht s
    | ToInt id t => exact visitToInt_fuel E (visit E n) n ih id t ht s
    | Replace id a b c => exact visitReplace_fuel E (visit E n) n ih id a b c ht s
    | Count id children => exact visitCount_fuel (visit E n) n ih id children ht s
    | Ite id => exact fun h => Except.noConfusion h
    | ReConcat id => exact fun h => Except.noConfusion h
    | ToRegex id => exact fun h => Except.noConfusion h
    | ReUnion id => exact fun h => Except.noConfusion h
    | ReInter id => exact fun h => Except.noConfusion h
    | ReStar id => exact fun h => Except.noConfusion h
    | RePlus id => exact fun h => Except.noConfusion h
    | ReOpt id => exact fun h => Except.noConfusion h
    | Unknown id term_list => exact visitUnknownTerm_fuel E (visit E n) n ih id term_list ht s
    | AsQualIdentifier id => exact fun h => Except.noConfusion h
    | QualIdentifier id var_name => exact visitQualIdentifier_fuel E id var_name s
    | TermConstant id value_type value => exact visitTermConstant_fuel E id value_type value s

theorem Command.assert_size_le (term : Term) :
    ∀ l : List Command, Command.Assert term ∈ l → term.size ≤ Command.size_list l := by
  intro l
  induction l with
  | nil => intro h; simp at h
  | cons command rest ih =>
    intro h
    rw [Command.size_list]
    rcases List.mem_cons.1 h with h | h
    · subst h; exact Nat.le_max_left _ _
    · exact Nat.le_trans (ih h) (Nat.le_max_right _ _)

theorem visit_root_fuel (E : Env C W)
    (hsub : ∀ w t u, u ∈ E.arithmetic_getStringTermsIn w t → u.size ≤ t.size)
    (fuel : Nat) (root_ : Script)
    (hfuel : root_.size ≤ fuel)
    (s : State C W) : visit_root E fuel root_ s ≠ .error .outOfFuel :=
  visitScript_fuel E hsub (visit E fuel) fuel (visit_fuel E hsub fuel) root_
    (fun term hm => Nat.le_trans (Command.assert_size_le term _ hm) hfuel) s

theorem start_loop_fuel (E : Env C W)
    (hsub : ∀ w t u, u ∈ E.arithmetic_getStringTermsIn w t → u.size ≤ t.size)
    (fuel : Nat) (root_ : Script)
    (hfuel : root_.size ≤ fuel) :
    ∀ (remaining : Nat) (s : State C W),
      start_loop E fuel root_ remaining s ≠ .error .outOfFuel := by
  intro remaining
  induction remaining with
  | zero => intro s h; simp [start_loop] at h
  | succ k ih =>
    intro s h
    have h1 := visit_root_fuel E hsub fuel root_ hfuel
    simp only [start_loop] at h
    split at h
    · rename_i e he
      simp only [Except.error.injEq] at h
      subst h
      exact h1 s he
    · exact ih _ h

theorem start_loop_succ (E : Env C W) (fuel : Nat) (root_ : Script) :
    ∀ (k : Nat) (s : State C W),
      start_loop E fuel root_ (k + 1) s =
        match start_loop E fuel root_ k s with
        | .error e => .error e
        | .ok s1 =>
          match visit_root E fuel root_ s1 with
          | .error e => .error e
          | .ok s2 => .ok { s2 with iteration_count_ := s2.iteration_count_ + 1 } := by
  intro k
  induction k with
  | zero =>
    intro s
    cases h : visit_root E fuel root_ s <;> simp only [start_loop, h]
  | succ k ih =>
    intro s
    rw [start_loop]
    cases hv : visit_root E fuel root_ s with
    | error e => simp only [start_loop, hv]
    | ok s1 =>
      simp only []
      rw [ih]
      conv => rhs; rw [start_loop]
      simp only [hv]

theorem visit_list_congr (visit1 visit2 : Term → State C W → Res C W) :
    ∀ l : List Term, (∀ u, u ∈ l → ∀ s, visit1 u s = visit2 u s) →
      ∀ s, visit_list visit1 l s = visit_list visit2 l s := by
  intro l
  induction l with
  | nil => intro _ s; rfl
  | cons t rest ih =>
    intro hl s
    have h1 := hl t (List.mem_cons_self _ _)
    have h2 := ih (fun u hu => hl u (List.mem_cons_of_mem _ hu))
    simp only [visit_list, h1, h2]

theorem visit_children_of_congr (visit1 visit2 : Term → State C W → Res C W) (n : Nat)
    (hv : ∀ u : Term, u.size ≤ n → ∀ s, visit1 u s = visit2 u s)
    (t : Term) (ht : t.size ≤ n + 1) (s : State C W) :
    visit_children_of visit1 t s = visit_children_of visit2 t s := by
  have h1 := visit_list_congr visit1 visit2 t.visit_children
    (fun u hu => hv u (by have := Term.size_lt_of_mem_visit_children t u hu; omega))
  simp only [visit_children_of, h1]

theorem process_mixed_loop_congr (E : Env C W) (visit1 visit2 : Term → State C W → Res C W)
    (term : Term) :
    ∀ l : List Term, (∀ u, u ∈ l → ∀ s, visit1 u s = visit2 u s) →
      ∀ s, process_mixed_loop E visit1 term l s = process_mixed_loop E visit2 term l s := by
  intro l
  induction l with
  | nil => intro _ s; rfl
  | cons string_term rest ih =>
    intro hl s
    have h1 := hl string_term (List.mem_cons_self _ _)
    have h2 := ih (fun u hu => hl u (List.mem_cons_of_mem _ hu))
    simp only [process_mixed_loop, h1, h2]

theorem check_and_visit_congr (E : Env C W)
    (hsub : ∀ w t u, u ∈ E.arithmetic_getStringTermsIn w t → u.size ≤ t.size)
    (visit1 visit2 : Term → State C W → Res C W) (n : Nat)
    (hv : ∀ u : Term, u.size ≤ n → ∀ s, visit1 u s = visit2 u s)
    (term : Term) (ht : term.size ≤ n) (s : State C W) :
    check_and_visit E visit1 term s = check_and_visit E visit2 term s := by
  have h1 := hv term ht
  have h2 : ∀ s, process_mixed_integer_string_constraints_in E visit1 term s =
      process_mixed_integer_string_constraints_in E visit2 term s := fun s =>
    process_mixed_loop_congr E visit1 visit2 term _
      (fun u hu => hv u (Nat.le_trans (hsub _ _ _ hu) ht)) s
  simp only [check_and_visit, h1, h2]

theorem visitAssert_congr (E : Env C W)
    (hsub : ∀ w t u, u ∈ E.arithmetic_getStringTermsIn w t → u.size ≤ t.size)
    (visit1 visit2 : Term → State C W → Res C W) (n : Nat)
    (hv : ∀ u : Term, u.size ≤ n → ∀ s, visit1 u s = visit2 u s)
    (term : Term) (ht : term.size ≤ n) (s : State C W) :
    visitAssert E visit1 term s = visitAssert E visit2 term s := by
  have h1 := check_and_visit_congr E hsub visit1 visit2 n hv term ht
  simp only [visitAssert, h1]

theorem visit_commands_congr (E : Env C W)
    (hsub : ∀ w t u, u ∈ E.arithmetic_getStringTermsIn w t → u.size ≤ t.size)
    (visit1 visit2 : Term → State C W → Res C W) (n : Nat)
    (hv : ∀ u : Term, u.size ≤ n → ∀ s, visit1 u s = visit2 u s) :
    ∀ l : List Command, (∀ term, Command.Assert term ∈ l → term.size ≤ n) →
      ∀ s, visit_commands E visit1 l s = visit_commands E visit2 l s := by
  intro l
  induction l with
  | nil => intro _ s; rfl
  | cons command rest ih =>
    intro hl s
    have h2 := ih (fun term hu => hl term (List.mem_cons_of_mem _ hu))
    have h1 : ∀ s, visit_command E visit1 command s = visit_command E visit2 command s := by
      intro s
      cases command with
      | Assert term =>
        exact visitAssert_congr E hsub visit1 visit2 n hv term
          (hl term (List.mem_cons_self _ _)) s
      | Other name => rfl
    simp only [visit_commands, h1, h2]

theorem visitScript_congr (E : Env C W)
    (hsub : ∀ w t u, u ∈ E.arithmetic_getStringTermsIn w t → u.size ≤ t.size)
    (visit1 visit2 : Term → State C W → Res C W) (n : Nat)
    (hv : ∀ u : Term, u.size ≤ n → ∀ s, visit1 u s = visit2 u s)
    (script : Script) (hl : ∀ term, Command.Assert term ∈ script.command_list → term.size ≤ n)
    (s : State C W) : visitScript E visit1 script s = visitScript E visit2 script s := by
  have h1 := visit_commands_congr E hsub visit1 visit2 n hv script.command_list hl
  simp only [visitScript, h1]

theorem visitLet_bindings_congr (E : Env C W)
    (hsub : ∀ w t u, u ∈ E.arithmetic_getStringTermsIn w t → u.size ≤ t.size)
    (visit1 visit2 : Term → State C W → Res C W) (n : Nat)
    (hv : ∀ u : Term, u.size ≤ n → ∀ s, visit1 u s = visit2 u s) (let_term : Term) :
    ∀ l : List (String × Term), (∀ u, u ∈ l.map Prod.snd → u.size ≤ n) →
      ∀ s, visitLet_bindings E visit1 let_term l s =
        visitLet_bindings E visit2 let_term l s := by
  intro l
  induction l with
  | nil => intro _ s; rfl
  | cons var_binding rest ih =>
    intro hl s
    have h1 := check_and_visit_congr E hsub visit1 visit2 n hv var_binding.2
      (hl _ (by simp))
    have h2 := ih (fun u hu => hl u (by simp only [List.map_cons]; exact List.mem_cons_of_mem _ hu))
    simp only [visitLet_bindings, h1, h2]

theorem visitLet_congr (E : Env C W)
    (hsub : ∀ w t u, u ∈ E.arithmetic_getStringTermsIn w t → u.size ≤ t.size)
    (visit1 visit2 : Term → State C W → Res C W) (n : Nat)
    (hv : ∀ u : Term, u.size ≤ n → ∀ s, visit1 u s = visit2 u s)
    (id : Nat) (var_binding_list : List (String × Term)) (t : Term)
    (ht : (Term.Let id var_binding_list t).size ≤ n + 1) (s : State C W) :
    visitLet E visit1 id var_binding_list t s = visitLet E visit2 id var_binding_list t s := by
  have h1 := visitLet_bindings_congr E hsub visit1 visit2 n hv (Term.Let id var_binding_list t)
    var_binding_list (fun u hu => by
      have := Term.size_le_size_bindings u _ hu
      simp only [Term.size] at ht
      omega)
  have h2 := check_and_visit_congr E hsub visit1 visit2 n hv t
    (by simp only [Term.size] at ht; omega)
  simp only [visitLet, h1, h2]

theorem visitAnd_body_congr (E : Env C W)
    (hsub : ∀ w t u, u ∈ E.arithmetic_getStringTermsIn w t → u.size ≤ t.size)
    (visit1 visit2 : Term → State C W → Res C W) (n : Nat)
    (hv : ∀ u : Term, u.size ≤ n → ∀ s, visit1 u s = visit2 u s)
    (term : Term) (ht : term.size ≤ n) (is_satisfiable : Bool) (s : State C W) :
    visitAnd_body E visit1 term is_satisfiable s = visitAnd_body E visit2 term is_satisfiable s := by
  have h1 := check_and_visit_congr E hsub visit1 visit2 n hv term ht
  simp only [visitAnd_body, h1]

theorem visitAnd_loop_congr (E : Env C W)
    (hsub : ∀ w t u, u ∈ E.arithmetic_getStringTermsIn w t → u.size ≤ t.size)
    (visit1 visit2 : Term → State C W → Res C W) (n : Nat)
    (hv : ∀ u : Term, u.size ≤ n → ∀ s, visit1 u s = visit2 u s) :
    ∀ l : List Term, (∀ u, u ∈ l → u.size ≤ n) →
      ∀ b s, visitAnd_loop E visit1 l b s = visitAnd_loop E visit2 l b s := by
  intro l
  induction l with
  | nil => intro _ b s; rfl
  | cons term rest ih =>
    intro hl b s
    have h1 := visitAnd_body_congr E hsub visit1 visit2 n hv term
      (hl term (List.mem_cons_self _ _))
    have h2 := ih (fun u hu => hl u (List.mem_cons_of_mem _ hu))
    simp only [visitAnd_loop, h1, h2]

theorem visitAnd_congr (E : Env C W)
    (hsub : ∀ w t u, u ∈ E.arithmetic_getStringTermsIn w t → u.size ≤ t.size)
    (visit1 visit2 : Term → State C W → Res C W) (n : Nat)
    (hv : ∀ u : Term, u.size ≤ n → ∀ s, visit1 u s = visit2 u s)
    (id : Nat) (term_list : List Term) (ht : (Term.And id term_list).size ≤ n + 1)
    (s : State C W) :
    visitAnd E visit1 id term_list s = visitAnd E visit2 id term_list s := by
  have h1 := visitAnd_loop_congr E hsub visit1 visit2 n hv term_list (fun u hu => by
    have := Term.size_le_size_list u _ hu
    simp only [Term.size] at ht
    omega)
  simp only [visitAnd, h1]

theorem visitOr_body_congr (E : Env C W)
    (hsub : ∀ w t u, u ∈ E.arithmetic_getStringTermsIn w t → u.size ≤ t.size)
    (visit1 visit2 : Term → State C W → Res C W) (n : Nat)
    (hv : ∀ u : Term, u.size ≤ n → ∀ s, visit1 u s = visit2 u s)
    (term : Term) (ht : term.size ≤ n) (s : State C W) :
    visitOr_body E visit1 term s = visitOr_body E visit2 term s := by
  have h1 := check_and_visit_congr E hsub visit1 visit2 n hv term ht
  simp only [visitOr_body, h1]

theorem visitOr_loop_congr (E : Env C W)
    (hsub : ∀ w t u, u ∈ E.arithmetic_getStringTermsIn w t → u.size ≤ t.size)
    (visit1 visit2 : Term → State C W → Res C W) (n : Nat)
    (hv : ∀ u : Term, u.size ≤ n → ∀ s, visit1 u s = visit2 u s) :
    ∀ l : List Term, (∀ u, u ∈ l → u.size ≤ n) →
      ∀ b s, visitOr_loop E visit1 l b s = visitOr_loop E visit2 l b s := by
  intro l
  induction l with
  | nil => intro _ b s; rfl
  | cons term rest ih =>
    intro hl b s
    have h1 := visitOr_body_congr E hsub visit1 visit2 n hv term
      (hl term (List.mem_cons_self _ _))
    have h2 := ih (fun u hu => hl u (List.mem_cons_of_mem _ hu))
    simp only [visitOr_loop, h1, h2]

theorem visitOr_congr (E : Env C W)
    (hsub : ∀ w t u, u ∈ E.arithmetic_getStringTermsIn w t → u.size ≤ t.size)
    (visit1 visit2 : Term → State C W → Res C W) (n : Nat)
    (hv : ∀ u : Term, u.size ≤ n → ∀ s, visit1 u s = visit2 u s)
    (id : Nat) (term_list : List Term) (ht : (Term.Or id term_list).size ≤ n + 1)
    (s : State C W) :
    visitOr E visit1 id term_list s = visitOr E visit2 id term_list s := by
  have h1 := visitOr_loop_congr E hsub visit1 visit2 n hv term_list (fun u hu => by
    have := Term.size_le_size_list u _ hu
    simp only [Term.size] at ht
    omega)
  simp only [visitOr, h1]

theorem visitPlus_loop_congr (E : Env C W) (visit1 visit2 : Term → State C W → Res C W) :
    ∀ l : List Term, (∀ u, u ∈ l → ∀ s, visit1 u s = visit2 u s) →
      ∀ acc s, visitPlus_loop E visit1 l acc s = visitPlus_loop E visit2 l acc s := by
  intro l
  induction l with
  | nil => intro _ acc s; rfl
  | cons term_ptr rest ih =>
    intro hl acc s
    have h1 := hl term_ptr (List.mem_cons_self _ _)
    have h2 := ih (fun u hu => hl u (List.mem_cons_of_mem _ hu))
    simp only [visitPlus_loop, h1, h2]

theorem visitPlus_congr (E : Env C W) (visit1 visit2 : Term → State C W → Res C W) (n : Nat)
    (hv : ∀ u : Term, u.size ≤ n → ∀ s, visit1 u s = visit2 u s)
    (id : Nat) (term_list : List Term) (ht : (Term.Plus id term_list).size ≤ n + 1)
    (s : State C W) :
    visitPlus E visit1 id term_list s = visitPlus E visit2 id term_list s := by
  have h1 := visitPlus_loop_congr E visit1 visit2 term_list (fun u hu => hv u (by
    have := Term.size_le_size_list u _ hu
    simp only [Term.size] at ht
    omega))
  simp only [visitPlus, h1]

theorem visitTimes_loop_congr (E : Env C W) (visit1 visit2 : Term → State C W → Res C W) :
    ∀ l : List Term, (∀ u, u ∈ l → ∀ s, visit1 u s = visit2 u s) →
      ∀ acc s, visitTimes_loop E visit1 l acc s = visitTimes_loop E visit2 l acc s := by
  intro l
  induction l with
  | nil => intro _ acc s; rfl
  | cons term_ptr rest ih =>
    intro hl acc s
    have h1 := hl term_ptr (List.mem_cons_self _ _)
    have h2 := ih (fun u hu => hl u (List.mem_cons_of_mem _ hu))
    simp only [visitTimes_loop, h1, h2]

theorem visitTimes_congr (E : Env C W) (visit1 visit2 : Term → State C W → Res C W) (n : Nat)
    (hv : ∀ u : Term, u.size ≤ n → ∀ s, visit1 u s = visit2 u s)
    (id : Nat) (term_list : List Term) (ht : (Term.Times id term_list).size ≤ n + 1)
    (s : State C W) :
    visitTimes E visit1 id term_list s = visitTimes E visit2 id term_list s := by
  have h1 := visitTimes_loop_congr E visit1 visit2 term_list (fun u hu => hv u (by
    have := Term.size_le_size_list u _ hu
    simp only [Term.size] at ht
    omega))
  simp only [visitTimes, h1]

theorem visitConcat_loop_congr (E : Env C W) (visit1 visit2 : Term → State C W → Res C W) :
    ∀ l : List Term, (∀ u, u ∈ l → ∀ s, visit1 u s = visit2 u s) →
      ∀ acc s, visitConcat_loop E visit1 l acc s = visitConcat_loop E visit2 l acc s := by
  intro l
  induction l with
  | nil => intro _ acc s; rfl
  | cons term_ptr rest ih =>
    intro hl acc s
    have h1 := hl term_ptr (List.mem_cons_self _ _)
    have h2 := ih (fun u hu => hl u (List.mem_cons_of_mem _ hu))
    simp only [visitConcat_loop, h1, h2]

theorem visitConcat_congr (E : Env C W) (visit1 visit2 : Term → State C W → Res C W) (n : Nat)
    (hv : ∀ u : Term, u.size ≤ n → ∀ s, visit1 u s = visit2 u s)
    (id : Nat) (term_list : List Term) (ht : (Term.Concat id term_list).size ≤ n + 1)
    (s : State C W) :
    visitConcat E visit1 id term_list s = visitConcat E visit2 id term_list s := by
  have h1 := visitConcat_loop_congr E visit1 visit2 term_list (fun u hu => hv u (by
    have := Term.size_le_size_list u _ hu
    simp only [Term.size] at ht
    omega))
  simp only [visitConcat, h1]

theorem visitUnknownTerm_congr (E : Env C W) (visit1 visit2 : Term → State C W → Res C W) (n : Nat)
    (hv : ∀ u : Term, u.size ≤ n → ∀ s, visit1 u s = visit2 u s)
    (id : Nat) (term_list : List Term) (ht : (Term.Unknown id term_list).size ≤ n + 1)
    (s : State C W) :
    visitUnknownTerm E visit1 id term_list s = visitUnknownTerm E visit2 id term_list s := by
  have h1 := visit_list_congr visit1 visit2 term_list (fun u hu => hv u (by
    have := Term.size_le_size_list u _ hu
    simp only [Term.size] at ht
    omega))
  simp only [visitUnknownTerm, h1]

theorem visitNot_congr (E : Env C W) (visit1 visit2 : Term → State C W → Res C W) (n : Nat)
    (hv : ∀ u : Term, u.size ≤ n → ∀ s, visit1 u s = visit2 u s)
    (id : Nat) (t : Term) (ht : (Term.Not id t).size ≤ n + 1) (s : State C W) :
    visitNot E visit1 id t s = visitNot E visit2 id t s := by
  have hc := visit_children_of_congr visit1 visit2 n hv (Term.Not id t) ht
  simp only [visitNot, hc]

theorem visitUMinus_congr (E : Env C W) (visit1 visit2 : Term → State C W → Res C W) (n : Nat)
    (hv : ∀ u : Term, u.size ≤ n → ∀ s, visit1 u s = visit2 u s)
    (id : Nat) (t : Term) (ht : (Term.UMinus id t).size ≤ n + 1) (s : State C W) :
    visitUMinus E visit1 id t s = visitUMinus E visit2 id t s := by
  have hc := visit_children_of_congr visit1 visit2 n hv (Term.UMinus id t) ht
  simp only [visitUMinus, hc]

theorem visitMinus_congr (E : Env C W) (visit1 visit2 : Term → State C W → Res C W) (n : Nat)
    (hv : ∀ u : Term, u.size ≤ n → ∀ s, visit1 u s = visit2 u s)
    (id : Nat) (l : Term) (r : Term) (ht : (Term.Minus id l r).size ≤ n + 1) (s : State C W) :
    visitMinus E visit1 id l r s = visitMinus E visit2 id l r s := by
  have hc := visit_children_of_congr visit1 visit2 n hv (Term.Minus id l r) ht
  simp only [visitMinus, hc]

theorem visitEq_congr (E : Env C W) (visit1 visit2 : Term → State C W → Res C W) (n : Nat)
    (hv : ∀ u : Term, u.size ≤ n → ∀ s, visit1 u s = visit2 u s)
    (id : Nat) (l : Term) (r : Term) (ht : (Term.Eq id l r).size ≤ n + 1) (s : State C W) :
    visitEq E visit1 id l r s = visitEq E visit2 id l r s := by
  have hc := visit_children_of_congr visit1 visit2 n hv (Term.Eq id l r) ht
  simp only [visitEq, hc]

theorem visitNotEq_default_congr (E : Env C W) (visit1 visit2 : Term → State C W → Res C W)
    (n : Nat)
    (hv : ∀ u : Term, u.size ≤ n → ∀ s, visit1 u s = visit2 u s)
    (id : Nat) (l : Term) (r : Term) (ht : (Term.NotEq id l r).size ≤ n + 1) (s : State C W) :
    visitNotEq_default E visit1 id l r s = visitNotEq_default E visit2 id l r s := by
  have hc := visit_children_of_congr visit1 visit2 n hv (Term.NotEq id l r) ht
  simp only [visitNotEq_default, hc]

theorem visitNotEq_congr (E : Env C W) (visit1 visit2 : Term → State C W → Res C W) (n : Nat)
    (hv : ∀ u : Term, u.size ≤ n → ∀ s, visit1 u s = visit2 u s)
    (id : Nat) (l : Term) (r : Term) (ht : (Term.NotEq id l r).size ≤ n + 1) (s : State C W) :
    visitNotEq E visit1 id l r s = visitNotEq E visit2 id l r s := by
  have hc := visit_children_of_congr visit1 visit2 n hv (Term.NotEq id l r) ht
  have hd := visitNotEq_default_congr E visit1 visit2 n hv id l r ht
  simp only [visitNotEq, hc, hd]

theorem visitGt_congr (E : Env C W) (visit1 visit2 : Term → State C W → Res C W) (n : Nat)
    (hv : ∀ u : Term, u.size ≤ n → ∀ s, visit1 u s = visit2 u s)
    (id : Nat) (l : Term) (r : Term) (ht : (Term.Gt id l r).size ≤ n + 1) (s : State C W) :
    visitGt E visit1 id l r s = visitGt E visit2 id l r s := by
  have hc := visit_children_of_congr visit1 visit2 n hv (Term.Gt id l r) ht
  simp only [visitGt, hc]

theorem visitGe_congr (E : Env C W) (visit1 visit2 : Term → State C W → Res C W) (n : Nat)
    (hv : ∀ u : Term, u.size ≤ n → ∀ s, visit1 u s = visit2 u s)
    (id : Nat) (l : Term) (r : Term) (ht : (Term.Ge id l r).size ≤ n + 1) (s : State C W) :
    visitGe E visit1 id l r s = visitGe E visit2 id l r s := by
  have hc := visit_children_of_congr visit1 visit2 n hv (Term.Ge id l r) ht
  simp only [visitGe, hc]

theorem visitLt_congr (E : Env C W) (visit1 visit2 : Term → State C W → Res C W) (n : Nat)
    (hv : ∀ u : Term, u.size ≤ n → ∀ s, visit1 u s = visit2 u s)
    (id : Nat) (l : Term) (r : Term) (ht : (Term.Lt id l r).size ≤ n + 1) (s : State C W) :
    visitLt E visit1 id l r s = visitLt E visit2 id l r s := by
  have hc := visit_children_of_congr visit1 visit2 n hv (Term.Lt id l r) ht
  simp only [visitLt, hc]

theorem visitLe_congr (E : Env C W) (visit1 visit2 : Term → State C W → Res C W) (n : Nat)
    (hv : ∀ u : Term, u.size ≤ n → ∀ s, visit1 u s = visit2 u s)
    (id : Nat) (l : Term) (r : Term) (ht : (Term.Le id l r).size ≤ n + 1) (s : State C W) :
    visitLe E visit1 id l r s = visitLe E visit2 id l r s := by
  have hc := visit_children_of_congr visit1 visit2 n hv (Term.Le id l r) ht
  simp only [visitLe, hc]

theorem visitIn_default_congr (E : Env C W) (visit1 visit2 : Term → State C W → Res C W) (n : Nat)
    (hv : ∀ u : Term, u.size ≤ n → ∀ s, visit1 u s = visit2 u s)
    (id : Nat) (l : Term) (r : Term) (ht : (Term.In id l r).size ≤ n + 1) (s : State C W) :
    visitIn_default E visit1 id l r s = visitIn_default E visit2 id l r s := by
  have hc := visit_children_of_congr visit1 visit2 n hv (Term.In id l r) ht
  simp only [visitIn_default, hc]

theorem visitIn_congr (E : Env C W) (visit1 visit2 : Term → State C W → Res C W) (n : Nat)
    (hv : ∀ u : Term, u.size ≤ n → ∀ s, visit1 u s = visit2 u s)
    (id : Nat) (l : Term) (r : Term) (ht : (Term.In id l r).size ≤ n + 1) (s : State C W) :
    visitIn E visit1 id l r s = visitIn E visit2 id l r s := by
  have hc := visit_children_of_congr visit1 visit2 n hv (Term.In id l r) ht
  have hd := visitIn_default_congr E visit1 visit2 n hv id l r ht
  simp only [visitIn, hc, hd]

theorem visitNotIn_congr (E : Env C W) (visit1 visit2 : Term → State C W → Res C W) (n : Nat)
    (hv : ∀ u : Term, u.size ≤ n → ∀ s, visit1 u s = visit2 u s)
    (id : Nat) (l : Term) (r : Term) (ht : (Term.NotIn id l r).size ≤ n + 1) (s : State C W) :
    visitNotIn E visit1 id l r s = visitNotIn E visit2 id l r s := by
  have hc := visit_children_of_congr visit1 visit2 n hv (Term.NotIn id l r) ht
  simp only [visitNotIn, hc]

theorem visitLen_congr (E : Env C W) (visit1 visit2 : Term → State C W → Res C W) (n : Nat)
    (hv : ∀ u : Term, u.size ≤ n → ∀ s, visit1 u s = visit2 u s)
    (id : Nat) (t : Term) (ht : (Term.Len id t).size ≤ n + 1) (s : State C W) :
    visitLen E visit1 id t s = visitLen E visit2 id t s := by
  have hc := visit_children_of_congr visit1 visit2 n hv (Term.Len id t) ht
  simp only [visitLen, hc]

theorem visitContains_congr (E : Env C W) (visit1 visit2 : Term → State C W → Res C W) (n : Nat)
    (hv : ∀ u : Term, u.size ≤ n → ∀ s, visit1 u s = visit2 u s)
    (id : Nat) (a : Term) (b : Term) (ht : (Term.Contains id a b).size ≤ n + 1) (s : State C W) :
    visitContains E visit1 id a b s = visitContains E visit2 id a b s := by
  have hc := visit_children_of_congr visit1 visit2 n hv (Term.Contains id a b) ht
  simp only [visitContains, hc]

theorem visitNotContains_congr (E : Env C W) (visit1 visit2 : Term → State C W → Res C W) (n : Nat)
    (hv : ∀ u : Term, u.size ≤ n → ∀ s, visit1 u s = visit2 u s)
    (id : Nat) (a : Term) (b : Term) (ht : (Term.NotContains id a b).size ≤ n + 1) (s : State C W) :
    visitNotContains E visit1 id a b s = visitNotContains E visit2 id a b s := by
  have hc := visit_children_of_congr visit1 visit2 n hv (Term.NotContains id a b) ht
  simp only [visitNotContains, hc]

theorem visitBegins_congr (E : Env C W) (visit1 visit2 : Term → State C W → Res C W) (n : Nat)
    (hv : ∀ u : Term, u.size ≤ n → ∀ s, visit1 u s = visit2 u s)
    (id : Nat) (a : Term) (b : Term) (ht : (Term.Begins id a b).size ≤ n + 1) (s : State C W) :
    visitBegins E visit1 id a b s = visitBegins E visit2 id a b s := by
  have hc := visit_children_of_congr visit1 visit2 n hv (Term.Begins id a b) ht
  simp only [visitBegins, hc]

theorem visitNotBegins_congr (E : Env C W) (visit1 visit2 : Term → State C W → Res C W) (n : Nat)
    (hv : ∀ u : Term, u.size ≤ n → ∀ s, visit1 u s = visit2 u s)
    (id : Nat) (a : Term) (b : Term) (ht : (Term.NotBegins id a b).size ≤ n + 1) (s : State C W) :
    visitNotBegins E visit1 id a b s = visitNotBegins E visit2 id a b s := by
  have hc := visit_children_of_congr visit1 visit2 n hv (Term.NotBegins id a b) ht
  simp only [visitNotBegins, hc]

theorem visitEnds_congr (E : Env C W) (visit1 visit2 : Term → State C W → Res C W) (n : Nat)
    (hv : ∀ u : Term, u.size ≤ n → ∀ s, visit1 u s = visit2 u s)
    (id : Nat) (a : Term) (b : Term) (ht : (Term.Ends id a b).size ≤ n + 1) (s : State C W) :
    visitEnds E visit1 id a b s = visitEnds E visit2 id a b s := by
  have hc := visit_children_of_congr visit1 visit2 n hv (Term.Ends id a b) ht
  simp only [visitEnds, hc]

theorem visitNotEnds_congr (E : Env C W) (visit1 visit2 : Term → State C W → Res C W) (n : Nat)
    (hv : ∀ u : Term, u.size ≤ n → ∀ s, visit1 u s = visit2 u s)
    (id : Nat) (a : Term) (b : Term) (ht : (Term.NotEnds id a b).size ≤ n + 1) (s : State C W) :
    visitNotEnds E visit1 id a b s = visitNotEnds E visit2 id a b s := by
  have hc := visit_children_of_congr visit1 visit2 n hv (Term.NotEnds id a b) ht
  simp only [visitNotEnds, hc]

theorem visitIndexOf_congr (E : Env C W) (visit1 visit2 : Term → State C W → Res C W) (n : Nat)
    (hv : ∀ u : Term, u.size ≤ n → ∀ s, visit1 u s = visit2 u s)
    (id : Nat) (a : Term) (b : Term) (ht : (Term.IndexOf id a b).size ≤ n + 1) (s : State C W) :
    visitIndexOf E visit1 id a b s = visitIndexOf E visit2 id a b s := by
  have hc := visit_children_of_congr visit1 visit2 n hv (Term.IndexOf id a b) ht
  simp only [visitIndexOf, hc]

theorem visitLastIndexOf_congr (E : Env C W) (visit1 visit2 : Term → State C W → Res C W) (n : Nat)
    (hv : ∀ u : Term, u.size ≤ n → ∀ s, visit1 u s = visit2 u s)
    (id : Nat) (a : Term) (b : Term) (ht : (Term.LastIndexOf id a b).size ≤ n + 1) (s : State C W) :
    visitLastIndexOf E visit1 id a b s = visitLastIndexOf E visit2 id a b s := by
  have hc := visit_children_of_congr visit1 visit2 n hv (Term.LastIndexOf id a b) ht
  simp only [visitLastIndexOf, hc]

theorem visitCharAt_congr (E : Env C W) (visit1 visit2 : Term → State C W → Res C W) (n : Nat)
    (hv : ∀ u : Term, u.size ≤ n → ∀ s, visit1 u s = visit2 u s)
    (id : Nat) (a : Term) (b : Term) (ht : (Term.CharAt id a b).size ≤ n + 1) (s : State C W) :
    visitCharAt E visit1 id a b s = visitCharAt E visit2 id a b s := by
  have hc := visit_children_of_congr visit1 visit2 n hv (Term.CharAt id a b) ht
  simp only [visitCharAt, hc]

theorem visitSubString_congr (E : Env C W) (visit1 visit2 : Term → State C W → Res C W) (n : Nat)
    (hv : ∀ u : Term, u.size ≤ n → ∀ s, visit1 u s = visit2 u s)
    (id : Nat) (mode : SubStringMode) (a : Term) (b : Term) (c : Option Term)
    (ht : (Term.SubString id mode a b c).size ≤ n + 1) (s : State C W) :
    visitSubString E visit1 id mode a b c s = visitSubString E visit2 id mode a b c s := by
  have hc := visit_children_of_congr visit1 visit2 n hv (Term.SubString id mode a b c) ht
  simp only [visitSubString, hc]

theorem visitToUpper_congr (E : Env C W) (visit1 visit2 : Term → State C W → Res C W) (n : Nat)
    (hv : ∀ u : Term, u.size ≤ n → ∀ s, visit1 u s = visit2 u s)
    (id : Nat) (t : Term) (ht : (Term.ToUpper id t).size ≤ n + 1) (s : State C W) :
    visitToUpper E visit1 id t s = visitToUpper E visit2 id t s := by
  have hc := visit_children_of_congr visit1 visit2 n hv (Term.ToUpper id t) ht
  simp only [visitToUpper, hc]

theorem visitToLower_congr (E : Env C W) (visit1 visit2 : Term → State C W → Res C W) (n : Nat)
    (hv : ∀ u : Term, u.size ≤ n → ∀ s, visit1 u s = visit2 u s)
    (id : Nat) (t : Term) (ht : (Term.ToLower id t).size ≤ n + 1) (s : State C W) :
    visitToLower E visit1 id t s = visitToLower E visit2 id t s := by
  have hc := visit_children_of_congr visit1 visit2 n hv (Term.ToLower id t) ht
  simp only [visitToLower, hc]

theorem visitTrim_congr (E : Env C W) (visit1 visit2 : Term → State C W → Res C W) (n : Nat)
    (hv : ∀ u : Term, u.size ≤ n → ∀ s, visit1 u s = visit2 u s)
    (id : Nat) (t : Term) (ht : (Term.Trim id t).size ≤ n + 1) (s : State C W) :
    visitTrim E visit1 id t s = visitTrim E visit2 id t s := by
  have hc := visit_children_of_congr visit1 visit2 n hv (Term.Trim id t) ht
  simp only [visitTrim, hc]

theorem visitToString_congr (E : Env C W) (visit1 visit2 : Term → State C W → Res C W) (n : Nat)
    (hv : ∀ u : Term, u.size ≤ n → ∀ s, visit1 u s = visit2 u s)
    (id : Nat) (t : Term) (ht : (Term.ToString id t).size ≤ n + 1) (s : State C W) :
    visitToString E visit1 id t s = visitToString E visit2 id t s := by
  have hc := visit_children_of_congr visit1 visit2 n hv (Term.ToString id t) ht
  simp only [visitToString, hc]

theorem visitToInt_congr (E : Env C W) (visit1 visit2 : Term → State C W → Res C W) (n : Nat)
    (hv : ∀ u : Term, u.size ≤ n → ∀ s, visit1 u s = visit2 u s)
    (id : Nat) (t : Term) (ht : (Term.ToInt id t).size ≤ n + 1) (s : State C W) :
    visitToInt E visit1 id t s = visitToInt E visit2 id t s := by
  have hc := visit_children_of_congr visit1 visit2 n hv (Term.ToInt id t) ht
  simp only [visitToInt, hc]

theorem visitReplace_congr (E : Env C W) (visit1 visit2 : Term → State C W → Res C W) (n : Nat)
    (hv : ∀ u : Term, u.size ≤ n → ∀ s, visit1 u s = visit2 u s)
    (id : Nat) (a : Term) (b : Term) (c : Term)
    (ht : (Term.Replace id a b c).size ≤ n + 1) (s : State C W) :
    visitReplace E visit1 id a b c s = visitReplace E visit2 id a b c s := by
  have hc := visit_children_of_congr visit1 visit2 n hv (Term.Replace id a b c) ht
  simp only [visitReplace, hc]

theorem visitCount_congr (visit1 visit2 : Term → State C W → Res C W) (n : Nat)
    (hv : ∀ u : Term, u.size ≤ n → ∀ s, visit1 u s = visit2 u s)
    (id : Nat) (children : List Term) (ht : (Term.Count id children).size ≤ n + 1) (s : State C W) :
    visitCount visit1 id children s = visitCount visit2 id children s := by
  have hc := visit_children_of_congr visit1 visit2 n hv (Term.Count id children) ht
  simp only [visitCount, hc]

theorem visit_congr (E : Env C W)
    (hsub : ∀ w t u, u ∈ E.arithmetic_getStringTermsIn w t → u.size ≤ t.size) :
    ∀ (fuel1 fuel2 : Nat) (t : Term), t.size ≤ fuel1 → t.size ≤ fuel2 →
      ∀ s, visit E fuel1 t s = visit E fuel2 t s := by
  intro fuel1
  induction fuel1 with
  | zero => intro fuel2 t ht; have := t.size_pos; omega
  | succ n ih =>
    intro fuel2 t ht1 ht2 s
    cases fuel2 with
    | zero => have := t.size_pos; omega
    | succ m =>
      have hv : ∀ u : Term, u.size ≤ min n m → ∀ s, visit E n u s = visit E m u s :=
        fun u hu s => ih m u (by omega) (by omega) s
      cases t with
      | Exclamation id => rfl
      | Exists id => rfl
      | ForAll id => rfl
      | Let id var_binding_list t =>
        exact visitLet_congr E hsub (visit E n) (visit E m) (min n m) hv id var_binding_list t
          (by omega) s
      | And id term_list =>
        exact visitAnd_congr E hsub (visit E n) (visit E m) (min n m) hv id term_list
          (by omega) s
      | Or id term_list =>
        exact visitOr_congr E hsub (visit E n) (visit E m) (min n m) hv id term_list
          (by omega) s
      | Not id t =>
        exact visitNot_congr E (visit E n) (visit E m) (min n m) hv id t
          (by omega) s
      | UMinus id t =>
        exact visitUMinus_congr E (visit E n) (visit E m) (min n m) hv id t
          (by omega) s
      | Minus id l r =>
        exact visitMinus_congr E (visit E n) (visit E m) (min n m) hv id l r
          (by omega) s
      | Plus id term_list =>
        exact visitPlus_congr E (visit E n) (visit E m) (min n m) hv id term_list
          (by omega) s
      | Times id term_list =>
        exact visitTimes_congr E (visit E n) (visit E m) (min n m) hv id term_list
          (by omega) s
      | Eq id l r =>
        exact visitEq_congr E (visit E n) (visit E m) (min n m) hv id l r
          (by omega) s
      | NotEq id l r =>
        exact visitNotEq_congr E (visit E n) (visit E m) (min n m) hv id l r
          (by omega) s
      | Gt id l r =>
        exact visitGt_congr E (visit E n) (visit E m) (min n m) hv id l r
          (by omega) s
      | Ge id l r =>
        exact visitGe_congr E (visit E n) (visit E m) (min n m) hv id l r
          (by omega) s
      | Lt id l r =>
        exact visitLt_congr E (visit E n) (visit E m) (min n m) hv id l r
          (by omega) s
      | Le id l r =>
        exact visitLe_congr E (visit E n) (visit E m) (min n m) hv id l r
          (by omega) s
      | Concat id term_list =>
        exact visitConcat_congr E (visit E n) (visit E m) (min n m) hv id term_list
          (by omega) s
      | In id l r =>
        exact visitIn_congr E (visit E n) (visit E m) (min n m) hv id l r
          (by omega) s
      | NotIn id l r =>
        exact visitNotIn_congr E (visit E n) (visit E m) (min n m) hv id l r
          (by omega) s
      | Len id t =>
        exact visitLen_congr E (visit E n) (visit E m) (min n m) hv id t
          (by omega) s
      | Contains id a b =>
        exact visitContains_congr E (visit E n) (visit E m) (min n m) hv id a b
          (by omega) s
      | NotContains id a b =>
        exact visitNotContains_congr E (visit E n) (visit E m) (min n m) hv id a b
          (by omega) s
      | Begins id a b =>
        exact visitBegins_congr E (visit E n) (visit E m) (min n m) hv id a b
          (by omega) s
      | NotBegins id a b =>
        exact visitNotBegins_congr E (visit E n) (visit E m) (min n m) hv id a b
          (by omega) s
      | Ends id a b =>
        exact visitEnds_congr E (visit E n) (visit E m) (min n m) hv id a b
          (by omega) s
      | NotEnds id a b =>
        exact visitNotEnds_congr E (visit E n) (visit E m) (min n m) hv id a b
          (by omega) s
      | IndexOf id a b =>
        exact visitIndexOf_congr E (visit E n) (visit E m) (min n m) hv id a b
          (by omega) s
      | LastIndexOf id a b =>
        exact visitLastIndexOf_congr E (visit E n) (visit E m) (min n m) hv id a b
          (by omega) s
      | CharAt id a b =>
        exact visitCharAt_congr E (visit E n) (visit E m) (min n m) hv id a b
          (by omega) s
      | SubString id mode a b c =>
        exact visitSubString_congr E (visit E n) (visit E m) (min n m) hv id mode a b c
          (by omega) s
      | ToUpper id t =>
        exact visitToUpper_congr E (visit E n) (visit E m) (min n m) hv id t
          (by omega) s
      | ToLower id t =>
        exact visitToLower_congr E (visit E n) (visit E m) (min n m) hv id t
          (by omega) s
      | Trim id t =>
        exact visitTrim_congr E (visit E n) (visit E m) (min n m) hv id t
          (by omega) s
      | ToString id t =>
        exact visitToString_congr E (visit E n) (visit E m) (min n m) hv id t
          (by omega) s
      | ToInt id t =>
        exact visitToInt_congr E (visit E n) (visit E m) (min n m) hv id t
          (by omega) s
      | Replace id a b c =>
        exact visitReplace_congr E (visit E n) (visit E m) (min n m) hv id a b c
          (by omega) s
      | Count id children =>
        exact visitCount_congr (visit E n) (visit E m) (min n m) hv id children
          (by omega) s
      | Ite id => rfl
      | ReConcat id => rfl
      | ToRegex id => rfl
      | ReUnion id => rfl
      | ReInter id => rfl
      | ReStar id => rfl
      | RePlus id => rfl
      | ReOpt id => rfl
      | Unknown id term_list =>
        exact visitUnknownTerm_congr E (visit E n) (visit E m) (min n m) hv id term_list
          (by omega) s
      | AsQualIdentifier id => rfl
      | QualIdentifier id var_name => rfl
      | TermConstant id value_type value => rfl

theorem visit_root_congr (E : Env C W)
    (hsub : ∀ w t u, u ∈ E.arithmetic_getStringTermsIn w t → u.size ≤ t.size)
    (fuel1 fuel2 : Nat) (root_ : Script) (h1 : root_.size ≤ fuel1) (h2 : root_.size ≤ fuel2)
    (s : State C W) : visit_root E fuel1 root_ s = visit_root E fuel2 root_ s :=
  visitScript_congr E hsub (visit E fuel1) (visit E fuel2) (min fuel1 fuel2)
    (fun u hu s => visit_congr E hsub fuel1 fuel2 u (by omega) (by omega) s) root_
    (fun term hm => by
      have := Command.assert_size_le term _ hm
      simp only [Script.size] at h1 h2
      omega) s

theorem start_loop_congr (E : Env C W)
    (hsub : ∀ w t u, u ∈ E.arithmetic_getStringTermsIn w t → u.size ≤ t.size)
    (fuel1 fuel2 : Nat) (root_ : Script) (h1 : root_.size ≤ fuel1) (h2 : root_.size ≤ fuel2) :
    ∀ (remaining : Nat) (s : State C W),
      start_loop E fuel1 root_ remaining s = start_loop E fuel2 root_ remaining s := by
  intro remaining
  induction remaining with
  | zero => intro s; rfl
  | succ k ih =>
    intro s
    have hr := visit_root_congr E hsub fuel1 fuel2 root_ h1 h2
    simp only [start_loop, hr, ih]

/-! ### Reference library, folds and bindings -/

theorem Lang.mem_difference {α : Type} [DecidableEq α] (a b : Lang α) (x : α) :
    (a.difference b).mem x = (a.mem x && !b.mem x) := by
  cases a with
  | mk ca wa =>
    cases b with
    | mk cb wb =>
      cases ca <;> cases cb
      all_goals
        simp [Lang.difference, Lang.intersect, Lang.complement, Lang.mem, List.mem_filter]
      all_goals first | tauto | exact Bool.and_comm _ _

theorem refEnv_isSetDifference : IsSetDifference refEnv Lang.mem :=
  fun x y w => Lang.mem_difference x y w

theorem RefWorld.lookup_setValue_ne (w : RefWorld) (x y : Variable) (v : Option RefValue)
    (scope : Nat) (h : y ≠ x) :
    (w.setValue x v).values.lookup (scope, y) = w.values.lookup (scope, y) := by
  have hk : ((scope, y) == (w.top_scope, x)) = false := by
    simp [h]
  simp only [RefWorld.setValue, List.lookup, hk]
  induction w.values with
  | nil => rfl
  | cons entry rest ih =>
    by_cases he : entry.1 = (w.top_scope, x)
    · have h1 : (entry.1 != (w.top_scope, x)) = false := by simp [he]
      have h2 : ((scope, y) == entry.1) = false := by rw [he]; exact hk
      obtain ⟨k, val⟩ := entry
      simp only at he h1 h2
      simp only [List.filter, h1, List.lookup, h2]
      exact ih
    · have h1 : (entry.1 != (w.top_scope, x)) = true := by simp [he]
      obtain ⟨k, val⟩ := entry
      simp only at he h1
      simp only [List.filter, h1, List.lookup]
      split <;> first | rfl | exact ih

theorem refEnv_updatesOneVariable : UpdatesOneVariable refEnv := by
  intro w x v y h
  show RefWorld.getValue (RefWorld.setValue w x v) y = RefWorld.getValue w y
  have hs : (RefWorld.setValue w x v).scope_stack = w.scope_stack := rfl
  unfold RefWorld.getValue
  rw [hs]
  have : (fun scope => (RefWorld.setValue w x v).values.lookup (scope, y)) =
      (fun scope => w.values.lookup (scope, y)) :=
    funext (fun scope => RefWorld.lookup_setValue_ne w x y v scope h)
  rw [this]

theorem children_values_visit_list (E : Env C W) (visit : Term → State C W → Res C W) :
    ∀ (l : List Term) (s : State C W) (vs : List (Value C)) (s1 : State C W),
      children_values E visit l s = .ok (vs, s1) →
        visit_list visit l s = .ok s1 ∧ vs.length = l.length := by
  intro l
  induction l with
  | nil =>
    intro s vs s1 h
    simp only [children_values, Except.ok.injEq, Prod.mk.injEq] at h
    obtain ⟨h1, h2⟩ := h
    subst h1; subst h2
    exact ⟨rfl, rfl⟩
  | cons term rest ih =>
    intro s vs s1 h
    simp only [children_values] at h
    cases hv : visit term s with
    | error e => simp [hv] at h
    | ok s2 =>
      simp only [hv] at h
      cases hd : deref (getTermValue E s2 term) with
      | error e => simp [hd] at h
      | ok v =>
        simp only [hd] at h
        cases hr : children_values E visit rest s2 with
        | error e => simp [hr] at h
        | ok p =>
          obtain ⟨vs2, s3⟩ := p
          simp only [hr, Except.ok.injEq, Prod.mk.injEq] at h
          obtain ⟨h1, h2⟩ := h
          subst h1; subst h2
          have := ih s2 vs2 s3 hr
          simp only [visit_list, hv, this.1, List.length_cons, this.2, and_self]

theorem visitConcat_loop_some (E : Env C W) (visit : Term → State C W → Res C W) :
    ∀ (l : List Term) (acc : Value C) (s : State C W),
      visitConcat_loop E visit l (some acc) s =
        match children_values E visit l s with
        | .error e => .error e
        | .ok (vs, s1) => .ok (some (vs.foldl E.concat acc), s1) := by
  intro l
  induction l with
  | nil => intro acc s; rfl
  | cons term rest ih =>
    intro acc s
    simp only [visitConcat_loop, children_values]
    cases hv : visit term s with
    | error e => rfl
    | ok s2 =>
      simp only []
      cases hd : deref (getTermValue E s2 term) with
      | error e => rfl
      | ok v =>
        simp only [ih]
        cases hr : children_values E visit rest s2 with
        | error e => rfl
        | ok p => rfl

theorem visitConcat_loop_none (E : Env C W) (visit : Term → State C W → Res C W)
    (l : List Term) (s : State C W) :
    visitConcat_loop E visit l none s =
      match children_values E visit l s with
      | .error e => .error e
      | .ok (vs, s1) => .ok (fold_values E.concat vs, s1) := by
  cases l with
  | nil => rfl
  | cons term rest =>
    simp only [visitConcat_loop, children_values]
    cases hv : visit term s with
    | error e => rfl
    | ok s2 =>
      simp only []
      cases hd : deref (getTermValue E s2 term) with
      | error e => rfl
      | ok v =>
        simp only [visitConcat_loop_some]
        cases hr : children_values E visit rest s2 with
        | error e => rfl
        | ok p => rfl

theorem visitConcat_eq_spec (E : Env C W) (visit : Term → State C W → Res C W) (id : Nat)
    (term_list : List Term) (s : State C W) :
    visitConcat E visit id term_list s =
      nary_fold_spec E visit E.concat (Term.Concat id term_list) term_list s := by
  simp only [visitConcat, nary_fold_spec, visitConcat_loop_none]
  cases children_values E visit term_list
    { s with path_trace_ := s.path_trace_ ++ [Term.Concat id term_list] } with
  | error e => rfl
  | ok p => rfl

theorem visitPlus_loop_some (E : Env C W) (visit : Term → State C W → Res C W) :
    ∀ (l : List Term) (acc : Value C) (s : State C W),
      visitPlus_loop E visit l (some acc) s =
        match children_values E visit l s with
        | .error e => .error e
        | .ok (vs, s1) => .ok (some (vs.foldl E.plus acc), s1) := by
  intro l
  induction l with
  | nil => intro acc s; rfl
  | cons term rest ih =>
    intro acc s
    simp only [visitPlus_loop, children_values]
    cases hv : visit term s with
    | error e => rfl
    | ok s2 =>
      simp only []
      cases hd : deref (getTermValue E s2 term) with
      | error e => rfl
      | ok v =>
        simp only [ih]
        cases hr : children_values E visit rest s2 with
        | error e => rfl
        | ok p => rfl

theorem visitPlus_loop_none (E : Env C W) (visit : Term → State C W → Res C W)
    (l : List Term) (s : State C W) :
    visitPlus_loop E visit l none s =
      match children_values E visit l s with
      | .error e => .error e
      | .ok (vs, s1) => .ok (fold_values E.plus vs, s1) := by
  cases l with
  | nil => rfl
  | cons term rest =>
    simp only [visitPlus_loop, children_values]
    cases hv : visit term s with
    | error e => rfl
    | ok s2 =>
      simp only []
      cases hd : deref (getTermValue E s2 term) with
      | error e => rfl
      | ok v =>
        simp only [visitPlus_loop_some]
        cases hr : children_values E visit rest s2 with
        | error e => rfl
        | ok p => rfl

theorem visitPlus_eq_spec (E : Env C W) (visit : Term → State C W → Res C W) (id : Nat)
    (term_list : List Term) (s : State C W) :
    visitPlus E visit id term_list s =
      nary_fold_spec E visit E.plus (Term.Plus id term_list) term_list s := by
  simp only [visitPlus, nary_fold_spec, visitPlus_loop_none]
  cases children_values E visit term_list
    { s with path_trace_ := s.path_trace_ ++ [Term.Plus id term_list] } with
  | error e => rfl
  | ok p => rfl

theorem visitTimes_loop_some (E : Env C W) (visit : Term → State C W → Res C W) :
    ∀ (l : List Term) (acc : Value C) (s : State C W),
      visitTimes_loop E visit l (some acc) s =
        match children_values E visit l s with
        | .error e => .error e
        | .ok (vs, s1) => .ok (some (vs.foldl E.times acc), s1) := by
  intro l
  induction l with
  | nil => intro acc s; rfl
  | cons term rest ih =>
    intro acc s
    simp only [visitTimes_loop, children_values]
    cases hv : visit term s with
    | error e => rfl
    | ok s2 =>
      simp only []
      cases hd : deref (getTermValue E s2 term) with
      | error e => rfl
      | ok v =>
        simp only [ih]
        cases hr : children_values E visit rest s2 with
        | error e => rfl
        | ok p => rfl

theorem visitTimes_loop_none (E : Env C W) (visit : Term → State C W → Res C W)
    (l : List Term) (s : State C W) :
    visitTimes_loop E visit l none s =
      match children_values E visit l s with
      | .error e => .error e
      | .ok (vs, s1) => .ok (fold_values E.times vs, s1) := by
  cases l with
  | nil => rfl
  | cons term rest =>
    simp only [visitTimes_loop, children_values]
    cases hv : visit term s with
    | error e => rfl
    | ok s2 =>
      simp only []
      cases hd : deref (getTermValue E s2 term) with
      | error e => rfl
      | ok v =>
        simp only [visitTimes_loop_some]
        cases hr : children_values E visit rest s2 with
        | error e => rfl
        | ok p => rfl

theorem visitTimes_eq_spec (E : Env C W) (visit : Term → State C W → Res C W) (id : Nat)
    (term_list : List Term) (s : State C W) :
    visitTimes E visit id term_list s =
      nary_fold_spec E visit E.times (Term.Times id term_list) term_list s := by
  simp only [visitTimes, nary_fold_spec, visitTimes_loop_none]
  cases children_values E visit term_list
    { s with path_trace_ := s.path_trace_ ++ [Term.Times id term_list] } with
  | error e => rfl
  | ok p => rfl

theorem visitLet_bindings_eq_foldlM (E : Env C W) (visit : Term → State C W → Res C W)
    (let_term : Term) :
    ∀ (bs : List (String × Term)) (s : State C W),
      visitLet_bindings E visit let_term bs s =
        bs.foldlM (let_install E visit let_term) s := by
  intro bs
  induction bs with
  | nil => intro s; rfl
  | cons b rest ih =>
    intro s
    simp only [visitLet_bindings, List.foldlM_cons, let_install]
    cases hc : check_and_visit E visit b.2
        { s with path_trace_ := s.path_trace_ ++ [let_term] } with
    | error e => rfl
    | ok p =>
      obtain ⟨flag, s1⟩ := p
      simp only []
      cases hd : deref (getTermValue E
          { s1 with path_trace_ := s1.path_trace_.dropLast } b.2) with
      | error e =>
        have hd1 : deref (getTermValue E s1 b.2) = .error e := hd
        simp only [hd1]
        rfl
      | ok param =>
        have hd1 : deref (getTermValue E s1 b.2) = .ok param := hd
        simp only [hd1]
        exact ih _

theorem visitLet_bindings_stack (E : Env C W) (visit : Term → State C W → Res C W)
    (let_term : Term) (stack : W → List Nat) (laws : ScopeStackLaws E stack) :
    ∀ (bs : List (String × Term)) (s s1 : State C W),
      (∀ u s0 flag s', u ∈ bs.map Prod.snd → check_and_visit E visit u s0 = .ok (flag, s') →
        stack s'.world = stack s0.world) →
      visitLet_bindings E visit let_term bs s = .ok s1 →
      stack s1.world = stack s.world := by
  intro bs
  induction bs with
  | nil =>
    intro s s1 _ h
    simp only [visitLet_bindings, Except.ok.injEq] at h
    rw [← h]
  | cons b rest ih =>
    intro s s1 hvisit h
    simp only [visitLet_bindings] at h
    cases hc : check_and_visit E visit b.2
        { s with path_trace_ := s.path_trace_ ++ [let_term] } with
    | error e => simp [hc] at h
    | ok p =>
      obtain ⟨flag, s2⟩ := p
      simp only [hc] at h
      have h2 := hvisit b.2 _ flag s2 (by simp) hc
      cases hd : deref (getTermValue E
          { s2 with path_trace_ := s2.path_trace_.dropLast } b.2) with
      | error e => simp [hd] at h
      | ok param =>
        simp only [hd] at h
        have h3 := ih _ s1
          (fun u s0 flag s' hu => hvisit u s0 flag s'
            (by simp only [List.map_cons]; exact List.mem_cons_of_mem _ hu)) h
        rw [h3]
        simp only [laws.setValue]
        exact h2

theorem refEnv_scopeStackLaws : ScopeStackLaws refEnv RefWorld.scope_stack :=
  ⟨fun _ _ => rfl, fun _ => rfl, fun _ _ _ => rfl⟩

theorem refEnv_leaf_world (u : Term) (hu : u.type = .TERMCONSTANT ∨ u.type = .QUALIDENTIFIER)
    (s0 s' : State refCarrier RefWorld) (flag : Bool)
    (h : check_and_visit refEnv (visit refEnv 1) u s0 = .ok (flag, s')) :
    s'.world = s0.world := by
  rcases refEnv_check_and_visit (visit refEnv 1) u s0 s' flag h with h1 | h1
  · rw [h1]
  · cases u <;> simp [Term.type] at hu
    case QualIdentifier id var_name =>
      have e : refEnv.ENABLE_RELATIONAL_STRING_AUTOMATA = false := rfl
      simp only [visit, visitQualIdentifier, e, Bool.false_eq_true, if_false] at h1
      split at h1
      · simp at h1
      · split at h1
        · simp at h1
        · rename_i s2 hs
          simp only [Except.ok.injEq] at h1
          rw [← h1, (storeTermValue_eq_ok _ _ _ _ hs).2]
          rfl
    case TermConstant id value_type value =>
      simp only [visit, visitTermConstant] at h1
      split at h1
      · simp at h1
      · rw [(storeTermValue_eq_ok _ _ _ _ h1).2]

/-! ### Cached terms, the bridge and the map after an `And` -/

theorem process_mixed_loop_congr_mem (E : Env C W) (visit1 visit2 : Term → State C W → Res C W)
    (term : Term) :
    ∀ l : List Term, (∀ u, u ∈ l → visit1 u = visit2 u) →
      ∀ s, process_mixed_loop E visit1 term l s = process_mixed_loop E visit2 term l s :=
  fun l hl => process_mixed_loop_congr E visit1 visit2 term l (fun u hu s => by rw [hl u hu])

theorem check_and_visit_cached (E : Env C W) (visit : Term → State C W → Res C W) (term : Term)
    (s : State C W) (result : Value C) (hor : term.type ≠ TermType.OR)
    (hand : term.type ≠ TermType.AND) (hv : getTermValue E s term = some result)
    (hb : bridge_runs E s term result = false) :
    check_and_visit E visit term s =
      match E.string_get_term_value s.world term with
      | some result2 =>
        match storeTermValue s term (some (.BOOl_CONSTANT (E.isSatisfiable result2))) with
        | .error e => .error e
        | .ok s3 => .ok (false, s3)
      | none => .ok (false, s) := by
  simp only [bridge_runs] at hb
  simp only [check_and_visit, hor, hand, ne_eq, not_false_eq_true, and_self, if_true, hv, hb,
    Bool.false_eq_true, if_false]

theorem recorded_of_lookup_none (s : State C W) (term : Term) (value : Value C)
    (hfresh : s.term_values_.lookup term.id = none) :
    storeTermValue s term (some value) = .ok (recorded s term value) :=
  storeTermValue_of_lookup_none s term (some value) hfresh

theorem storeTermValue_of_lookup_some (s : State C W) (term : Term) (value stored : Option (Value C))
    (h : s.term_values_.lookup term.id = some stored) :
    storeTermValue s term value = .error (.fatal "value is already computed for term") := by
  simp only [storeTermValue, setTermValue, TermValueMap.insert, h, if_true]

theorem lookup_recorded (s : State C W) (term : Term) (value : Value C) :
    (recorded s term value).term_values_.lookup term.id = some (some value) := by
  simp only [recorded, List.lookup, beq_self_eq_true]

theorem getTermValue_of_not_and_or (E : Env C W) (s : State C W) (term : Term)
    (hor : term.type ≠ TermType.OR) (hand : term.type ≠ TermType.AND) :
    getTermValue E s term =
      match E.arithmetic_getTermValue s.world term with
      | some value => some value
      | none =>
        match E.string_get_term_value s.world term with
        | some value => some value
        | none =>
          match s.term_values_.lookup term.id with
          | some stored => stored
          | none => none := by
  cases term
  case And => exact absurd rfl hand
  case Or => exact absurd rfl hor
  all_goals
    simp only [getTermValue]
    repeat' split
    all_goals simp_all only [reduceCtorEq, Option.some.injEq]

theorem check_and_visit_flag_false (E : Env C W) (visit : Term → State C W → Res C W)
    (term : Term) (s : State C W) (result : Value C) (hor : term.type ≠ TermType.OR)
    (hand : term.type ≠ TermType.AND) (hv : getTermValue E s term = some result)
    (flag : Bool) (s1 : State C W) (h : check_and_visit E visit term s = .ok (flag, s1)) :
    flag = false := by
  simp only [check_and_visit, hor, hand, ne_eq, not_false_eq_true, and_self, if_true, hv] at h
  repeat' split at h
  all_goals simp_all only [reduceCtorEq, Except.ok.injEq, Prod.mk.injEq]

theorem visitAnd_body_map (E : Env C W) (visit : Term → State C W → Res C W) (term : Term)
    (flag b : Bool) (s s1 : State C W) (h : visitAnd_body E visit term flag s = .ok (b, s1)) :
    s1.term_values_ = [] := by
  simp only [visitAnd_body] at h
  repeat' split at h
  all_goals first
    | exact absurd h (by simp only [reduceCtorEq, not_false_eq_true])
    | (have h1 := (Prod.mk.inj (Except.ok.inj h)).2
       rw [← h1]
       rfl)

theorem visitAnd_loop_map (E : Env C W) (visit : Term → State C W → Res C W) :
    ∀ (l : List Term) (flag b : Bool) (s s1 : State C W), (l = [] → s.term_values_ = []) →
      visitAnd_loop E visit l flag s = .ok (b, s1) → s1.term_values_ = [] := by
  intro l
  induction l with
  | nil =>
    intro flag b s s1 hs h
    simp only [visitAnd_loop, Except.ok.injEq, Prod.mk.injEq] at h
    rw [← h.2]
    exact hs rfl
  | cons term rest ih =>
    intro flag b s s1 _ h
    simp only [visitAnd_loop] at h
    cases hb : visitAnd_body E visit term flag s with
    | error e => simp only [hb, reduceCtorEq] at h
    | ok r =>
      obtain ⟨b1, s2⟩ := r
      have hm := visitAnd_body_map E visit term flag b1 s s2 hb
      simp only [hb] at h
      split at h
      · simp only [Except.ok.injEq, Prod.mk.injEq] at h
        rw [← h.2]
        exact hm
      · exact ih b1 b s2 s1 (fun _ => hm) h

/-! ### The path trace, the variable paths and the tagged variables -/

theorem same_paths_refl (s : State C W) : same_paths s s := ⟨rfl, rfl, rfl⟩

theorem same_paths_trans {a b c : State C W} (h1 : same_paths a b) (h2 : same_paths b c) :
    same_paths a c :=
  ⟨h2.1.trans h1.1, h2.2.1.trans h1.2.1, h2.2.2.trans h1.2.2⟩

theorem storeTermValue_same_paths {s s' : State C W} {term : Term} {value : Option (Value C)}
    (h : storeTermValue s term value = .ok s') : same_paths s s' := by
  rw [(storeTermValue_eq_ok s s' term value h).2]
  exact ⟨rfl, rfl, rfl⟩

theorem balanced_refl (s : State C W) : balanced s s := ⟨rfl, fun h => h⟩

theorem balanced_trans {a b c : State C W} (h1 : balanced a b) (h2 : balanced b c) :
    balanced a c :=
  ⟨h2.1.trans h1.1, fun h => h2.2 (h1.2 h)⟩

theorem balanced_of_same_paths {a b : State C W} (h : same_paths a b) : balanced a b := by
  refine ⟨h.1, fun ht => ?_⟩
  simp only [tagged_within_paths, h.2.1, h.2.2] at ht ⊢
  exact ht

theorem rows_from_refl (P : List (List Term)) (s : State C W) : rows_from P s s :=
  fun _ hrow => Or.inl hrow

theorem rows_from_of_same_paths (P : List (List Term)) {a b : State C W} (h : same_paths a b) :
    rows_from P a b := by
  intro row hrow
  rw [h.2.1] at hrow
  exact Or.inl hrow

theorem rows_from_trans {P Q : List (List Term)} {a b c : State C W} (h1 : rows_from P a b)
    (hp : b.path_trace_ = a.path_trace_) (h2 : rows_from Q b c) : rows_from (P ++ Q) a c := by
  intro row hrow
  rcases h2 row hrow with h | ⟨p, hp2, hrow2⟩
  · rcases h1 row h with h | ⟨p, hp1, hrow1⟩
    · exact Or.inl h
    · exact Or.inr ⟨p, List.mem_append_left _ hp1, hrow1⟩
  · exact Or.inr ⟨p, List.mem_append_right _ hp2, by rw [hrow2, hp]⟩

theorem rows_from_mono {P Q : List (List Term)} {a b : State C W} (hsub : ∀ p, p ∈ P → p ∈ Q)
    (h : rows_from P a b) : rows_from Q a b := by
  intro row hrow
  rcases h row hrow with h | ⟨p, hp, hrow1⟩
  · exact Or.inl h
  · exact Or.inr ⟨p, hsub p hp, hrow1⟩

theorem walked_refl (E : Env C W) (P : List (List Term)) (s : State C W) : walked E P s s :=
  ⟨balanced_refl s, fun _ => rows_from_refl P s⟩

theorem walked_of_same_paths (E : Env C W) (P : List (List Term)) {a b : State C W}
    (h : same_paths a b) : walked E P a b :=
  ⟨balanced_of_same_paths h, fun _ => rows_from_of_same_paths P h⟩

theorem walked_trans {E : Env C W} {P Q : List (List Term)} {a b c : State C W}
    (h1 : walked E P a b) (h2 : walked E Q b c) : walked E (P ++ Q) a c :=
  ⟨balanced_trans h1.1 h2.1, fun hnb => rows_from_trans (h1.2 hnb) h1.1.1 (h2.2 hnb)⟩

theorem walked_mono {E : Env C W} {P Q : List (List Term)} {a b : State C W}
    (hsub : ∀ p, p ∈ P → p ∈ Q) (h : walked E P a b) : walked E Q a b :=
  ⟨h.1, fun hnb => rows_from_mono hsub (h.2 hnb)⟩

theorem walked_trans_left {E : Env C W} {P : List (List Term)} {a b c : State C W}
    (h1 : walked E [] a b) (h2 : walked E P b c) : walked E P a c :=
  walked_mono (fun _ hp => by simpa using hp) (walked_trans h1 h2)

theorem walked_trans_right {E : Env C W} {P : List (List Term)} {a b c : State C W}
    (h1 : walked E P a b) (h2 : walked E [] b c) : walked E P a c :=
  walked_mono (fun _ hp => by simpa using hp) (walked_trans h1 h2)

theorem walked_push {E : Env C W} {P : List (List Term)} {s s1 : State C W} (t : Term)
    (h : walked E P { s with path_trace_ := s.path_trace_ ++ [t] } s1) :
    walked E (extend_paths t P) s { s1 with path_trace_ := s1.path_trace_.dropLast } := by
  obtain ⟨⟨hp, ht⟩, hr⟩ := h
  refine ⟨⟨?_, fun h0 => ht h0⟩, fun hnb row hrow => ?_⟩
  · simp only at hp ⊢
    rw [hp, List.dropLast_concat]
  · rcases hr hnb row hrow with h1 | ⟨p, hp1, hrow1⟩
    · exact Or.inl h1
    · refine Or.inr ⟨p ++ [t], ?_, ?_⟩
      · simp only [extend_paths, List.mem_map]
        exact ⟨p, hp1, rfl⟩
      · rw [hrow1]
        simp only [List.reverse_append, List.reverse_cons, List.reverse_nil, List.nil_append,
          List.singleton_append, List.append_assoc]

theorem foldl_state_paths (E : Env C W) (l : List Variable) (s : State C W) :
    same_paths s (l.foldl
      (fun st var =>
        match E.getValue st.world var with
        | none => st
        | some value =>
          let w := (E.string_update_variable_value st.world var value).2
          { st with
            still_sat_ := st.still_sat_ && E.isSatisfiable value,
            world := E.setValue w var none })
      s) := by
  induction l generalizing s with
  | nil => exact same_paths_refl s
  | cons var rest ih =>
    simp only [List.foldl_cons]
    refine same_paths_trans ?_ (ih _)
    split
    · exact same_paths_refl s
    · exact ⟨rfl, rfl, rfl⟩

theorem update_variables_paths (E : Env C W) (s : State C W) :
    (update_variables E s).path_trace_ = s.path_trace_ ∧
    (s.variable_path_table_ = [] → update_variables E s = s) ∧
    (s.variable_path_table_ ≠ [] →
      (update_variables E s).variable_path_table_ = [] ∧
        (update_variables E s).tagged_variables = []) := by
  unfold update_variables
  split
  · rename_i h0
    refine ⟨rfl, fun _ => rfl, fun hne => absurd (List.length_eq_zero.mp h0) hne⟩
  · rename_i h0
    have hf := foldl_state_paths E s.tagged_variables
      { s with
        world := E.value_updater_start s.world s.variable_path_table_ s.term_values_,
        variable_path_table_ := [] }
    refine ⟨hf.1, fun he => absurd (by rw [he]; rfl) h0, fun _ => ⟨hf.2.1, rfl⟩⟩

theorem update_variables_walked (E : Env C W) (s : State C W) :
    walked E [] s (update_variables E s) := by
  have h := update_variables_paths E s
  by_cases h0 : s.variable_path_table_ = []
  · rw [h.2.1 h0]
    exact walked_refl E [] s
  · have h1 := h.2.2 h0
    refine ⟨⟨h.1, fun _ => ?_⟩, fun _ row hrow => ?_⟩
    · simp only [tagged_within_paths, h1.1, h1.2, List.length_nil, Nat.le_refl]
    · rw [h1.1] at hrow
      exact absurd hrow (List.not_mem_nil _)

theorem visitNot_shape (E : Env C W) (visit : Term → State C W → Res C W)
    (id : Nat) (t : Term) (s s' : State C W)
    (h : visitNot E visit id t s = .ok s') :
    children_then_store visit (Term.Not id t) s s' := by
  simp only [visitNot] at h
  repeat' split at h
  all_goals first
    | exact absurd h (by simp only [reduceCtorEq, not_false_eq_true])
    | (refine Or.inr ⟨_, ?s1, same_paths_refl _, ?hc, ?hs⟩
       case hc => assumption
       case hs => exact same_paths_trans (by exact ⟨rfl, rfl, rfl⟩) (storeTermValue_same_paths h))

theorem visitUMinus_shape (E : Env C W) (visit : Term → State C W → Res C W)
    (id : Nat) (t : Term) (s s' : State C W)
    (h : visitUMinus E visit id t s = .ok s') :
    children_then_store visit (Term.UMinus id t) s s' := by
  simp only [visitUMinus] at h
  repeat' split at h
  all_goals first
    | exact absurd h (by simp only [reduceCtorEq, not_false_eq_true])
    | (refine Or.inr ⟨_, ?s1, same_paths_refl _, ?hc, ?hs⟩
       case hc => assumption
       case hs => exact same_paths_trans (by exact ⟨rfl, rfl, rfl⟩) (storeTermValue_same_paths h))

theorem visitMinus_shape (E : Env C W) (visit : Term → State C W → Res C W)
    (id : Nat) (l : Term) (r : Term) (s s' : State C W)
    (h : visitMinus E visit id l r s = .ok s') :
    children_then_store visit (Term.Minus id l r) s s' := by
  simp only [visitMinus] at h
  repeat' split at h
  all_goals first
    | exact absurd h (by simp only [reduceCtorEq, not_false_eq_true])
    | (refine Or.inr ⟨_, ?s1, same_paths_refl _, ?hc, ?hs⟩
       case hc => assumption
       case hs => exact same_paths_trans (by exact ⟨rfl, rfl, rfl⟩) (storeTermValue_same_paths h))

theorem visitEq_shape (E : Env C W) (visit : Term → State C W → Res C W)
    (id : Nat) (l : Term) (r : Term) (s s' : State C W)
    (h : visitEq E visit id l r s = .ok s') :
    children_then_store visit (Term.Eq id l r) s s' := by
  simp only [visitEq] at h
  repeat' split at h
  all_goals first
    | exact absurd h (by simp only [reduceCtorEq, not_false_eq_true])
    | (refine Or.inr ⟨_, ?s1, same_paths_refl _, ?hc, ?hs⟩
       case hc => assumption
       case hs => exact same_paths_trans (by exact ⟨rfl, rfl, rfl⟩) (storeTermValue_same_paths h))

theorem visitGt_shape (E : Env C W) (visit : Term → State C W → Res C W)
    (id : Nat) (l : Term) (r : Term) (s s' : State C W)
    (h : visitGt E visit id l r s = .ok s') :
    children_then_store visit (Term.Gt id l r) s s' := by
  simp only [visitGt] at h
  repeat' split at h
  all_goals first
    | exact absurd h (by simp only [reduceCtorEq, not_false_eq_true])
    | (refine Or.inr ⟨_, ?s1, same_paths_refl _, ?hc, ?hs⟩
       case hc => assumption
       case hs => exact same_paths_trans (by exact ⟨rfl, rfl, rfl⟩) (storeTermValue_same_paths h))

theorem visitGe_shape (E : Env C W) (visit : Term → State C W → Res C W)
    (id : Nat) (l : Term) (r : Term) (s s' : State C W)
    (h : visitGe E visit id l r s = .ok s') :
    children_then_store visit (Term.Ge id l r) s s' := by
  simp only [visitGe] at h
  repeat' split at h
  all_goals first
    | exact absurd h (by simp only [reduceCtorEq, not_false_eq_true])
    | (refine Or.inr ⟨_, ?s1, same_paths_refl _, ?hc, ?hs⟩
       case hc => assumption
       case hs => exact same_paths_trans (by exact ⟨rfl, rfl, rfl⟩) (storeTermValue_same_paths h))

theorem visitLt_shape (E : Env C W) (visit : Term → State C W → Res C W)
    (id : Nat) (l : Term) (r : Term) (s s' : State C W)
    (h : visitLt E visit id l r s = .ok s') :
    children_then_store visit (Term.Lt id l r) s s' := by
  simp only [visitLt] at h
  repeat' split at h
  all_goals first
    | exact absurd h (by simp only [reduceCtorEq, not_false_eq_true])
    | (refine Or.inr ⟨_, ?s1, same_paths_refl _, ?hc, ?hs⟩
       case hc => assumption
       case hs => exact same_paths_trans (by exact ⟨rfl, rfl, rfl⟩) (storeTermValue_same_paths h))

theorem visitLe_shape (E : Env C W) (visit : Term → State C W → Res C W)
    (id : Nat) (l : Term) (r : Term) (s s' : State C W)
    (h : visitLe E visit id l r s = .ok s') :
    children_then_store visit (Term.Le id l r) s s' := by
  simp only [visitLe] at h
  repeat' split at h
  all_goals first
    | exact absurd h (by simp only [reduceCtorEq, not_false_eq_true])
    | (refine Or.inr ⟨_, ?s1, same_paths_refl _, ?hc, ?hs⟩
       case hc => assumption
       case hs => exact same_paths_trans (by exact ⟨rfl, rfl, rfl⟩) (storeTermValue_same_paths h))

theorem visitNotIn_shape (E : Env C W) (visit : Term → State C W → Res C W)
    (id : Nat) (l : Term) (r : Term) (s s' : State C W)
    (h : visitNotIn E visit id l r s = .ok s') :
    children_then_store visit (Term.NotIn id l r) s s' := by
  simp only [visitNotIn] at h
  repeat' split at h
  all_goals first
    | exact absurd h (by simp only [reduceCtorEq, not_false_eq_true])
    | (refine Or.inr ⟨_, ?s1, same_paths_refl _, ?hc, ?hs⟩
       case hc => assumption
       case hs => exact same_paths_trans (by exact ⟨rfl, rfl, rfl⟩) (storeTermValue_same_paths h))

theorem visitLen_shape (E : Env C W) (visit : Term → State C W → Res C W)
    (id : Nat) (t : Term) (s s' : State C W)
    (h : visitLen E visit id t s = .ok s') :
    children_then_store visit (Term.Len id t) s s' := by
  simp only [visitLen] at h
  repeat' split at h
  all_goals first
    | exact absurd h (by simp only [reduceCtorEq, not_false_eq_true])
    | (refine Or.inr ⟨_, ?s1, same_paths_refl _, ?hc, ?hs⟩
       case hc => assumption
       case hs => exact same_paths_trans (by exact ⟨rfl, rfl, rfl⟩) (storeTermValue_same_paths h))

theorem visitContains_shape (E : Env C W) (visit : Term → State C W → Res C W)
    (id : Nat) (a : Term) (b : Term) (s s' : State C W)
    (h : visitContains E visit id a b s = .ok s') :
    children_then_store visit (Term.Contains id a b) s s' := by
  simp only [visitContains] at h
  repeat' split at h
  all_goals first
    | exact absurd h (by simp only [reduceCtorEq, not_false_eq_true])
    | (refine Or.inr ⟨_, ?s1, same_paths_refl _, ?hc, ?hs⟩
       case hc => assumption
       case hs => exact same_paths_trans (by exact ⟨rfl, rfl, rfl⟩) (storeTermValue_same_paths h))

theorem visitNotContains_shape (E : Env C W) (visit : Term → State C W → Res C W)
    (id : Nat) (a : Term) (b : Term) (s s' : State C W)
    (h : visitNotContains E visit id a b s = .ok s') :
    children_then_store visit (Term.NotContains id a b) s s' := by
  simp only [visitNotContains] at h
  repeat' split at h
  all_goals first
    | exact absurd h (by simp only [reduceCtorEq, not_false_eq_true])
    | (refine Or.inr ⟨_, ?s1, same_paths_refl _, ?hc, ?hs⟩
       case hc => assumption
       case hs => exact same_paths_trans (by exact ⟨rfl, rfl, rfl⟩) (storeTermValue_same_paths h))

theorem visitBegins_shape (E : Env C W) (visit : Term → State C W → Res C W)
    (id : Nat) (a : Term) (b : Term) (s s' : State C W)
    (h : visitBegins E visit id a b s = .ok s') :
    children_then_store visit (Term.Begins id a b) s s' := by
  simp only [visitBegins] at h
  repeat' split at h
  all_goals first
    | exact absurd h (by simp only [reduceCtorEq, not_false_eq_true])
    | (refine Or.inr ⟨_, ?s1, same_paths_refl _, ?hc, ?hs⟩
       case hc => assumption
       case hs => exact same_paths_trans (by exact ⟨rfl, rfl, rfl⟩) (storeTermValue_same_paths h))

theorem visitNotBegins_shape (E : Env C W) (visit : Term → State C W → Res C W)
    (id : Nat) (a : Term) (b : Term) (s s' : State C W)
    (h : visitNotBegins E visit id a b s = .ok s') :
    children_then_store visit (Term.NotBegins id a b) s s' := by
  simp only [visitNotBegins] at h
  repeat' split at h
  all_goals first
    | exact absurd h (by simp only [reduceCtorEq, not_false_eq_true])
    | (refine Or.inr ⟨_, ?s1, same_paths_refl _, ?hc, ?hs⟩
       case hc => assumption
       case hs => exact same_paths_trans (by exact ⟨rfl, rfl, rfl⟩) (storeTermValue_same_paths h))

theorem visitEnds_shape (E : Env C W) (visit : Term → State C W → Res C W)
    (id : Nat) (a : Term) (b : Term) (s s' : State C W)
    (h : visitEnds E visit id a b s = .ok s') :
    children_then_store visit (Term.Ends id a b) s s' := by
  simp only [visitEnds] at h
  repeat' split at h
  all_goals first
    | exact absurd h (by simp only [reduceCtorEq, not_false_eq_true])
    | (refine Or.inr ⟨_, ?s1, same_paths_refl _, ?hc, ?hs⟩
       case hc => assumption
       case hs => exact same_paths_trans (by exact ⟨rfl, rfl, rfl⟩) (storeTermValue_same_paths h))

theorem visitNotEnds_shape (E : Env C W) (visit : Term → State C W → Res C W)
    (id : Nat) (a : Term) (b : Term) (s s' : State C W)
    (h : visitNotEnds E visit id a b s = .ok s') :
    children_then_store visit (Term.NotEnds id a b) s s' := by
  simp only [visitNotEnds] at h
  repeat' split at h
  all_goals first
    | exact absurd h (by simp only [reduceCtorEq, not_false_eq_true])
    | (refine Or.inr ⟨_, ?s1, same_paths_refl _, ?hc, ?hs⟩
       case hc => assumption
       case hs => exact same_paths_trans (by exact ⟨rfl, rfl, rfl⟩) (storeTermValue_same_paths h))

theorem visitIndexOf_shape (E : Env C W) (visit : Term → State C W → Res C W)
    (id : Nat) (a : Term) (b : Term) (s s' : State C W)
    (h : visitIndexOf E visit id a b s = .ok s') :
    children_then_store visit (Term.IndexOf id a b) s s' := by
  simp only [visitIndexOf] at h
  repeat' split at h
  all_goals first
    | exact absurd h (by simp only [reduceCtorEq, not_false_eq_true])
    | (refine Or.inr ⟨_, ?s1, same_paths_refl _, ?hc, ?hs⟩
       case hc => assumption
       case hs => exact same_paths_trans (by exact ⟨rfl, rfl, rfl⟩) (storeTermValue_same_paths h))

theorem visitLastIndexOf_shape (E : Env C W) (visit : Term → State C W → Res C W)
    (id : Nat) (a : Term) (b : Term) (s s' : State C W)
    (h : visitLastIndexOf E visit id a b s = .ok s') :
    children_then_store visit (Term.LastIndexOf id a b) s s' := by
  simp only [visitLastIndexOf] at h
  repeat' split at h
  all_goals first
    | exact absurd h (by simp only [reduceCtorEq, not_false_eq_true])
    | (refine Or.inr ⟨_, ?s1, same_paths_refl _, ?hc, ?hs⟩
       case hc => assumption
       case hs => exact same_paths_trans (by exact ⟨rfl, rfl, rfl⟩) (storeTermValue_same_paths h))

theorem visitCharAt_shape (E : Env C W) (visit : Term → State C W → Res C W)
    (id : Nat) (a : Term) (b : Term) (s s' : State C W)
    (h : visitCharAt E visit id a b s = .ok s') :
    children_then_store visit (Term.CharAt id a b) s s' := by
  simp only [visitCharAt] at h
  repeat' split at h
  all_goals first
    | exact absurd h (by simp only [reduceCtorEq, not_false_eq_true])
    | (refine Or.inr ⟨_, ?s1, same_paths_refl _, ?hc, ?hs⟩
       case hc => assumption
       case hs => exact same_paths_trans (by exact ⟨rfl, rfl, rfl⟩) (storeTermValue_same_paths h))

theorem visitSubString_shape (E : Env C W) (visit : Term → State C W → Res C W)
    (id : Nat) (mode : SubStringMode) (a : Term) (b : Term) (c : Option Term) (s s' : State C W)
    (h : visitSubString E visit id mode a b c s = .ok s') :
    children_then_store visit (Term.SubString id mode a b c) s s' := by
  simp only [visitSubString] at h
  repeat' split at h
  all_goals first
    | exact absurd h (by simp only [reduceCtorEq, not_false_eq_true])
    | (refine Or.inr ⟨_, ?s1, same_paths_refl _, ?hc, ?hs⟩
       case hc => assumption
       case hs => exact same_paths_trans (by exact ⟨rfl, rfl, rfl⟩) (storeTermValue_same_paths h))

theorem visitToUpper_shape (E : Env C W) (visit : Term → State C W → Res C W)
    (id : Nat) (t : Term) (s s' : State C W)
    (h : visitToUpper E visit id t s = .ok s') :
    children_then_store visit (Term.ToUpper id t) s s' := by
  simp only [visitToUpper] at h
  repeat' split at h
  all_goals first
    | exact absurd h (by simp only [reduceCtorEq, not_false_eq_true])
    | (refine Or.inr ⟨_, ?s1, same_paths_refl _, ?hc, ?hs⟩
       case hc => assumption
       case hs => exact same_paths_trans (by exact ⟨rfl, rfl, rfl⟩) (storeTermValue_same_paths h))

theorem visitToLower_shape (E : Env C W) (visit : Term → State C W → Res C W)
    (id : Nat) (t : Term) (s s' : State C W)
    (h : visitToLower E visit id t s = .ok s') :
    children_then_store visit (Term.ToLower id t) s s' := by
  simp only [visitToLower] at h
  repeat' split at h
  all_goals first
    | exact absurd h (by simp only [reduceCtorEq, not_false_eq_true])
    | (refine Or.inr ⟨_, ?s1, same_paths_refl _, ?hc, ?hs⟩
       case hc => assumption
       case hs => exact same_paths_trans (by exact ⟨rfl, rfl, rfl⟩) (storeTermValue_same_paths h))

theorem visitTrim_shape (E : Env C W) (visit : Term → State C W → Res C W)
    (id : Nat) (t : Term) (s s' : State C W)
    (h : visitTrim E visit id t s = .ok s') :
    children_then_store visit (Term.Trim id t) s s' := by
  simp only [visitTrim] at h
  repeat' split at h
  all_goals first
    | exact absurd h (by simp only [reduceCtorEq, not_false_eq_true])
    | (refine Or.inr ⟨_, ?s1, same_paths_refl _, ?hc, ?hs⟩
       case hc => assumption
       case hs => exact same_paths_trans (by exact ⟨rfl, rfl, rfl⟩) (storeTermValue_same_paths h))

theorem visitToString_shape (E : Env C W) (visit : Term → State C W → Res C W)
    (id : Nat) (t : Term) (s s' : State C W)
    (h : visitToString E visit id t s = .ok s') :
    children_then_store visit (Term.ToString id t) s s' := by
  simp only [visitToString] at h
  repeat' split at h
  all_goals first
    | exact absurd h (by simp only [reduceCtorEq, not_false_eq_true])
    | (refine Or.inr ⟨_, ?s1, same_paths_refl _, ?hc, ?hs⟩
       case hc => assumption
       case hs => exact same_paths_trans (by exact ⟨rfl, rfl, rfl⟩) (storeTermValue_same_paths h))

theorem visitToInt_shape (E : Env C W) (visit : Term → State C W → Res C W)
    (id : Nat) (t : Term) (s s' : State C W)
    (h : visitToInt E visit id t s = .ok s') :
    children_then_store visit (Term.ToInt id t) s s' := by
  simp only [visitToInt] at h
  repeat' split at h
  all_goals first
    | exact absurd h (by simp only [reduceCtorEq, not_false_eq_true])
    | (refine Or.inr ⟨_, ?s1, same_paths_refl _, ?hc, ?hs⟩
       case hc => assumption
       case hs => exact same_paths_trans (by exact ⟨rfl, rfl, rfl⟩) (storeTermValue_same_paths h))

theorem visitReplace_shape (E : Env C W) (visit : Term → State C W → Res C W)
    (id : Nat) (a : Term) (b : Term) (c : Term) (s s' : State C W)
    (h : visitReplace E visit id a b c s = .ok s') :
    children_then_store visit (Term.Replace id a b c) s s' := by
  simp only [visitReplace] at h
  repeat' split at h
  all_goals first
    | exact absurd h (by simp only [reduceCtorEq, not_false_eq_true])
    | (refine Or.inr ⟨_, ?s1, same_paths_refl _, ?hc, ?hs⟩
       case hc => assumption
       case hs => exact same_paths_trans (by exact ⟨rfl, rfl, rfl⟩) (storeTermValue_same_paths h))

theorem visitNotEq_default_shape (E : Env C W) (visit : Term → State C W → Res C W)
    (id : Nat) (l : Term) (r : Term) (s s' : State C W)
    (h : visitNotEq_default E visit id l r s = .ok s') :
    children_then_store visit (Term.NotEq id l r) s s' := by
  simp only [visitNotEq_default] at h
  repeat' split at h
  all_goals first
    | exact absurd h (by simp only [reduceCtorEq, not_false_eq_true])
    | (refine Or.inr ⟨_, ?s1, same_paths_refl _, ?hc, ?hs⟩
       case hc => assumption
       case hs => exact same_paths_trans (by exact ⟨rfl, rfl, rfl⟩) (storeTermValue_same_paths h))

theorem visitIn_default_shape (E : Env C W) (visit : Term → State C W → Res C W)
    (id : Nat) (l : Term) (r : Term) (s s' : State C W)
    (h : visitIn_default E visit id l r s = .ok s') :
    children_then_store visit (Term.In id l r) s s' := by
  simp only [visitIn_default] at h
  repeat' split at h
  all_goals first
    | exact absurd h (by simp only [reduceCtorEq, not_false_eq_true])
    | (refine Or.inr ⟨_, ?s1, same_paths_refl _, ?hc, ?hs⟩
       case hc => assumption
       case hs => exact same_paths_trans (by exact ⟨rfl, rfl, rfl⟩) (storeTermValue_same_paths h))

theorem children_then_store_of_left {visit : Term → State C W → Res C W} {t : Term}
    {a b c : State C W} (h0 : same_paths a b) (h : children_then_store visit t b c) :
    children_then_store visit t a c := by
  rcases h with h | ⟨s0, s1, h1, hc, h2⟩
  · exact Or.inl (same_paths_trans h0 h)
  · exact Or.inr ⟨s0, s1, same_paths_trans h0 h1, hc, h2⟩

theorem visitNotEq_shape (E : Env C W) (visit : Term → State C W → Res C W)
    (id : Nat) (l : Term) (r : Term) (s s' : State C W)
    (h : visitNotEq E visit id l r s = .ok s') :
    children_then_store visit (Term.NotEq id l r) s s' := by
  simp only [visitNotEq] at h
  split at h
  · split at h
    · exact Or.inl (same_paths_trans (by exact ⟨rfl, rfl, rfl⟩) (storeTermValue_same_paths h))
    · exact children_then_store_of_left (by exact ⟨rfl, rfl, rfl⟩)
        (visitNotEq_default_shape E visit id _ _ _ s' h)
  · exact visitNotEq_default_shape E visit id _ _ s s' h

theorem visitIn_shape (E : Env C W) (visit : Term → State C W → Res C W)
    (id : Nat) (l : Term) (r : Term) (s s' : State C W)
    (h : visitIn E visit id l r s = .ok s') :
    children_then_store visit (Term.In id l r) s s' := by
  simp only [visitIn] at h
  split at h
  · split at h
    · exact Or.inl (same_paths_trans (by exact ⟨rfl, rfl, rfl⟩) (storeTermValue_same_paths h))
    · exact children_then_store_of_left (by exact ⟨rfl, rfl, rfl⟩)
        (visitIn_default_shape E visit id _ _ _ s' h)
  · exact visitIn_default_shape E visit id _ _ s s' h

theorem visitCount_shape (visit : Term → State C W → Res C W) (id : Nat)
    (children : List Term) (s s' : State C W) (h : visitCount visit id children s = .ok s') :
    children_then_store visit (Term.Count id children) s s' := by
  simp only [visitCount] at h
  split at h
  all_goals exact absurd h (by simp only [reduceCtorEq, not_false_eq_true])

theorem visitUnknownTerm_shape (E : Env C W) (visit : Term → State C W → Res C W) (id : Nat)
    (term_list : List Term) (s s' : State C W)
    (h : visitUnknownTerm E visit id term_list s = .ok s') :
    children_then_store visit (Term.Unknown id term_list) s s' := by
  simp only [visitUnknownTerm] at h
  split at h
  · exact absurd h (by simp only [reduceCtorEq, not_false_eq_true])
  · rename_i s1 hl
    refine Or.inr ⟨s, { s1 with path_trace_ := s1.path_trace_.dropLast }, same_paths_refl s, ?_,
      storeTermValue_same_paths h⟩
    simp only [visit_children_of, Term.visit_children, hl]

theorem visitPlus_loop_visit_list (E : Env C W) (visit : Term → State C W → Res C W) :
    ∀ (l : List Term) (acc r : Option (Value C)) (s s1 : State C W),
      visitPlus_loop E visit l acc s = .ok (r, s1) → visit_list visit l s = .ok s1 := by
  intro l
  induction l with
  | nil =>
    intro acc r s s1 h
    simp only [visitPlus_loop, Except.ok.injEq, Prod.mk.injEq] at h
    rw [visit_list, h.2]
  | cons term_ptr rest ih =>
    intro acc r s s1 h
    simp only [visitPlus_loop] at h
    simp only [visit_list]
    cases hv : visit term_ptr s with
    | error e => simp only [hv, reduceCtorEq] at h
    | ok s2 =>
      simp only [hv] at h ⊢
      cases hd : deref (getTermValue E s2 term_ptr) with
      | error e => simp only [hd, reduceCtorEq] at h
      | ok param =>
        simp only [hd] at h
        cases acc with
        | none => exact ih _ r s2 s1 h
        | some a => exact ih _ r s2 s1 h

theorem visitPlus_shape (E : Env C W) (visit : Term → State C W → Res C W) (id : Nat)
    (term_list : List Term) (s s' : State C W)
    (h : visitPlus E visit id term_list s = .ok s') :
    children_then_store visit (Term.Plus id term_list) s s' := by
  simp only [visitPlus] at h
  split at h
  · exact absurd h (by simp only [reduceCtorEq, not_false_eq_true])
  · rename_i r s1 hl
    have hl1 := visitPlus_loop_visit_list E visit term_list none r _ s1 hl
    refine Or.inr ⟨s, { s1 with path_trace_ := s1.path_trace_.dropLast }, same_paths_refl s, ?_,
      storeTermValue_same_paths h⟩
    simp only [visit_children_of, Term.visit_children, hl1]

theorem visitTimes_loop_visit_list (E : Env C W) (visit : Term → State C W → Res C W) :
    ∀ (l : List Term) (acc r : Option (Value C)) (s s1 : State C W),
      visitTimes_loop E visit l acc s = .ok (r, s1) → visit_list visit l s = .ok s1 := by
  intro l
  induction l with
  | nil =>
    intro acc r s s1 h
    simp only [visitTimes_loop, Except.ok.injEq, Prod.mk.injEq] at h
    rw [visit_list, h.2]
  | cons term_ptr rest ih =>
    intro acc r s s1 h
    simp only [visitTimes_loop] at h
    simp only [visit_list]
    cases hv : visit term_ptr s with
    | error e => simp only [hv, reduceCtorEq] at h
    | ok s2 =>
      simp only [hv] at h ⊢
      cases hd : deref (getTermValue E s2 term_ptr) with
      | error e => simp only [hd, reduceCtorEq] at h
      | ok param =>
        simp only [hd] at h
        cases acc with
        | none => exact ih _ r s2 s1 h
        | some a => exact ih _ r s2 s1 h

theorem visitTimes_shape (E : Env C W) (visit : Term → State C W → Res C W) (id : Nat)
    (term_list : List Term) (s s' : State C W)
    (h : visitTimes E visit id term_list s = .ok s') :
    children_then_store visit (Term.Times id term_list) s s' := by
  simp only [visitTimes] at h
  split at h
  · exact absurd h (by simp only [reduceCtorEq, not_false_eq_true])
  · rename_i r s1 hl
    have hl1 := visitTimes_loop_visit_list E visit term_list none r _ s1 hl
    refine Or.inr ⟨s, { s1 with path_trace_ := s1.path_trace_.dropLast }, same_paths_refl s, ?_,
      storeTermValue_same_paths h⟩
    simp only [visit_children_of, Term.visit_children, hl1]

theorem visitConcat_loop_visit_list (E : Env C W) (visit : Term → State C W → Res C W) :
    ∀ (l : List Term) (acc r : Option (Value C)) (s s1 : State C W),
      visitConcat_loop E visit l acc s = .ok (r, s1) → visit_list visit l s = .ok s1 := by
  intro l
  induction l with
  | nil =>
    intro acc r s s1 h
    simp only [visitConcat_loop, Except.ok.injEq, Prod.mk.injEq] at h
    rw [visit_list, h.2]
  | cons term_ptr rest ih =>
    intro acc r s s1 h
    simp only [visitConcat_loop] at h
    simp only [visit_list]
    cases hv : visit term_ptr s with
    | error e => simp only [hv, reduceCtorEq] at h
    | ok s2 =>
      simp only [hv] at h ⊢
      cases hd : deref (getTermValue E s2 term_ptr) with
      | error e => simp only [hd, reduceCtorEq] at h
      | ok param =>
        simp only [hd] at h
        cases acc with
        | none => exact ih _ r s2 s1 h
        | some a => exact ih _ r s2 s1 h

theorem visitConcat_shape (E : Env C W) (visit : Term → State C W → Res C W) (id : Nat)
    (term_list : List Term) (s s' : State C W)
    (h : visitConcat E visit id term_list s = .ok s') :
    children_then_store visit (Term.Concat id term_list) s s' := by
  simp only [visitConcat] at h
  split at h
  · exact absurd h (by simp only [reduceCtorEq, not_false_eq_true])
  · rename_i r s1 hl
    have hl1 := visitConcat_loop_visit_list E visit term_list none r _ s1 hl
    refine Or.inr ⟨s, { s1 with path_trace_ := s1.path_trace_.dropLast }, same_paths_refl s, ?_,
      storeTermValue_same_paths h⟩
    simp only [visit_children_of, Term.visit_children, hl1]

theorem visitTermConstant_same_paths (E : Env C W) (id : Nat) (value_type : PrimitiveType)
    (value : String) (s s' : State C W)
    (h : visitTermConstant E id value_type value s = .ok s') : same_paths s s' := by
  simp only [visitTermConstant] at h
  split at h
  · exact absurd h (by simp only [reduceCtorEq, not_false_eq_true])
  · exact storeTermValue_same_paths h

theorem store_then_path (s0 s1 s' : State C W) (qi_term : Term) (value : Option (Value C))
    (hs : storeTermValue s0 qi_term value = .ok s1) (h : setVariablePath s1 qi_term = s') :
    s'.path_trace_ = s0.path_trace_ ∧
    s'.variable_path_table_ = s0.variable_path_table_ ++ [qi_term :: s0.path_trace_.reverse] ∧
    s'.tagged_variables = s0.tagged_variables := by
  have hs1 := (storeTermValue_eq_ok _ _ _ _ hs).2
  rw [← h, hs1]
  simp only [setVariablePath, List.reverse_append, List.reverse_cons, List.reverse_nil,
    List.nil_append, List.singleton_append, and_self]

theorem visitQualIdentifier_paths (E : Env C W) (id : Nat) (var_name : String)
    (s s' : State C W) (h : visitQualIdentifier E id var_name s = .ok s') :
    s'.path_trace_ = s.path_trace_ ∧
    s'.variable_path_table_ =
      s.variable_path_table_ ++ [Term.QualIdentifier id var_name :: s.path_trace_.reverse] ∧
    (s'.tagged_variables = s.tagged_variables ∨
      s'.tagged_variables = s.tagged_variables ++ [E.getVariable s.world var_name]) := by
  simp only [visitQualIdentifier] at h
  cases hrel : E.ENABLE_RELATIONAL_STRING_AUTOMATA with
  | false =>
    simp only [hrel, Bool.false_eq_true, if_false] at h
    split at h
    · exact absurd h (by simp only [reduceCtorEq, not_false_eq_true])
    · split at h
      · exact absurd h (by simp only [reduceCtorEq, not_false_eq_true])
      · rename_i s1 hs
        have h1 := store_then_path _ s1 s' _ _ hs (Except.ok.inj h)
        exact ⟨h1.1, h1.2.1, Or.inl h1.2.2⟩
  | true =>
    simp only [hrel, if_true] at h
    cases hv : E.string_get_variable_value s.world (E.getVariable s.world var_name) with
    | none =>
      simp only [hv] at h
      split at h
      · exact absurd h (by simp only [reduceCtorEq, not_false_eq_true])
      · split at h
        · exact absurd h (by simp only [reduceCtorEq, not_false_eq_true])
        · rename_i s1 hs
          have h1 := store_then_path _ s1 s' _ _ hs (Except.ok.inj h)
          exact ⟨h1.1, h1.2.1, Or.inl h1.2.2⟩
    | some v =>
      simp only [hv] at h
      split at h
      · exact absurd h (by simp only [reduceCtorEq, not_false_eq_true])
      · split at h
        · exact absurd h (by simp only [reduceCtorEq, not_false_eq_true])
        · rename_i s1 hs
          have h1 := store_then_path _ s1 s' _ _ hs (Except.ok.inj h)
          exact ⟨h1.1, h1.2.1, Or.inr h1.2.2⟩

theorem visitQualIdentifier_walked (E : Env C W) (id : Nat) (var_name : String)
    (s s' : State C W) (h : visitQualIdentifier E id var_name s = .ok s') :
    walked E [[Term.QualIdentifier id var_name]] s s' := by
  obtain ⟨h1, h2, h3⟩ := visitQualIdentifier_paths E id var_name s s' h
  refine ⟨⟨h1, fun h0 => ?_⟩, fun _ row hrow => ?_⟩
  · simp only [tagged_within_paths, h2, List.length_append, List.length_singleton] at h0 ⊢
    rcases h3 with h3 | h3
    · rw [h3]; omega
    · rw [h3, List.length_append, List.length_singleton]; omega
  · rw [h2, List.mem_append, List.mem_singleton] at hrow
    rcases hrow with h4 | h4
    · exact Or.inl h4
    · exact Or.inr ⟨[Term.QualIdentifier id var_name], List.mem_singleton.mpr rfl, by
        rw [h4, List.singleton_append]⟩

theorem visit_list_walked (E : Env C W) (visit : Term → State C W → Res C W)
    (hv : ∀ u s s', visit u s = .ok s' → walked E u.variable_paths s s') :
    ∀ (l : List Term) (s s' : State C W), visit_list visit l s = .ok s' →
      walked E (Term.variable_paths_list l) s s' := by
  intro l
  induction l with
  | nil =>
    intro s s' h
    simp only [visit_list, Except.ok.injEq] at h
    rw [← h]
    exact walked_refl E _ s
  | cons t rest ih =>
    intro s s' h
    simp only [visit_list] at h
    cases h1 : visit t s with
    | error e => simp only [h1, reduceCtorEq] at h
    | ok s1 =>
      simp only [h1] at h
      simp only [Term.variable_paths_list]
      exact walked_trans (hv t s s1 h1) (ih s1 s' h)

theorem visit_children_of_walked (E : Env C W) (visit : Term → State C W → Res C W)
    (hv : ∀ u s s', visit u s = .ok s' → walked E u.variable_paths s s')
    (t : Term) (s s' : State C W) (h : visit_children_of visit t s = .ok s') :
    walked E (extend_paths t (Term.variable_paths_list t.visit_children)) s s' := by
  simp only [visit_children_of] at h
  split at h
  · exact absurd h (by simp only [reduceCtorEq, not_false_eq_true])
  · rename_i s1 hl
    rw [← Except.ok.inj h]
    exact walked_push t (visit_list_walked E visit hv _ _ _ hl)

theorem children_then_store_walked (E : Env C W) (visit : Term → State C W → Res C W)
    (hv : ∀ u s s', visit u s = .ok s' → walked E u.variable_paths s s')
    (t : Term) (s s' : State C W) (h : children_then_store visit t s s') :
    walked E (extend_paths t (Term.variable_paths_list t.visit_children)) s s' := by
  rcases h with h | ⟨s0, s1, h0, hc, h1⟩
  · exact walked_of_same_paths E _ h
  · exact walked_trans_left (walked_of_same_paths E [] h0)
      (walked_trans_right (visit_children_of_walked E visit hv t s0 s1 hc)
        (walked_of_same_paths E [] h1))

theorem variable_paths_list_append (l1 l2 : List Term) :
    Term.variable_paths_list (l1 ++ l2) =
      Term.variable_paths_list l1 ++ Term.variable_paths_list l2 := by
  induction l1 with
  | nil => simp only [Term.variable_paths_list, List.nil_append]
  | cons t rest ih =>
    simp only [List.cons_append, Term.variable_paths_list, List.append_eq, ih,
      List.append_assoc]

theorem variable_paths_list_bindings (bs : List (String × Term)) :
    Term.variable_paths_list (bs.map Prod.snd) = Term.variable_paths_bindings bs := by
  induction bs with
  | nil => simp only [List.map_nil, Term.variable_paths_list, Term.variable_paths_bindings]
  | cons b rest ih =>
    obtain ⟨x, t⟩ := b
    simp only [List.map_cons, Term.variable_paths_list, Term.variable_paths_bindings, ih]

theorem variable_paths_of_children (t : Term) (hand : t.type ≠ TermType.AND)
    (hor : t.type ≠ TermType.OR) (hq : t.type ≠ TermType.QUALIDENTIFIER) :
    extend_paths t (Term.variable_paths_list t.visit_children) = t.variable_paths := by
  cases t
  case And => exact absurd rfl hand
  case Or => exact absurd rfl hor
  case QualIdentifier => exact absurd rfl hq
  case Let id bs body =>
    simp only [Term.visit_children, Term.variable_paths, variable_paths_list_append,
      variable_paths_list_bindings, Term.variable_paths_list, List.append_nil]
  case SubString id mode a b c =>
    cases c <;>
      simp only [Term.visit_children, Term.variable_paths, Term.variable_paths_list,
        Term.variable_paths_option, Option.toList, List.append_nil, List.cons_append,
        List.nil_append]
  all_goals
    simp only [Term.visit_children, Term.variable_paths, Term.variable_paths_list,
      List.append_nil, extend_paths, List.map_nil]

theorem process_mixed_loop_step (E : Env C W) (visit : Term → State C W → Res C W)
    (term string_term : Term) (rest : List Term) (s s' : State C W)
    (h : process_mixed_loop E visit term (string_term :: rest) s = .ok s') :
    ∃ s1, visit string_term s = .ok s1 ∧
      (same_paths s1 s' ∨
        ∃ s3, same_paths s1 s3 ∧
          process_mixed_loop E visit term rest (update_variables E s3) = .ok s') := by
  simp only [process_mixed_loop] at h
  cases hvis : visit string_term s with
  | error e => simp only [hvis, reduceCtorEq] at h
  | ok s1 =>
    simp only [hvis] at h
    refine ⟨s1, rfl, ?_⟩
    repeat' split at h
    all_goals first
      | exact absurd h (by simp only [reduceCtorEq, not_false_eq_true])
      | (left
         rw [← Except.ok.inj h]
         exact ⟨rfl, rfl, rfl⟩)
      | (have hst := storeTermValue_same_paths (by assumption)
         exact Or.inr ⟨_, same_paths_trans (by exact ⟨rfl, rfl, rfl⟩) hst, h⟩)

theorem update_variables_balanced (E : Env C W) (s : State C W) :
    balanced s (update_variables E s) :=
  (update_variables_walked E s).1

theorem process_mixed_loop_balanced (E : Env C W) (visit : Term → State C W → Res C W)
    (term : Term) (hv : ∀ u s s', visit u s = .ok s' → balanced s s') :
    ∀ (l : List Term) (s s' : State C W), process_mixed_loop E visit term l s = .ok s' →
      balanced s s' := by
  intro l
  induction l with
  | nil =>
    intro s s' h
    simp only [process_mixed_loop, Except.ok.injEq] at h
    rw [← h]
    exact balanced_refl s
  | cons string_term rest ih =>
    intro s s' h
    obtain ⟨s1, h1, h2⟩ := process_mixed_loop_step E visit term string_term rest s s' h
    refine balanced_trans (hv _ _ _ h1) ?_
    rcases h2 with h2 | ⟨s3, h3, h4⟩
    · exact balanced_of_same_paths h2
    · exact balanced_trans (balanced_of_same_paths h3)
        (balanced_trans (update_variables_balanced E s3) (ih _ _ h4))

theorem check_and_visit_shape (E : Env C W) (visit : Term → State C W → Res C W) (term : Term)
    (s s' : State C W) (flag : Bool) (h : check_and_visit E visit term s = .ok (flag, s')) :
    visit term s = .ok s' ∨ same_paths s s' ∨
      (E.arithmetic_hasStringTerms s.world term = true ∧
        ∃ s1, process_mixed_loop E visit term (E.arithmetic_getStringTermsIn s.world term) s =
          .ok s1 ∧ same_paths s1 s') := by
  simp only [check_and_visit, process_mixed_integer_string_constraints_in] at h
  split at h
  · rename_i result hcached
    by_cases hb : (E.arithmetic_hasStringTerms s.world term && E.isSatisfiable result) = true
    · simp only [hb, if_true] at h
      have hb1 : E.arithmetic_hasStringTerms s.world term = true := by
        simp only [Bool.and_eq_true] at hb
        exact hb.1
      cases hm : process_mixed_loop E visit term (E.arithmetic_getStringTermsIn s.world term) s with
      | error e => simp only [hm, reduceCtorEq] at h
      | ok s1 =>
        simp only [hm] at h
        right; right
        refine ⟨hb1, s1, rfl, ?_⟩
        cases hd : deref (getTermValue E s1 term) with
        | error e => simp only [hd, reduceCtorEq] at h
        | ok result1 =>
          simp only [hd] at h
          cases hs : storeTermValue s1 term (some (.BOOl_CONSTANT (E.isSatisfiable result1))) with
          | error e => simp only [hs, reduceCtorEq] at h
          | ok s2 =>
            simp only [hs] at h
            have h12 := storeTermValue_same_paths hs
            repeat' split at h
            all_goals first
              | exact absurd h (by simp only [reduceCtorEq, not_false_eq_true])
              | (rw [← (Prod.mk.inj (Except.ok.inj h)).2]
                 exact h12)
              | (have hst := storeTermValue_same_paths (by assumption)
                 rw [← (Prod.mk.inj (Except.ok.inj h)).2]
                 exact same_paths_trans h12 hst)
    · simp only [hb, Bool.false_eq_true, if_false] at h
      right; left
      repeat' split at h
      all_goals first
        | exact absurd h (by simp only [reduceCtorEq, not_false_eq_true])
        | (rw [← (Prod.mk.inj (Except.ok.inj h)).2]
           exact same_paths_refl s)
        | (have hst := storeTermValue_same_paths (by assumption)
           rw [← (Prod.mk.inj (Except.ok.inj h)).2]
           exact hst)
  · left
    split at h
    · exact absurd h (by simp only [reduceCtorEq, not_false_eq_true])
    · rename_i s1 hv
      rw [hv, (Prod.mk.inj (Except.ok.inj h)).2]

theorem check_and_visit_walked (E : Env C W) (visit : Term → State C W → Res C W)
    (hv : ∀ u s s', visit u s = .ok s' → walked E u.variable_paths s s')
    (term : Term) (s s' : State C W) (flag : Bool)
    (h : check_and_visit E visit term s = .ok (flag, s')) :
    walked E term.variable_paths s s' := by
  rcases check_and_visit_shape E visit term s s' flag h with h1 | h1 | ⟨hb, s1, h1, h2⟩
  · exact hv _ _ _ h1
  · exact walked_of_same_paths E _ h1
  · refine ⟨balanced_trans
      (process_mixed_loop_balanced E visit term (fun u a b hu => (hv u a b hu).1) _ _ _ h1)
      (balanced_of_same_paths h2), fun hnb => ?_⟩
    rw [hnb] at hb
    exact absurd hb (by simp only [Bool.false_eq_true, not_false_eq_true])

theorem refined_or_not_walked (E : Env C W) (c : Bool) (s s1 : State C W)
    (h : same_paths s s1) : walked E [] s (if c then update_variables E s1 else s) := by
  cases c with
  | false => exact walked_refl E [] s
  | true =>
    exact walked_trans_left (walked_of_same_paths E [] h) (update_variables_walked E s1)

theorem visitAnd_body_walked (E : Env C W) (visit : Term → State C W → Res C W)
    (hv : ∀ u s s', visit u s = .ok s' → walked E u.variable_paths s s')
    (term : Term) (flag b : Bool) (s s' : State C W)
    (h : visitAnd_body E visit term flag s = .ok (b, s')) :
    walked E term.variable_paths s s' := by
  simp only [visitAnd_body] at h
  cases hc : check_and_visit E visit term s with
  | error e => simp only [hc, reduceCtorEq] at h
  | ok r =>
    obtain ⟨f, s1⟩ := r
    have hw := check_and_visit_walked E visit hv term s s1 f hc
    simp only [hc] at h
    split at h
    · exact absurd h (by simp only [reduceCtorEq, not_false_eq_true])
    · rename_i is_satisfiable1 _
      rw [← (Prod.mk.inj (Except.ok.inj h)).2]
      have h2 := refined_or_not_walked E is_satisfiable1 s1 { s1 with still_sat_ := true }
        ⟨rfl, rfl, rfl⟩
      exact walked_trans_right hw
        (walked_trans_right h2 (walked_of_same_paths E [] ⟨rfl, rfl, rfl⟩))

theorem visitAnd_loop_walked (E : Env C W) (visit : Term → State C W → Res C W)
    (hv : ∀ u s s', visit u s = .ok s' → walked E u.variable_paths s s') :
    ∀ (l : List Term) (flag b : Bool) (s s' : State C W),
      visitAnd_loop E visit l flag s = .ok (b, s') →
        walked E (Term.variable_paths_list l) s s' := by
  intro l
  induction l with
  | nil =>
    intro flag b s s' h
    simp only [visitAnd_loop, Except.ok.injEq, Prod.mk.injEq] at h
    rw [← h.2]
    exact walked_refl E _ s
  | cons term rest ih =>
    intro flag b s s' h
    simp only [visitAnd_loop] at h
    simp only [Term.variable_paths_list]
    cases hb : visitAnd_body E visit term flag s with
    | error e => simp only [hb, reduceCtorEq] at h
    | ok r =>
      obtain ⟨b1, s1⟩ := r
      have hw := visitAnd_body_walked E visit hv term flag b1 s s1 hb
      simp only [hb] at h
      split at h
      · rw [← (Prod.mk.inj (Except.ok.inj h)).2]
        exact walked_mono (fun p hp => List.mem_append_left _ hp) hw
      · exact walked_trans hw (ih _ _ _ _ h)

theorem visitAnd_engines_same_paths (E : Env C W) (and_term : Term) (s : State C W) :
    same_paths s (visitAnd_engines E and_term s) := by
  simp only [visitAnd_engines]
  split
  · exact ⟨rfl, rfl, rfl⟩
  · exact same_paths_refl s

theorem visitAnd_arithmetic_result_same_paths (E : Env C W) (and_term : Term) (s : State C W) :
    same_paths s (visitAnd_arithmetic_result E and_term s) := by
  simp only [visitAnd_arithmetic_result]
  repeat' split
  all_goals exact ⟨rfl, rfl, rfl⟩

theorem visitAnd_string_result_same_paths (E : Env C W) (and_term : Term) (s s' : State C W)
    (h : visitAnd_string_result E and_term s = .ok s') : same_paths s s' := by
  simp only [visitAnd_string_result] at h
  repeat' split at h
  all_goals first
    | exact absurd h (by simp only [reduceCtorEq, not_false_eq_true])
    | (rw [← Except.ok.inj h]
       exact ⟨rfl, rfl, rfl⟩)

theorem visitAnd_walked (E : Env C W) (visit : Term → State C W → Res C W)
    (hv : ∀ u s s', visit u s = .ok s' → walked E u.variable_paths s s')
    (id : Nat) (term_list : List Term) (s s' : State C W)
    (h : visitAnd E visit id term_list s = .ok s') :
    walked E (Term.And id term_list).variable_paths s s' := by
  simp only [visitAnd] at h
  simp only [Term.variable_paths]
  cases hl : visitAnd_loop E visit term_list true
      (visitAnd_engines E (Term.And id term_list) s) with
  | error e => simp only [hl, reduceCtorEq] at h
  | ok r =>
    obtain ⟨b, s1⟩ := r
    have hw := visitAnd_loop_walked E visit hv term_list true b _ s1 hl
    simp only [hl] at h
    split at h
    · exact absurd h (by simp only [reduceCtorEq, not_false_eq_true])
    · rename_i s2 hs
      have h1 := storeTermValue_same_paths hs
      have h2 := visitAnd_arithmetic_result_same_paths E (Term.And id term_list) s2
      have h3 := visitAnd_string_result_same_paths E _ _ s' h
      exact walked_trans_left (walked_of_same_paths E [] (visitAnd_engines_same_paths E _ s))
        (walked_trans_right hw
          (walked_of_same_paths E [] (same_paths_trans h1 (same_paths_trans h2 h3))))

theorem visitOr_body_walked (E : Env C W) (visit : Term → State C W → Res C W)
    (hv : ∀ u s s', visit u s = .ok s' → walked E u.variable_paths s s')
    (term : Term) (b : Bool) (s s' : State C W)
    (h : visitOr_body E visit term s = .ok (b, s')) :
    walked E term.variable_paths s s' := by
  simp only [visitOr_body] at h
  cases hc : check_and_visit E visit term { s with world := E.push_scope s.world term.id } with
  | error e => simp only [hc, reduceCtorEq] at h
  | ok r =>
    obtain ⟨f, s1⟩ := r
    have hw := check_and_visit_walked E visit hv term _ s1 f hc
    have hw1 : walked E term.variable_paths s s1 :=
      walked_trans_left (walked_of_same_paths E [] (by exact ⟨rfl, rfl, rfl⟩)) hw
    simp only [hc] at h
    split at h
    · exact absurd h (by simp only [reduceCtorEq, not_false_eq_true])
    · rename_i param _
      rw [← (Prod.mk.inj (Except.ok.inj h)).2]
      refine walked_trans_right hw1 (walked_trans_right (b := (if TermType.AND ≠ term.type then
          clearTermValuesAndLocalLetVars E
            (if E.isSatisfiable param then update_variables E s1 else s1)
        else s1)) ?_ (walked_of_same_paths E [] ⟨rfl, rfl, rfl⟩))
      split
      · exact walked_trans_right
          (refined_or_not_walked E (E.isSatisfiable param) s1 s1 (same_paths_refl s1))
          (walked_of_same_paths E [] ⟨rfl, rfl, rfl⟩)
      · exact walked_refl E [] s1

theorem visitOr_loop_walked (E : Env C W) (visit : Term → State C W → Res C W)
    (hv : ∀ u s s', visit u s = .ok s' → walked E u.variable_paths s s') :
    ∀ (l : List Term) (flag b : Bool) (s s' : State C W),
      visitOr_loop E visit l flag s = .ok (b, s') →
        walked E (Term.variable_paths_list l) s s' := by
  intro l
  induction l with
  | nil =>
    intro flag b s s' h
    simp only [visitOr_loop, Except.ok.injEq, Prod.mk.injEq] at h
    rw [← h.2]
    exact walked_refl E _ s
  | cons term rest ih =>
    intro flag b s s' h
    simp only [visitOr_loop] at h
    simp only [Term.variable_paths_list]
    cases hb : visitOr_body E visit term s with
    | error e => simp only [hb, reduceCtorEq] at h
    | ok r =>
      obtain ⟨b1, s1⟩ := r
      have hw := visitOr_body_walked E visit hv term b1 s s1 hb
      simp only [hb] at h
      split at h
      · rw [← (Prod.mk.inj (Except.ok.inj h)).2]
        exact walked_mono (fun p hp => List.mem_append_left _ hp) hw
      · exact walked_trans hw (ih _ _ _ _ h)

theorem visitOr_walked (E : Env C W) (visit : Term → State C W → Res C W)
    (hv : ∀ u s s', visit u s = .ok s' → walked E u.variable_paths s s')
    (id : Nat) (term_list : List Term) (s s' : State C W)
    (h : visitOr E visit id term_list s = .ok s') :
    walked E (Term.Or id term_list).variable_paths s s' := by
  simp only [visitOr] at h
  simp only [Term.variable_paths]
  cases hl : visitOr_loop E visit term_list false s with
  | error e => simp only [hl, reduceCtorEq] at h
  | ok r =>
    obtain ⟨b, s1⟩ := r
    have hw := visitOr_loop_walked E visit hv term_list false b _ s1 hl
    simp only [hl] at h
    exact walked_trans_right hw (walked_of_same_paths E [] (storeTermValue_same_paths h))

theorem check_and_visit_pushed (E : Env C W) (visit : Term → State C W → Res C W)
    (hv : ∀ u s s', visit u s = .ok s' → walked E u.variable_paths s s')
    (node term : Term) (s s1 : State C W) (flag : Bool)
    (h : check_and_visit E visit term { s with path_trace_ := s.path_trace_ ++ [node] } =
      .ok (flag, s1)) :
    walked E (extend_paths node term.variable_paths) s
      { s1 with path_trace_ := s1.path_trace_.dropLast } :=
  walked_push node (check_and_visit_walked E visit hv term _ s1 flag h)

theorem visitLet_bindings_walked (E : Env C W) (visit : Term → State C W → Res C W)
    (hv : ∀ u s s', visit u s = .ok s' → walked E u.variable_paths s s') (let_term : Term) :
    ∀ (bs : List (String × Term)) (s s' : State C W),
      visitLet_bindings E visit let_term bs s = .ok s' →
        walked E (extend_paths let_term (Term.variable_paths_bindings bs)) s s' := by
  intro bs
  induction bs with
  | nil =>
    intro s s' h
    simp only [visitLet_bindings, Except.ok.injEq] at h
    rw [← h]
    exact walked_refl E _ s
  | cons var_binding rest ih =>
    intro s s' h
    obtain ⟨x, t⟩ := var_binding
    simp only [visitLet_bindings] at h
    simp only [Term.variable_paths_bindings, extend_paths, List.map_append]
    cases hc : check_and_visit E visit t { s with path_trace_ := s.path_trace_ ++ [let_term] } with
    | error e => simp only [hc, reduceCtorEq] at h
    | ok r =>
      obtain ⟨f, s1⟩ := r
      have hw := check_and_visit_pushed E visit hv let_term t s s1 f hc
      simp only [hc] at h
      split at h
      · exact absurd h (by simp only [reduceCtorEq, not_false_eq_true])
      · exact walked_trans hw
          (walked_trans_left (walked_of_same_paths E [] (by exact ⟨rfl, rfl, rfl⟩)) (ih _ _ h))

theorem visitLet_walked (E : Env C W) (visit : Term → State C W → Res C W)
    (hv : ∀ u s s', visit u s = .ok s' → walked E u.variable_paths s s')
    (id : Nat) (bs : List (String × Term)) (t : Term) (s s' : State C W)
    (h : visitLet E visit id bs t s = .ok s') :
    walked E (Term.Let id bs t).variable_paths s s' := by
  simp only [visitLet] at h
  simp only [Term.variable_paths, extend_paths, List.map_append]
  cases hb : visitLet_bindings E visit (Term.Let id bs t) bs
      { s with world := E.push_scope s.world id } with
  | error e => simp only [hb, reduceCtorEq] at h
  | ok s1 =>
    have hw1 := visitLet_bindings_walked E visit hv (Term.Let id bs t) bs _ s1 hb
    simp only [hb] at h
    cases hc : check_and_visit E visit t
        { s1 with path_trace_ := s1.path_trace_ ++ [Term.Let id bs t] } with
    | error e => simp only [hc, reduceCtorEq] at h
    | ok r =>
      obtain ⟨f, s2⟩ := r
      have hw2 := check_and_visit_pushed E visit hv (Term.Let id bs t) t s1 s2 f hc
      simp only [hc] at h
      split at h
      · exact absurd h (by simp only [reduceCtorEq, not_false_eq_true])
      · have h3 := storeTermValue_same_paths h
        exact walked_trans_left (walked_of_same_paths E [] (by exact ⟨rfl, rfl, rfl⟩))
          (walked_trans hw1
            (walked_trans_right hw2
              (walked_of_same_paths E [] (same_paths_trans (by exact ⟨rfl, rfl, rfl⟩) h3))))

theorem visit_walked (E : Env C W) :
    ∀ (fuel : Nat) (t : Term) (s s' : State C W), visit E fuel t s = .ok s' →
      walked E t.variable_paths s s' := by
  intro fuel
  induction fuel with
  | zero =>
    intro t s s' h
    simp only [visit, reduceCtorEq] at h
  | succ fuel ih =>
    intro t s s' h
    cases t with
    | Exclamation id =>
      simp only [visit] at h
      simp only [visitExclamation, Except.ok.injEq] at h
      rw [← h]
      exact walked_refl E _ s
    | Exists id =>
      simp only [visit] at h
      simp only [visitExists, Except.ok.injEq] at h
      rw [← h]
      exact walked_refl E _ s
    | ForAll id =>
      simp only [visit] at h
      simp only [visitForAll, Except.ok.injEq] at h
      rw [← h]
      exact walked_refl E _ s
    | Let id var_binding_list t =>
      simp only [visit] at h
      exact visitLet_walked E (visit E fuel) ih id var_binding_list t s s' h
    | And id term_list =>
      simp only [visit] at h
      exact visitAnd_walked E (visit E fuel) ih id term_list s s' h
    | Or id term_list =>
      simp only [visit] at h
      exact visitOr_walked E (visit E fuel) ih id term_list s s' h
    | Not id t =>
      simp only [visit] at h
      rw [← variable_paths_of_children (Term.Not id t)
        (by simp only [Term.type, ne_eq, reduceCtorEq, not_false_eq_true])
        (by simp only [Term.type, ne_eq, reduceCtorEq, not_false_eq_true])
        (by simp only [Term.type, ne_eq, reduceCtorEq, not_false_eq_true])]
      exact children_then_store_walked E (visit E fuel) ih _ s s'
        (visitNot_shape E (visit E fuel) id t s s' h)
    | UMinus id t =>
      simp only [visit] at h
      rw [← variable_paths_of_children (Term.UMinus id t)
        (by simp only [Term.type, ne_eq, reduceCtorEq, not_false_eq_true])
        (by simp only [Term.type, ne_eq, reduceCtorEq, not_false_eq_true])
        (by simp only [Term.type, ne_eq, reduceCtorEq, not_false_eq_true])]
      exact children_then_store_walked E (visit E fuel) ih _ s s'
        (visitUMinus_shape E (visit E fuel) id t s s' h)
    | Minus id l r =>
      simp only [visit] at h
      rw [← variable_paths_of_children (Term.Minus id l r)
        (by simp only [Term.type, ne_eq, reduceCtorEq, not_false_eq_true])
        (by simp only [Term.type, ne_eq, reduceCtorEq, not_false_eq_true])
        (by simp only [Term.type, ne_eq, reduceCtorEq, not_false_eq_true])]
      exact children_then_store_walked E (visit E fuel) ih _ s s'
        (visitMinus_shape E (visit E fuel) id l r s s' h)
    | Plus id term_list =>
      simp only [visit] at h
      rw [← variable_paths_of_children (Term.Plus id term_list)
        (by simp only [Term.type, ne_eq, reduceCtorEq, not_false_eq_true])
        (by simp only [Term.type, ne_eq, reduceCtorEq, not_false_eq_true])
        (by simp only [Term.type, ne_eq, reduceCtorEq, not_false_eq_true])]
      exact children_then_store_walked E (visit E fuel) ih _ s s'
        (visitPlus_shape E (visit E fuel) id term_list s s' h)
    | Times id term_list =>
      simp only [visit] at h
      rw [← variable_paths_of_children (Term.Times id term_list)
        (by simp only [Term.type, ne_eq, reduceCtorEq, not_false_eq_true])
        (by simp only [Term.type, ne_eq, reduceCtorEq, not_false_eq_true])
        (by simp only [Term.type, ne_eq, reduceCtorEq, not_false_eq_true])]
      exact children_then_store_walked E (visit E fuel) ih _ s s'
        (visitTimes_shape E (visit E fuel) id term_list s s' h)
    | Eq id l r =>
      simp only [visit] at h
      rw [← variable_paths_of_children (Term.Eq id l r)
        (by simp only [Term.type, ne_eq, reduceCtorEq, not_false_eq_true])
        (by simp only [Term.type, ne_eq, reduceCtorEq, not_false_eq_true])
        (by simp only [Term.type, ne_eq, reduceCtorEq, not_false_eq_true])]
      exact children_then_store_walked E (visit E fuel) ih _ s s'
        (visitEq_shape E (visit E fuel) id l r s s' h)
    | NotEq id l r =>
      simp only [visit] at h
      rw [← variable_paths_of_children (Term.NotEq id l r)
        (by simp only [Term.type, ne_eq, reduceCtorEq, not_false_eq_true])
        (by simp only [Term.type, ne_eq, reduceCtorEq, not_false_eq_true])
        (by simp only [Term.type, ne_eq, reduceCtorEq, not_false_eq_true])]
      exact children_then_store_walked E (visit E fuel) ih _ s s'
        (visitNotEq_shape E (visit E fuel) id l r s s' h)
    | Gt id l r =>
      simp only [visit] at h
      rw [← variable_paths_of_children (Term.Gt id l r)
        (by simp only [Term.type, ne_eq, reduceCtorEq, not_false_eq_true])
        (by simp only [Term.type, ne_eq, reduceCtorEq, not_false_eq_true])
        (by simp only [Term.type, ne_eq, reduceCtorEq, not_false_eq_true])]
      exact children_then_store_walked E (visit E fuel) ih _ s s'
        (visitGt_shape E (visit E fuel) id l r s s' h)
    | Ge id l r =>
      simp only [visit] at h
      rw [← variable_paths_of_children (Term.Ge id l r)
        (by simp only [Term.type, ne_eq, reduceCtorEq, not_false_eq_true])
        (by simp only [Term.type, ne_eq, reduceCtorEq, not_false_eq_true])
        (by simp only [Term.type, ne_eq, reduceCtorEq, not_false_eq_true])]
      exact children_then_store_walked E (visit E fuel) ih _ s s'
        (visitGe_shape E (visit E fuel) id l r s s' h)
    | Lt id l r =>
      simp only [visit] at h
      rw [← variable_paths_of_children (Term.Lt id l r)
        (by simp only [Term.type, ne_eq, reduceCtorEq, not_false_eq_true])
        (by simp only [Term.type, ne_eq, reduceCtorEq, not_false_eq_true])
        (by simp only [Term.type, ne_eq, reduceCtorEq, not_false_eq_true])]
      exact children_then_store_walked E (visit E fuel) ih _ s s'
        (visitLt_shape E (visit E fuel) id l r s s' h)
    | Le id l r =>
      simp only [visit] at h
      rw [← variable_paths_of_children (Term.Le id l r)
        (by simp only [Term.type, ne_eq, reduceCtorEq, not_false_eq_true])
        (by simp only [Term.type, ne_eq, reduceCtorEq, not_false_eq_true])
        (by simp only [Term.type, ne_eq, reduceCtorEq, not_false_eq_true])]
      exact children_then_store_walked E (visit E fuel) ih _ s s'
        (visitLe_shape E (visit E fuel) id l r s s' h)
    | Concat id term_list =>
      simp only [visit] at h
      rw [← variable_paths_of_children (Term.Concat id term_list)
        (by simp only [Term.type, ne_eq, reduceCtorEq, not_false_eq_true])
        (by simp only [Term.type, ne_eq, reduceCtorEq, not_false_eq_true])
        (by simp only [Term.type, ne_eq, reduceCtorEq, not_false_eq_true])]
      exact children_then_store_walked E (visit E fuel) ih _ s s'
        (visitConcat_shape E (visit E fuel) id term_list s s' h)
    | In id l r =>
      simp only [visit] at h
      rw [← variable_paths_of_children (Term.In id l r)
        (by simp only [Term.type, ne_eq, reduceCtorEq, not_false_eq_true])
        (by simp only [Term.type, ne_eq, reduceCtorEq, not_false_eq_true])
        (by simp only [Term.type, ne_eq, reduceCtorEq, not_false_eq_true])]
      exact children_then_store_walked E (visit E fuel) ih _ s s'
        (visitIn_shape E (visit E fuel) id l r s s' h)
    | NotIn id l r =>
      simp only [visit] at h
      rw [← variable_paths_of_children (Term.NotIn id l r)
        (by simp only [Term.type, ne_eq, reduceCtorEq, not_false_eq_true])
        (by simp only [Term.type, ne_eq, reduceCtorEq, not_false_eq_true])
        (by simp only [Term.type, ne_eq, reduceCtorEq, not_false_eq_true])]
      exact children_then_store_walked E (visit E fuel) ih _ s s'
        (visitNotIn_shape E (visit E fuel) id l r s s' h)
    | Len id t =>
      simp only [visit] at h
      rw [← variable_paths_of_children (Term.Len id t)
        (by simp only [Term.type, ne_eq, reduceCtorEq, not_false_eq_true])
        (by simp only [Term.type, ne_eq, reduceCtorEq, not_false_eq_true])
        (by simp only [Term.type, ne_eq, reduceCtorEq, not_false_eq_true])]
      exact children_then_store_walked E (visit E fuel) ih _ s s'
        (visitLen_shape E (visit E fuel) id t s s' h)
    | Contains id a b =>
      simp only [visit] at h
      rw [← variable_paths_of_children (Term.Contains id a b)
        (by simp only [Term.type, ne_eq, reduceCtorEq, not_false_eq_true])
        (by simp only [Term.type, ne_eq, reduceCtorEq, not_false_eq_true])
        (by simp only [Term.type, ne_eq, reduceCtorEq, not_false_eq_true])]
      exact children_then_store_walked E (visit E fuel) ih _ s s'
        (visitContains_shape E (visit E fuel) id a b s s' h)
    | NotContains id a b =>
      simp only [visit] at h
      rw [← variable_paths_of_children (Term.NotContains id a b)
        (by simp only [Term.type, ne_eq, reduceCtorEq, not_false_eq_true])
        (by simp only [Term.type, ne_eq, reduceCtorEq, not_false_eq_true])
        (by simp only [Term.type, ne_eq, reduceCtorEq, not_false_eq_true])]
      exact children_then_store_walked E (visit E fuel) ih _ s s'
        (visitNotContains_shape E (visit E fuel) id a b s s' h)
    | Begins id a b =>
      simp only [visit] at h
      rw [← variable_paths_of_children (Term.Begins id a b)
        (by simp only [Term.type, ne_eq, reduceCtorEq, not_false_eq_true])
        (by simp only [Term.type, ne_eq, reduceCtorEq, not_false_eq_true])
        (by simp only [Term.type, ne_eq, reduceCtorEq, not_false_eq_true])]
      exact children_then_store_walked E (visit E fuel) ih _ s s'
        (visitBegins_shape E (visit E fuel) id a b s s' h)
    | NotBegins id a b =>
      simp only [visit] at h
      rw [← variable_paths_of_children (Term.NotBegins id a b)
        (by simp only [Term.type, ne_eq, reduceCtorEq, not_false_eq_true])
        (by simp only [Term.type, ne_eq, reduceCtorEq, not_false_eq_true])
        (by simp only [Term.type, ne_eq, reduceCtorEq, not_false_eq_true])]
      exact children_then_store_walked E (visit E fuel) ih _ s s'
        (visitNotBegins_shape E (visit E fuel) id a b s s' h)
    | Ends id a b =>
      simp only [visit] at h
      rw [← variable_paths_of_children (Term.Ends id a b)
        (by simp only [Term.type, ne_eq, reduceCtorEq, not_false_eq_true])
        (by simp only [Term.type, ne_eq, reduceCtorEq, not_false_eq_true])
        (by simp only [Term.type, ne_eq, reduceCtorEq, not_false_eq_true])]
      exact children_then_store_walked E (visit E fuel) ih _ s s'
        (visitEnds_shape E (visit E fuel) id a b s s' h)
    | NotEnds id a b =>
      simp only [visit] at h
      rw [← variable_paths_of_children (Term.NotEnds id a b)
        (by simp only [Term.type, ne_eq, reduceCtorEq, not_false_eq_true])
        (by simp only [Term.type, ne_eq, reduceCtorEq, not_false_eq_true])
        (by simp only [Term.type, ne_eq, reduceCtorEq, not_false_eq_true])]
      exact children_then_store_walked E (visit E fuel) ih _ s s'
        (visitNotEnds_shape E (visit E fuel) id a b s s' h)
    | IndexOf id a b =>
      simp only [visit] at h
      rw [← variable_paths_of_children (Term.IndexOf id a b)
        (by simp only [Term.type, ne_eq, reduceCtorEq, not_false_eq_true])
        (by simp only [Term.type, ne_eq, reduceCtorEq, not_false_eq_true])
        (by simp only [Term.type, ne_eq, reduceCtorEq, not_false_eq_true])]
      exact children_then_store_walked E (visit E fuel) ih _ s s'
        (visitIndexOf_shape E (visit E fuel) id a b s s' h)
    | LastIndexOf id a b =>
      simp only [visit] at h
      rw [← variable_paths_of_children (Term.LastIndexOf id a b)
        (by simp only [Term.type, ne_eq, reduceCtorEq, not_false_eq_true])
        (by simp only [Term.type, ne_eq, reduceCtorEq, not_false_eq_true])
        (by simp only [Term.type, ne_eq, reduceCtorEq, not_false_eq_true])]
      exact children_then_store_walked E (visit E fuel) ih _ s s'
        (visitLastIndexOf_shape E (visit E fuel) id a b s s' h)
    | CharAt id a b =>
      simp only [visit] at h
      rw [← variable_paths_of_children (Term.CharAt id a b)
        (by simp only [Term.type, ne_eq, reduceCtorEq, not_false_eq_true])
        (by simp only [Term.type, ne_eq, reduceCtorEq, not_false_eq_true])
        (by simp only [Term.type, ne_eq, reduceCtorEq, not_false_eq_true])]
      exact children_then_store_walked E (visit E fuel) ih _ s s'
        (visitCharAt_shape E (visit E fuel) id a b s s' h)
    | SubString id mode a b c =>
      simp only [visit] at h
      rw [← variable_paths_of_children (Term.SubString id mode a b c)
        (by simp only [Term.type, ne_eq, reduceCtorEq, not_false_eq_true])
        (by simp only [Term.type, ne_eq, reduceCtorEq, not_false_eq_true])
        (by simp only [Term.type, ne_eq, reduceCtorEq, not_false_eq_true])]
      exact children_then_store_walked E (visit E fuel) ih _ s s'
        (visitSubString_shape E (visit E fuel) id mode a b c s s' h)
    | ToUpper id t =>
      simp only [visit] at h
      rw [← variable_paths_of_children (Term.ToUpper id t)
        (by simp only [Term.type, ne_eq, reduceCtorEq, not_false_eq_true])
        (by simp only [Term.type, ne_eq, reduceCtorEq, not_false_eq_true])
        (by simp only [Term.type, ne_eq, reduceCtorEq, not_false_eq_true])]
      exact children_then_store_walked E (visit E fuel) ih _ s s'
        (visitToUpper_shape E (visit E fuel) id t s s' h)
    | ToLower id t =>
      simp only [visit] at h
      rw [← variable_paths_of_children (Term.ToLower id t)
        (by simp only [Term.type, ne_eq, reduceCtorEq, not_false_eq_true])
        (by simp only [Term.type, ne_eq, reduceCtorEq, not_false_eq_true])
        (by simp only [Term.type, ne_eq, reduceCtorEq, not_false_eq_true])]
      exact children_then_store_walked E (visit E fuel) ih _ s s'
        (visitToLower_shape E (visit E fuel) id t s s' h)
    | Trim id t =>
      simp only [visit] at h
      rw [← variable_paths_of_children (Term.Trim id t)
        (by simp only [Term.type, ne_eq, reduceCtorEq, not_false_eq_true])
        (by simp only [Term.type, ne_eq, reduceCtorEq, not_false_eq_true])
        (by simp only [Term.type, ne_eq, reduceCtorEq, not_false_eq_true])]
      exact children_then_store_walked E (visit E fuel) ih _ s s'
        (visitTrim_shape E (visit E fuel) id t s s' h)
    | ToString id t =>
      simp only [visit] at h
      rw [← variable_paths_of_children (Term.ToString id t)
        (by simp only [Term.type, ne_eq, reduceCtorEq, not_false_eq_true])
        (by simp only [Term.type, ne_eq, reduceCtorEq, not_false_eq_true])
        (by simp only [Term.type, ne_eq, reduceCtorEq, not_false_eq_true])]
      exact children_then_store_walked E (visit E fuel) ih _ s s'
        (visitToString_shape E (visit E fuel) id t s s' h)
    | ToInt id t =>
      simp only [visit] at h
      rw [← variable_paths_of_children (Term.ToInt id t)
        (by simp only [Term.type, ne_eq, reduceCtorEq, not_false_eq_true])
        (by simp only [Term.type, ne_eq, reduceCtorEq, not_false_eq_true])
        (by simp only [Term.type, ne_eq, reduceCtorEq, not_false_eq_true])]
      exact children_then_store_walked E (visit E fuel) ih _ s s'
        (visitToInt_shape E (visit E fuel) id t s s' h)
    | Replace id a b c =>
      simp only [visit] at h
      rw [← variable_paths_of_children (Term.Replace id a b c)
        (by simp only [Term.type, ne_eq, reduceCtorEq, not_false_eq_true])
        (by simp only [Term.type, ne_eq, reduceCtorEq, not_false_eq_true])
        (by simp only [Term.type, ne_eq, reduceCtorEq, not_false_eq_true])]
      exact children_then_store_walked E (visit E fuel) ih _ s s'
        (visitReplace_shape E (visit E fuel) id a b c s s' h)
    | Count id children =>
      simp only [visit] at h
      rw [← variable_paths_of_children (Term.Count id children)
        (by simp only [Term.type, ne_eq, reduceCtorEq, not_false_eq_true])
        (by simp only [Term.type, ne_eq, reduceCtorEq, not_false_eq_true])
        (by simp only [Term.type, ne_eq, reduceCtorEq, not_false_eq_true])]
      exact children_then_store_walked E (visit E fuel) ih _ s s'
        (visitCount_shape (visit E fuel) id children s s' h)
    | Ite id =>
      simp only [visit] at h
      simp only [visitIte, Except.ok.injEq] at h
      rw [← h]
      exact walked_refl E _ s
    | ReConcat id =>
      simp only [visit] at h
      simp only [visitReConcat, Except.ok.injEq] at h
      rw [← h]
      exact walked_refl E _ s
    | ToRegex id =>
      simp only [visit] at h
      simp only [visitToRegex, Except.ok.injEq] at h
      rw [← h]
      exact walked_refl E _ s
    | ReUnion id =>
      simp only [visit] at h
      simp only [visitReUnion, Except.ok.injEq] at h
      rw [← h]
      exact walked_refl E _ s
    | ReInter id =>
      simp only [visit] at h
      simp only [visitReInter, Except.ok.injEq] at h
      rw [← h]
      exact walked_refl E _ s
    | ReStar id =>
      simp only [visit] at h
      simp only [visitReStar, Except.ok.injEq] at h
      rw [← h]
      exact walked_refl E _ s
    | RePlus id =>
      simp only [visit] at h
      simp only [visitRePlus, Except.ok.injEq] at h
      rw [← h]
      exact walked_refl E _ s
    | ReOpt id =>
      simp only [visit] at h
      simp only [visitReOpt, Except.ok.injEq] at h
      rw [← h]
      exact walked_refl E _ s
    | Unknown id term_list =>
      simp only [visit] at h
      rw [← variable_paths_of_children (Term.Unknown id term_list)
        (by simp only [Term.type, ne_eq, reduceCtorEq, not_false_eq_true])
        (by simp only [Term.type, ne_eq, reduceCtorEq, not_false_eq_true])
        (by simp only [Term.type, ne_eq, reduceCtorEq, not_false_eq_true])]
      exact children_then_store_walked E (visit E fuel) ih _ s s'
        (visitUnknownTerm_shape E (visit E fuel) id term_list s s' h)
    | AsQualIdentifier id =>
      simp only [visit] at h
      simp only [visitAsQualIdentifier, Except.ok.injEq] at h
      rw [← h]
      exact walked_refl E _ s
    | QualIdentifier id var_name =>
      simp only [visit] at h
      exact visitQualIdentifier_walked E id var_name s s' h
    | TermConstant id value_type value =>
      simp only [visit] at h
      exact walked_of_same_paths E _ (visitTermConstant_same_paths E id value_type value s s' h)

theorem visit_balanced (E : Env C W) (fuel : Nat) (t : Term) (s s' : State C W)
    (h : visit E fuel t s = .ok s') : balanced s s' :=
  (visit_walked E fuel t s s' h).1

theorem check_and_visit_balanced (E : Env C W) (fuel : Nat) (term : Term) (s s' : State C W)
    (flag : Bool) (h : check_and_visit E (visit E fuel) term s = .ok (flag, s')) :
    balanced s s' :=
  (check_and_visit_walked E (visit E fuel) (visit_walked E fuel) term s s' flag h).1

theorem balanced_clear (E : Env C W) {a b : State C W} (h : balanced a b) :
    balanced a (clearTermValuesAndLocalLetVars E b) :=
  balanced_trans h (balanced_of_same_paths ⟨rfl, rfl, rfl⟩)

theorem visitAssert_balanced (E : Env C W) (fuel : Nat) (term : Term) (s s' : State C W)
    (h : visitAssert E (visit E fuel) term s = .ok s') : balanced s s' := by
  simp only [visitAssert] at h
  cases hc : check_and_visit E (visit E fuel) term s with
  | error e => simp only [hc, reduceCtorEq] at h
  | ok r =>
    obtain ⟨f, s1⟩ := r
    have hw := check_and_visit_balanced E fuel term s s1 f hc
    simp only [hc] at h
    split at h
    · exact absurd h (by simp only [reduceCtorEq, not_false_eq_true])
    · rename_i result _
      rw [← Except.ok.inj h]
      refine balanced_trans hw (balanced_clear E ?_)
      split
      · split
        · exact balanced_trans (balanced_of_same_paths (by exact ⟨rfl, rfl, rfl⟩))
            (update_variables_balanced E _)
        · exact balanced_of_same_paths ⟨rfl, rfl, rfl⟩
      · exact balanced_of_same_paths ⟨rfl, rfl, rfl⟩

theorem visit_commands_balanced (E : Env C W) (fuel : Nat) :
    ∀ (commands : List Command) (s s' : State C W),
      visit_commands E (visit E fuel) commands s = .ok s' → balanced s s' := by
  intro commands
  induction commands with
  | nil =>
    intro s s' h
    simp only [visit_commands, Except.ok.injEq] at h
    rw [← h]
    exact balanced_refl s
  | cons command rest ih =>
    intro s s' h
    simp only [visit_commands] at h
    cases hc : visit_command E (visit E fuel) command s with
    | error e => simp only [hc, reduceCtorEq] at h
    | ok s1 =>
      simp only [hc] at h
      refine balanced_trans ?_ (ih s1 s' h)
      cases command with
      | Assert term => exact visitAssert_balanced E fuel term s s1 hc
      | Other name =>
        simp only [visit_command, visitCommand, Except.ok.injEq] at hc
        rw [← hc]
        exact balanced_refl s

theorem visit_root_balanced (E : Env C W) (fuel : Nat) (root_ : Script) (s s' : State C W)
    (h : visit_root E fuel root_ s = .ok s') : balanced s s' := by
  simp only [visit_root, visitScript] at h
  split at h
  · exact absurd h (by simp only [reduceCtorEq, not_false_eq_true])
  · rename_i s1 hc
    rw [← Except.ok.inj h]
    exact balanced_trans (balanced_of_same_paths (by exact ⟨rfl, rfl, rfl⟩))
      (balanced_trans (visit_commands_balanced E fuel _ _ s1 hc)
        (balanced_of_same_paths ⟨rfl, rfl, rfl⟩))

theorem start_loop_balanced (E : Env C W) (fuel : Nat) (root_ : Script) :
    ∀ (remaining : Nat) (s s' : State C W),
      start_loop E fuel root_ remaining s = .ok s' → balanced s s' := by
  intro remaining
  induction remaining with
  | zero =>
    intro s s' h
    simp only [start_loop, Except.ok.injEq] at h
    rw [← h]
    exact balanced_refl s
  | succ remaining ih =>
    intro s s' h
    simp only [start_loop] at h
    cases hc : visit_root E fuel root_ s with
    | error e => simp only [hc, reduceCtorEq] at h
    | ok s1 =>
      simp only [hc] at h
      exact balanced_trans (visit_root_balanced E fuel root_ s s1 hc)
        (balanced_trans (balanced_of_same_paths (by exact ⟨rfl, rfl, rfl⟩)) (ih _ s' h))

theorem visitOr_body_spec (E : Env C W) (visit : Term → State C W → Res C W) (term : Term)
    (s s1 : State C W) (b : Bool) (h : visitOr_body E visit term s = .ok (b, s1)) :
    b = disjunct_holds E visit term s ∧ s1 = state_after_disjunct E visit term s ∧
    ∃ flag s0 param,
      check_and_visit E visit term { s with world := E.push_scope s.world term.id } =
        .ok (flag, s0) ∧
      getTermValue E s0 term = some param ∧ b = E.isSatisfiable param := by
  simp only [visitOr_body] at h
  cases hc : check_and_visit E visit term { s with world := E.push_scope s.world term.id } with
  | error e => simp only [hc, reduceCtorEq] at h
  | ok p =>
    obtain ⟨flag, s0⟩ := p
    cases hv : getTermValue E s0 term with
    | none => simp only [hc, hv, deref, reduceCtorEq] at h
    | some param =>
      simp only [hc, hv, deref, Except.ok.injEq, Prod.mk.injEq] at h
      obtain ⟨hb, hs⟩ := h
      have hd : disjunct_holds E visit term s = E.isSatisfiable param := by
        simp only [disjunct_holds, hc, hv]
      refine ⟨by rw [hd, hb], ?_, flag, s0, param, rfl, hv, hb.symm⟩
      rw [← hs]
      simp only [state_after_disjunct, hc, hd]
      by_cases ht : term.type = TermType.AND
      · simp only [ht, ne_eq, not_true_eq_false, if_false, if_true]
      · have ht2 : ¬ TermType.AND = term.type := fun h => ht h.symm
        simp only [ht, ht2, ne_eq, not_false_eq_true, if_false, if_true]

theorem visitOr_loop_counting_spec (E : Env C W) (visit : Term → State C W → Res C W)
    (hmc : E.MODEL_COUNTER_ENABLED = true) :
    ∀ (l : List Term) (acc : Bool) (s s1 : State C W) (b : Bool),
      visitOr_loop E visit l acc s = .ok (b, s1) →
      b = (acc || some_disjunct_holds E visit l s) ∧ s1 = state_after_disjuncts E visit l s := by
  intro l
  induction l with
  | nil =>
    intro acc s s1 b h
    simp only [visitOr_loop, Except.ok.injEq, Prod.mk.injEq] at h
    simp only [some_disjunct_holds, state_after_disjuncts, Bool.or_false, h.1, h.2, and_self]
  | cons term rest ih =>
    intro acc s s1 b h
    rw [visitOr_loop_cons] at h
    cases hb : visitOr_body E visit term s with
    | error e => simp only [hb, reduceCtorEq] at h
    | ok p =>
      obtain ⟨v, s0⟩ := p
      obtain ⟨hv, hs0, _⟩ := visitOr_body_spec E visit term s s0 v hb
      simp only [hb, hmc, Bool.not_true, Bool.and_false, Bool.false_eq_true, if_false] at h
      obtain ⟨h1, h2⟩ := ih _ _ _ _ h
      subst hv hs0
      simp only [some_disjunct_holds, state_after_disjuncts, h1, h2, Bool.or_assoc, and_self]

theorem visitOr_loop_short_spec (E : Env C W) (visit : Term → State C W → Res C W)
    (hmc : E.MODEL_COUNTER_ENABLED = false) :
    ∀ (l : List Term) (s s1 : State C W) (b : Bool),
      visitOr_loop E visit l false s = .ok (b, s1) →
      b = some_disjunct_holds E visit (disjuncts_to_first_holding E visit l s) s ∧
      s1 = state_after_disjuncts E visit (disjuncts_to_first_holding E visit l s) s := by
  intro l
  induction l with
  | nil =>
    intro s s1 b h
    simp only [visitOr_loop, Except.ok.injEq, Prod.mk.injEq] at h
    simp only [disjuncts_to_first_holding, some_disjunct_holds, state_after_disjuncts, h.1, h.2,
      and_self]
  | cons term rest ih =>
    intro s s1 b h
    rw [visitOr_loop_cons] at h
    cases hb : visitOr_body E visit term s with
    | error e => simp only [hb, reduceCtorEq] at h
    | ok p =>
      obtain ⟨v, s0⟩ := p
      obtain ⟨hv, hs0, _⟩ := visitOr_body_spec E visit term s s0 v hb
      simp only [hb, hmc, Bool.not_false, Bool.and_true, Bool.false_or] at h
      subst hv hs0
      cases hd : disjunct_holds E visit term s with
      | true =>
        simp only [hd, if_true, Except.ok.injEq, Prod.mk.injEq] at h
        simp only [disjuncts_to_first_holding, hd, if_true, some_disjunct_holds,
          state_after_disjuncts, Bool.or_false, h.1, h.2, and_self]
      | false =>
        simp only [hd, Bool.false_eq_true, if_false] at h
        obtain ⟨h1, h2⟩ := ih _ _ _ h
        simp only [disjuncts_to_first_holding, hd, Bool.false_eq_true, if_false,
          some_disjunct_holds, state_after_disjuncts, Bool.false_or]
        exact ⟨h1, h2⟩

theorem visitOr_loop_evaluated (E : Env C W) (visit : Term → State C W → Res C W)
    (l : List Term) (s s1 : State C W) (b : Bool)
    (h : visitOr_loop E visit l false s = .ok (b, s1)) :
    b = some_disjunct_holds E visit (evaluated_disjuncts E visit l s) s ∧
    s1 = state_after_disjuncts E visit (evaluated_disjuncts E visit l s) s := by
  cases hmc : E.MODEL_COUNTER_ENABLED with
  | true =>
    have := visitOr_loop_counting_spec E visit hmc l false s s1 b h
    simpa only [evaluated_disjuncts, hmc, if_true, Bool.false_or] using this
  | false =>
    have := visitOr_loop_short_spec E visit hmc l s s1 b h
    simpa only [evaluated_disjuncts, hmc, Bool.false_eq_true, if_false] using this
theorem visitOr_loop_counting_values (E : Env C W) (visit : Term → State C W → Res C W)
    (hmc : E.MODEL_COUNTER_ENABLED = true) :
    ∀ (l : List Term) (acc : Bool) (s s1 : State C W) (b : Bool),
      visitOr_loop E visit l acc s = .ok (b, s1) →
      ∀ pre d post, l = pre ++ d :: post →
        ∃ flag s0 param,
          check_and_visit E visit d
              { state_after_disjuncts E visit pre s with
                world := E.push_scope (state_after_disjuncts E visit pre s).world d.id } =
            .ok (flag, s0) ∧
          getTermValue E s0 d = some param ∧
          disjunct_holds E visit d (state_after_disjuncts E visit pre s) =
            E.isSatisfiable param := by
  intro l
  induction l with
  | nil => intro acc s s1 b _ pre d post hl; simp at hl
  | cons term rest ih =>
    intro acc s s1 b h pre d post hl
    rw [visitOr_loop_cons] at h
    cases hb : visitOr_body E visit term s with
    | error e => simp only [hb, reduceCtorEq] at h
    | ok p =>
      obtain ⟨v, s0⟩ := p
      obtain ⟨hv, hs0, flag, s2, param, hc, hg, hp⟩ := visitOr_body_spec E visit term s s0 v hb
      simp only [hb, hmc, Bool.not_true, Bool.and_false, Bool.false_eq_true, if_false] at h
      cases pre with
      | nil =>
        simp only [List.nil_append, List.cons.injEq] at hl
        obtain ⟨rfl, _⟩ := hl
        exact ⟨flag, s2, param, hc, hg, hp ▸ hv.symm⟩
      | cons t pre1 =>
        simp only [List.cons_append, List.cons.injEq] at hl
        obtain ⟨rfl, hrest⟩ := hl
        subst hs0
        exact ih _ _ _ _ h pre1 d post hrest

theorem visitOr_loop_short_values (E : Env C W) (visit : Term → State C W → Res C W)
    (hmc : E.MODEL_COUNTER_ENABLED = false) :
    ∀ (l : List Term) (s s1 : State C W) (b : Bool),
      visitOr_loop E visit l false s = .ok (b, s1) →
      ∀ pre d post, disjuncts_to_first_holding E visit l s = pre ++ d :: post →
        ∃ flag s0 param,
          check_and_visit E visit d
              { state_after_disjuncts E visit pre s with
                world := E.push_scope (state_after_disjuncts E visit pre s).world d.id } =
            .ok (flag, s0) ∧
          getTermValue E s0 d = some param ∧
          disjunct_holds E visit d (state_after_disjuncts E visit pre s) =
            E.isSatisfiable param := by
  intro l
  induction l with
  | nil => intro s s1 b _ pre d post hl; simp [disjuncts_to_first_holding] at hl
  | cons term rest ih =>
    intro s s1 b h pre d post hl
    rw [visitOr_loop_cons] at h
    cases hb : visitOr_body E visit term s with
    | error e => simp only [hb, reduceCtorEq] at h
    | ok p =>
      obtain ⟨v, s0⟩ := p
      obtain ⟨hv, hs0, flag, s2, param, hc, hg, hp⟩ := visitOr_body_spec E visit term s s0 v hb
      simp only [hb, hmc, Bool.not_false, Bool.and_true, Bool.false_or] at h
      have hfirst : ∃ flag s0 param,
          check_and_visit E visit term { s with world := E.push_scope s.world term.id } =
            .ok (flag, s0) ∧
          getTermValue E s0 term = some param ∧
          disjunct_holds E visit term s = E.isSatisfiable param :=
        ⟨flag, s2, param, hc, hg, by rw [← hp, ← hv]⟩
      subst hv hs0
      cases hd : disjunct_holds E visit term s with
      | true =>
        simp only [disjuncts_to_first_holding, hd, if_true] at hl
        cases pre with
        | nil =>
          simp only [List.nil_append, List.cons.injEq] at hl
          obtain ⟨rfl, _⟩ := hl
          exact hfirst
        | cons t pre1 =>
          simp only [List.cons_append, List.cons.injEq] at hl
          exact absurd hl.2 (by simp)
      | false =>
        simp only [hd, Bool.false_eq_true, if_false] at h
        simp only [disjuncts_to_first_holding, hd, Bool.false_eq_true, if_false] at hl
        cases pre with
        | nil =>
          simp only [List.nil_append, List.cons.injEq] at hl
          obtain ⟨rfl, _⟩ := hl
          exact hfirst
        | cons t pre1 =>
          simp only [List.cons_append, List.cons.injEq] at hl
          obtain ⟨rfl, hrest⟩ := hl
          exact ih _ _ _ h pre1 d post hrest

theorem disjuncts_to_first_holding_initial (E : Env C W) (visit : Term → State C W → Res C W) :
    ∀ (l : List Term) (s : State C W),
      ∃ post, l = disjuncts_to_first_holding E visit l s ++ post := by
  intro l
  induction l with
  | nil => intro s; exact ⟨[], rfl⟩
  | cons term rest ih =>
    intro s
    cases hd : disjunct_holds E visit term s with
    | true => exact ⟨rest, by simp only [disjuncts_to_first_holding, hd, if_true]; rfl⟩
    | false =>
      obtain ⟨post, hpost⟩ := ih (state_after_disjunct E visit term s)
      refine ⟨post, ?_⟩
      simp only [disjuncts_to_first_holding, hd, Bool.false_eq_true, if_false, List.cons_append]
      rw [← hpost]

theorem disjuncts_to_first_holding_last (E : Env C W) (visit : Term → State C W → Res C W) :
    ∀ (l : List Term) (s : State C W) (pre : List Term) (d : Term) (post : List Term),
      disjuncts_to_first_holding E visit l s = pre ++ d :: post → post ≠ [] →
      disjunct_holds E visit d (state_after_disjuncts E visit pre s) = false := by
  intro l
  induction l with
  | nil => intro s pre d post hl; simp [disjuncts_to_first_holding] at hl
  | cons term rest ih =>
    intro s pre d post hl hpost
    cases hd : disjunct_holds E visit term s with
    | true =>
      simp only [disjuncts_to_first_holding, hd, if_true] at hl
      cases pre with
      | nil =>
        simp only [List.nil_append, List.cons.injEq] at hl
        exact absurd hl.2.symm hpost
      | cons t pre1 =>
        simp only [List.cons_append, List.cons.injEq] at hl
        exact absurd hl.2 (by simp)
    | false =>
      simp only [disjuncts_to_first_holding, hd, Bool.false_eq_true, if_false] at hl
      cases pre with
      | nil =>
        simp only [List.nil_append, List.cons.injEq] at hl
        obtain ⟨rfl, _⟩ := hl
        exact hd
      | cons t pre1 =>
        simp only [List.cons_append, List.cons.injEq] at hl
        obtain ⟨rfl, hrest⟩ := hl
        exact ih _ pre1 d post hrest hpost

theorem visitOr_loop_short_rest (E : Env C W) (visit : Term → State C W → Res C W)
    (hmc : E.MODEL_COUNTER_ENABLED = false) :
    ∀ (l : List Term) (s s1 : State C W),
      visitOr_loop E visit l false s = .ok (true, s1) →
      ∀ rest, visitOr_loop E visit (disjuncts_to_first_holding E visit l s ++ rest) false s =
        .ok (true, s1) := by
  intro l
  induction l with
  | nil => intro s s1 h; simp [visitOr_loop] at h
  | cons term tail ih =>
    intro s s1 h rest
    rw [visitOr_loop_cons] at h
    cases hb : visitOr_body E visit term s with
    | error e => simp only [hb, reduceCtorEq] at h
    | ok p =>
      obtain ⟨v, s0⟩ := p
      obtain ⟨hv, hs0, _⟩ := visitOr_body_spec E visit term s s0 v hb
      simp only [hb, hmc, Bool.not_false, Bool.and_true, Bool.false_or] at h
      cases hd : disjunct_holds E visit term s with
      | true =>
        rw [hd] at hv
        subst hv
        simp only [if_true, Except.ok.injEq, Prod.mk.injEq, true_and] at h
        simp only [disjuncts_to_first_holding, hd, if_true, List.cons_append, List.nil_append]
        rw [visitOr_loop_cons]
        simp only [hb, hmc, Bool.not_false, Bool.and_true, Bool.false_or, if_true, h]
      | false =>
        rw [hd] at hv
        subst hv
        simp only [Bool.false_eq_true, if_false] at h
        simp only [disjuncts_to_first_holding, hd, Bool.false_eq_true, if_false, List.cons_append]
        rw [visitOr_loop_cons]
        simp only [hb, hmc, Bool.not_false, Bool.and_true, Bool.false_or, Bool.false_eq_true,
          if_false]
        subst hs0
        exact ih _ _ h rest

theorem Term.or_free_of_mem_list (u : Term) :
    ∀ l : List Term, u ∈ l → Term.or_free_list l = true → u.or_free = true := by
  intro l
  induction l with
  | nil => intro h; simp at h
  | cons t rest ih =>
    intro h hl
    simp only [Term.or_free_list, Bool.and_eq_true] at hl
    rcases List.mem_cons.1 h with h | h
    · subst h; exact hl.1
    · exact ih h hl.2

theorem Term.or_free_of_mem_bindings (u : Term) :
    ∀ bs : List (String × Term), u ∈ bs.map Prod.snd → Term.or_free_bindings bs = true →
      u.or_free = true := by
  intro bs
  induction bs with
  | nil => intro h; simp at h
  | cons b rest ih =>
    intro h hl
    obtain ⟨name, t⟩ := b
    simp only [Term.or_free_bindings, Bool.and_eq_true] at hl
    rw [List.map_cons] at h
    rcases List.mem_cons.1 h with h | h
    · subst h; exact hl.1
    · exact ih h hl.2

theorem Term.or_free_of_mem_visit_children (t u : Term) (h : u ∈ t.visit_children)
    (ht : t.or_free = true) : u.or_free = true := by
  cases t <;> simp only [Term.visit_children, List.not_mem_nil] at h
  case Or id l => simp only [Term.or_free, Bool.false_eq_true] at ht
  case Let id bs body =>
    simp only [Term.or_free, Bool.and_eq_true] at ht
    rcases List.mem_append.1 h with h | h
    · exact Term.or_free_of_mem_bindings u bs h ht.1
    · simp at h; subst h; exact ht.2
  case SubString id mode a b c =>
    simp only [Term.or_free, Bool.and_eq_true] at ht
    cases c with
    | none => simp at h; rcases h with h | h <;> subst h <;> simp only [ht]
    | some c =>
      simp at h
      simp only [Term.or_free_option] at ht
      rcases h with h | h | h <;> subst h <;> simp only [ht]
  case Replace id a b c =>
    simp only [Term.or_free, Bool.and_eq_true] at ht; simp at h
    rcases h with h | h | h <;> subst h <;> simp only [ht]
  all_goals
    first
      | exact Term.or_free_of_mem_list u _ h (by simpa only [Term.or_free] using ht)
      | (simp only [Term.or_free, Bool.and_eq_true] at ht
         simp only [List.mem_cons, List.mem_singleton, List.not_mem_nil, or_false] at h
         first
           | (subst h; exact ht)
           | (rcases h with h | h <;> subst h <;> simp only [ht]))

theorem visit_children_of_agree (visit1 visit2 : Term → State C W → Res C W)
    (hv : ∀ u : Term, u.or_free = true → ∀ s, visit1 u s = visit2 u s)
    (t : Term) (ht : t.or_free = true) (s : State C W) :
    visit_children_of visit1 t s = visit_children_of visit2 t s := by
  have h1 := visit_list_congr visit1 visit2 t.visit_children
    (fun u hu => hv u (Term.or_free_of_mem_visit_children t u hu ht))
  simp only [visit_children_of, h1]

theorem check_and_visit_agree (E : Env C W)
    (hfree : ∀ w t u, u ∈ E.arithmetic_getStringTermsIn w t → t.or_free = true →
      u.or_free = true)
    (visit1 visit2 : Term → State C W → Res C W)
    (hv : ∀ u : Term, u.or_free = true → ∀ s, visit1 u s = visit2 u s)
    (term : Term) (ht : term.or_free = true) (s : State C W) :
    check_and_visit E visit1 term s = check_and_visit E visit2 term s := by
  have h1 := hv term ht
  have h2 : ∀ s, process_mixed_integer_string_constraints_in E visit1 term s =
      process_mixed_integer_string_constraints_in E visit2 term s := fun s =>
    process_mixed_loop_congr E visit1 visit2 term _
      (fun u hu => hv u (hfree _ _ _ hu ht)) s
  simp only [check_and_visit, h1, h2]

theorem visitLet_bindings_agree (E : Env C W)
    (hfree : ∀ w t u, u ∈ E.arithmetic_getStringTermsIn w t → t.or_free = true →
      u.or_free = true)
    (visit1 visit2 : Term → State C W → Res C W)
    (hv : ∀ u : Term, u.or_free = true → ∀ s, visit1 u s = visit2 u s) (let_term : Term) :
    ∀ l : List (String × Term), (∀ u, u ∈ l.map Prod.snd → u.or_free = true) →
      ∀ s, visitLet_bindings E visit1 let_term l s =
        visitLet_bindings E visit2 let_term l s := by
  intro l
  induction l with
  | nil => intro _ s; rfl
  | cons var_binding rest ih =>
    intro hl s
    have h1 := check_and_visit_agree E hfree visit1 visit2 hv var_binding.2
      (hl _ (by simp))
    have h2 := ih (fun u hu => hl u (by simp only [List.map_cons]; exact List.mem_cons_of_mem _ hu))
    simp only [visitLet_bindings, h1, h2]

theorem visitLet_agree (E : Env C W)
    (hfree : ∀ w t u, u ∈ E.arithmetic_getStringTermsIn w t → t.or_free = true →
      u.or_free = true)
    (visit1 visit2 : Term → State C W → Res C W)
    (hv : ∀ u : Term, u.or_free = true → ∀ s, visit1 u s = visit2 u s)
    (id : Nat) (var_binding_list : List (String × Term)) (t : Term)
    (ht : (Term.Let id var_binding_list t).or_free = true) (s : State C W) :
    visitLet E visit1 id var_binding_list t s = visitLet E visit2 id var_binding_list t s := by
  have h1 := visitLet_bindings_agree E hfree visit1 visit2 hv (Term.Let id var_binding_list t)
    var_binding_list (fun u hu => Term.or_free_of_mem_bindings u _ hu (by
      simp only [Term.or_free, Bool.and_eq_true] at ht
      exact ht.1))
  have h2 := check_and_visit_agree E hfree visit1 visit2 hv t
    (by simp only [Term.or_free, Bool.and_eq_true] at ht; exact ht.2)
  simp only [visitLet, h1, h2]

theorem visitAnd_body_agree (E : Env C W)
    (hfree : ∀ w t u, u ∈ E.arithmetic_getStringTermsIn w t → t.or_free = true →
      u.or_free = true)
    (visit1 visit2 : Term → State C W → Res C W)
    (hv : ∀ u : Term, u.or_free = true → ∀ s, visit1 u s = visit2 u s)
    (term : Term) (ht : term.or_free = true) (is_satisfiable : Bool) (s : State C W) :
    visitAnd_body E visit1 term is_satisfiable s = visitAnd_body E visit2 term is_satisfiable s := by
  have h1 := check_and_visit_agree E hfree visit1 visit2 hv term ht
  simp only [visitAnd_body, h1]

theorem visitAnd_loop_agree (E : Env C W)
    (hfree : ∀ w t u, u ∈ E.arithmetic_getStringTermsIn w t → t.or_free = true →
      u.or_free = true)
    (visit1 visit2 : Term → State C W → Res C W)
    (hv : ∀ u : Term, u.or_free = true → ∀ s, visit1 u s = visit2 u s) :
    ∀ l : List Term, (∀ u, u ∈ l → u.or_free = true) →
      ∀ b s, visitAnd_loop E visit1 l b s = visitAnd_loop E visit2 l b s := by
  intro l
  induction l with
  | nil => intro _ b s; rfl
  | cons term rest ih =>
    intro hl b s
    have h1 := visitAnd_body_agree E hfree visit1 visit2 hv term
      (hl term (List.mem_cons_self _ _))
    have h2 := ih (fun u hu => hl u (List.mem_cons_of_mem _ hu))
    simp only [visitAnd_loop, h1, h2]

theorem visitAnd_agree (E : Env C W)
    (hfree : ∀ w t u, u ∈ E.arithmetic_getStringTermsIn w t → t.or_free = true →
      u.or_free = true)
    (visit1 visit2 : Term → State C W → Res C W)
    (hv : ∀ u : Term, u.or_free = true → ∀ s, visit1 u s = visit2 u s)
    (id : Nat) (term_list : List Term) (ht : (Term.And id term_list).or_free = true)
    (s : State C W) :
    visitAnd E visit1 id term_list s = visitAnd E visit2 id term_list s := by
  have h1 := visitAnd_loop_agree E hfree visit1 visit2 hv term_list (fun u hu =>
    Term.or_free_of_mem_list u _ hu (by simpa only [Term.or_free] using ht))
  simp only [visitAnd, h1]

theorem visitOr_body_agree (E : Env C W)
    (hfree : ∀ w t u, u ∈ E.arithmetic_getStringTermsIn w t → t.or_free = true →
      u.or_free = true)
    (visit1 visit2 : Term → State C W → Res C W)
    (hv : ∀ u : Term, u.or_free = true → ∀ s, visit1 u s = visit2 u s)
    (term : Term) (ht : term.or_free = true) (s : State C W) :
    visitOr_body E visit1 term s = visitOr_body E visit2 term s := by
  have h1 := check_and_visit_agree E hfree visit1 visit2 hv term ht
  simp only [visitOr_body, h1]

theorem visitOr_loop_agree (E : Env C W)
    (hfree : ∀ w t u, u ∈ E.arithmetic_getStringTermsIn w t → t.or_free = true →
      u.or_free = true)
    (visit1 visit2 : Term → State C W → Res C W)
    (hv : ∀ u : Term, u.or_free = true → ∀ s, visit1 u s = visit2 u s) :
    ∀ l : List Term, (∀ u, u ∈ l → u.or_free = true) →
      ∀ b s, visitOr_loop E visit1 l b s = visitOr_loop E visit2 l b s := by
  intro l
  induction l with
  | nil => intro _ b s; rfl
  | cons term rest ih =>
    intro hl b s
    have h1 := visitOr_body_agree E hfree visit1 visit2 hv term
      (hl term (List.mem_cons_self _ _))
    have h2 := ih (fun u hu => hl u (List.mem_cons_of_mem _ hu))
    simp only [visitOr_loop, h1, h2]

theorem visitOr_agree (E : Env C W)
    (hfree : ∀ w t u, u ∈ E.arithmetic_getStringTermsIn w t → t.or_free = true →
      u.or_free = true)
    (visit1 visit2 : Term → State C W → Res C W)
    (hv : ∀ u : Term, u.or_free = true → ∀ s, visit1 u s = visit2 u s)
    (id : Nat) (term_list : List Term) (ht : Term.or_free_list term_list = true)
    (s : State C W) :
    visitOr E visit1 id term_list s = visitOr E visit2 id term_list s := by
  have h1 := visitOr_loop_agree E hfree visit1 visit2 hv term_list (fun u hu =>
    Term.or_free_of_mem_list u _ hu (by simpa only [Term.or_free] using ht))
  simp only [visitOr, h1]

theorem visitPlus_agree (E : Env C W) (visit1 visit2 : Term → State C W → Res C W)
    (hv : ∀ u : Term, u.or_free = true → ∀ s, visit1 u s = visit2 u s)
    (id : Nat) (term_list : List Term) (ht : (Term.Plus id term_list).or_free = true)
    (s : State C W) :
    visitPlus E visit1 id term_list s = visitPlus E visit2 id term_list s := by
  have h1 := visitPlus_loop_congr E visit1 visit2 term_list (fun u hu =>
    hv u (Term.or_free_of_mem_list u _ hu (by simpa only [Term.or_free] using ht)))
  simp only [visitPlus, h1]

theorem visitTimes_agree (E : Env C W) (visit1 visit2 : Term → State C W → Res C W)
    (hv : ∀ u : Term, u.or_free = true → ∀ s, visit1 u s = visit2 u s)
    (id : Nat) (term_list : List Term) (ht : (Term.Times id term_list).or_free = true)
    (s : State C W) :
    visitTimes E visit1 id term_list s = visitTimes E visit2 id term_list s := by
  have h1 := visitTimes_loop_congr E visit1 visit2 term_list (fun u hu =>
    hv u (Term.or_free_of_mem_list u _ hu (by simpa only [Term.or_free] using ht)))
  simp only [visitTimes, h1]

theorem visitConcat_agree (E : Env C W) (visit1 visit2 : Term → State C W → Res C W)
    (hv : ∀ u : Term, u.or_free = true → ∀ s, visit1 u s = visit2 u s)
    (id : Nat) (term_list : List Term) (ht : (Term.Concat id term_list).or_free = true)
    (s : State C W) :
    visitConcat E visit1 id term_list s = visitConcat E visit2 id term_list s := by
  have h1 := visitConcat_loop_congr E visit1 visit2 term_list (fun u hu =>
    hv u (Term.or_free_of_mem_list u _ hu (by simpa only [Term.or_free] using ht)))
  simp only [visitConcat, h1]

theorem visitUnknownTerm_agree (E : Env C W) (visit1 visit2 : Term → State C W → Res C W)
    (hv : ∀ u : Term, u.or_free = true → ∀ s, visit1 u s = visit2 u s)
    (id : Nat) (term_list : List Term) (ht : (Term.Unknown id term_list).or_free = true)
    (s : State C W) :
    visitUnknownTerm E visit1 id term_list s = visitUnknownTerm E visit2 id term_list s := by
  have h1 := visit_list_congr visit1 visit2 term_list (fun u hu =>
    hv u (Term.or_free_of_mem_list u _ hu (by simpa only [Term.or_free] using ht)))
  simp only [visitUnknownTerm, h1]

theorem visitNot_agree (E : Env C W) (visit1 visit2 : Term → State C W → Res C W)
    (hv : ∀ u : Term, u.or_free = true → ∀ s, visit1 u s = visit2 u s)
    (id : Nat) (t : Term) (ht : (Term.Not id t).or_free = true) (s : State C W) :
    visitNot E visit1 id t s = visitNot E visit2 id t s := by
  have hc := visit_children_of_agree visit1 visit2 hv (Term.Not id t) ht
  simp only [visitNot, hc]

theorem visitUMinus_agree (E : Env C W) (visit1 visit2 : Term → State C W → Res C W)
    (hv : ∀ u : Term, u.or_free = true → ∀ s, visit1 u s = visit2 u s)
    (id : Nat) (t : Term) (ht : (Term.UMinus id t).or_free = true) (s : State C W) :
    visitUMinus E visit1 id t s = visitUMinus E visit2 id t s := by
  have hc := visit_children_of_agree visit1 visit2 hv (Term.UMinus id t) ht
  simp only [visitUMinus, hc]

theorem visitMinus_agree (E : Env C W) (visit1 visit2 : Term → State C W → Res C W)
    (hv : ∀ u : Term, u.or_free = true → ∀ s, visit1 u s = visit2 u s)
    (id : Nat) (l : Term) (r : Term) (ht : (Term.Minus id l r).or_free = true) (s : State C W) :
    visitMinus E visit1 id l r s = visitMinus E visit2 id l r s := by
  have hc := visit_children_of_agree visit1 visit2 hv (Term.Minus id l r) ht
  simp only [visitMinus, hc]

theorem visitEq_agree (E : Env C W) (visit1 visit2 : Term → State C W → Res C W)
    (hv : ∀ u : Term, u.or_free = true → ∀ s, visit1 u s = visit2 u s)
    (id : Nat) (l : Term) (r : Term) (ht : (Term.Eq id l r).or_free = true) (s : State C W) :
    visitEq E visit1 id l r s = visitEq E visit2 id l r s := by
  have hc := visit_children_of_agree visit1 visit2 hv (Term.Eq id l r) ht
  simp only [visitEq, hc]

theorem visitNotEq_default_agree (E : Env C W) (visit1 visit2 : Term → State C W → Res C W)
    (hv : ∀ u : Term, u.or_free = true → ∀ s, visit1 u s = visit2 u s)
    (id : Nat) (l : Term) (r : Term) (ht : (Term.NotEq id l r).or_free = true) (s : State C W) :
    visitNotEq_default E visit1 id l r s = visitNotEq_default E visit2 id l r s := by
  have hc := visit_children_of_agree visit1 visit2 hv (Term.NotEq id l r) ht
  simp only [visitNotEq_default, hc]

theorem visitNotEq_agree (E : Env C W) (visit1 visit2 : Term → State C W → Res C W)
    (hv : ∀ u : Term, u.or_free = true → ∀ s, visit1 u s = visit2 u s)
    (id : Nat) (l : Term) (r : Term) (ht : (Term.NotEq id l r).or_free = true) (s : State C W) :
    visitNotEq E visit1 id l r s = visitNotEq E visit2 id l r s := by
  have hc := visit_children_of_agree visit1 visit2 hv (Term.NotEq id l r) ht
  have hd := visitNotEq_default_agree E visit1 visit2 hv id l r ht
  simp only [visitNotEq, hc, hd]

theorem visitGt_agree (E : Env C W) (visit1 visit2 : Term → State C W → Res C W)
    (hv : ∀ u : Term, u.or_free = true → ∀ s, visit1 u s = visit2 u s)
    (id : Nat) (l : Term) (r : Term) (ht : (Term.Gt id l r).or_free = true) (s : State C W) :
    visitGt E visit1 id l r s = visitGt E visit2 id l r s := by
  have hc := visit_children_of_agree visit1 visit2 hv (Term.Gt id l r) ht
  simp only [visitGt, hc]

theorem visitGe_agree (E : Env C W) (visit1 visit2 : Term → State C W → Res C W)
    (hv : ∀ u : Term, u.or_free = true → ∀ s, visit1 u s = visit2 u s)
    (id : Nat) (l : Term) (r : Term) (ht : (Term.Ge id l r).or_free = true) (s : State C W) :
    visitGe E visit1 id l r s = visitGe E visit2 id l r s := by
  have hc := visit_children_of_agree visit1 visit2 hv (Term.Ge id l r) ht
  simp only [visitGe, hc]

theorem visitLt_agree (E : Env C W) (visit1 visit2 : Term → State C W → Res C W)
    (hv : ∀ u : Term, u.or_free = true → ∀ s, visit1 u s = visit2 u s)
    (id : Nat) (l : Term) (r : Term) (ht : (Term.Lt id l r).or_free = true) (s : State C W) :
    visitLt E visit1 id l r s = visitLt E visit2 id l r s := by
  have hc := visit_children_of_agree visit1 visit2 hv (Term.Lt id l r) ht
  simp only [visitLt, hc]

theorem visitLe_agree (E : Env C W) (visit1 visit2 : Term → State C W → Res C W)
    (hv : ∀ u : Term, u.or_free = true → ∀ s, visit1 u s = visit2 u s)
    (id : Nat) (l : Term) (r : Term) (ht : (Term.Le id l r).or_free = true) (s : State C W) :
    visitLe E visit1 id l r s = visitLe E visit2 id l r s := by
  have hc := visit_children_of_agree visit1 visit2 hv (Term.Le id l r) ht
  simp only [visitLe, hc]

theorem visitIn_default_agree (E : Env C W) (visit1 visit2 : Term → State C W → Res C W)
    (hv : ∀ u : Term, u.or_free = true → ∀ s, visit1 u s = visit2 u s)
    (id : Nat) (l : Term) (r : Term) (ht : (Term.In id l r).or_free = true) (s : State C W) :
    visitIn_default E visit1 id l r s = visitIn_default E visit2 id l r s := by
  have hc := visit_children_of_agree visit1 visit2 hv (Term.In id l r) ht
  simp only [visitIn_default, hc]

theorem visitIn_agree (E : Env C W) (visit1 visit2 : Term → State C W → Res C W)
    (hv : ∀ u : Term, u.or_free = true → ∀ s, visit1 u s = visit2 u s)
    (id : Nat) (l : Term) (r : Term) (ht : (Term.In id l r).or_free = true) (s : State C W) :
    visitIn E visit1 id l r s = visitIn E visit2 id l r s := by
  have hc := visit_children_of_agree visit1 visit2 hv (Term.In id l r) ht
  have hd := visitIn_default_agree E visit1 visit2 hv id l r ht
  simp only [visitIn, hc, hd]

theorem visitNotIn_agree (E : Env C W) (visit1 visit2 : Term → State C W → Res C W)
    (hv : ∀ u : Term, u.or_free = true → ∀ s, visit1 u s = visit2 u s)
    (id : Nat) (l : Term) (r : Term) (ht : (Term.NotIn id l r).or_free = true) (s : State C W) :
    visitNotIn E visit1 id l r s = visitNotIn E visit2 id l r s := by
  have hc := visit_children_of_agree visit1 visit2 hv (Term.NotIn id l r) ht
  simp only [visitNotIn, hc]

theorem visitLen_agree (E : Env C W) (visit1 visit2 : Term → State C W → Res C W)
    (hv : ∀ u : Term, u.or_free = true → ∀ s, visit1 u s = visit2 u s)
    (id : Nat) (t : Term) (ht : (Term.Len id t).or_free = true) (s : State C W) :
    visitLen E visit1 id t s = visitLen E visit2 id t s := by
  have hc := visit_children_of_agree visit1 visit2 hv (Term.Len id t) ht
  simp only [visitLen, hc]

theorem visitContains_agree (E : Env C W) (visit1 visit2 : Term → State C W → Res C W)
    (hv : ∀ u : Term, u.or_free = true → ∀ s, visit1 u s = visit2 u s)
    (id : Nat) (a : Term) (b : Term) (ht : (Term.Contains id a b).or_free = true) (s : State C W) :
    visitContains E visit1 id a b s = visitContains E visit2 id a b s := by
  have hc := visit_children_of_agree visit1 visit2 hv (Term.Contains id a b) ht
  simp only [visitContains, hc]

theorem visitNotContains_agree (E : Env C W) (visit1 visit2 : Term → State C W → Res C W)
    (hv : ∀ u : Term, u.or_free = true → ∀ s, visit1 u s = visit2 u s)
    (id : Nat) (a : Term) (b : Term) (ht : (Term.NotContains id a b).or_free = true) (s : State C W) :
    visitNotContains E visit1 id a b s = visitNotContains E visit2 id a b s := by
  have hc := visit_children_of_agree visit1 visit2 hv (Term.NotContains id a b) ht
  simp only [visitNotContains, hc]

theorem visitBegins_agree (E : Env C W) (visit1 visit2 : Term → State C W → Res C W)
    (hv : ∀ u : Term, u.or_free = true → ∀ s, visit1 u s = visit2 u s)
    (id : Nat) (a : Term) (b : Term) (ht : (Term.Begins id a b).or_free = true) (s : State C W) :
    visitBegins E visit1 id a b s = visitBegins E visit2 id a b s := by
  have hc := visit_children_of_agree visit1 visit2 hv (Term.Begins id a b) ht
  simp only [visitBegins, hc]

theorem visitNotBegins_agree (E : Env C W) (visit1 visit2 : Term → State C W → Res C W)
    (hv : ∀ u : Term, u.or_free = true → ∀ s, visit1 u s = visit2 u s)
    (id : Nat) (a : Term) (b : Term) (ht : (Term.NotBegins id a b).or_free = true) (s : State C W) :
    visitNotBegins E visit1 id a b s = visitNotBegins E visit2 id a b s := by
  have hc := visit_children_of_agree visit1 visit2 hv (Term.NotBegins id a b) ht
  simp only [visitNotBegins, hc]

theorem visitEnds_agree (E : Env C W) (visit1 visit2 : Term → State C W → Res C W)
    (hv : ∀ u : Term, u.or_free = true → ∀ s, visit1 u s = visit2 u s)
    (id : Nat) (a : Term) (b : Term) (ht : (Term.Ends id a b).or_free = true) (s : State C W) :
    visitEnds E visit1 id a b s = visitEnds E visit2 id a b s := by
  have hc := visit_children_of_agree visit1 visit2 hv (Term.Ends id a b) ht
  simp only [visitEnds, hc]

theorem visitNotEnds_agree (E : Env C W) (visit1 visit2 : Term → State C W → Res C W)
    (hv : ∀ u : Term, u.or_free = true → ∀ s, visit1 u s = visit2 u s)
    (id : Nat) (a : Term) (b : Term) (ht : (Term.NotEnds id a b).or_free = true) (s : State C W) :
    visitNotEnds E visit1 id a b s = visitNotEnds E visit2 id a b s := by
  have hc := visit_children_of_agree visit1 visit2 hv (Term.NotEnds id a b) ht
  simp only [visitNotEnds, hc]

theorem visitIndexOf_agree (E : Env C W) (visit1 visit2 : Term → State C W → Res C W)
    (hv : ∀ u : Term, u.or_free = true → ∀ s, visit1 u s = visit2 u s)
    (id : Nat) (a : Term) (b : Term) (ht : (Term.IndexOf id a b).or_free = true) (s : State C W) :
    visitIndexOf E visit1 id a b s = visitIndexOf E visit2 id a b s := by
  have hc := visit_children_of_agree visit1 visit2 hv (Term.IndexOf id a b) ht
  simp only [visitIndexOf, hc]

theorem visitLastIndexOf_agree (E : Env C W) (visit1 visit2 : Term → State C W → Res C W)
    (hv : ∀ u : Term, u.or_free = true → ∀ s, visit1 u s = visit2 u s)
    (id : Nat) (a : Term) (b : Term) (ht : (Term.LastIndexOf id a b).or_free = true) (s : State C W) :
    visitLastIndexOf E visit1 id a b s = visitLastIndexOf E visit2 id a b s := by
  have hc := visit_children_of_agree visit1 visit2 hv (Term.LastIndexOf id a b) ht
  simp only [visitLastIndexOf, hc]

theorem visitCharAt_agree (E : Env C W) (visit1 visit2 : Term → State C W → Res C W)
    (hv : ∀ u : Term, u.or_free = true → ∀ s, visit1 u s = visit2 u s)
    (id : Nat) (a : Term) (b : Term) (ht : (Term.CharAt id a b).or_free = true) (s : State C W) :
    visitCharAt E visit1 id a b s = visitCharAt E visit2 id a b s := by
  have hc := visit_children_of_agree visit1 visit2 hv (Term.CharAt id a b) ht
  simp only [visitCharAt, hc]

theorem visitSubString_agree (E : Env C W) (visit1 visit2 : Term → State C W → Res C W)
    (hv : ∀ u : Term, u.or_free = true → ∀ s, visit1 u s = visit2 u s)
    (id : Nat) (mode : SubStringMode) (a : Term) (b : Term) (c : Option Term)
    (ht : (Term.SubString id mode a b c).or_free = true) (s : State C W) :
    visitSubString E visit1 id mode a b c s = visitSubString E visit2 id mode a b c s := by
  have hc := visit_children_of_agree visit1 visit2 hv (Term.SubString id mode a b c) ht
  simp only [visitSubString, hc]

theorem visitToUpper_agree (E : Env C W) (visit1 visit2 : Term → State C W → Res C W)
    (hv : ∀ u : Term, u.or_free = true → ∀ s, visit1 u s = visit2 u s)
    (id : Nat) (t : Term) (ht : (Term.ToUpper id t).or_free = true) (s : State C W) :
    visitToUpper E visit1 id t s = visitToUpper E visit2 id t s := by
  have hc := visit_children_of_agree visit1 visit2 hv (Term.ToUpper id t) ht
  simp only [visitToUpper, hc]

theorem visitToLower_agree (E : Env C W) (visit1 visit2 : Term → State C W → Res C W)
    (hv : ∀ u : Term, u.or_free = true → ∀ s, visit1 u s = visit2 u s)
    (id : Nat) (t : Term) (ht : (Term.ToLower id t).or_free = true) (s : State C W) :
    visitToLower E visit1 id t s = visitToLower E visit2 id t s := by
  have hc := visit_children_of_agree visit1 visit2 hv (Term.ToLower id t) ht
  simp only [visitToLower, hc]

theorem visitTrim_agree (E : Env C W) (visit1 visit2 : Term → State C W → Res C W)
    (hv : ∀ u : Term, u.or_free = true → ∀ s, visit1 u s = visit2 u s)
    (id : Nat) (t : Term) (ht : (Term.Trim id t).or_free = true) (s : State C W) :
    visitTrim E visit1 id t s = visitTrim E visit2 id t s := by
  have hc := visit_children_of_agree visit1 visit2 hv (Term.Trim id t) ht
  simp only [visitTrim, hc]

theorem visitToString_agree (E : Env C W) (visit1 visit2 : Term → State C W → Res C W)
    (hv : ∀ u : Term, u.or_free = true → ∀ s, visit1 u s = visit2 u s)
    (id : Nat) (t : Term) (ht : (Term.ToString id t).or_free = true) (s : State C W) :
    visitToString E visit1 id t s = visitToString E visit2 id t s := by
  have hc := visit_children_of_agree visit1 visit2 hv (Term.ToString id t) ht
  simp only [visitToString, hc]

theorem visitToInt_agree (E : Env C W) (visit1 visit2 : Term → State C W → Res C W)
    (hv : ∀ u : Term, u.or_free = true → ∀ s, visit1 u s = visit2 u s)
    (id : Nat) (t : Term) (ht : (Term.ToInt id t).or_free = true) (s : State C W) :
    visitToInt E visit1 id t s = visitToInt E visit2 id t s := by
  have hc := visit_children_of_agree visit1 visit2 hv (Term.ToInt id t) ht
  simp only [visitToInt, hc]

theorem visitReplace_agree (E : Env C W) (visit1 visit2 : Term → State C W → Res C W)
    (hv : ∀ u : Term, u.or_free = true → ∀ s, visit1 u s = visit2 u s)
    (id : Nat) (a : Term) (b : Term) (c : Term)
    (ht : (Term.Replace id a b c).or_free = true) (s : State C W) :
    visitReplace E visit1 id a b c s = visitReplace E visit2 id a b c s := by
  have hc := visit_children_of_agree visit1 visit2 hv (Term.Replace id a b c) ht
  simp only [visitReplace, hc]

theorem visitCount_agree (visit1 visit2 : Term → State C W → Res C W)
    (hv : ∀ u : Term, u.or_free = true → ∀ s, visit1 u s = visit2 u s)
    (id : Nat) (children : List Term) (ht : (Term.Count id children).or_free = true) (s : State C W) :
    visitCount visit1 id children s = visitCount visit2 id children s := by
  have hc := visit_children_of_agree visit1 visit2 hv (Term.Count id children) ht
  simp only [visitCount, hc]

theorem visitPlus_loop_flag (E : Env C W) (visit : Term → State C W → Res C W) (flag : Bool) :
    ∀ (l : List Term) (acc : Option (Value C)) (s : State C W),
      visitPlus_loop (E.withCounting flag) visit l acc s = visitPlus_loop E visit l acc s := by
  intro l
  induction l with
  | nil => intro acc s; rfl
  | cons term_ptr rest ih =>
    intro acc s
    unfold visitPlus_loop
    simp only [ih]
    rfl

theorem visitTimes_loop_flag (E : Env C W) (visit : Term → State C W → Res C W) (flag : Bool) :
    ∀ (l : List Term) (acc : Option (Value C)) (s : State C W),
      visitTimes_loop (E.withCounting flag) visit l acc s = visitTimes_loop E visit l acc s := by
  intro l
  induction l with
  | nil => intro acc s; rfl
  | cons term_ptr rest ih =>
    intro acc s
    unfold visitTimes_loop
    simp only [ih]
    rfl

theorem visitConcat_loop_flag (E : Env C W) (visit : Term → State C W → Res C W) (flag : Bool) :
    ∀ (l : List Term) (acc : Option (Value C)) (s : State C W),
      visitConcat_loop (E.withCounting flag) visit l acc s = visitConcat_loop E visit l acc s := by
  intro l
  induction l with
  | nil => intro acc s; rfl
  | cons term_ptr rest ih =>
    intro acc s
    unfold visitConcat_loop
    simp only [ih]
    rfl

theorem visitAnd_body_flag (E : Env C W) (visit : Term → State C W → Res C W) (flag : Bool)
    (term : Term) (b : Bool) (s : State C W) :
    visitAnd_body (E.withCounting flag) visit term b s = visitAnd_body E visit term b s := by
  unfold visitAnd_body
  simp only [check_and_visit_flag]
  rfl

theorem visitAnd_loop_flag (E : Env C W) (visit : Term → State C W → Res C W) (flag : Bool) :
    ∀ (l : List Term) (b : Bool) (s : State C W),
      visitAnd_loop (E.withCounting flag) visit l b s = visitAnd_loop E visit l b s := by
  intro l
  induction l with
  | nil => intro b s; rfl
  | cons term rest ih =>
    intro b s
    unfold visitAnd_loop
    simp only [ih, visitAnd_body_flag]

theorem visitAnd_flag (E : Env C W) (visit : Term → State C W → Res C W) (flag : Bool)
    (id : Nat) (term_list : List Term) (s : State C W) :
    visitAnd (E.withCounting flag) visit id term_list s = visitAnd E visit id term_list s := by
  unfold visitAnd
  simp only [visitAnd_loop_flag]
  rfl

theorem visitLet_bindings_flag (E : Env C W) (visit : Term → State C W → Res C W) (flag : Bool)
    (let_term : Term) :
    ∀ (l : List (String × Term)) (s : State C W),
      visitLet_bindings (E.withCounting flag) visit let_term l s =
        visitLet_bindings E visit let_term l s := by
  intro l
  induction l with
  | nil => intro s; rfl
  | cons var_binding rest ih =>
    intro s
    unfold visitLet_bindings
    simp only [ih, check_and_visit_flag]
    rfl

theorem visitLet_flag (E : Env C W) (visit : Term → State C W → Res C W) (flag : Bool)
    (id : Nat) (var_binding_list : List (String × Term)) (t : Term) (s : State C W) :
    visitLet (E.withCounting flag) visit id var_binding_list t s =
      visitLet E visit id var_binding_list t s := by
  unfold visitLet
  simp only [visitLet_bindings_flag, check_and_visit_flag]
  rfl

theorem visitPlus_flag (E : Env C W) (visit : Term → State C W → Res C W) (flag : Bool)
    (id : Nat) (term_list : List Term) (s : State C W) :
    visitPlus (E.withCounting flag) visit id term_list s = visitPlus E visit id term_list s := by
  unfold visitPlus
  simp only [visitPlus_loop_flag]

theorem visitTimes_flag (E : Env C W) (visit : Term → State C W → Res C W) (flag : Bool)
    (id : Nat) (term_list : List Term) (s : State C W) :
    visitTimes (E.withCounting flag) visit id term_list s = visitTimes E visit id term_list s := by
  unfold visitTimes
  simp only [visitTimes_loop_flag]

theorem visitConcat_flag (E : Env C W) (visit : Term → State C W → Res C W) (flag : Bool)
    (id : Nat) (term_list : List Term) (s : State C W) :
    visitConcat (E.withCounting flag) visit id term_list s =
      visitConcat E visit id term_list s := by
  unfold visitConcat
  simp only [visitConcat_loop_flag]

theorem visit_or_free (E : Env C W)
    (hfree : ∀ w t u, u ∈ E.arithmetic_getStringTermsIn w t → t.or_free = true →
      u.or_free = true)
    (flag : Bool) :
    ∀ (fuel : Nat) (t : Term), t.or_free = true →
      ∀ s, visit (E.withCounting flag) fuel t s = visit E fuel t s := by
  intro fuel
  induction fuel with
  | zero => intro t _ s; rfl
  | succ n ih =>
    intro t ht s
    cases t with
    | Exclamation id => rfl
    | Exists id => rfl
    | ForAll id => rfl
    | Let id var_binding_list t =>
      exact (visitLet_flag E (visit (E.withCounting flag) n) flag id var_binding_list t s).trans
        (visitLet_agree E hfree (visit (E.withCounting flag) n) (visit E n) ih id var_binding_list t ht s)
    | And id term_list =>
      exact (visitAnd_flag E (visit (E.withCounting flag) n) flag id term_list s).trans
        (visitAnd_agree E hfree (visit (E.withCounting flag) n) (visit E n) ih id term_list ht s)
    | Or id term_list => simp only [Term.or_free, Bool.false_eq_true] at ht
    | Not id t =>
      exact visitNot_agree E (visit (E.withCounting flag) n) (visit E n) ih id t ht s
    | UMinus id t =>
      exact visitUMinus_agree E (visit (E.withCounting flag) n) (visit E n) ih id t ht s
    | Minus id l r =>
      exact visitMinus_agree E (visit (E.withCounting flag) n) (visit E n) ih id l r ht s
    | Plus id term_list =>
      exact (visitPlus_flag E (visit (E.withCounting flag) n) flag id term_list s).trans
        (visitPlus_agree E (visit (E.withCounting flag) n) (visit E n) ih id term_list ht s)
    | Times id term_list =>
      exact (visitTimes_flag E (visit (E.withCounting flag) n) flag id term_list s).trans
        (visitTimes_agree E (visit (E.withCounting flag) n) (visit E n) ih id term_list ht s)
    | Eq id l r =>
      exact visitEq_agree E (visit (E.withCounting flag) n) (visit E n) ih id l r ht s
    | NotEq id l r =>
      exact visitNotEq_agree E (visit (E.withCounting flag) n) (visit E n) ih id l r ht s
    | Gt id l r =>
      exact visitGt_agree E (visit (E.withCounting flag) n) (visit E n) ih id l r ht s
    | Ge id l r =>
      exact visitGe_agree E (visit (E.withCounting flag) n) (visit E n) ih id l r ht s
    | Lt id l r =>
      exact visitLt_agree E (visit (E.withCounting flag) n) (visit E n) ih id l r ht s
    | Le id l r =>
      exact visitLe_agree E (visit (E.withCounting flag) n) (visit E n) ih id l r ht s
    | Concat id term_list =>
      exact (visitConcat_flag E (visit (E.withCounting flag) n) flag id term_list s).trans
        (visitConcat_agree E (visit (E.withCounting flag) n) (visit E n) ih id term_list ht s)
    | In id l r =>
      exact visitIn_agree E (visit (E.withCounting flag) n) (visit E n) ih id l r ht s
    | NotIn id l r =>
      exact visitNotIn_agree E (visit (E.withCounting flag) n) (visit E n) ih id l r ht s
    | Len id t =>
      exact visitLen_agree E (visit (E.withCounting flag) n) (visit E n) ih id t ht s
    | Contains id a b =>
      exact visitContains_agree E (visit (E.withCounting flag) n) (visit E n) ih id a b ht s
    | NotContains id a b =>
      exact visitNotContains_agree E (visit (E.withCounting flag) n) (visit E n) ih id a b ht s
    | Begins id a b =>
      exact visitBegins_agree E (visit (E.withCounting flag) n) (visit E n) ih id a b ht s
    | NotBegins id a b =>
      exact visitNotBegins_agree E (visit (E.withCounting flag) n) (visit E n) ih id a b ht s
    | Ends id a b =>
      exact visitEnds_agree E (visit (E.withCounting flag) n) (visit E n) ih id a b ht s
    | NotEnds id a b =>
      exact visitNotEnds_agree E (visit (E.withCounting flag) n) (visit E n) ih id a b ht s
    | IndexOf id a b =>
      exact visitIndexOf_agree E (visit (E.withCounting flag) n) (visit E n) ih id a b ht s
    | LastIndexOf id a b =>
      exact visitLastIndexOf_agree E (visit (E.withCounting flag) n) (visit E n) ih id a b ht s
    | CharAt id a b =>
      exact visitCharAt_agree E (visit (E.withCounting flag) n) (visit E n) ih id a b ht s
    | SubString id mode a b c =>
      exact visitSubString_agree E (visit (E.withCounting flag) n) (visit E n) ih id mode a b c ht s
    | ToUpper id t =>
      exact visitToUpper_agree E (visit (E.withCounting flag) n) (visit E n) ih id t ht s
    | ToLower id t =>
      exact visitToLower_agree E (visit (E.withCounting flag) n) (visit E n) ih id t ht s
    | Trim id t =>
      exact visitTrim_agree E (visit (E.withCounting flag) n) (visit E n) ih id t ht s
    | ToString id t =>
      exact visitToString_agree E (visit (E.withCounting flag) n) (visit E n) ih id t ht s
    | ToInt id t =>
      exact visitToInt_agree E (visit (E.withCounting flag) n) (visit E n) ih id t ht s
    | Replace id a b c =>
      exact visitReplace_agree E (visit (E.withCounting flag) n) (visit E n) ih id a b c ht s
    | Count id children =>
      exact visitCount_agree (visit (E.withCounting flag) n) (visit E n) ih id children ht s
    | Ite id => rfl
    | ReConcat id => rfl
    | ToRegex id => rfl
    | ReUnion id => rfl
    | ReInter id => rfl
    | ReStar id => rfl
    | RePlus id => rfl
    | ReOpt id => rfl
    | Unknown id term_list =>
      exact visitUnknownTerm_agree E (visit (E.withCounting flag) n) (visit E n) ih id term_list ht s
    | AsQualIdentifier id => rfl
    | QualIdentifier id var_name => rfl
    | TermConstant id value_type value => rfl

theorem visitOr_same_visit_agrees (E : Env C W) (visit : Term → State C W → Res C W) (id : Nat)
    (term_list : List Term) (s s_on s_off : State C W)
    (h_on : visitOr (E.withCounting true) visit id term_list s = .ok s_on)
    (h_off : visitOr (E.withCounting false) visit id term_list s = .ok s_off) :
    ∃ b, s_on.term_values_.lookup id = some (some (.BOOl_CONSTANT b)) ∧
      s_off.term_values_.lookup id = some (some (.BOOl_CONSTANT b)) := by
  unfold visitOr at h_on h_off
  cases hl_on : visitOr_loop (E.withCounting true) visit term_list false s with
  | error e => simp [hl_on] at h_on
  | ok p =>
    obtain ⟨b, s1⟩ := p
    obtain ⟨s2, hl_off⟩ := visitOr_loop_counting E visit term_list false s s1 b hl_on
    simp only [hl_on] at h_on
    simp only [hl_off] at h_off
    obtain ⟨_, e1⟩ := storeTermValue_eq_ok _ _ _ _ h_on
    obtain ⟨_, e2⟩ := storeTermValue_eq_ok _ _ _ _ h_off
    refine ⟨b, ?_, ?_⟩
    · rw [e1]; exact lookup_cons_self id _ _
    · rw [e2]; exact lookup_cons_self id _ _

theorem getTermValue_or (E : Env C W) (s : State C W) (id : Nat) (term_list : List Term)
    (v : Value C) (h : s.term_values_.lookup id = some (some v)) :
    getTermValue E s (.Or id term_list) = some v := by
  simp only [getTermValue, Term.id, h]

end Lemmas

section Claims

variable {C : Carrier} {W : Type}

/-- C8: `setTermValue(t, v)` on a term-value map with no entry for `t` adds the
entry `t -> v`, keeps every other entry (and the rest of the state) unchanged
and returns true; on a map that already has an entry for `t` it ends in the
fatal error, and the insertion has left the existing entry in place. -/
theorem setTermValue_inserts_once (s : State C W) (t : Term) (v : Option (Value C)) :
    (s.term_values_.lookup t.id = none →
      ∃ s', setTermValue s t v = .ok (true, s') ∧
        s'.term_values_.lookup t.id = some v ∧
        (∀ k, k ≠ t.id → s'.term_values_.lookup k = s.term_values_.lookup k) ∧
        s' = { s with term_values_ := s'.term_values_ }) ∧
    (∀ old, s.term_values_.lookup t.id = some old →
      setTermValue s t v = .error (.fatal "value is already computed for term") ∧
      (TermValueMap.insert s.term_values_ t.id v).1 = s.term_values_ ∧
      (TermValueMap.insert s.term_values_ t.id v).1.lookup t.id = some old) := by
  constructor
  · intro h
    refine ⟨{ s with term_values_ := (t.id, v) :: s.term_values_ }, ?_, ?_, ?_, rfl⟩
    · simp [setTermValue, TermValueMap.insert, h]
    · exact lookup_cons_self t.id v s.term_values_
    · intro k hk
      exact lookup_cons_ne t.id k v s.term_values_ hk
  · intro old h
    refine ⟨?_, ?_, ?_⟩
    · simp [setTermValue, TermValueMap.insert, h]
    · simp [TermValueMap.insert, h]
    · simp [TermValueMap.insert, h]

/-- Witness for C8: a fresh map accepts the entry of node 3, and a second
insertion for node 3 is fatal and keeps the first entry. -/
theorem setTermValue_inserts_once_witness :
    (∃ s', setTermValue (refState []) (Term.Ite 3) (some (.BOOl_CONSTANT true)) = .ok (true, s') ∧
        s'.term_values_.lookup 3 = some (some (.BOOl_CONSTANT true))) ∧
    (setTermValue { refState [] with term_values_ := [(3, some (.BOOl_CONSTANT true))] }
        (Term.Ite 3) (some (.BOOl_CONSTANT false))
        = (.error (.fatal "value is already computed for term") :
            Except Err (Bool × State refCarrier RefWorld))) := by
  constructor
  · obtain ⟨s', h1, h2, _⟩ :=
      (setTermValue_inserts_once (refState []) (Term.Ite 3) (some (.BOOl_CONSTANT true))).1 rfl
    exact ⟨s', h1, h2⟩
  · exact ((setTermValue_inserts_once
      { refState [] with term_values_ := [(3, some (.BOOl_CONSTANT true))] }
      (Term.Ite 3) (some (.BOOl_CONSTANT false))).2 (some (.BOOl_CONSTANT true)) rfl).1

/-- C9: after `clearTermValuesAndLocalLetVars` the term-value map is empty,
whatever it held before; hence the map is empty after every `visitAssert` that
returns normally. -/
theorem clearTermValues_leaves_empty_map (E : Env C W) (visit : Term → State C W → Res C W)
    (term : Term) (s s' : State C W) (h : visitAssert E visit term s = .ok s') :
    (∀ s0 : State C W, (clearTermValuesAndLocalLetVars E s0).term_values_ = []) ∧
      s'.term_values_ = [] := by
  refine ⟨fun _ => rfl, ?_⟩
  unfold visitAssert at h
  split at h
  · exact absurd h (by simp)
  · split at h
    · exact absurd h (by simp)
    · have := Except.ok.inj h
      rw [← this]
      rfl

/-- Witness for C9: an assertion evaluated on the reference collaborators
returns with an empty map. -/
theorem clearTermValues_leaves_empty_map_witness :
    ∃ s', visitAssert refEnv (visit refEnv 2)
        (.Eq 1 (.QualIdentifier 2 "x") (.TermConstant 3 .STRING "a"))
        (refState [("x", some (.STRING_AUTOMATON Lang.any))]) = .ok s' ∧
      s'.term_values_ = [] :=
  ⟨_, rfl, (clearTermValues_leaves_empty_map refEnv (visit refEnv 2)
    (.Eq 1 (.QualIdentifier 2 "x") (.TermConstant 3 .STRING "a"))
    (refState [("x", some (.STRING_AUTOMATON Lang.any))]) _ rfl).2⟩

/-- C3: the Value `visitAnd` stores for an `And` node is the Bool constant that
is true if and only if every conjunct, evaluated left to right, has a
satisfiable Value and leaves the still-satisfiable flag true after the
refinement pass that follows it (`all_conjuncts_hold`, taken from the state in
which the loop starts); for an empty conjunct list it is Bool true. -/
theorem visitAnd_value (E : Env C W) (visit : Term → State C W → Res C W) (id : Nat)
    (term_list : List Term) (s s' : State C W)
    (h : visitAnd E visit id term_list s = .ok s') :
    s'.term_values_.lookup id = some (some (.BOOl_CONSTANT
      (all_conjuncts_hold E visit term_list (visitAnd_engines E (Term.And id term_list) s)))) ∧
    (term_list = [] → s'.term_values_.lookup id = some (some (.BOOl_CONSTANT true))) := by
  have main : s'.term_values_.lookup id = some (some (.BOOl_CONSTANT
      (all_conjuncts_hold E visit term_list (visitAnd_engines E (Term.And id term_list) s)))) := by
    unfold visitAnd at h
    cases hloop : visitAnd_loop E visit term_list true
        (visitAnd_engines E (Term.And id term_list) s) with
    | error e => simp [hloop] at h
    | ok p =>
      obtain ⟨b, s1⟩ := p
      simp only [hloop] at h
      cases hst : storeTermValue s1 (Term.And id term_list) (some (.BOOl_CONSTANT b)) with
      | error e => simp [hst] at h
      | ok s2 =>
        simp only [hst] at h
        obtain ⟨_, hs2⟩ := storeTermValue_eq_ok s1 s2 _ _ hst
        rw [visitAnd_string_result_map E _ _ s' h, visitAnd_arithmetic_result_map, hs2,
          ← visitAnd_loop_spec E visit term_list _ s1 b hloop]
        exact lookup_cons_self id _ _
  refine ⟨main, ?_⟩
  intro hnil
  subst hnil
  rw [main]
  rfl

/-- Witness for C3: on the reference collaborators the conjunction
`(and (= x "a") (= x "b"))` stores Bool false, the second conjunct being
evaluated after `x` was refined by the first. -/
theorem visitAnd_value_witness :
    ∃ s', visitAnd refEnv (visit refEnv 2) 0
        [.Eq 1 (.QualIdentifier 2 "x") (.TermConstant 3 .STRING "a"),
         .Eq 4 (.QualIdentifier 5 "x") (.TermConstant 6 .STRING "b")]
        (refState [("x", some (.STRING_AUTOMATON Lang.any))]) = .ok s' ∧
      s'.term_values_.lookup 0 = some (some (.BOOl_CONSTANT false)) :=
  ⟨_, rfl, (visitAnd_value refEnv (visit refEnv 2) 0
    [.Eq 1 (.QualIdentifier 2 "x") (.TermConstant 3 .STRING "a"),
     .Eq 4 (.QualIdentifier 5 "x") (.TermConstant 6 .STRING "b")]
    (refState [("x", some (.STRING_AUTOMATON Lang.any))]) _ rfl).1⟩

/-- C2: let `k` be the first conjunct of an `And` node that fails, that is, all
conjuncts before it leave the flag true and `k` itself has an unsatisfiable
Value or the still-satisfiable flag is false after its refinement pass.  Then
the loop ends at `k` with the flag false and the same state whatever the
conjuncts after `k` are (none of them is evaluated), the map is empty at that
point, and `visitAnd` stores Bool false for the node: if it returns, the map
holds exactly that entry. -/
theorem visitAnd_short_circuit (E : Env C W) (visit : Term → State C W → Res C W) (id : Nat)
    (pre : List Term) (k : Term) (rest : List Term) (s s1 s1' : State C W) (flag : Bool)
    (param : Value C)
    (hpre : visitAnd_loop E visit pre true
      (visitAnd_engines E (Term.And id (pre ++ k :: rest)) s) = .ok (true, s1))
    (hk : check_and_visit E visit k s1 = .ok (flag, s1'))
    (hval : getTermValue E s1' k = some param)
    (hfail : E.isSatisfiable param = false ∨
      (update_variables E { s1' with still_sat_ := true }).still_sat_ = false) :
    ∃ s2 : State C W,
      (∀ rest', visitAnd_loop E visit (pre ++ k :: rest') true
        (visitAnd_engines E (Term.And id (pre ++ k :: rest)) s) = .ok (false, s2)) ∧
      s2.term_values_ = [] ∧
      visitAnd E visit id (pre ++ k :: rest) s =
        visitAnd_string_result E (Term.And id (pre ++ k :: rest))
          (visitAnd_arithmetic_result E (Term.And id (pre ++ k :: rest))
            { s2 with term_values_ := [(id, some (.BOOl_CONSTANT false))] }) ∧
      (∀ s', visitAnd E visit id (pre ++ k :: rest) s = .ok s' →
        s'.term_values_ = [(id, some (.BOOl_CONSTANT false))]) := by
  have hbody := visitAnd_body_fails E visit k s1 s1' flag param hk hval hfail
  have hloop : ∀ rest', visitAnd_loop E visit (pre ++ k :: rest') true
      (visitAnd_engines E (Term.And id (pre ++ k :: rest)) s) =
      .ok (false, clearTermValuesAndLocalLetVars E
        (if E.isSatisfiable param then update_variables E { s1' with still_sat_ := true }
         else s1')) := by
    intro rest'
    rw [visitAnd_loop_append E visit pre (k :: rest') _ s1 hpre]
    simp [visitAnd_loop, hbody]
  have hvisit : visitAnd E visit id (pre ++ k :: rest) s =
      visitAnd_string_result E (Term.And id (pre ++ k :: rest))
        (visitAnd_arithmetic_result E (Term.And id (pre ++ k :: rest))
          { clearTermValuesAndLocalLetVars E
              (if E.isSatisfiable param then update_variables E { s1' with still_sat_ := true }
               else s1') with term_values_ := [(id, some (.BOOl_CONSTANT false))] }) := by
    unfold visitAnd
    simp only [hloop rest]
    rw [storeTermValue_of_lookup_none _ _ _ (by simp [clearTermValuesAndLocalLetVars])]
    rfl
  refine ⟨_, hloop, rfl, hvisit, ?_⟩
  intro s' h
  rw [hvisit] at h
  rw [visitAnd_string_result_map E _ _ s' h, visitAnd_arithmetic_result_map]

/-- Witness for C2: in `(and (= x "a") (= x "b") (count x))` on the reference
collaborators the second conjunct fails; Bool false is stored and the third
conjunct, whose evaluation would be fatal, is not evaluated. -/
theorem visitAnd_short_circuit_witness :
    ∃ s', visitAnd refEnv (visit refEnv 2) 0
        ([.Eq 1 (.QualIdentifier 2 "x") (.TermConstant 3 .STRING "a")] ++
          .Eq 4 (.QualIdentifier 5 "x") (.TermConstant 6 .STRING "b") ::
          [.Count 7 [.QualIdentifier 8 "x"]])
        (refState [("x", some (.STRING_AUTOMATON Lang.any))]) = .ok s' ∧
      s'.term_values_ = [(0, some (.BOOl_CONSTANT false))] := by
  obtain ⟨s2, _, _, _, h4⟩ := visitAnd_short_circuit refEnv (visit refEnv 2) 0
    [.Eq 1 (.QualIdentifier 2 "x") (.TermConstant 3 .STRING "a")]
    (.Eq 4 (.QualIdentifier 5 "x") (.TermConstant 6 .STRING "b"))
    [.Count 7 [.QualIdentifier 8 "x"]]
    (refState [("x", some (.STRING_AUTOMATON Lang.any))]) _ _ true
    (.STRING_AUTOMATON Lang.phi) rfl rfl rfl (Or.inl rfl)
  exact ⟨_, rfl, h4 _ rfl⟩

/-- C1, as stated, fails: the formula `(and (= x "a") (not (= x "a")))` has no
satisfying assignment, yet with `x` initially the set of all strings the
evaluator stores Bool true for the `And` node, a satisfiable Value, and the
assertion with this body reports the verdict sat to the symbol table. -/
theorem and_eq_not_eq_recorded_satisfiable :
    (∀ x : String, ¬ (x = "a" ∧ ¬ x = "a")) ∧
    (∃ s', visit refEnv 4 and_eq_not_eq state_x_any = .ok s' ∧
      getTermValue refEnv s' and_eq_not_eq = some (.BOOl_CONSTANT true)) ∧
    refEnv.isSatisfiable (.BOOl_CONSTANT true) = true ∧
    (∃ s', visitAssert refEnv (visit refEnv 4) and_eq_not_eq state_x_any = .ok s' ∧
      s'.world.global_assertion_result = true) :=
  ⟨fun _ h => h.2 h.1, ⟨_, rfl, rfl⟩, rfl, ⟨_, rfl, rfl⟩⟩

/-- C1 (amended): for the body `(and (= x "a") (not (= x "a")))` with `x` a free
string variable whose initial value is the set of all strings, the Value
stored for the `And` node is Bool true, whatever the recursion budget beyond
the depth of the term: the first conjunct refines `x` to the one word `a`, the
equality under the negation is then that singleton, `visitNot` complements it,
and the complement is a satisfiable Value. -/
theorem and_eq_not_eq_value (fuel : Nat) :
    ∃ s', visit refEnv (fuel + 4) and_eq_not_eq state_x_any = .ok s' ∧
      s'.term_values_ = [(0, some (.BOOl_CONSTANT true))] ∧
      refEnv.isSatisfiable (.BOOl_CONSTANT true) = true :=
  ⟨_, rfl, rfl, rfl⟩

/-- C5: when `visitOr` returns, the state it returns is the state after the
evaluation, in source order, of exactly the disjuncts `evaluated_disjuncts`
(all of them with `MODEL_COUNTER_ENABLED` on, those up to the first that holds
with it off), with one new entry for the `Or` node: the Bool constant that says
whether one of these disjuncts holds, where a disjunct holds when the Value it
has after `check_and_visit` in its own scope is satisfiable (Bool false for an
empty list).  Each of these disjuncts has been evaluated to a Value.  With the
option off the evaluated disjuncts are an initial part of the list in which
only the last can hold, and when it holds the handler returns the same state
whatever disjuncts follow it. -/
theorem visitOr_value (E : Env C W) (visit : Term → State C W → Res C W) (id : Nat)
    (term_list : List Term) (s s' : State C W)
    (h : visitOr E visit id term_list s = .ok s') :
    s' = recorded (state_after_disjuncts E visit (evaluated_disjuncts E visit term_list s) s)
      (Term.Or id term_list)
      (.BOOl_CONSTANT
        (some_disjunct_holds E visit (evaluated_disjuncts E visit term_list s) s)) ∧
    s'.term_values_.lookup id = some (some (.BOOl_CONSTANT
      (some_disjunct_holds E visit (evaluated_disjuncts E visit term_list s) s))) ∧
    (term_list = [] → s'.term_values_.lookup id = some (some (.BOOl_CONSTANT false))) ∧
    (∀ pre d post, evaluated_disjuncts E visit term_list s = pre ++ d :: post →
      ∃ flag s0 param,
        check_and_visit E visit d
            { state_after_disjuncts E visit pre s with
              world := E.push_scope (state_after_disjuncts E visit pre s).world d.id } =
          .ok (flag, s0) ∧
        getTermValue E s0 d = some param ∧
        disjunct_holds E visit d (state_after_disjuncts E visit pre s) =
          E.isSatisfiable param) ∧
    (E.MODEL_COUNTER_ENABLED = true → evaluated_disjuncts E visit term_list s = term_list) ∧
    (E.MODEL_COUNTER_ENABLED = false →
      (∃ post, term_list = evaluated_disjuncts E visit term_list s ++ post) ∧
      (∀ pre d post, evaluated_disjuncts E visit term_list s = pre ++ d :: post → post ≠ [] →
        disjunct_holds E visit d (state_after_disjuncts E visit pre s) = false) ∧
      (some_disjunct_holds E visit (evaluated_disjuncts E visit term_list s) s = true →
        ∀ rest, visitOr E visit id (evaluated_disjuncts E visit term_list s ++ rest) s =
          .ok s')) := by
  unfold visitOr at h
  cases hloop : visitOr_loop E visit term_list false s with
  | error e => simp only [hloop, reduceCtorEq] at h
  | ok p =>
    obtain ⟨b, s1⟩ := p
    simp only [hloop] at h
    obtain ⟨hfresh, hs'⟩ := storeTermValue_eq_ok s1 s' _ _ h
    obtain ⟨hb, hs1⟩ := visitOr_loop_evaluated E visit term_list s s1 b hloop
    have hmain : s' = recorded
        (state_after_disjuncts E visit (evaluated_disjuncts E visit term_list s) s)
        (Term.Or id term_list)
        (.BOOl_CONSTANT
          (some_disjunct_holds E visit (evaluated_disjuncts E visit term_list s) s)) := by
      rw [hs', ← hb, ← hs1]
      rfl
    have hlook : s'.term_values_.lookup id = some (some (.BOOl_CONSTANT
        (some_disjunct_holds E visit (evaluated_disjuncts E visit term_list s) s))) := by
      rw [hmain]
      exact lookup_recorded _ (Term.Or id term_list) _
    refine ⟨hmain, hlook, ?_, ?_, ?_, ?_⟩
    · intro hnil
      subst hnil
      rw [hlook]
      cases hmc : E.MODEL_COUNTER_ENABLED <;>
        simp only [evaluated_disjuncts, hmc, Bool.false_eq_true, if_false, if_true,
          disjuncts_to_first_holding, some_disjunct_holds]
    · intro pre d post hev
      cases hmc : E.MODEL_COUNTER_ENABLED with
      | true =>
        simp only [evaluated_disjuncts, hmc, if_true] at hev
        exact visitOr_loop_counting_values E visit hmc term_list false s s1 b hloop pre d post hev
      | false =>
        simp only [evaluated_disjuncts, hmc, Bool.false_eq_true, if_false] at hev
        exact visitOr_loop_short_values E visit hmc term_list s s1 b hloop pre d post hev
    · intro hmc
      simp only [evaluated_disjuncts, hmc, if_true]
    · intro hmc
      have hev : evaluated_disjuncts E visit term_list s =
          disjuncts_to_first_holding E visit term_list s := by
        simp only [evaluated_disjuncts, hmc, Bool.false_eq_true, if_false]
      rw [hev]
      refine ⟨disjuncts_to_first_holding_initial E visit term_list s,
        disjuncts_to_first_holding_last E visit term_list s, ?_⟩
      intro hsome rest
      rw [hev] at hb
      rw [hsome] at hb
      subst hb
      have hrest := visitOr_loop_short_rest E visit hmc term_list s s1 hloop rest
      unfold visitOr
      simp only [hrest]
      rw [hs']
      exact storeTermValue_of_lookup_none s1 (Term.Or id _) _ hfresh

/-- Witness for C5: `(or (= "a" "b") (= x "a") (> (count x "b") 0))` on the
reference collaborators (model counting off) stores Bool true; the first two
disjuncts are evaluated, the first does not hold and the second does, and the
third, whose evaluation would be fatal, is not evaluated: the handler returns
the same state when it is left out. -/
theorem visitOr_value_witness :
    ∃ s', visitOr refEnv (visit refEnv 3) 0 or_three state_x_any = .ok s' ∧
      s'.term_values_.lookup 0 = some (some (.BOOl_CONSTANT true)) ∧
      evaluated_disjuncts refEnv (visit refEnv 3) or_three state_x_any = or_three.take 2 ∧
      disjunct_holds refEnv (visit refEnv 3)
        (.Eq 1 (.TermConstant 2 .STRING "a") (.TermConstant 3 .STRING "b")) state_x_any = false ∧
      visitOr refEnv (visit refEnv 3) 0 (or_three.take 2) state_x_any = .ok s' :=
  ⟨_, rfl,
    (visitOr_value refEnv (visit refEnv 3) 0 or_three state_x_any _ rfl).2.1,
    rfl,
    (visitOr_value refEnv (visit refEnv 3) 0 or_three state_x_any _ rfl).2.2.2.2.2 rfl
      |>.2.1 [] (.Eq 1 (.TermConstant 2 .STRING "a") (.TermConstant 3 .STRING "b"))
        [.Eq 4 (.QualIdentifier 5 "x") (.TermConstant 6 .STRING "a")] rfl
        (List.cons_ne_nil _ _),
    ((visitOr_value refEnv (visit refEnv 3) 0 or_three state_x_any _ rfl).2.2.2.2.2
      rfl).2.2 rfl []⟩

/-- C4, counterexample: the two runs differ in two ways.  On
`(or (= x "a") (> (count x "b") 0))` the run with `MODEL_COUNTER_ENABLED` off
stops after the first disjunct and stores Bool true, while the run with it on
goes on to the second disjunct and ends in the fatal error of `visitCount`.
On `(or (and (or (= x "a") (!= y "c")) (= y "c")))`, with a relational string
engine that keeps the Values it is offered, both runs return: with the option
off the nested `Or` stops at `(= x "a")`, `(= y "c")` is satisfiable and the
outer `Or` gets Bool true; with it on the nested `Or` goes on to `(!= y "c")`,
which the engine keeps for `y`, so `(= y "c")` is unsatisfiable and the outer
`Or` gets Bool false. -/
theorem visitOr_counting_differs :
    ((∃ s_off, visit (refEnv.withCounting false) 4 or_eq_count state_x_any = .ok s_off ∧
        s_off.term_values_.lookup 0 = some (some (.BOOl_CONSTANT true))) ∧
      visit (refEnv.withCounting true) 4 or_eq_count state_x_any =
        .error (.fatal "implement me")) ∧
    ((∃ s_off, visit (refEnvKeeping.withCounting false) 5 or_and_or state_x_y_any = .ok s_off ∧
        s_off.term_values_.lookup 0 = some (some (.BOOl_CONSTANT true))) ∧
      (∃ s_on, visit (refEnvKeeping.withCounting true) 5 or_and_or state_x_y_any = .ok s_on ∧
        s_on.term_values_.lookup 0 = some (some (.BOOl_CONSTANT false)))) :=
  ⟨⟨⟨_, rfl, rfl⟩, rfl⟩, ⟨_, rfl, rfl⟩, ⟨_, rfl, rfl⟩⟩

/-- C4, amended: for an `Or` node whose disjuncts hold no `Or` node, with an
arithmetic engine that reports, for a term without `Or` nodes, string-derived
sub-terms without `Or` nodes (as it does when they are sub-terms of the term),
and for every starting state and fuel: if the run of the evaluator on the node
with `MODEL_COUNTER_ENABLED` on and the run with it off both return, the Value
of the `Or` node is the same Bool constant in both (in the term-value map and
as read by `getTermValue`), so its satisfiability is the same. -/
theorem visitOr_counting_agrees (E : Env C W) (fuel : Nat) (id : Nat)
    (term_list : List Term) (s s_on s_off : State C W)
    (hlist : Term.or_free_list term_list = true)
    (hfree : ∀ w t u, u ∈ E.arithmetic_getStringTermsIn w t → t.or_free = true →
      u.or_free = true)
    (h_on : visit (E.withCounting true) fuel (.Or id term_list) s = .ok s_on)
    (h_off : visit (E.withCounting false) fuel (.Or id term_list) s = .ok s_off) :
    ∃ b, s_on.term_values_.lookup id = some (some (.BOOl_CONSTANT b)) ∧
      s_off.term_values_.lookup id = some (some (.BOOl_CONSTANT b)) ∧
      getTermValue (E.withCounting true) s_on (.Or id term_list) = some (.BOOl_CONSTANT b) ∧
      getTermValue (E.withCounting false) s_off (.Or id term_list) = some (.BOOl_CONSTANT b) ∧
      (E.withCounting true).isSatisfiable (.BOOl_CONSTANT b) =
        (E.withCounting false).isSatisfiable (.BOOl_CONSTANT b) := by
  cases fuel with
  | zero => exact absurd h_on (by simp only [visit, reduceCtorEq, not_false_eq_true])
  | succ n =>
    have h1 : visitOr (E.withCounting true) (visit E n) id term_list s = .ok s_on := by
      rw [← visitOr_agree (E.withCounting true) hfree (visit (E.withCounting true) n) (visit E n)
        (fun u hu s => visit_or_free E hfree true n u hu s) id term_list hlist s]
      exact h_on
    have h2 : visitOr (E.withCounting false) (visit E n) id term_list s = .ok s_off := by
      rw [← visitOr_agree (E.withCounting false) hfree (visit (E.withCounting false) n)
        (visit E n) (fun u hu s => visit_or_free E hfree false n u hu s) id term_list hlist s]
      exact h_off
    obtain ⟨b, hb1, hb2⟩ := visitOr_same_visit_agrees E (visit E n) id term_list s s_on s_off h1 h2
    exact ⟨b, hb1, hb2, getTermValue_or _ _ _ _ _ hb1, getTermValue_or _ _ _ _ _ hb2, rfl⟩

/-- Witness for C4: on `(or (and (= x "a") (!= y "c")) (= y "c"))`, with the
relational string engine that keeps the Values it is offered, the run with the
option off stops after the first disjunct and the run with it on goes on to
`(= y "c")`, which is unsatisfiable by then; both return and the `Or` node has
Bool true in both. -/
theorem visitOr_counting_agrees_witness :
    (∃ s_on, visit (refEnvKeeping.withCounting true) 4 or_and_eq state_x_y_any = .ok s_on ∧
      s_on.term_values_.lookup 0 = some (some (.BOOl_CONSTANT true))) ∧
    (∃ s_off, visit (refEnvKeeping.withCounting false) 4 or_and_eq state_x_y_any = .ok s_off ∧
      s_off.term_values_.lookup 0 = some (some (.BOOl_CONSTANT true))) := by
  obtain ⟨b, h1, h2, _⟩ := visitOr_counting_agrees refEnvKeeping 4 0
    [.And 1 [.Eq 3 (.QualIdentifier 4 "x") (.TermConstant 5 .STRING "a"),
             .NotEq 6 (.QualIdentifier 7 "y") (.TermConstant 8 .STRING "c")],
     .Eq 9 (.QualIdentifier 10 "y") (.TermConstant 11 .STRING "c")] state_x_y_any _ _ rfl
    (fun _ _ _ h => absurd h (List.not_mem_nil _)) rfl rfl
  have hb : b = true := by
    have h3 : some (some (Value.BOOl_CONSTANT b)) =
        some (some (Value.BOOl_CONSTANT (C := refCarrier) true)) := h1.symm.trans rfl
    injection h3 with h3
    injection h3 with h3
    injection h3
  subst hb
  exact ⟨⟨_, rfl, h1⟩, ⟨_, rfl, h2⟩⟩

/-- C6, as stated, fails: in the script `(assert (= "b" "a")) (assert (= x "foo"))`
the first assertion yields an unsatisfiable Value, and the second assertion is
evaluated all the same: its refinement of `x` to the one word `foo` is in the
symbol table (in the scope of the script) when the walk is over, while it is
not there after the first assertion alone.  The verdict is unsat in both. -/
theorem visitScript_no_short_circuit :
    (∃ s1, start refEnv 2 script_unsat state_x_any = .ok s1 ∧
      s1.world.global_assertion_result = false ∧
      s1.world.values.lookup (100, "x") = none) ∧
    (∃ s2, start refEnv 2 script_unsat_then_eq state_x_any = .ok s2 ∧
      s2.world.global_assertion_result = false ∧
      s2.world.values.lookup (100, "x") =
        some (some (.STRING_AUTOMATON (Lang.single "foo")))) :=
  ⟨⟨_, rfl, rfl, rfl⟩, ⟨_, rfl, rfl, rfl⟩⟩

/-- C6 (amended): `visitScript` visits every command of the script in order,
whatever the verdicts of the earlier assertions: when it returns, the log of
assertion verdicts has one entry per assertion.  For every observer `verdict`
of the global satisfiability that `updateSatisfiability` merges by conjunction
and that nothing else changes, the verdict after the script is the conjunction
of the verdict before it and the verdicts of all assertions. -/
theorem visitScript_verdict (E : Env C W) (visit : Term → State C W → Res C W)
    (script : Script) (s s' : State C W) (verdict : W → Bool)
    (hf : VerdictFrame E visit verdict script.command_list)
    (h : visitScript E visit script s = .ok s') :
    (assert_verdicts E visit script.command_list
        { s with world := E.push_scope s.world script.id }).length
      = count_asserts script.command_list ∧
    verdict s'.world =
      (verdict s.world &&
        (assert_verdicts E visit script.command_list
          { s with world := E.push_scope s.world script.id }).all (fun v => v)) := by
  unfold visitScript at h
  cases hc : visit_commands E visit script.command_list
      { s with world := E.push_scope s.world script.id } with
  | error e => simp [hc] at h
  | ok s1 =>
    simp only [hc] at h
    obtain ⟨h1, h2⟩ := visit_commands_verdict E visit verdict script.command_list hf _ s1 hc
    refine ⟨h1, ?_⟩
    rw [← Except.ok.inj h]
    simp only []
    rw [hf.pop, h2, hf.push]

/-- Witness for C6 (amended): the script `(assert false) (assert true)` on the
reference collaborators: both assertions are evaluated and the global verdict
is false. -/
theorem visitScript_verdict_witness :
    ∃ s', visitScript refEnv (visit refEnv 1) script_false_true (refState []) = .ok s' ∧
      (assert_verdicts refEnv (visit refEnv 1) script_false_true.command_list
        { refState [] with world := refEnv.push_scope (refState []).world 100 }) = [false, true] ∧
      s'.world.global_assertion_result = false := by
  have h := visitScript_verdict refEnv (visit refEnv 1) script_false_true (refState []) _
    (fun w => w.global_assertion_result) refEnv_verdictFrame_constants rfl
  exact ⟨_, rfl, rfl, h.2⟩

/-- C7: when the body of an assertion has been evaluated to the Value
`result`, `visitAssert` reports exactly `result.isSatisfiable()` to the global
satisfiability (`updateSatisfiability`) and then to the scope-local one
(`setScopeSatisfiability`); the refinement pass `update_variables` runs if
and only if the body is neither an `And` nor an `Or` node and the reported
flag is true; the term values are cleared last. -/
theorem visitAssert_reports_and_refines (E : Env C W) (visit : Term → State C W → Res C W)
    (term : Term) (s s1 : State C W) (flag : Bool) (result : Value C)
    (hv : check_and_visit E visit term s = .ok (flag, s1))
    (hr : getTermValue E s1 term = some result) :
    visitAssert E visit term s =
      .ok (clearTermValuesAndLocalLetVars E
        (if term.type ≠ TermType.AND ∧ term.type ≠ TermType.OR ∧ E.isSatisfiable result = true then
          update_variables E
            { s1 with
              world := E.setScopeSatisfiability
                (E.updateSatisfiability s1.world (E.isSatisfiable result))
                (E.isSatisfiable result) }
        else
          { s1 with
            world := E.setScopeSatisfiability
              (E.updateSatisfiability s1.world (E.isSatisfiable result))
              (E.isSatisfiable result) })) :=
  visitAssert_of_evaluated E visit term s s1 flag result hv hr

/-- Witness for C7: the assertion `(= x "a")` on the reference collaborators is
reported satisfiable and, not being an `And` or an `Or`, refines `x`. -/
theorem visitAssert_reports_and_refines_witness :
    ∃ s', visitAssert refEnv (visit refEnv 2)
        (.Eq 1 (.QualIdentifier 2 "x") (.TermConstant 3 .STRING "a"))
        (refState [("x", some (.STRING_AUTOMATON Lang.any))]) = .ok s' ∧
      s'.world.global_assertion_result = true ∧
      s'.world.scope_satisfiability = [(0, true)] ∧
      s'.world.getValue "x" = some (.STRING_AUTOMATON (Lang.single "a")) :=
  ⟨_, visitAssert_reports_and_refines refEnv (visit refEnv 2)
    (.Eq 1 (.QualIdentifier 2 "x") (.TermConstant 3 .STRING "a"))
    (refState [("x", some (.STRING_AUTOMATON Lang.any))]) _ true
    (.STRING_AUTOMATON (Lang.single "a")) rfl rfl, rfl, rfl, rfl⟩

/-- C10: for an `Eq` node whose children have been evaluated to the Values `l`
and `r` and which has no Value yet, `visitEq` returns and stores for the node
the Bool constant `l == r` when both are Bool constants or both are Int
constants, and `intersect(l, r)` in every other case; the Values of the two
children are the same after the handler as before, and nothing but the new
entry of the map has changed. -/
theorem visitEq_value (E : Env C W) (visit : Term → State C W → Res C W) (id : Nat)
    (left_term right_term : Term) (s s1 : State C W) (l r : Value C)
    (hc : visit_children_of visit (Term.Eq id left_term right_term) s = .ok s1)
    (hl : getTermValue E s1 left_term = some l)
    (hr : getTermValue E s1 right_term = some r)
    (hfresh : s1.term_values_.lookup id = none) :
    ∃ s' result, visitEq E visit id left_term right_term s = .ok s' ∧
      s'.term_values_.lookup id = some (some result) ∧
      (∀ a b, l = .BOOl_CONSTANT a → r = .BOOl_CONSTANT b → result = .BOOl_CONSTANT (a == b)) ∧
      (∀ a b, l = .INT_CONSTANT a → r = .INT_CONSTANT b → result = .BOOl_CONSTANT (a == b)) ∧
      ((¬ (l.getType = .BOOl_CONSTANT ∧ r.getType = .BOOl_CONSTANT) ∧
          ¬ (l.getType = .INT_CONSTANT ∧ r.getType = .INT_CONSTANT)) →
        result = E.intersect l r) ∧
      getTermValue E s' left_term = some l ∧ getTermValue E s' right_term = some r ∧
      s' = { s1 with term_values_ := (id, some result) :: s1.term_values_ } := by
  have hstore :
      storeTermValue s1 (Term.Eq id left_term right_term) (some (visitEq_result E l r)) =
        .ok { s1 with term_values_ := (id, some (visitEq_result E l r)) :: s1.term_values_ } :=
    storeTermValue_of_lookup_none s1 (Term.Eq id left_term right_term) _ hfresh
  refine ⟨{ s1 with term_values_ := (id, some (visitEq_result E l r)) :: s1.term_values_ },
    visitEq_result E l r, ?_, lookup_cons_self id _ s1.term_values_, ?_, ?_, ?_,
    getTermValue_cons_of_some E s1 id _ left_term l hfresh hl,
    getTermValue_cons_of_some E s1 id _ right_term r hfresh hr, rfl⟩
  · simp only [visitEq, hc, hl, hr, deref]
    exact hstore
  · intro a b ha hb; subst ha; subst hb; rfl
  · intro a b ha hb; subst ha; subst hb; rfl
  · intro h
    cases l <;> cases r <;> simp_all [Value.getType, visitEq_result]

/-- Witness for C10: on the reference collaborators, `(= x "a")` with `x` any
string stores the intersection, the language of the one word `a`. -/
theorem visitEq_value_witness :
    ∃ s' result,
      visitEq refEnv (visit refEnv 1) 1 (.QualIdentifier 2 "x") (.TermConstant 3 .STRING "a")
        (refState [("x", some (.STRING_AUTOMATON Lang.any))]) = .ok s' ∧
      s'.term_values_.lookup 1 = some (some result) ∧
      result = .STRING_AUTOMATON (Lang.single "a") := by
  obtain ⟨s', result, h1, h2, _, _, h5, _⟩ :=
    visitEq_value refEnv (visit refEnv 1) 1 (.QualIdentifier 2 "x") (.TermConstant 3 .STRING "a")
      (refState [("x", some (.STRING_AUTOMATON Lang.any))]) _
      (.STRING_AUTOMATON Lang.any) (.STRING_AUTOMATON (Lang.single "a")) rfl rfl rfl rfl
  refine ⟨s', result, h1, h2, ?_⟩
  rw [h5 (by decide)]
  rfl

/-- C11: for a `NotEq` node evaluated on its default path whose children have
the Values `l` and `r` (and which has no Value yet), the stored Value is: the
Bool constant `l != r` for two Bool constants or two Int constants; otherwise
Bool false if `l` or `r` is unsatisfiable; otherwise Bool true if
`intersect(l, r)` is unsatisfiable; otherwise `intersect(l, r)`.  Hence, with
a Bool constant being satisfiable exactly when it is true, outside the two
constant cases the stored Value is unsatisfiable exactly when one of the
operands is. -/
theorem visitNotEq_default_value (E : Env C W) (visit : Term → State C W → Res C W) (id : Nat)
    (left_term right_term : Term) (s s1 : State C W) (l r : Value C)
    (hc : visit_children_of visit (Term.NotEq id left_term right_term) s = .ok s1)
    (hl : getTermValue E s1 left_term = some l)
    (hr : getTermValue E s1 right_term = some r)
    (hfresh : s1.term_values_.lookup id = none)
    (hbool : ∀ b, E.isSatisfiable (.BOOl_CONSTANT b) = b) :
    ∃ s' result, visitNotEq_default E visit id left_term right_term s = .ok s' ∧
      s' = { s1 with term_values_ := (id, some result) :: s1.term_values_ } ∧
      s'.term_values_.lookup id = some (some result) ∧
      (∀ a b, l = .BOOl_CONSTANT a → r = .BOOl_CONSTANT b → result = .BOOl_CONSTANT (a != b)) ∧
      (∀ a b, l = .INT_CONSTANT a → r = .INT_CONSTANT b → result = .BOOl_CONSTANT (a != b)) ∧
      (¬ ((l.getType = .BOOl_CONSTANT ∧ r.getType = .BOOl_CONSTANT) ∨
          (l.getType = .INT_CONSTANT ∧ r.getType = .INT_CONSTANT)) →
        (E.isSatisfiable l = false ∨ E.isSatisfiable r = false →
          result = .BOOl_CONSTANT false) ∧
        (E.isSatisfiable l = true → E.isSatisfiable r = true →
          E.isSatisfiable (E.intersect l r) = false → result = .BOOl_CONSTANT true) ∧
        (E.isSatisfiable l = true → E.isSatisfiable r = true →
          E.isSatisfiable (E.intersect l r) = true → result = E.intersect l r) ∧
        (E.isSatisfiable result = false ↔
          (E.isSatisfiable l = false ∨ E.isSatisfiable r = false))) := by
  refine ⟨_, visitNotEq_result E l r,
    visitNotEq_default_stores E visit id left_term right_term s s1 l r hc hl hr hfresh, rfl,
    lookup_cons_self id _ _, ?_, ?_, ?_⟩
  · intro a b ha hb; subst ha; subst hb; rfl
  · intro a b ha hb; subst ha; subst hb; rfl
  · intro hnc
    have hres : visitNotEq_result E l r =
        if !(E.isSatisfiable l && E.isSatisfiable r) then .BOOl_CONSTANT false
        else if !E.isSatisfiable (E.intersect l r) then .BOOl_CONSTANT true
        else E.intersect l r := by
      cases l <;> cases r <;> simp_all [Value.getType, visitNotEq_result]
    rw [hres]
    cases hsl : E.isSatisfiable l <;> cases hsr : E.isSatisfiable r <;>
      cases hsi : E.isSatisfiable (E.intersect l r) <;> simp [hbool, hsi]

/-- Witness for C11: `x != "a"` on the default path, with `x` any string, keeps
the non-empty intersection, the one word `a`. -/
theorem visitNotEq_default_value_witness :
    ∃ s' result,
      visitNotEq_default refEnv (visit refEnv 1) 1 (.QualIdentifier 2 "x")
        (.TermConstant 3 .STRING "a") state_x_any = .ok s' ∧
      s'.term_values_.lookup 1 = some (some result) ∧
      result = .STRING_AUTOMATON (Lang.single "a") := by
  obtain ⟨s', result, h1, _, h3, _, _, h6⟩ :=
    visitNotEq_default_value refEnv (visit refEnv 1) 1 (.QualIdentifier 2 "x")
      (.TermConstant 3 .STRING "a") state_x_any _
      (.STRING_AUTOMATON Lang.any) (.STRING_AUTOMATON (Lang.single "a")) rfl rfl rfl rfl
      (fun _ => rfl)
  refine ⟨s', result, h1, h3, ?_⟩
  rw [(h6 (by decide)).2.2.1 rfl rfl rfl]
  rfl

/-- C12: for a `Not` node whose child has the Value `c` (and which has no Value
yet), with `complement` negating a Bool constant: if `c` is the Bool constant
`b` the stored Value is the Bool constant `not b`; if `c` is an integer
automaton accepting exactly one integer or a string automaton accepting
exactly one string, it is `complement(c)`; if `c` is an integer or string
automaton that is not a singleton, it is `c` itself. -/
theorem visitNot_value (E : Env C W) (visit : Term → State C W → Res C W) (id : Nat)
    (term : Term) (s s1 : State C W) (c : Value C)
    (hc : visit_children_of visit (Term.Not id term) s = .ok s1)
    (hv : getTermValue E s1 term = some c)
    (hfresh : s1.term_values_.lookup id = none)
    (hcompl : ∀ b, E.complement (.BOOl_CONSTANT b) = .BOOl_CONSTANT (!b)) :
    (∀ b, c = .BOOl_CONSTANT b → visitNot E visit id term s =
      .ok { s1 with term_values_ := (id, some (.BOOl_CONSTANT (!b))) :: s1.term_values_ }) ∧
    (∀ a, c = .INT_AUTOMATON a → E.IntAutomaton_isAcceptingSingleInt a = true →
      visitNot E visit id term s =
        .ok { s1 with term_values_ := (id, some (E.complement c)) :: s1.term_values_ }) ∧
    (∀ a, c = .STRING_AUTOMATON a → E.StringAutomaton_isAcceptingSingleString a = true →
      visitNot E visit id term s =
        .ok { s1 with term_values_ := (id, some (E.complement c)) :: s1.term_values_ }) ∧
    (∀ a, c = .INT_AUTOMATON a → E.IntAutomaton_isAcceptingSingleInt a = false →
      visitNot E visit id term s =
        .ok { s1 with term_values_ := (id, some c) :: s1.term_values_ }) ∧
    (∀ a, c = .STRING_AUTOMATON a → E.StringAutomaton_isAcceptingSingleString a = false →
      visitNot E visit id term s =
        .ok { s1 with term_values_ := (id, some c) :: s1.term_values_ }) := by
  refine ⟨?_, ?_, ?_, ?_, ?_⟩
  · intro b hb
    apply visitNot_stores E visit id term s s1 c _ hc hv hfresh
    subst hb
    simp [visitNot_result, hcompl]
  · intro a ha hs
    apply visitNot_stores E visit id term s s1 c _ hc hv hfresh
    subst ha
    simp [visitNot_result, hs]
  · intro a ha hs
    apply visitNot_stores E visit id term s s1 c _ hc hv hfresh
    subst ha
    simp [visitNot_result, hs]
  · intro a ha hs
    apply visitNot_stores E visit id term s s1 c _ hc hv hfresh
    subst ha
    simp [visitNot_result, hs, Value.clone]
  · intro a ha hs
    apply visitNot_stores E visit id term s s1 c _ hc hv hfresh
    subst ha
    simp [visitNot_result, hs, Value.clone]

/-- Witness for C12: `(not true)` on the reference collaborators stores Bool
false. -/
theorem visitNot_value_witness :
    visitNot refEnv (visit refEnv 1) 0 (.TermConstant 1 .BOOL "true") (refState []) =
      .ok { refState [] with
            term_values_ := [(0, some (.BOOl_CONSTANT false)), (1, some (.BOOl_CONSTANT true))] } :=
  (visitNot_value refEnv (visit refEnv 1) 0 (.TermConstant 1 .BOOL "true") (refState []) _
    (.BOOl_CONSTANT true) rfl rfl rfl (fun _ => rfl)).1 true rfl

/-- C13 fails on the code: the child of `(not (= "a" "b"))` evaluates to the
empty string language, an unsatisfiable Value; the empty language is not a
singleton, so `visitNot` stores the child unchanged, and the Value of the
`Not` node is unsatisfiable.  The assertion of this valid formula reports the
verdict unsat. -/
theorem visitNot_of_empty_language :
    (∃ s', visit refEnv 3 not_eq_a_b (refState []) = .ok s' ∧
      s'.term_values_.lookup 1 = some (some (.STRING_AUTOMATON Lang.phi)) ∧
      refEnv.isSatisfiable (.STRING_AUTOMATON Lang.phi) = false ∧
      s'.term_values_.lookup 0 = some (some (.STRING_AUTOMATON Lang.phi))) ∧
    (∃ s', visitAssert refEnv (visit refEnv 3) not_eq_a_b (refState []) = .ok s' ∧
      s'.world.global_assertion_result = false) :=
  ⟨⟨_, rfl, rfl, rfl, rfl⟩, ⟨_, rfl, rfl⟩⟩

/-- C20, as stated, fails: the child of `(not 5)` evaluates to the Int constant
5, which is neither a Bool constant nor a singleton automaton, and the Value
stored for the `Not` node is not that constant but its complement (the default
branch of the switch). -/
theorem visitNot_of_int_constant :
    (∃ s', visit refEnv 2 not_five (refState []) = .ok s' ∧
      s'.term_values_.lookup 1 = some (some (.INT_CONSTANT 5)) ∧
      s'.term_values_.lookup 0 = some (some (refEnv.complement (.INT_CONSTANT 5)))) ∧
    refEnv.complement (.INT_CONSTANT 5) ≠ .INT_CONSTANT 5 :=
  ⟨⟨_, rfl, rfl, rfl⟩, fun h => Value.noConfusion h⟩

/-- C20 (amended): for a `Not` node whose child has the Value `c` (and which has
no Value yet): if `c` is an integer or string automaton that is not a
singleton, the stored Value is `c` unchanged; if `c` is an Int constant, a
multi-track automaton or a binary integer automaton, the stored Value is
`complement(c)`; if `c` is a Bool automaton or an IntBool automaton, the
evaluation ends in a fatal error. -/
theorem visitNot_other_tags (E : Env C W) (visit : Term → State C W → Res C W) (id : Nat)
    (term : Term) (s s1 : State C W) (c : Value C)
    (hc : visit_children_of visit (Term.Not id term) s = .ok s1)
    (hv : getTermValue E s1 term = some c)
    (hfresh : s1.term_values_.lookup id = none) :
    (((∃ a, c = .INT_AUTOMATON a ∧ E.IntAutomaton_isAcceptingSingleInt a = false) ∨
        (∃ a, c = .STRING_AUTOMATON a ∧ E.StringAutomaton_isAcceptingSingleString a = false)) →
      visitNot E visit id term s =
        .ok { s1 with term_values_ := (id, some c) :: s1.term_values_ }) ∧
    ((c.getType = .INT_CONSTANT ∨ c.getType = .MULTITRACK_AUTOMATON ∨
        c.getType = .BINARYINT_AUTOMATON) →
      visitNot E visit id term s =
        .ok { s1 with term_values_ := (id, some (E.complement c)) :: s1.term_values_ }) ∧
    ((c.getType = .BOOL_AUTOMATON ∨ c.getType = .INTBOOL_AUTOMATON) →
      visitNot E visit id term s = .error (.fatal "implement me")) := by
  refine ⟨?_, ?_, ?_⟩
  · intro h
    apply visitNot_stores E visit id term s s1 c _ hc hv hfresh
    rcases h with ⟨a, ha, hs⟩ | ⟨a, ha, hs⟩ <;> subst ha <;>
      simp [visitNot_result, hs, Value.clone]
  · intro h
    apply visitNot_stores E visit id term s s1 c _ hc hv hfresh
    cases c <;> simp_all [Value.getType, visitNot_result]
  · intro h
    rw [visitNot_of_child E visit id term s s1 c hc hv]
    cases c <;> simp_all [Value.getType, visitNot_result]

/-- Witness for C20 (amended): `(not 5)` on the reference collaborators stores
the complement of the Int constant. -/
theorem visitNot_other_tags_witness :
    visitNot refEnv (visit refEnv 1) 0 (.TermConstant 1 .NUMERAL "5") (refState []) =
      .ok { refState [] with
            term_values_ := [(0, some (refEnv.complement (.INT_CONSTANT 5))),
              (1, some (.INT_CONSTANT 5))] } :=
  (visitNot_other_tags refEnv (visit refEnv 1) 0 (.TermConstant 1 .NUMERAL "5") (refState []) _
    (.INT_CONSTANT 5) rfl rfl rfl).2.1 (Or.inl rfl)

/-- C14: the Value of a comparison node is computed from the Values `l` and `r`
of its children by `visitLt_result`, `visitLe_result`, `visitGt_result`,
`visitGe_result`.  On two Int constants `a` and `b` these give the Bool
constants of `a < b`, `a <= b`, `a > b`, `a >= b`.  Whenever at least one
operand is an Int constant the mirrored nodes agree: `Lt(l, r)` has a Value
exactly when `Gt(r, l)` has one, and it is the same, likewise `Le(l, r)` and
`Ge(r, l)`.  An Int constant `c` on the left of an integer automaton `A` is
answered by the mirrored predicate of `A` applied to `c`. -/
theorem comparison_values (E : Env C W) :
    (∀ a b : Int,
      visitLt_result E (.INT_CONSTANT a) (some (.INT_CONSTANT b))
        = .ok (.BOOl_CONSTANT (decide (a < b))) ∧
      visitLe_result E (.INT_CONSTANT a) (some (.INT_CONSTANT b))
        = .ok (.BOOl_CONSTANT (decide (a ≤ b))) ∧
      visitGt_result E (.INT_CONSTANT a) (some (.INT_CONSTANT b))
        = .ok (.BOOl_CONSTANT (decide (a > b))) ∧
      visitGe_result E (.INT_CONSTANT a) (some (.INT_CONSTANT b))
        = .ok (.BOOl_CONSTANT (decide (a ≥ b)))) ∧
    (∀ l r : Value C, l.getType = .INT_CONSTANT ∨ r.getType = .INT_CONSTANT → ∀ v,
      (visitLt_result E l (some r) = .ok v ↔ visitGt_result E r (some l) = .ok v) ∧
      (visitLe_result E l (some r) = .ok v ↔ visitGe_result E r (some l) = .ok v)) ∧
    (∀ (c : Int) (A : C.IntAutomaton),
      visitLt_result E (.INT_CONSTANT c) (some (.INT_AUTOMATON A))
        = .ok (.BOOl_CONSTANT (E.IntAutomaton_isGreaterThan A c)) ∧
      visitLe_result E (.INT_CONSTANT c) (some (.INT_AUTOMATON A))
        = .ok (.BOOl_CONSTANT (E.IntAutomaton_isGreaterThanOrEqual A c)) ∧
      visitGt_result E (.INT_CONSTANT c) (some (.INT_AUTOMATON A))
        = .ok (.BOOl_CONSTANT (E.IntAutomaton_isLessThan A c)) ∧
      visitGe_result E (.INT_CONSTANT c) (some (.INT_AUTOMATON A))
        = .ok (.BOOl_CONSTANT (E.IntAutomaton_isLessThanOrEqual A c))) ∧
    (∀ (visit : Term → State C W → Res C W) (id : Nat) (left_term right_term : Term)
        (s s1 : State C W) (l : Value C),
      visit_children_of visit (Term.Lt id left_term right_term) s = .ok s1 →
      getTermValue E s1 left_term = some l →
      visitLt E visit id left_term right_term s =
        match visitLt_result E l (getTermValue E s1 right_term) with
        | .error e => .error e
        | .ok value => storeTermValue s1 (Term.Lt id left_term right_term) (some value)) ∧
    (∀ (visit : Term → State C W → Res C W) (id : Nat) (left_term right_term : Term)
        (s s1 : State C W) (l : Value C),
      visit_children_of visit (Term.Le id left_term right_term) s = .ok s1 →
      getTermValue E s1 left_term = some l →
      visitLe E visit id left_term right_term s =
        match visitLe_result E l (getTermValue E s1 right_term) with
        | .error e => .error e
        | .ok value => storeTermValue s1 (Term.Le id left_term right_term) (some value)) ∧
    (∀ (visit : Term → State C W → Res C W) (id : Nat) (left_term right_term : Term)
        (s s1 : State C W) (l : Value C),
      visit_children_of visit (Term.Gt id left_term right_term) s = .ok s1 →
      getTermValue E s1 left_term = some l →
      visitGt E visit id left_term right_term s =
        match visitGt_result E l (getTermValue E s1 right_term) with
        | .error e => .error e
        | .ok value => storeTermValue s1 (Term.Gt id left_term right_term) (some value)) ∧
    (∀ (visit : Term → State C W → Res C W) (id : Nat) (left_term right_term : Term)
        (s s1 : State C W) (l : Value C),
      visit_children_of visit (Term.Ge id left_term right_term) s = .ok s1 →
      getTermValue E s1 left_term = some l →
      visitGe E visit id left_term right_term s =
        match visitGe_result E l (getTermValue E s1 right_term) with
        | .error e => .error e
        | .ok value => storeTermValue s1 (Term.Ge id left_term right_term) (some value)) := by
  refine ⟨fun a b => ⟨rfl, rfl, rfl, rfl⟩, ?_, fun c A => ⟨rfl, rfl, rfl, rfl⟩,
    visitLt_of_child E, visitLe_of_child E, visitGt_of_child E, visitGe_of_child E⟩
  intro l r h v
  cases l <;> cases r <;>
    simp_all [Value.getType, visitLt_result, visitLe_result, visitGt_result, visitGe_result,
      deref, gt_iff_lt, ge_iff_le]

/-- Witness for C14: with the integer automaton of the set `{1, 7}` on the
right of the Int constant 3, `Lt` and the mirrored `Gt` both give Bool true
(7 is greater than 3). -/
theorem comparison_values_witness :
    visitLt_result refEnv (.INT_CONSTANT 3) (some (.INT_AUTOMATON ⟨false, [1, 7]⟩))
      = .ok (.BOOl_CONSTANT true) ∧
    visitGt_result refEnv (.INT_AUTOMATON ⟨false, [1, 7]⟩) (some (.INT_CONSTANT 3))
      = .ok (.BOOl_CONSTANT true) :=
  ⟨rfl, ((comparison_values refEnv).2.1 (.INT_CONSTANT 3) (.INT_AUTOMATON ⟨false, [1, 7]⟩)
    (Or.inl rfl) (.BOOl_CONSTANT true)).1.1 rfl⟩

/-- C15: for each of `Lt`, `Le`, `Gt`, `Ge`, once the children have the Values
`l` and `r` (and the node has no Value yet), the evaluation ends in a fatal
error if and only if `l` or `r` is neither an Int constant nor an integer
automaton; in the four remaining tag combinations it returns and a Bool
constant is stored for the node. -/
theorem comparison_fatal_iff (E : Env C W) (visit : Term → State C W → Res C W) (id : Nat)
    (left_term right_term : Term) (s1 : State C W) (l r : Value C)
    (hl : getTermValue E s1 left_term = some l)
    (hr : getTermValue E s1 right_term = some r)
    (hfresh : s1.term_values_.lookup id = none) :
    (∀ s, visit_children_of visit (Term.Lt id left_term right_term) s = .ok s1 →
      ((∃ msg, visitLt E visit id left_term right_term s = .error (.fatal msg)) ↔
        (l.isIntOperand && r.isIntOperand) = false) ∧
      ((l.isIntOperand && r.isIntOperand) = true →
        ∃ v, visitLt E visit id left_term right_term s =
          .ok { s1 with term_values_ := (id, some (.BOOl_CONSTANT v)) :: s1.term_values_ })) ∧
    (∀ s, visit_children_of visit (Term.Le id left_term right_term) s = .ok s1 →
      ((∃ msg, visitLe E visit id left_term right_term s = .error (.fatal msg)) ↔
        (l.isIntOperand && r.isIntOperand) = false) ∧
      ((l.isIntOperand && r.isIntOperand) = true →
        ∃ v, visitLe E visit id left_term right_term s =
          .ok { s1 with term_values_ := (id, some (.BOOl_CONSTANT v)) :: s1.term_values_ })) ∧
    (∀ s, visit_children_of visit (Term.Gt id left_term right_term) s = .ok s1 →
      ((∃ msg, visitGt E visit id left_term right_term s = .error (.fatal msg)) ↔
        (l.isIntOperand && r.isIntOperand) = false) ∧
      ((l.isIntOperand && r.isIntOperand) = true →
        ∃ v, visitGt E visit id left_term right_term s =
          .ok { s1 with term_values_ := (id, some (.BOOl_CONSTANT v)) :: s1.term_values_ })) ∧
    (∀ s, visit_children_of visit (Term.Ge id left_term right_term) s = .ok s1 →
      ((∃ msg, visitGe E visit id left_term right_term s = .error (.fatal msg)) ↔
        (l.isIntOperand && r.isIntOperand) = false) ∧
      ((l.isIntOperand && r.isIntOperand) = true →
        ∃ v, visitGe E visit id left_term right_term s =
          .ok { s1 with term_values_ := (id, some (.BOOl_CONSTANT v)) :: s1.term_values_ })) :=
  ⟨fun s hc => visitLt_fatal_iff E visit id left_term right_term s s1 l r hc hl hr hfresh,
   fun s hc => visitLe_fatal_iff E visit id left_term right_term s s1 l r hc hl hr hfresh,
   fun s hc => visitGt_fatal_iff E visit id left_term right_term s s1 l r hc hl hr hfresh,
   fun s hc => visitGe_fatal_iff E visit id left_term right_term s s1 l r hc hl hr hfresh⟩

/-- Witness for C15: `(< 1 2)` on the reference collaborators returns and
stores a Bool constant. -/
theorem comparison_fatal_iff_witness :
    ∃ v, visitLt refEnv (visit refEnv 1) 0 (.TermConstant 1 .NUMERAL "1")
        (.TermConstant 2 .NUMERAL "2") (refState []) =
      .ok { state_one_two with
            term_values_ := (0, some (.BOOl_CONSTANT v)) :: state_one_two.term_values_ } :=
  ((comparison_fatal_iff refEnv (visit refEnv 1) 0 (.TermConstant 1 .NUMERAL "1")
    (.TermConstant 2 .NUMERAL "2") state_one_two (.INT_CONSTANT 1) (.INT_CONSTANT 2)
    rfl rfl rfl).1 (refState []) rfl).2 rfl

/-- C16, counterexample: `(substring x 0 1)` with a mode outside the twelve
named cases of the switch reaches the default case; its index terms are
constants, so the test that guards the fatal error of the default case fails,
and the handler returns normally with an absent (null) Value recorded for the
node. -/
theorem visitSubString_default_records_null :
    ∃ s', visit refEnv 2 substring_none state_x_any = .ok s' ∧
      s'.term_values_.lookup 0 = some none ∧
      getTermValue refEnv s' substring_none = none :=
  ⟨_, rfl, rfl, rfl⟩

/-- C16, amended: a `SubString` node whose mode is one of the eight named modes
other than `FROMINDEX`, `FROMFIRSTOF`, `FROMLASTOF` and `FROMINDEXTOINDEX`
never returns normally, and once its children are evaluated it ends in the
fatal error "implement me".  A node whose mode is none of the twelve named
cases reaches the default case: once its children are evaluated it ends in
the fatal error "Undefined subString semantic" when the start index term, or
else the end index term, is neither an identifier nor a constant (and then it
never returns normally); when both are an identifier or a constant the fatal
error is skipped and the handler ends with the insertion of an absent (null)
Value for the node. -/
theorem visitSubString_unsupported (E : Env C W) (visit : Term → State C W → Res C W)
    (id : Nat) (mode : SubStringMode) (subject_term start_index_term : Term)
    (end_index_term : Option Term) (s : State C W)
    (hmode : mode.supported = false) :
    (mode ≠ .NONE →
      (∀ s', visitSubString E visit id mode subject_term start_index_term end_index_term s ≠
        .ok s') ∧
      (∀ s1, visit_children_of visit
          (.SubString id mode subject_term start_index_term end_index_term) s = .ok s1 →
        visitSubString E visit id mode subject_term start_index_term end_index_term s =
          .error (.fatal "implement me"))) ∧
    (mode = .NONE →
      (plain_index start_index_term = false ∨
          (∃ t, end_index_term = some t ∧ plain_index t = false) →
        (∀ s', visitSubString E visit id mode subject_term start_index_term end_index_term s ≠
          .ok s') ∧
        (∀ s1, visit_children_of visit
            (.SubString id mode subject_term start_index_term end_index_term) s = .ok s1 →
          visitSubString E visit id mode subject_term start_index_term end_index_term s =
            .error (.fatal "Undefined subString semantic"))) ∧
      (∀ t, plain_index start_index_term = true → end_index_term = some t →
        plain_index t = true →
        ∀ s1, visit_children_of visit
            (.SubString id mode subject_term start_index_term end_index_term) s = .ok s1 →
          visitSubString E visit id mode subject_term start_index_term end_index_term s =
            storeTermValue s1
              (.SubString id mode subject_term start_index_term end_index_term) none)) := by
  cases hc : visit_children_of visit
      (.SubString id mode subject_term start_index_term end_index_term) s with
  | error e =>
    refine ⟨fun _ => ⟨fun s' h => ?_, fun s1 h => absurd h (by simp only [reduceCtorEq, not_false_eq_true])⟩,
      fun _ => ⟨fun _ => ⟨fun s' h => ?_, fun s1 h => absurd h (by simp only [reduceCtorEq, not_false_eq_true])⟩,
        fun t _ _ _ s1 h => absurd h (by simp only [reduceCtorEq, not_false_eq_true])⟩⟩
    all_goals
      simp only [visitSubString, hc, reduceCtorEq] at h
  | ok s0 =>
    refine ⟨fun hne => ?_, fun he => ?_⟩
    · have hr : visitSubString_result E s0 mode subject_term start_index_term end_index_term =
          .error (.fatal "implement me") := by
        cases mode <;> first
          | exact absurd rfl hne
          | exact absurd hmode (by decide)
          | rfl
      refine ⟨fun s' h => ?_, fun s1 _ => ?_⟩
      · simp only [visitSubString, hc, hr, reduceCtorEq] at h
      · simp only [visitSubString, hc, hr]
    · subst he
      refine ⟨fun hbad => ?_, fun t hs ht hpt s1 h1 => ?_⟩
      · have hr : visitSubString_result E s0 .NONE subject_term start_index_term end_index_term =
            .error (.fatal "Undefined subString semantic") := by
          simp only [plain_index, Bool.or_eq_false_iff, decide_eq_false_iff_not] at hbad
          rcases hbad with hb | ⟨t, rfl, hb⟩
          · simp only [visitSubString_result, ne_eq, hb, not_false_eq_true, and_self, if_true]
          · simp only [visitSubString_result, ne_eq, hb, not_false_eq_true, and_self, if_true,
              ite_self]
        refine ⟨fun s' h => ?_, fun s1 _ => ?_⟩
        · simp only [visitSubString, hc, hr, reduceCtorEq] at h
        · simp only [visitSubString, hc, hr]
      · subst ht
        have hs1 : s0 = s1 := by injection h1
        subst hs1
        simp only [plain_index, Bool.or_eq_true, decide_eq_true_eq] at hs hpt
        have hr : visitSubString_result E s0 .NONE subject_term start_index_term (some t) =
            .ok none := by
          simp only [visitSubString_result, ne_eq]
          rw [if_neg (by tauto), if_neg (by tauto)]
        simp only [visitSubString, hc, hr]

/-- Witness for C16: on the reference collaborators `(substring x 0 1)` with
the mode `FROMLASTOFTOLASTOF` ends in "implement me", and with a mode outside
the twelve named cases it ends in "Undefined subString semantic" when the
start index is `(len x)` and in the insertion of an absent Value when both index
terms are constants. -/
theorem visitSubString_unsupported_witness :
    visit refEnv 2 (.SubString 0 .FROMLASTOFTOLASTOF (.QualIdentifier 1 "x")
        (.TermConstant 2 .NUMERAL "0") (some (.TermConstant 3 .NUMERAL "1"))) state_x_any =
      .error (.fatal "implement me") ∧
    visit refEnv 3 substring_none_len state_x_any =
      .error (.fatal "Undefined subString semantic") ∧
    (∃ s1, visit_children_of (visit refEnv 1) substring_none state_x_any = .ok s1 ∧
      visit refEnv 2 substring_none state_x_any = storeTermValue s1 substring_none none) :=
  ⟨((visitSubString_unsupported refEnv (visit refEnv 1) 0 .FROMLASTOFTOLASTOF
      (.QualIdentifier 1 "x") (.TermConstant 2 .NUMERAL "0")
      (some (.TermConstant 3 .NUMERAL "1")) state_x_any rfl).1 (by decide)).2 _ rfl,
    (((visitSubString_unsupported refEnv (visit refEnv 2) 0 .NONE
      (.QualIdentifier 1 "x") (.Len 2 (.QualIdentifier 4 "x"))
      (some (.TermConstant 3 .NUMERAL "1")) state_x_any rfl).2 rfl).1 (Or.inl rfl)).2 _ rfl,
    ⟨_, rfl, ((visitSubString_unsupported refEnv (visit refEnv 1) 0 .NONE
      (.QualIdentifier 1 "x") (.TermConstant 2 .NUMERAL "0")
      (some (.TermConstant 3 .NUMERAL "1")) state_x_any rfl).2 rfl).2 _ rfl rfl rfl _ rfl⟩⟩

/-- C18: visiting a quantifier, an `Ite`, a regular-expression combinator, a
sort or an attribute node returns the solver state it was given: the term-value
map (so no Value is recorded for the node), the path trace, the variable path
table, the tagged variables and the symbol table are as they were. -/
theorem inert_nodes (E : Env C W) (fuel id : Nat) (s : State C W) :
    visit E (fuel + 1) (.Exists id) s = .ok s ∧
    visit E (fuel + 1) (.ForAll id) s = .ok s ∧
    visit E (fuel + 1) (.Ite id) s = .ok s ∧
    visit E (fuel + 1) (.ReConcat id) s = .ok s ∧
    visit E (fuel + 1) (.ReUnion id) s = .ok s ∧
    visit E (fuel + 1) (.ReInter id) s = .ok s ∧
    visit E (fuel + 1) (.ReStar id) s = .ok s ∧
    visit E (fuel + 1) (.RePlus id) s = .ok s ∧
    visit E (fuel + 1) (.ReOpt id) s = .ok s ∧
    visit E (fuel + 1) (.ToRegex id) s = .ok s ∧
    visitSort s = .ok s ∧
    visitAttribute s = .ok s :=
  ⟨rfl, rfl, rfl, rfl, rfl, rfl, rfl, rfl, rfl, rfl, rfl, rfl⟩

/-- C19: whatever the two `start` entry points `f` (arithmetic engine) and `g`
(relational string engine) do, `visitAnd` with them is `visitAnd` with engines
whose `start` does nothing, run from the state the starts leave behind.  On a
component in the first iteration that state is: `f` applied to the world if
`LIA_ENGINE_ENABLED`, then `g` applied to the result if
`ENABLE_RELATIONAL_STRING_AUTOMATA`, before any conjunct is evaluated.  For an
`And` that is not a component, and in every later iteration, it is the state
itself: the result does not depend on `f` and `g`. -/
theorem visitAnd_starts_engines (E : Env C W) (visit : Term → State C W → Res C W)
    (f g : W → Term → W) (id : Nat) (term_list : List Term) (s : State C W) :
    (E.is_component (Term.And id term_list) = true → s.iteration_count_ = 0 →
      visitAnd (E.withStarts f g) visit id term_list s =
        visitAnd E.withoutStarts visit id term_list
          { s with world := engines_started E f g (Term.And id term_list) s.world }) ∧
    (E.is_component (Term.And id term_list) = false ∨ s.iteration_count_ ≠ 0 →
      visitAnd (E.withStarts f g) visit id term_list s =
        visitAnd E.withoutStarts visit id term_list s) := by
  constructor
  · intro hc hi
    rw [Env.withoutStarts, visitAnd_after_engines, visitAnd_after_engines]
    have e1 : visitAnd_engines (E.withStarts f g) (Term.And id term_list) s =
        { s with world := engines_started E f g (Term.And id term_list) s.world } := by
      have hc1 : (E.withStarts f g).is_component (Term.And id term_list) = true := hc
      simp only [visitAnd_engines, hc1, hi, decide_True, Bool.and_self, if_true]
      rfl
    have e2 : ∀ s0 : State C W,
        visitAnd_engines (E.withStarts (fun w _ => w) (fun w _ => w))
          (Term.And id term_list) s0 = s0 := by
      intro s0
      cases s0
      simp [visitAnd_engines, Env.withStarts]
    rw [e1, e2]
  · intro h
    rw [Env.withoutStarts, visitAnd_after_engines, visitAnd_after_engines]
    have e : ∀ f0 g0 : W → Term → W,
        visitAnd_engines (E.withStarts f0 g0) (Term.And id term_list) s = s := by
      intro f0 g0
      have hc1 : (E.withStarts f0 g0).is_component (Term.And id term_list) =
          E.is_component (Term.And id term_list) := rfl
      rcases h with h | h
      · simp [visitAnd_engines, hc1, h]
      · simp [visitAnd_engines, hc1, h]
    rw [e, e]

/-- Witness for C19: on a component in the first iteration the state in which
the conjuncts are evaluated has the mark of the relational string engine on top
of the mark of the arithmetic engine. -/
theorem visitAnd_starts_engines_witness :
    visitAnd refEnvEngines (visit refEnvEngines 1) 0 [.TermConstant 1 .BOOL "true"] (refState []) =
      visitAnd refEnvEngines.withoutStarts (visit refEnvEngines 1) 0
        [.TermConstant 1 .BOOL "true"]
        state_engines_started :=
  (visitAnd_starts_engines refEnvEngines (visit refEnvEngines 1)
    (fun w _ => w.setValue "last_started" (some (.INT_CONSTANT 1)))
    (fun w _ => w.setValue "last_started" (some (.INT_CONSTANT 2)))
    0 [.TermConstant 1 .BOOL "true"] (refState [])).1 rfl rfl

/-- C17: `start(n)` terminates, and so does every walk.  The fuel of the
embedding bounds the depth of the recursion; `hsub` is the proviso of the claim
that the string terms the arithmetic engine lists for a term are sub-terms of
it, so not larger.  With fuel of at least the size of the script, `start(n)`
never runs out of fuel, and its result does not depend on the fuel.  It walks
the root zero times when `n <= 0`, and `start(n + 1)` is `start(n)` followed by
one more walk of the root and the increment of `iteration_count_`.  A walk of a
term with fuel of at least its size never runs out of fuel either, whatever the
state, and its result does not depend on the fuel: a handler hands each term it
descends into one unit of fuel less. -/
theorem start_terminates (E : Env C W)
    (hsub : ∀ w t u, u ∈ E.arithmetic_getStringTermsIn w t → u.size ≤ t.size)
    (fuel : Nat) (root_ : Script) (hfuel : root_.size ≤ fuel) (iteration_count : Int)
    (s : State C W) :
    start_iterations E fuel root_ iteration_count s ≠ .error .outOfFuel ∧
    (∀ fuel2, root_.size ≤ fuel2 →
      start_iterations E fuel2 root_ iteration_count s =
        start_iterations E fuel root_ iteration_count s) ∧
    (iteration_count ≤ 0 →
      start_iterations E fuel root_ iteration_count s =
        .ok { s with iteration_count_ := 0 }) ∧
    (0 ≤ iteration_count →
      start_iterations E fuel root_ (iteration_count + 1) s =
        match start_iterations E fuel root_ iteration_count s with
        | .error e => .error e
        | .ok s1 =>
          match visit_root E fuel root_ s1 with
          | .error e => .error e
          | .ok s2 => .ok { s2 with iteration_count_ := s2.iteration_count_ + 1 }) ∧
    (∀ (t : Term) (s1 : State C W), t.size ≤ fuel →
      visit E fuel t s1 ≠ .error .outOfFuel ∧
      ∀ fuel2, t.size ≤ fuel2 → visit E fuel2 t s1 = visit E fuel t s1) := by
  refine ⟨start_loop_fuel E hsub fuel root_ hfuel _ _,
    fun fuel2 h2 => start_loop_congr E hsub fuel2 fuel root_ h2 hfuel _ _, ?_, ?_,
    fun t s1 ht => ⟨visit_fuel E hsub fuel t ht s1,
      fun fuel2 h2 => visit_congr E hsub fuel2 fuel t h2 ht s1⟩⟩
  · intro hn
    have h0 : iteration_count.toNat = 0 := Int.toNat_eq_zero.2 hn
    simp only [start_iterations, h0, start_loop]
  · intro hn
    have h1 : (iteration_count + 1).toNat = iteration_count.toNat + 1 := by omega
    simp only [start_iterations, h1]
    exact start_loop_succ E fuel root_ _ _

/-- Witness for C17: two iterations over the script `(assert (= "b" "a"))`, whose
assertion body has three nodes, with fuel 3 on the reference collaborators (the
reference arithmetic engine lists no string terms). -/
theorem start_terminates_witness :
    start_iterations refEnv 3 script_unsat 2 (refState []) ≠ .error .outOfFuel :=
  (start_terminates refEnv (fun _ _ _ h => absurd h (List.not_mem_nil _)) 3 script_unsat
    (by decide) 2 (refState [])).1

/-- C21, as stated, fails: on `(!= x 5)` the right side is a numeral, not a
string constant, and the fast path is attempted all the same; with an engine
that accepts, the `NotEq` node gets the complement of the string automaton of
the text `5`, the children are not evaluated and no variable path is
recorded. -/
theorem visitNotEq_fast_path_on_numeral :
    ∃ s', visit refEnvAccepting 2 not_eq_x_five state_x_any_int = .ok s' ∧
      s'.term_values_.lookup 0 =
        some (some (.STRING_AUTOMATON (Lang.single "5").complement)) ∧
      s'.term_values_.lookup 1 = none ∧ s'.term_values_.lookup 2 = none ∧
      s'.variable_path_table_ = [] :=
  ⟨_, rfl, rfl, rfl, rfl, rfl⟩

/-- C21 (amended): the fast path of `visitNotEq` is attempted exactly when the
left term is a variable reference and the right term is a constant, of any
primitive type.  When the engine accepts (and the node has no Value yet), the
node's Value is the complement automaton offered to the engine and the state
is otherwise the one the engine call leaves: no child is evaluated, the path
trace and the variable path table are as before.  When the engine does not
accept, the node is evaluated on the default path from the state the engine
call leaves.  For every other pair of terms the node is evaluated on the
default path from the given state. -/
theorem visitNotEq_fast_path (E : Env C W) (visit : Term → State C W → Res C W) (id : Nat)
    (left_term right_term : Term) (s : State C W) :
    (∀ qid var_name cid value_type value,
      left_term = .QualIdentifier qid var_name →
      right_term = .TermConstant cid value_type value →
      ((fast_path_update E s var_name (notEq_fast_value E value)).1 = true →
        s.term_values_.lookup id = none →
        visitNotEq E visit id left_term right_term s =
          .ok { s with
                world := (fast_path_update E s var_name (notEq_fast_value E value)).2
                term_values_ := (id, some (notEq_fast_value E value)) :: s.term_values_ }) ∧
      ((fast_path_update E s var_name (notEq_fast_value E value)).1 = false →
        visitNotEq E visit id left_term right_term s =
          visitNotEq_default E visit id left_term right_term
            { s with world := (fast_path_update E s var_name (notEq_fast_value E value)).2 })) ∧
    (¬ (left_term.type = .QUALIDENTIFIER ∧ right_term.type = .TERMCONSTANT) →
      visitNotEq E visit id left_term right_term s =
        visitNotEq_default E visit id left_term right_term s) := by
  constructor
  · intro qid var_name cid value_type value hl hr
    subst hl; subst hr
    constructor
    · intro hv hfresh
      have hv1 : (E.string_update_variable_value s.world (E.getVariable s.world var_name)
          (.STRING_AUTOMATON (E.StringAutomaton_complement
            (E.StringAutomaton_makeString value)))).1 = true := hv
      simp only [visitNotEq, hv1, if_true]
      exact storeTermValue_of_lookup_none _ _ _ hfresh
    · intro hv
      have hv1 : (E.string_update_variable_value s.world (E.getVariable s.world var_name)
          (.STRING_AUTOMATON (E.StringAutomaton_complement
            (E.StringAutomaton_makeString value)))).1 = false := hv
      simp only [visitNotEq, hv1, Bool.false_eq_true, if_false]
      rfl
  · intro hn
    unfold visitNotEq
    split
    · exact absurd ⟨rfl, rfl⟩ hn
    · rfl

/-- Witness for C21: `(!= x 5)` with an engine that accepts. -/
theorem visitNotEq_fast_path_witness :
    visitNotEq refEnvAccepting (visit refEnvAccepting 1) 0 (.QualIdentifier 1 "x")
        (.TermConstant 2 .NUMERAL "5") state_x_any_int =
      .ok { state_x_any_int with
            term_values_ := [(0, some (.STRING_AUTOMATON (Lang.single "5").complement))] } :=
  ((visitNotEq_fast_path refEnvAccepting (visit refEnvAccepting 1) 0 (.QualIdentifier 1 "x")
    (.TermConstant 2 .NUMERAL "5") state_x_any_int).1 1 "x" 2 .NUMERAL "5" rfl rfl).1 rfl rfl

/-- C22: for an `In` node with a variable reference on the left and a constant
on the right, the regex automaton of the constant is offered to the relational
string engine; when it accepts (and the node has no Value yet) the node's Value
is that automaton and no child is evaluated; when it does not accept, and for
every other pair of terms, the node is evaluated on the fall-through path.  On
the fall-through path, once the children have the Values `l` and `r`: two
string automata give `intersect(l, r)`, and every other pair of tags ends in a
fatal error. -/
theorem visitIn_value (E : Env C W) (visit : Term → State C W → Res C W) (id : Nat)
    (left_term right_term : Term) (s : State C W) :
    (∀ qid var_name cid value_type value,
      left_term = .QualIdentifier qid var_name →
      right_term = .TermConstant cid value_type value →
      ((fast_path_update E s var_name (in_fast_value E value)).1 = true →
        s.term_values_.lookup id = none →
        visitIn E visit id left_term right_term s =
          .ok { s with
                world := (fast_path_update E s var_name (in_fast_value E value)).2
                term_values_ := (id, some (in_fast_value E value)) :: s.term_values_ }) ∧
      ((fast_path_update E s var_name (in_fast_value E value)).1 = false →
        visitIn E visit id left_term right_term s =
          visitIn_default E visit id left_term right_term
            { s with world := (fast_path_update E s var_name (in_fast_value E value)).2 })) ∧
    (¬ (left_term.type = .QUALIDENTIFIER ∧ right_term.type = .TERMCONSTANT) →
      visitIn E visit id left_term right_term s =
        visitIn_default E visit id left_term right_term s) ∧
    (∀ (s0 s1 : State C W) (l r : Value C),
      visit_children_of visit (Term.In id left_term right_term) s0 = .ok s1 →
      getTermValue E s1 left_term = some l →
      getTermValue E s1 right_term = some r →
      s1.term_values_.lookup id = none →
      (l.getType = .STRING_AUTOMATON ∧ r.getType = .STRING_AUTOMATON →
        visitIn_default E visit id left_term right_term s0 =
          .ok { s1 with term_values_ := (id, some (E.intersect l r)) :: s1.term_values_ }) ∧
      (¬ (l.getType = .STRING_AUTOMATON ∧ r.getType = .STRING_AUTOMATON) →
        ∃ msg, visitIn_default E visit id left_term right_term s0 = .error (.fatal msg))) := by
  refine ⟨?_, ?_, ?_⟩
  · intro qid var_name cid value_type value hl hr
    subst hl; subst hr
    constructor
    · intro hv hfresh
      have hv1 : (E.string_update_variable_value s.world (E.getVariable s.world var_name)
          (.STRING_AUTOMATON (E.StringAutomaton_makeRegexAuto value))).1 = true := hv
      simp only [visitIn, hv1, if_true]
      exact storeTermValue_of_lookup_none _ _ _ hfresh
    · intro hv
      have hv1 : (E.string_update_variable_value s.world (E.getVariable s.world var_name)
          (.STRING_AUTOMATON (E.StringAutomaton_makeRegexAuto value))).1 = false := hv
      simp only [visitIn, hv1, Bool.false_eq_true, if_false]
      rfl
  · intro hn
    unfold visitIn
    split
    · exact absurd ⟨rfl, rfl⟩ hn
    · rfl
  · intro s0 s1 l r hc hl hr hfresh
    constructor
    · intro ht
      cases l <;> cases r <;> simp [Value.getType] at ht
      simp only [visitIn_default, hc, hl, hr, deref]
      exact storeTermValue_of_lookup_none _ _ _ hfresh
    · intro ht
      cases l <;> cases r <;> simp [Value.getType] at ht <;>
        exact ⟨"unexpected parameter(s) of term",
          by simp only [visitIn_default, hc, hl, hr, deref]⟩

/-- Witness for C22: `(in x /a*/)` with an engine that accepts. -/
theorem visitIn_value_witness :
    visitIn refEnvAccepting (visit refEnvAccepting 1) 0 (.QualIdentifier 1 "x")
        (.TermConstant 2 .REGEX "a*") state_x_any =
      .ok { state_x_any with term_values_ := [(0, some (.STRING_AUTOMATON Lang.any))] } :=
  ((visitIn_value refEnvAccepting (visit refEnvAccepting 1) 0 (.QualIdentifier 1 "x")
    (.TermConstant 2 .REGEX "a*") state_x_any).1 1 "x" 2 .REGEX "a*" rfl rfl).1 rfl rfl

/-- C23: for a `NotIn` node whose children have the string automata `a` and
`b` as Values (and which has no Value yet), the stored Value is
`difference(a, b)`.  If the left term is a variable reference, the one change
to the symbol table is `updateValue` of that variable to this Value, so in a
symbol table that is a mapping the Values of all other variables are as they
were after the evaluation of the children; if the left term is not a variable
reference the symbol table is the one the children left.  With the automata
read as sets and `difference` as set difference, the stored language is a
subset of `a`, the Value read for the left term. -/
theorem visitNotIn_value (E : Env C W) (visit : Term → State C W → Res C W) (id : Nat)
    (left_term right_term : Term) (s s1 : State C W) (a b : C.StringAutomaton)
    (hc : visit_children_of visit (Term.NotIn id left_term right_term) s = .ok s1)
    (hl : getTermValue E s1 left_term = some (.STRING_AUTOMATON a))
    (hr : getTermValue E s1 right_term = some (.STRING_AUTOMATON b))
    (hfresh : s1.term_values_.lookup id = none) :
    (∀ qid var_name, left_term = .QualIdentifier qid var_name →
      visitNotIn E visit id left_term right_term s =
        .ok { s1 with
              world := E.updateValue s1.world var_name (some (notIn_result E a b))
              term_values_ := (id, some (notIn_result E a b)) :: s1.term_values_ } ∧
      (UpdatesOneVariable E → ∀ y, y ≠ var_name →
        E.getValue (E.updateValue s1.world var_name (some (notIn_result E a b))) y =
          E.getValue s1.world y)) ∧
    (left_term.type ≠ .QUALIDENTIFIER →
      visitNotIn E visit id left_term right_term s =
        .ok { s1 with term_values_ := (id, some (notIn_result E a b)) :: s1.term_values_ }) ∧
    (∀ accepts : C.StringAutomaton → String → Bool, IsSetDifference E accepts →
      notIn_result E a b = .STRING_AUTOMATON (E.StringAutomaton_difference a b) →
      ∀ w, accepts (E.StringAutomaton_difference a b) w = true → accepts a w = true) := by
  refine ⟨?_, ?_, ?_⟩
  · intro qid var_name hq
    subst hq
    refine ⟨?_, fun hframe y hy => hframe _ _ _ _ hy⟩
    simp only [visitNotIn, hc, hl, hr, deref]
    exact storeTermValue_of_lookup_none _ _ _ hfresh
  · intro hn
    simp only [visitNotIn, hc, hl, hr, deref]
    split
    · exact absurd rfl hn
    · exact storeTermValue_of_lookup_none _ _ _ hfresh
  · intro accepts hdiff _ w hw
    rw [hdiff] at hw
    simp only [Bool.and_eq_true] at hw
    exact hw.1

/-- Witness for C23: `(notin x "a")` with `x` any string stores the language of
all strings but `a` and writes it back to `x`; the Values of the other
variables are as before, and the stored language is a subset of the language
of all strings read for `x`. -/
theorem visitNotIn_value_witness :
    (∃ s1 : State refCarrier RefWorld,
      visitNotIn refEnv (visit refEnv 1) 0 (.QualIdentifier 1 "x")
          (.TermConstant 2 .STRING "a") state_x_any =
        .ok { s1 with
              world := refEnv.updateValue s1.world "x"
                (some (.STRING_AUTOMATON (Lang.any.difference (Lang.single "a"))))
              term_values_ :=
                (0, some (.STRING_AUTOMATON (Lang.any.difference (Lang.single "a")))) ::
                  s1.term_values_ }) ∧
    (∀ y, y ≠ "x" →
      refEnv.getValue (refEnv.updateValue state_x_any.world "x"
        (some (.STRING_AUTOMATON (Lang.any.difference (Lang.single "a"))))) y =
        refEnv.getValue state_x_any.world y) ∧
    (∀ w, (Lang.any.difference (Lang.single "a")).mem w = true → Lang.any.mem w = true) :=
  ⟨⟨_, ((visitNotIn_value refEnv (visit refEnv 1) 0 (.QualIdentifier 1 "x")
      (.TermConstant 2 .STRING "a") state_x_any _ Lang.any (Lang.single "a")
      rfl rfl rfl rfl).1 1 "x" rfl).1⟩,
    ((visitNotIn_value refEnv (visit refEnv 1) 0 (.QualIdentifier 1 "x")
      (.TermConstant 2 .STRING "a") state_x_any _ Lang.any (Lang.single "a")
      rfl rfl rfl rfl).1 1 "x" rfl).2 refEnv_updatesOneVariable,
    (visitNotIn_value refEnv (visit refEnv 1) 0 (.QualIdentifier 1 "x")
      (.TermConstant 2 .STRING "a") state_x_any _ Lang.any (Lang.single "a")
      rfl rfl rfl rfl).2.2 Lang.mem refEnv_isSetDifference rfl⟩

/-- C24: for each of `NotContains`, `NotBegins` and `NotEnds`, once the
children have the string automata `a` (subject) and `b` (search) as Values,
both satisfiable, with `b` a single string (and the node has no Value yet), the
stored Value is the string automaton `a` minus `a.contains(b)` (respectively
`a.begins(b)`, `a.ends(b)`).  With the automata read as sets and `difference`
as set difference, its language is a subset of the language of `a`. -/
theorem not_contains_single_search (E : Env C W) (visit : Term → State C W → Res C W)
    (id : Nat) (subject_term search_term : Term) (s1 : State C W) (a b : C.StringAutomaton)
    (hl : getTermValue E s1 subject_term = some (.STRING_AUTOMATON a))
    (hr : getTermValue E s1 search_term = some (.STRING_AUTOMATON b))
    (hfresh : s1.term_values_.lookup id = none)
    (hsat_subject : E.isSatisfiable (.STRING_AUTOMATON a) = true)
    (hsat_search : E.isSatisfiable (.STRING_AUTOMATON b) = true)
    (hsingle : E.isSingleValue (.STRING_AUTOMATON b) = true) :
    (∀ s, visit_children_of visit (Term.NotContains id subject_term search_term) s = .ok s1 →
      visitNotContains E visit id subject_term search_term s =
        .ok { s1 with
              term_values_ :=
                (id, some (subject_minus E a (E.StringAutomaton_contains a b))) ::
                  s1.term_values_ }) ∧
    (∀ s, visit_children_of visit (Term.NotBegins id subject_term search_term) s = .ok s1 →
      visitNotBegins E visit id subject_term search_term s =
        .ok { s1 with
              term_values_ :=
                (id, some (subject_minus E a (E.StringAutomaton_begins a b))) ::
                  s1.term_values_ }) ∧
    (∀ s, visit_children_of visit (Term.NotEnds id subject_term search_term) s = .ok s1 →
      visitNotEnds E visit id subject_term search_term s =
        .ok { s1 with
              term_values_ :=
                (id, some (subject_minus E a (E.StringAutomaton_ends a b))) ::
                  s1.term_values_ }) ∧
    (∀ accepts : C.StringAutomaton → String → Bool, IsSetDifference E accepts →
      ∀ (related : C.StringAutomaton) (w : String),
        accepts (E.StringAutomaton_difference a related) w = true → accepts a w = true) := by
  refine ⟨?_, ?_, ?_, ?_⟩
  · intro s hc
    simp only [visitNotContains, hc, hl, hr, deref, hsat_subject, hsat_search, hsingle,
      Bool.true_eq_false, Bool.false_eq_true, if_false, if_true,
      Value.getStringAutomaton, payload]
    exact storeTermValue_of_lookup_none _ _ _ hfresh
  · intro s hc
    simp only [visitNotBegins, hc, hl, hr, deref, hsingle, if_true,
      Value.getStringAutomaton, payload]
    exact storeTermValue_of_lookup_none _ _ _ hfresh
  · intro s hc
    simp only [visitNotEnds, hc, hl, hr, deref, hsingle, if_true,
      Value.getStringAutomaton, payload]
    exact storeTermValue_of_lookup_none _ _ _ hfresh
  · intro accepts hdiff related w hw
    rw [hdiff] at hw
    simp only [Bool.and_eq_true] at hw
    exact hw.1

/-- Witness for C24: `(not (contains x "a"))` with `x` any string; the stored
language is a subset of the language of all strings. -/
theorem not_contains_single_search_witness :
    visitNotContains refEnv (visit refEnv 1) 0 (.QualIdentifier 1 "x")
        (.TermConstant 2 .STRING "a") state_x_any =
      .ok { state_x_any_children with
            term_values_ :=
              (0, some (subject_minus refEnv Lang.any
                (refEnv.StringAutomaton_contains Lang.any (Lang.single "a")))) ::
                state_x_any_children.term_values_ } ∧
    (∀ w, (Lang.difference Lang.any
        (refEnv.StringAutomaton_contains Lang.any (Lang.single "a"))).mem w = true →
      Lang.any.mem w = true) :=
  ⟨(not_contains_single_search refEnv (visit refEnv 1) 0 (.QualIdentifier 1 "x")
      (.TermConstant 2 .STRING "a") state_x_any_children Lang.any (Lang.single "a")
      rfl rfl rfl rfl rfl rfl).1 state_x_any rfl,
    (not_contains_single_search refEnv (visit refEnv 1) 0 (.QualIdentifier 1 "x")
      (.TermConstant 2 .STRING "a") state_x_any_children Lang.any (Lang.single "a")
      rfl rfl rfl rfl rfl rfl).2.2.2 Lang.mem refEnv_isSetDifference _⟩

/-- C25, as stated, fails: in `(not (contains "ab" y))` with `y` one of `a`,
`b`, the subject is the single string `ab` and the search language is
satisfiable and not a single string.  The substrings of the subject minus the
search language is not empty (it has `ab`), but the stored Value is the empty
language: the code takes the difference the other way round, the search
language minus the substrings, which is empty here. -/
theorem not_contains_difference_direction :
    (∃ s', visit refEnv 2 not_contains_ab_y state_y_a_b = .ok s' ∧
      s'.term_values_.lookup 0 = some (some (.STRING_AUTOMATON Lang.phi))) ∧
    refEnv.StringAutomaton_isEmptyLanguage
      (refEnv.StringAutomaton_difference
        (refEnv.StringAutomaton_subStrings (Lang.single "ab"))
        { cofinite := false, words := ["a", "b"] }) = false ∧
    refEnv.StringAutomaton_isEmptyLanguage
      (refEnv.StringAutomaton_difference { cofinite := false, words := ["a", "b"] }
        (refEnv.StringAutomaton_subStrings (Lang.single "ab"))) = true :=
  ⟨⟨_, rfl, rfl⟩, by decide, by decide⟩

/-- C25 (amended): for each of `NotContains`, `NotBegins` and `NotEnds`, once
the children have the string automata `a` (subject) and `b` (search) as
Values, both satisfiable, with `a` a single string and `b` not a single string
(and the node has no Value yet): the evaluator takes the search language minus
the substrings (respectively prefixes, suffixes) of the subject; the stored
Value is the empty-language automaton when that difference is empty and the
subject Value otherwise. -/
theorem not_contains_single_subject (E : Env C W) (visit : Term → State C W → Res C W)
    (id : Nat) (subject_term search_term : Term) (s1 : State C W) (a b : C.StringAutomaton)
    (hl : getTermValue E s1 subject_term = some (.STRING_AUTOMATON a))
    (hr : getTermValue E s1 search_term = some (.STRING_AUTOMATON b))
    (hfresh : s1.term_values_.lookup id = none)
    (hsat_subject : E.isSatisfiable (.STRING_AUTOMATON a) = true)
    (hsat_search : E.isSatisfiable (.STRING_AUTOMATON b) = true)
    (hsingle_subject : E.isSingleValue (.STRING_AUTOMATON a) = true)
    (hsingle_search : E.isSingleValue (.STRING_AUTOMATON b) = false) :
    (∀ s, visit_children_of visit (Term.NotContains id subject_term search_term) s = .ok s1 →
      visitNotContains E visit id subject_term search_term s =
        .ok { s1 with
              term_values_ :=
                (id, some (subject_or_phi E a b (E.StringAutomaton_subStrings a))) ::
                  s1.term_values_ }) ∧
    (∀ s, visit_children_of visit (Term.NotBegins id subject_term search_term) s = .ok s1 →
      visitNotBegins E visit id subject_term search_term s =
        .ok { s1 with
              term_values_ :=
                (id, some (subject_or_phi E a b (E.StringAutomaton_prefixes a))) ::
                  s1.term_values_ }) ∧
    (∀ s, visit_children_of visit (Term.NotEnds id subject_term search_term) s = .ok s1 →
      visitNotEnds E visit id subject_term search_term s =
        .ok { s1 with
              term_values_ :=
                (id, some (subject_or_phi E a b (E.StringAutomaton_suffixes a))) ::
                  s1.term_values_ }) := by
  refine ⟨?_, ?_, ?_⟩
  · intro s hc
    simp only [visitNotContains, hc, hl, hr, deref, hsat_subject, hsat_search, hsingle_subject,
      hsingle_search, Bool.true_eq_false, Bool.false_eq_true, if_false, if_true,
      Value.getStringAutomaton, payload, subject_or_phi, Value.clone]
    split <;> exact storeTermValue_of_lookup_none _ _ _ hfresh
  · intro s hc
    simp only [visitNotBegins, hc, hl, hr, deref, hsingle_subject, hsingle_search,
      Bool.false_eq_true, if_false, if_true, Value.getStringAutomaton, payload,
      subject_or_phi, Value.clone]
    split <;> exact storeTermValue_of_lookup_none _ _ _ hfresh
  · intro s hc
    simp only [visitNotEnds, hc, hl, hr, deref, hsingle_subject, hsingle_search,
      Bool.false_eq_true, if_false, if_true, Value.getStringAutomaton, payload,
      subject_or_phi, Value.clone]
    split <;> exact storeTermValue_of_lookup_none _ _ _ hfresh

/-- Witness for C25 (amended): `(not (contains "ab" y))` with `y` one of `a`,
`b` stores the empty language. -/
theorem not_contains_single_subject_witness :
    visitNotContains refEnv (visit refEnv 1) 0 (.TermConstant 1 .STRING "ab")
        (.QualIdentifier 2 "y") state_y_a_b =
      .ok { state_y_a_b_children with
            term_values_ :=
              (0, some (.STRING_AUTOMATON Lang.phi)) :: state_y_a_b_children.term_values_ } :=
  (not_contains_single_subject refEnv (visit refEnv 1) 0 (.TermConstant 1 .STRING "ab")
    (.QualIdentifier 2 "y") state_y_a_b_children (Lang.single "ab")
    { cofinite := false, words := ["a", "b"] } rfl rfl rfl rfl rfl rfl rfl).1 state_y_a_b rfl

/-- C26 fails on the code for `NotBegins` and `NotEnds`: with subject `x` and
search `y` both of the empty language, so both unsatisfiable, `visitNotContains`
stores the Bool constant false, but `visitNotBegins` and `visitNotEnds`, which
have no such test, store the subject, a string automaton. -/
theorem not_begins_ends_of_unsatisfiable :
    refEnv.isSatisfiable (.STRING_AUTOMATON Lang.phi) = false ∧
    (∃ s', visit refEnv 2 not_contains_x_y state_x_y_phi = .ok s' ∧
      s'.term_values_.lookup 0 = some (some (.BOOl_CONSTANT false))) ∧
    (∃ s', visit refEnv 2 not_begins_x_y state_x_y_phi = .ok s' ∧
      s'.term_values_.lookup 1 = some (some (.STRING_AUTOMATON Lang.phi)) ∧
      s'.term_values_.lookup 2 = some (some (.STRING_AUTOMATON Lang.phi)) ∧
      s'.term_values_.lookup 0 = some (some (.STRING_AUTOMATON Lang.phi))) ∧
    (∃ s', visit refEnv 2 not_ends_x_y state_x_y_phi = .ok s' ∧
      s'.term_values_.lookup 0 = some (some (.STRING_AUTOMATON Lang.phi))) :=
  ⟨rfl, ⟨_, rfl, rfl⟩, ⟨_, rfl, rfl, rfl, rfl⟩, ⟨_, rfl, rfl⟩⟩

/-- C27: for each of `Len`, `IndexOf`, `LastIndexOf` and `ToInt`, once the
children have string automata as Values (and the node has no Value yet), the
stored Value is `collapseInt` of the integer automaton `A` the library returns
for them.  `collapseInt A` is the Int constant `getAnAcceptingInt(A)` when `A`
accepts a single integer and the integer automaton `A` otherwise; so whenever
it is an integer automaton, that automaton does not accept a single integer. -/
theorem int_result_collapses (E : Env C W) (visit : Term → State C W → Res C W) (id : Nat)
    (subject_term search_term : Term) (s1 : State C W) (a : C.StringAutomaton)
    (hl : getTermValue E s1 subject_term = some (.STRING_AUTOMATON a))
    (hfresh : s1.term_values_.lookup id = none) :
    (∀ s, visit_children_of visit (Term.Len id subject_term) s = .ok s1 →
      visitLen E visit id subject_term s =
        .ok { s1 with
              term_values_ :=
                (id, some (collapseInt E (E.StringAutomaton_length a))) :: s1.term_values_ }) ∧
    (∀ s b, visit_children_of visit (Term.IndexOf id subject_term search_term) s = .ok s1 →
      getTermValue E s1 search_term = some (.STRING_AUTOMATON b) →
      visitIndexOf E visit id subject_term search_term s =
        .ok { s1 with
              term_values_ :=
                (id, some (collapseInt E (E.StringAutomaton_indexOf a b))) ::
                  s1.term_values_ }) ∧
    (∀ s b, visit_children_of visit (Term.LastIndexOf id subject_term search_term) s = .ok s1 →
      getTermValue E s1 search_term = some (.STRING_AUTOMATON b) →
      visitLastIndexOf E visit id subject_term search_term s =
        .ok { s1 with
              term_values_ :=
                (id, some (collapseInt E (E.StringAutomaton_lastIndexOf a b))) ::
                  s1.term_values_ }) ∧
    (∀ s, visit_children_of visit (Term.ToInt id subject_term) s = .ok s1 →
      visitToInt E visit id subject_term s =
        .ok { s1 with
              term_values_ :=
                (id, some (collapseInt E (E.StringAutomaton_parseToIntAutomaton a))) ::
                  s1.term_values_ }) ∧
    (∀ A : C.IntAutomaton,
      (E.IntAutomaton_isAcceptingSingleInt A = true →
        collapseInt E A = .INT_CONSTANT (E.IntAutomaton_getAnAcceptingInt A)) ∧
      (E.IntAutomaton_isAcceptingSingleInt A = false → collapseInt E A = .INT_AUTOMATON A) ∧
      (∀ B, collapseInt E A = .INT_AUTOMATON B →
        E.IntAutomaton_isAcceptingSingleInt B = false)) := by
  refine ⟨?_, ?_, ?_, ?_, ?_⟩
  · intro s hc
    simp only [visitLen, hc, hl, deref, Value.getStringAutomaton, payload]
    exact storeTermValue_of_lookup_none _ _ _ hfresh
  · intro s b hc hr
    simp only [visitIndexOf, hc, hl, hr, deref, Value.getStringAutomaton, payload]
    exact storeTermValue_of_lookup_none _ _ _ hfresh
  · intro s b hc hr
    simp only [visitLastIndexOf, hc, hl, hr, deref, Value.getStringAutomaton, payload]
    exact storeTermValue_of_lookup_none _ _ _ hfresh
  · intro s hc
    simp only [visitToInt, hc, hl, deref, Value.getStringAutomaton, payload]
    exact storeTermValue_of_lookup_none _ _ _ hfresh
  · intro A
    refine ⟨fun h => by simp [collapseInt, h], fun h => by simp [collapseInt, h], ?_⟩
    intro B hB
    cases hA : E.IntAutomaton_isAcceptingSingleInt A with
    | true => simp [collapseInt, hA] at hB
    | false =>
      simp only [collapseInt, hA, Bool.false_eq_true, if_false, Value.INT_AUTOMATON.injEq] at hB
      rw [← hB]
      exact hA

/-- Witness for C27: `(len "abc")` is the Int constant 3. -/
theorem int_result_collapses_witness :
    visitLen refEnv (visit refEnv 1) 0 (.TermConstant 1 .STRING "abc") (refState []) =
      .ok { state_abc with
            term_values_ := (0, some (.INT_CONSTANT 3)) :: state_abc.term_values_ } :=
  (int_result_collapses refEnv (visit refEnv 1) 0 (.TermConstant 1 .STRING "abc")
    (.TermConstant 1 .STRING "abc") state_abc (Lang.single "abc") rfl rfl).1 (refState []) rfl

/-- C28: `visitConcat`, `visitPlus` and `visitTimes` are the specification
`nary_fold_spec` with `concat`, `plus` and `times`: the children are evaluated
left to right, each Value is read right after its child has been evaluated,
and the Value of the node is the left fold of the operation over these Values,
which is the first Value when there is one child.  The fold does not touch the
state: the state in which the Value is recorded is the one the evaluation of
the children alone leaves, with one Value read per child. -/
theorem nary_fold (E : Env C W) (visit : Term → State C W → Res C W) (id : Nat)
    (term_list : List Term) (s : State C W) :
    visitConcat E visit id term_list s =
      nary_fold_spec E visit E.concat (Term.Concat id term_list) term_list s ∧
    visitPlus E visit id term_list s =
      nary_fold_spec E visit E.plus (Term.Plus id term_list) term_list s ∧
    visitTimes E visit id term_list s =
      nary_fold_spec E visit E.times (Term.Times id term_list) term_list s ∧
    (∀ (op : Value C → Value C → Value C) (v : Value C) (vs : List (Value C)),
      fold_values op (v :: vs) = some (vs.foldl op v) ∧ fold_values op [v] = some v) ∧
    (∀ (s0 s1 : State C W) (vs : List (Value C)),
      children_values E visit term_list s0 = .ok (vs, s1) →
        visit_list visit term_list s0 = .ok s1 ∧ vs.length = term_list.length) :=
  ⟨visitConcat_eq_spec E visit id term_list s, visitPlus_eq_spec E visit id term_list s,
    visitTimes_eq_spec E visit id term_list s, fun _ _ _ => ⟨rfl, rfl⟩,
    fun s0 s1 vs h => children_values_visit_list E visit term_list s0 vs s1 h⟩

/-- Witness for C28: the two children of `(concat "a" "b")` are evaluated in
order and their Values are read. -/
theorem nary_fold_witness :
    visit_list (visit refEnv 1) [.TermConstant 1 .STRING "a", .TermConstant 2 .STRING "b"]
        (refState []) =
      .ok { refState [] with
            term_values_ := [(2, some (.STRING_AUTOMATON (Lang.single "b"))),
              (1, some (.STRING_AUTOMATON (Lang.single "a")))] } :=
  ((nary_fold refEnv (visit refEnv 1) 0
    [.TermConstant 1 .STRING "a", .TermConstant 2 .STRING "b"] (refState [])).2.2.2.2
    (refState []) _ [.STRING_AUTOMATON (Lang.single "a"), .STRING_AUTOMATON (Lang.single "b")]
    rfl).1

/-- C30: for a variable reference `q` that has no Value yet: if the relational
string engine is enabled and holds the Value `v` for the variable, `v` is
installed in the symbol table and the variable is appended to the tagged
variables; otherwise, with `v` the Value of the variable in the symbol table,
the symbol table and the tagged variables are unchanged.  In both cases `v` is
recorded for `q` and one path is appended to the variable path table: `q`
followed by the path trace in reverse.  The path trace and the paths recorded
before are unchanged. -/
theorem visitQualIdentifier_value (E : Env C W) (id : Nat) (var_name : String)
    (s : State C W) (v : Value C) (hfresh : s.term_values_.lookup id = none) :
    (E.ENABLE_RELATIONAL_STRING_AUTOMATA = true →
      E.string_get_variable_value s.world (E.getVariable s.world var_name) = some v →
      visitQualIdentifier E id var_name s =
        .ok { s with
              world := E.setValue s.world (E.getVariable s.world var_name) (some v)
              tagged_variables := s.tagged_variables ++ [E.getVariable s.world var_name]
              term_values_ := (id, some v) :: s.term_values_
              variable_path_table_ := s.variable_path_table_ ++
                [Term.QualIdentifier id var_name :: s.path_trace_.reverse] }) ∧
    ((E.ENABLE_RELATIONAL_STRING_AUTOMATA = false ∨
        E.string_get_variable_value s.world (E.getVariable s.world var_name) = none) →
      E.getValue s.world (E.getVariable s.world var_name) = some v →
      visitQualIdentifier E id var_name s =
        .ok { s with
              term_values_ := (id, some v) :: s.term_values_
              variable_path_table_ := s.variable_path_table_ ++
                [Term.QualIdentifier id var_name :: s.path_trace_.reverse] }) := by
  constructor
  · intro hrel hv
    have hs := storeTermValue_of_lookup_none
      { s with
        world := E.setValue s.world (E.getVariable s.world var_name) (some v)
        tagged_variables := s.tagged_variables ++ [E.getVariable s.world var_name] }
      (Term.QualIdentifier id var_name) (some v) hfresh
    simp only [visitQualIdentifier, hrel, if_true, hv, deref, Value.clone, hs]
    simp [setVariablePath, Term.id]
  · intro hrel hv
    have hn : (if E.ENABLE_RELATIONAL_STRING_AUTOMATA then
        E.string_get_variable_value s.world (E.getVariable s.world var_name) else none) =
        none := by
      rcases hrel with h | h
      · simp [h]
      · simp [h]
    have hs := storeTermValue_of_lookup_none s (Term.QualIdentifier id var_name) (some v)
      hfresh
    simp only [visitQualIdentifier, hn, hv, deref, Value.clone, hs]
    simp [setVariablePath, Term.id]

/-- Witness for C30: the reference `x` below a `Not` node, read from the symbol
table. -/
theorem visitQualIdentifier_value_witness :
    visitQualIdentifier refEnv 1 "x"
        { state_x_any with path_trace_ := [.Not 0 (.QualIdentifier 1 "x")] } =
      .ok { state_x_any with
            path_trace_ := [.Not 0 (.QualIdentifier 1 "x")]
            term_values_ := [(1, some (.STRING_AUTOMATON Lang.any))]
            variable_path_table_ :=
              [[.QualIdentifier 1 "x", .Not 0 (.QualIdentifier 1 "x")]] } :=
  (visitQualIdentifier_value refEnv 1 "x"
    { state_x_any with path_trace_ := [.Not 0 (.QualIdentifier 1 "x")] }
    (.STRING_AUTOMATON Lang.any) rfl).2 (Or.inl rfl) rfl

/-- C29: the loop over the bindings of `visitLet` is the left-to-right
iteration of `let_install`: each binding's term is evaluated and its symbol
installed with a copy of the term's Value before the next binding is looked
at.  When the bindings, evaluated after `push_scope`, leave the state `s1`, and
the evaluation of the body from there leaves `s2` with the Value `v` for the
body (and the `Let` node has no Value yet), `visitLet` returns `s2` with the
scope popped once and `v` recorded for the `Let` node.  For a symbol table with
a scope stack, and sub-evaluations that leave the scope stack as they found
it, the scope stack after `visitLet` is the one before it. -/
theorem visitLet_value (E : Env C W) (visit : Term → State C W → Res C W) (id : Nat)
    (var_binding_list : List (String × Term)) (term : Term) (s : State C W) :
    (∀ s0, visitLet_bindings E visit (Term.Let id var_binding_list term) var_binding_list s0 =
      var_binding_list.foldlM (let_install E visit (Term.Let id var_binding_list term)) s0) ∧
    (∀ (s1 s2 : State C W) (flag : Bool) (v : Value C),
      visitLet_bindings E visit (Term.Let id var_binding_list term) var_binding_list
        { s with world := E.push_scope s.world id } = .ok s1 →
      check_and_visit E visit term
        { s1 with path_trace_ := s1.path_trace_ ++ [Term.Let id var_binding_list term] } =
          .ok (flag, s2) →
      getTermValue E s2 term = some v →
      s2.term_values_.lookup id = none →
      visitLet E visit id var_binding_list term s =
        .ok { s2 with
              path_trace_ := s2.path_trace_.dropLast
              world := E.pop_scope s2.world
              term_values_ := (id, some v) :: s2.term_values_ }) ∧
    (∀ stack : W → List Nat, ScopeStackLaws E stack →
      (∀ u s0 flag s', u ∈ var_binding_list.map Prod.snd ∨ u = term →
        check_and_visit E visit u s0 = .ok (flag, s') → stack s'.world = stack s0.world) →
      ∀ s', visitLet E visit id var_binding_list term s = .ok s' →
        stack s'.world = stack s.world) := by
  refine ⟨visitLet_bindings_eq_foldlM E visit _ var_binding_list, ?_, ?_⟩
  · intro s1 s2 flag v hb hbody hv hfresh
    have hv1 : getTermValue E { s2 with path_trace_ := s2.path_trace_.dropLast } term =
        some v := hv
    simp only [visitLet, hb, hbody, hv1, deref, Value.clone]
    exact storeTermValue_of_lookup_none _ _ _ hfresh
  · intro stack laws hvisit s' h
    simp only [visitLet] at h
    cases hb : visitLet_bindings E visit (Term.Let id var_binding_list term) var_binding_list
        { s with world := E.push_scope s.world id } with
    | error e => simp [hb] at h
    | ok s1 =>
      simp only [hb] at h
      have h1 := visitLet_bindings_stack E visit _ stack laws var_binding_list _ s1
        (fun u s0 flag s' hu => hvisit u s0 flag s' (Or.inl hu)) hb
      cases hc : check_and_visit E visit term
          { s1 with path_trace_ := s1.path_trace_ ++ [Term.Let id var_binding_list term] } with
      | error e => simp [hc] at h
      | ok p =>
        obtain ⟨flag, s2⟩ := p
        simp only [hc] at h
        have h2 := hvisit term _ flag s2 (Or.inr rfl) hc
        cases hd : deref (getTermValue E
            { s2 with path_trace_ := s2.path_trace_.dropLast } term) with
        | error e => simp [hd] at h
        | ok value =>
          simp only [hd] at h
          have h3 := (storeTermValue_eq_ok _ _ _ _ h).2
          rw [h3]
          simp only [laws.pop]
          rw [h2]
          simp only [] at h1
          rw [h1, laws.push]
          rfl

/-- Witness for C29: `(let ((v "a")) v)` from the fresh solver state: the Value
of the `Let` node is the one word `a`, and the scope stack is the one before. -/
theorem visitLet_value_witness :
    (∃ s' : State refCarrier RefWorld,
      visitLet refEnv (visit refEnv 1) 0 [("v", .TermConstant 1 .STRING "a")]
        (.QualIdentifier 2 "v") (refState []) = .ok s' ∧
      s'.term_values_.lookup 0 = some (some (.STRING_AUTOMATON (Lang.single "a")))) ∧
    (∀ s', visitLet refEnv (visit refEnv 1) 0 [("v", .TermConstant 1 .STRING "a")]
        (.QualIdentifier 2 "v") (refState []) = .ok s' →
      s'.world.scope_stack = (refState []).world.scope_stack) :=
  ⟨⟨_, (visitLet_value refEnv (visit refEnv 1) 0 [("v", .TermConstant 1 .STRING "a")]
      (.QualIdentifier 2 "v") (refState [])).2.1 _ _ true
      (.STRING_AUTOMATON (Lang.single "a")) rfl rfl rfl rfl, rfl⟩,
    (visitLet_value refEnv (visit refEnv 1) 0 [("v", .TermConstant 1 .STRING "a")]
      (.QualIdentifier 2 "v") (refState [])).2.2 RefWorld.scope_stack refEnv_scopeStackLaws
      (fun u s0 flag s' hu h => by
        rw [refEnv_leaf_world u (by
          rcases hu with hu | hu
          · simp at hu; subst hu; exact Or.inl rfl
          · subst hu; exact Or.inr rfl) s0 s' flag h])⟩

/-- C32: for a term that is neither an `And` nor an `Or` and has a Value (from
a sub-engine or from the map), `check_and_visit` returns the flag false
whenever it returns, its result depends on the evaluator only at the
string-derived sub-terms the bridge walks (the handler of the term itself is
not dispatched), and it returns at once with the state unchanged when the
bridge does not run and the relational string engine holds nothing; for an
`And`, an `Or` or a term without a Value it is the handler of the term, run
once on the entry state, with the flag true. -/
theorem check_and_visit_dispatch (E : Env C W) (visit : Term → State C W → Res C W)
    (term : Term) (s : State C W) :
    (∀ result, term.type ≠ TermType.OR → term.type ≠ TermType.AND →
      getTermValue E s term = some result →
        (∀ flag s1, check_and_visit E visit term s = .ok (flag, s1) → flag = false) ∧
        (∀ visit2 : Term → State C W → Res C W,
          (∀ u, u ∈ E.arithmetic_getStringTermsIn s.world term → visit2 u = visit u) →
            check_and_visit E visit2 term s = check_and_visit E visit term s) ∧
        (bridge_runs E s term result = false → E.string_get_term_value s.world term = none →
          check_and_visit E visit term s = .ok (false, s))) ∧
    ((term.type = TermType.OR ∨ term.type = TermType.AND ∨ getTermValue E s term = none) →
      check_and_visit E visit term s = dispatched visit term s) := by
  refine ⟨fun result hor hand hv => ⟨?_, ?_, ?_⟩, ?_⟩
  · exact fun flag s1 h => check_and_visit_flag_false E visit term s result hor hand hv flag s1 h
  · intro visit2 hl
    have h2 : process_mixed_integer_string_constraints_in E visit2 term s =
        process_mixed_integer_string_constraints_in E visit term s :=
      process_mixed_loop_congr_mem E visit2 visit term _ hl s
    simp only [check_and_visit, hor, hand, ne_eq, not_false_eq_true, and_self, if_true, hv, h2]
  · intro hb hstr
    rw [check_and_visit_cached E visit term s result hor hand hv hb, hstr]
  · intro h
    have hc : (if term.type ≠ TermType.OR ∧ term.type ≠ TermType.AND then getTermValue E s term
        else none) = none := by
      rcases h with h | h | h
      · simp only [h, ne_eq, not_true_eq_false, false_and, if_false]
      · simp only [h, ne_eq, not_true_eq_false, and_false, if_false]
      · simp only [h, ite_self]
    simp only [check_and_visit, hc, dispatched]

/-- Witness for C32: a constant whose Value is in the map is not dispatched, the
same constant without a Value is. -/
theorem check_and_visit_dispatch_witness :
    check_and_visit refEnv (visit refEnv 1) (.TermConstant 1 .STRING "a")
        (recorded state_x_any (.TermConstant 1 .STRING "a") (.STRING_AUTOMATON (Lang.single "a"))) =
      .ok (false,
        recorded state_x_any (.TermConstant 1 .STRING "a") (.STRING_AUTOMATON (Lang.single "a"))) ∧
    check_and_visit refEnv (visit refEnv 1) (.TermConstant 1 .STRING "a") state_x_any =
      dispatched (visit refEnv 1) (.TermConstant 1 .STRING "a") state_x_any :=
  ⟨((check_and_visit_dispatch refEnv (visit refEnv 1) (.TermConstant 1 .STRING "a")
      (recorded state_x_any (.TermConstant 1 .STRING "a")
        (.STRING_AUTOMATON (Lang.single "a")))).1
      (.STRING_AUTOMATON (Lang.single "a")) (by decide) (by decide) rfl).2.2 rfl rfl,
    (check_and_visit_dispatch refEnv (visit refEnv 1) (.TermConstant 1 .STRING "a")
      state_x_any).2 (Or.inr (Or.inr rfl))⟩

/-- C33, counterexample: the relational string engine holds a multi-track
Value for `(= x y)`; `check_and_visit` returns false and records the Bool
`true` in the term-value map, and the Value read for the node afterwards with
`getTermValue` is the multi-track Value of the engine, not a Bool. -/
theorem check_and_visit_keeps_engine_value :
    ∃ s1 : State refCarrier RefWorld,
      check_and_visit refEnvRelational (visit refEnvRelational 0) eq_x_y state_x_any =
        .ok (false, s1) ∧
      s1.term_values_.lookup eq_x_y.id = some (some (.BOOl_CONSTANT true)) ∧
      getTermValue refEnvRelational s1 eq_x_y = some (.MULTITRACK_AUTOMATON ()) :=
  ⟨_, rfl, rfl, rfl⟩

/-- C33, amended: for a term that is neither an `And` nor an `Or`, has no entry
in the term-value map and for which the relational string engine holds a Value
`V`, `check_and_visit` (when the bridge does not run) returns false and
records in the term-value map a Bool constant equal to the satisfiability of
`V`; the Value read afterwards with `getTermValue` is still the one the
sub-engines hold (`V` itself when the arithmetic engine holds nothing). -/
theorem check_and_visit_records_satisfiability (E : Env C W)
    (visit : Term → State C W → Res C W) (term : Term) (s : State C W) (result V : Value C)
    (hor : term.type ≠ TermType.OR) (hand : term.type ≠ TermType.AND)
    (hv : getTermValue E s term = some result) (hb : bridge_runs E s term result = false)
    (hstr : E.string_get_term_value s.world term = some V)
    (hfresh : s.term_values_.lookup term.id = none) :
    check_and_visit E visit term s =
      .ok (false, recorded s term (.BOOl_CONSTANT (E.isSatisfiable V))) ∧
    (recorded s term (.BOOl_CONSTANT (E.isSatisfiable V))).term_values_.lookup term.id =
      some (some (.BOOl_CONSTANT (E.isSatisfiable V))) ∧
    getTermValue E (recorded s term (.BOOl_CONSTANT (E.isSatisfiable V))) term = some result ∧
    (E.arithmetic_getTermValue s.world term = none → result = V) := by
  refine ⟨?_, ?_, ?_, ?_⟩
  · rw [check_and_visit_cached E visit term s result hor hand hv hb, hstr]
    simp only [recorded_of_lookup_none s term _ hfresh]
  · exact lookup_recorded s term _
  · rw [getTermValue_of_not_and_or E s term hor hand, hstr] at hv
    rw [getTermValue_of_not_and_or E _ term hor hand]
    simp only [recorded, hstr]
    cases ha : E.arithmetic_getTermValue s.world term with
    | none => rw [ha] at hv; exact hv
    | some v => rw [ha] at hv; exact hv
  · intro ha
    rw [getTermValue_of_not_and_or E s term hor hand, hstr, ha] at hv
    exact (Option.some.inj hv).symm

/-- Witness for C33: `(= x y)` with a relational string engine that holds a
multi-track Value for it. -/
theorem check_and_visit_records_satisfiability_witness :
    check_and_visit refEnvRelational (visit refEnvRelational 0) eq_x_y state_x_any =
      .ok (false, recorded state_x_any eq_x_y (.BOOl_CONSTANT true)) ∧
    getTermValue refEnvRelational (recorded state_x_any eq_x_y (.BOOl_CONSTANT true)) eq_x_y =
      some (.MULTITRACK_AUTOMATON ()) :=
  have h := check_and_visit_records_satisfiability refEnvRelational (visit refEnvRelational 0)
    eq_x_y state_x_any (.MULTITRACK_AUTOMATON ()) (.MULTITRACK_AUTOMATON ())
    (by decide) (by decide) rfl rfl rfl rfl
  ⟨h.1, h.2.2.1⟩

/-- C34: one round of the bridge for the string-derived sub-term `string_term`
of `term`, whose stored arithmetic solution is `stored` and whose evaluation
gives the Value `v`.  When `v` is an integer automaton or an integer constant
with binary encoding `enc`, the arithmetic engine is given the intersection of
`stored` and `enc` as the new Value of `term`; if that intersection is
unsatisfiable the bridge returns in that state whatever the remaining
sub-terms are (none of them is evaluated, the term-value map, the path table
and the tagged variables are those the evaluation of `string_term` left), and
otherwise the Value of `string_term` is replaced by the projection of the
intersection, the
variables are refined and the bridge goes on with the remaining sub-terms.
When `v` has no binary encoding the bridge ends in the fatal error. -/
theorem bridge_step (E : Env C W) (visit : Term → State C W → Res C W)
    (term string_term : Term) (s s1 : State C W) (stored : C.BinaryIntAutomaton) (v : Value C)
    (hres : getTermValue E s term = some (.BINARYINT_AUTOMATON stored))
    (hvis : visit string_term s = .ok s1)
    (hti : getTermValue E s1 string_term = some v) :
    (∀ enc, binary_encoding E (E.get_var_name_for_expression s1.world string_term)
        (E.BinaryIntAutomaton_getFormula stored) v = some enc →
      (E.isSatisfiable (.BINARYINT_AUTOMATON (E.BinaryIntAutomaton_intersect stored enc)) = false →
        ∀ rest, process_mixed_loop E visit term (string_term :: rest) s =
          .ok (installed E s1 term (E.BinaryIntAutomaton_intersect stored enc))) ∧
      (E.isSatisfiable (.BINARYINT_AUTOMATON (E.BinaryIntAutomaton_intersect stored enc)) = true →
        ∀ rest, process_mixed_loop E visit term (string_term :: rest) s =
          match storeTermValue
              (clearTermValue (installed E s1 term (E.BinaryIntAutomaton_intersect stored enc))
                string_term)
              string_term
              (some (.INT_AUTOMATON
                (bridge_refined E (E.get_var_name_for_expression s1.world string_term) v
                  (E.BinaryIntAutomaton_intersect stored enc)))) with
          | .error e => .error e
          | .ok s3 => process_mixed_loop E visit term rest (update_variables E s3))) ∧
    (binary_encoding E (E.get_var_name_for_expression s1.world string_term)
        (E.BinaryIntAutomaton_getFormula stored) v = none →
      ∀ rest, process_mixed_loop E visit term (string_term :: rest) s =
        .error (.fatal "unexpected type")) := by
  cases v
  case INT_AUTOMATON a =>
    refine ⟨fun enc henc => ⟨fun hsat rest => ?_, fun hsat rest => ?_⟩,
      fun h => absurd h (by simp [binary_encoding])⟩
    · simp only [binary_encoding, Option.some.injEq] at henc
      subst henc
      simp only [process_mixed_loop, hvis, hti, hres, deref, payload,
        Value.getBinaryIntAutomaton, hsat, if_true, installed]
    · simp only [binary_encoding, Option.some.injEq] at henc
      subst henc
      simp only [process_mixed_loop, hvis, hti, hres, deref, payload,
        Value.getBinaryIntAutomaton, hsat, Bool.true_eq_false, if_false, installed,
        bridge_refined]
  case INT_CONSTANT n =>
    refine ⟨fun enc henc => ⟨fun hsat rest => ?_, fun hsat rest => ?_⟩,
      fun h => absurd h (by simp [binary_encoding])⟩
    · simp only [binary_encoding, Option.some.injEq] at henc
      subst henc
      simp only [process_mixed_loop, hvis, hti, hres, deref, payload,
        Value.getBinaryIntAutomaton, hsat, if_true, installed]
    · simp only [binary_encoding, Option.some.injEq] at henc
      subst henc
      simp only [process_mixed_loop, hvis, hti, hres, deref, payload,
        Value.getBinaryIntAutomaton, hsat, Bool.true_eq_false, if_false, installed,
        bridge_refined]
  all_goals
    refine ⟨fun enc henc => absurd henc (by simp [binary_encoding]), fun _ rest => ?_⟩
    simp only [process_mixed_loop, hvis, hti, hres, deref, payload,
      Value.getBinaryIntAutomaton]

/-- Witness for C34: `(= (len x) y)` with an unsatisfiable and with a
satisfiable intersection, and `(= x y)` whose sub-term `x` evaluates to a string
automaton. -/
theorem bridge_step_witness :
    (∃ s1, visit refEnvArithmeticUnsat 2 (.Len 1 (.QualIdentifier 2 "x")) state_x_any = .ok s1 ∧
      ∀ rest, process_mixed_loop refEnvArithmeticUnsat (visit refEnvArithmeticUnsat 2)
          eq_len_x_y (.Len 1 (.QualIdentifier 2 "x") :: rest) state_x_any =
        .ok (installed refEnvArithmeticUnsat s1 eq_len_x_y ())) ∧
    (∃ s1, visit refEnvArithmetic 2 (.Len 1 (.QualIdentifier 2 "x")) state_x_any = .ok s1 ∧
      ∀ rest, process_mixed_loop refEnvArithmetic (visit refEnvArithmetic 2)
          eq_len_x_y (.Len 1 (.QualIdentifier 2 "x") :: rest) state_x_any =
        match storeTermValue
            (clearTermValue (installed refEnvArithmetic s1 eq_len_x_y ())
              (.Len 1 (.QualIdentifier 2 "x")))
            (.Len 1 (.QualIdentifier 2 "x")) (some (.INT_AUTOMATON Lang.any)) with
        | .error e => .error e
        | .ok s3 =>
          process_mixed_loop refEnvArithmetic (visit refEnvArithmetic 2) eq_len_x_y rest
            (update_variables refEnvArithmetic s3)) ∧
    (∀ rest, process_mixed_loop refEnvArithmetic (visit refEnvArithmetic 2) eq_x_y
        (.QualIdentifier 1 "x" :: rest) state_x_any = .error (.fatal "unexpected type")) :=
  ⟨⟨_, rfl,
      ((bridge_step refEnvArithmeticUnsat (visit refEnvArithmeticUnsat 2) eq_len_x_y
        (.Len 1 (.QualIdentifier 2 "x")) state_x_any _ () _ rfl rfl rfl).1 () rfl).1 rfl⟩,
    ⟨_, rfl,
      ((bridge_step refEnvArithmetic (visit refEnvArithmetic 2) eq_len_x_y
        (.Len 1 (.QualIdentifier 2 "x")) state_x_any _ () _ rfl rfl rfl).1 () rfl).2 rfl⟩,
    (bridge_step refEnvArithmetic (visit refEnvArithmetic 2) eq_x_y
      (.QualIdentifier 1 "x") state_x_any _ () _ rfl rfl rfl).2 rfl⟩

/-- C35: when the handler of an `And` node with a non-empty conjunct list
returns, the term-value map holds exactly one entry, a Bool constant for the
`And` node itself; no entry of the map from before the visit is left, so the
map has no Value for any node with another identity (a sibling evaluated
earlier, the term of an enclosing binding). -/
theorem visitAnd_clears_map (E : Env C W) (visit : Term → State C W → Res C W) (id : Nat)
    (term : Term) (rest : List Term) (s s' : State C W)
    (h : visitAnd E visit id (term :: rest) s = .ok s') :
    (∃ b, s'.term_values_ = [(id, some (.BOOl_CONSTANT b))]) ∧
    (∀ u : Term, u.id ≠ id → s'.term_values_.lookup u.id = none) := by
  have key : ∃ b, s'.term_values_ = [(id, some (.BOOl_CONSTANT b))] := by
    simp only [visitAnd] at h
    cases hl : visitAnd_loop E visit (term :: rest) true
        (visitAnd_engines E (Term.And id (term :: rest)) s) with
    | error e => simp only [hl, reduceCtorEq] at h
    | ok r =>
      obtain ⟨b, s1⟩ := r
      have hm := visitAnd_loop_map E visit (term :: rest) true b _ s1
        (fun hnil => absurd hnil (List.cons_ne_nil _ _)) hl
      simp only [hl] at h
      have hfresh : s1.term_values_.lookup (Term.And id (term :: rest)).id = none := by
        rw [hm]; rfl
      rw [storeTermValue_of_lookup_none s1 _ _ hfresh] at h
      simp only at h
      have h2 := visitAnd_string_result_map E _ _ s' h
      rw [visitAnd_arithmetic_result_map] at h2
      exact ⟨b, by rw [h2]; simp only [hm, Term.id]⟩
  refine ⟨key, fun u hu => ?_⟩
  obtain ⟨b, hb⟩ := key
  rw [hb]
  simp only [List.lookup]
  have hne : (u.id == id) = false := by simpa using hu
  simp only [hne]

/-- Witness for C35: `(and (= x "a") (not (= x "a")))` visited with a Value of
another node in the map. -/
theorem visitAnd_clears_map_witness :
    ∃ s' : State refCarrier RefWorld,
      visitAnd refEnv (visit refEnv 3) 0
        [.Eq 1 (.QualIdentifier 2 "x") (.TermConstant 3 .STRING "a"),
          .Not 4 (.Eq 5 (.QualIdentifier 6 "x") (.TermConstant 7 .STRING "a"))]
        state_x_any_b = .ok s' ∧
      (∃ b, s'.term_values_ = [(0, some (.BOOl_CONSTANT b))]) ∧
      s'.term_values_.lookup (Term.TermConstant 9 .STRING "b").id = none :=
  ⟨_, rfl,
    (visitAnd_clears_map refEnv (visit refEnv 3) 0
      (.Eq 1 (.QualIdentifier 2 "x") (.TermConstant 3 .STRING "a"))
      [.Not 4 (.Eq 5 (.QualIdentifier 6 "x") (.TermConstant 7 .STRING "a"))]
      state_x_any_b _ rfl).1,
    (visitAnd_clears_map refEnv (visit refEnv 3) 0
      (.Eq 1 (.QualIdentifier 2 "x") (.TermConstant 3 .STRING "a"))
      [.Not 4 (.Eq 5 (.QualIdentifier 6 "x") (.TermConstant 7 .STRING "a"))]
      state_x_any_b _ rfl).2 (.TermConstant 9 .STRING "b") (by decide)⟩

/-- C36 fails on the code: the node `(= (len x) y)` has no entry in the
term-value map, the arithmetic engine holds a satisfiable Value for it and
reports `(len x)` as string-derived sub-term, and the relational string engine
holds a Value for it too.  The bridge returns and leaves no entry for the node.
The two tests of `check_and_visit` are independent `if`s, each followed by a
`setTermValue` on the node, so the Bool recorded after the bridge is followed by
a second insertion for the Value of the relational string engine, and
`check_and_visit` stops in the uniqueness check of `setTermValue`. -/
theorem check_and_visit_double_assignment :
    state_x_any.term_values_.lookup eq_len_x_y.id = none ∧
    (∃ s1 : State refCarrier RefWorld,
      process_mixed_integer_string_constraints_in refEnvBoth (visit refEnvBoth 2) eq_len_x_y
        state_x_any = .ok s1 ∧ s1.term_values_.lookup eq_len_x_y.id = none) ∧
    check_and_visit refEnvBoth (visit refEnvBoth 2) eq_len_x_y state_x_any =
      .error (.fatal "value is already computed for term") :=
  ⟨rfl, ⟨_, rfl, rfl⟩, rfl⟩

/-- The cases of `check_and_visit` on a term that is neither an `And` nor an
`Or`, has a Value and has no entry in the term-value map: the second insertion
is reached only when the bridge has run and returned and the relational string
engine holds a Value for the term as well. -/
theorem check_and_visit_assigns (E : Env C W) (visit : Term → State C W → Res C W)
    (term : Term) (s : State C W) (result : Value C)
    (hor : term.type ≠ TermType.OR) (hand : term.type ≠ TermType.AND)
    (hv : getTermValue E s term = some result)
    (hfresh : s.term_values_.lookup term.id = none) :
    (bridge_runs E s term result = false →
      ∃ s1, check_and_visit E visit term s = .ok (false, s1)) ∧
    (bridge_runs E s term result = true →
      ∀ s1 result1, process_mixed_integer_string_constraints_in E visit term s = .ok s1 →
        getTermValue E s1 term = some result1 →
        (E.string_get_term_value s1.world term = none →
          s1.term_values_.lookup term.id = none →
          check_and_visit E visit term s =
            .ok (false, recorded s1 term (.BOOl_CONSTANT (E.isSatisfiable result1)))) ∧
        (∀ V, E.string_get_term_value s1.world term = some V →
          check_and_visit E visit term s =
            .error (.fatal "value is already computed for term"))) := by
  constructor
  · intro hb
    rw [check_and_visit_cached E visit term s result hor hand hv hb]
    cases hstr : E.string_get_term_value s.world term with
    | none => exact ⟨_, rfl⟩
    | some V =>
      simp only [recorded_of_lookup_none s term _ hfresh]
      exact ⟨_, rfl⟩
  · intro hb s1 result1 hm hv1
    simp only [bridge_runs] at hb
    constructor
    · intro hstr hfresh1
      simp only [check_and_visit, hor, hand, ne_eq, not_false_eq_true, and_self, if_true, hv,
        hb, hm, hv1, deref, recorded_of_lookup_none s1 term _ hfresh1, recorded, hstr]
    · intro V hstr
      simp only [check_and_visit, hor, hand, ne_eq, not_false_eq_true, and_self, if_true, hv,
        hb, hm, hv1, deref]
      cases hl : s1.term_values_.lookup term.id with
      | some stored => simp only [storeTermValue_of_lookup_some s1 term _ stored hl]
      | none =>
        have hw : (recorded s1 term (.BOOl_CONSTANT (E.isSatisfiable result1))).world = s1.world :=
          rfl
        simp only [recorded_of_lookup_none s1 term _ hl, hw, hstr,
          storeTermValue_of_lookup_some _ term _ _ (lookup_recorded s1 term _)]

/-- C31, counterexample: in `(and (not x))` with `x` true the conjunct is
unsatisfiable, so the path recorded for `x` stays in the variable path table
when the handler of the `And` returns; it is `x, (not x)`: the `And` node
above the occurrence is not on it. -/
theorem and_not_on_variable_path :
    ∃ s' : State refCarrier RefWorld,
      visit refEnv 3 and_not_x state_x_true = .ok s' ∧
      s'.variable_path_table_ = [[.QualIdentifier 2 "x", .Not 1 (.QualIdentifier 2 "x")]] :=
  ⟨_, rfl, rfl⟩

/-- C31, amended: when the bridge does not run, every row that the visit of a
term `t` adds to the variable path table is the path of a variable occurrence
of `t` from the occurrence upwards through its ancestors inside `t` other than
`And` and `Or` nodes (`Term.variable_paths`, so every `Let` node and every
operator node is on it and no `And` and no `Or` node), continued by the path
trace the visit was entered with, read upwards; at the occurrence itself the
handler appends the occurrence followed by the path trace read upwards. -/
theorem variable_paths_recorded (E : Env C W) (hnb : no_bridge E) (fuel : Nat) :
    (∀ (t : Term) (s s' : State C W), visit E fuel t s = .ok s' →
      ∀ row, row ∈ s'.variable_path_table_ →
        row ∈ s.variable_path_table_ ∨
          ∃ p, p ∈ t.variable_paths ∧ row = p ++ s.path_trace_.reverse) ∧
    (∀ (id : Nat) (var_name : String) (s s' : State C W),
      visitQualIdentifier E id var_name s = .ok s' →
        s'.variable_path_table_ =
          s.variable_path_table_ ++ [Term.QualIdentifier id var_name :: s.path_trace_.reverse]) :=
  ⟨fun t s s' h => (visit_walked E fuel t s s' h).2 hnb,
    fun id var_name s s' h => (visitQualIdentifier_paths E id var_name s s' h).2.1⟩

/-- Witness for C31: `(and (not x))` on the reference collaborators, where the
bridge never runs. -/
theorem variable_paths_recorded_witness :
    ∃ s' : State refCarrier RefWorld,
      visit refEnv 3 and_not_x state_x_true = .ok s' ∧
      ∀ row, row ∈ s'.variable_path_table_ →
        row ∈ state_x_true.variable_path_table_ ∨
          ∃ p, p ∈ and_not_x.variable_paths ∧ row = p ++ state_x_true.path_trace_.reverse :=
  ⟨_, rfl, (variable_paths_recorded refEnv (fun _ _ => rfl) 3).1 and_not_x state_x_true _ rfl⟩

/-- C37: the path trace is balanced.  When the handler of a term returns, the
path trace is the one the handler was entered with, for every term and every
starting state; the same holds for the handler of an assertion and for a walk
of the whole script. -/
theorem path_trace_balanced (E : Env C W) (fuel : Nat) :
    (∀ (t : Term) (s s' : State C W), visit E fuel t s = .ok s' →
      s'.path_trace_ = s.path_trace_) ∧
    (∀ (term : Term) (s s' : State C W), visitAssert E (visit E fuel) term s = .ok s' →
      s'.path_trace_ = s.path_trace_) ∧
    (∀ (root_ : Script) (s s' : State C W), visit_root E fuel root_ s = .ok s' →
      s'.path_trace_ = s.path_trace_) :=
  ⟨fun t s s' h => (visit_balanced E fuel t s s' h).1,
    fun term s s' h => (visitAssert_balanced E fuel term s s' h).1,
    fun root_ s s' h => (visit_root_balanced E fuel root_ s s' h).1⟩

/-- Witness for C37: `(let ((v "a")) v)` returns with the path trace it was
entered with. -/
theorem path_trace_balanced_witness :
    ∃ s' : State refCarrier RefWorld,
      visit refEnv 3 let_v_a_v state_x_any = .ok s' ∧
      s'.path_trace_ = state_x_any.path_trace_ :=
  ⟨_, rfl, (path_trace_balanced refEnv 3).1 let_v_a_v state_x_any _ rfl⟩

/-- C38: the tagged variables are at most as many as the recorded variable
paths in the state in which the solver starts (both are empty) and this is
kept by the handler of every term, by `check_and_visit`, by the bridge and by
whole runs; so in every state the evaluator passes to `update_variables` an
empty path table comes with an empty tagged set (the early return skips no
tagged variable), and after `update_variables` both are empty. -/
theorem tagged_variables_within_paths (E : Env C W) (fuel : Nat) :
    (∀ (t : Term) (s s' : State C W), tagged_within_paths s → visit E fuel t s = .ok s' →
      tagged_within_paths s') ∧
    (∀ (t : Term) (s s' : State C W) (flag : Bool), tagged_within_paths s →
      check_and_visit E (visit E fuel) t s = .ok (flag, s') → tagged_within_paths s') ∧
    (∀ (t : Term) (l : List Term) (s s' : State C W), tagged_within_paths s →
      process_mixed_loop E (visit E fuel) t l s = .ok s' → tagged_within_paths s') ∧
    (∀ (root_ : Script) (n : Nat) (s s' : State C W), tagged_within_paths s →
      start_loop E fuel root_ n s = .ok s' → tagged_within_paths s') ∧
    (∀ s : State C W, tagged_within_paths s → s.variable_path_table_ = [] →
      s.tagged_variables = []) ∧
    (∀ s : State C W, tagged_within_paths s →
      (update_variables E s).variable_path_table_ = [] ∧
        (update_variables E s).tagged_variables = []) := by
  refine ⟨fun t s s' h0 h => (visit_balanced E fuel t s s' h).2 h0,
    fun t s s' flag h0 h => (check_and_visit_balanced E fuel t s s' flag h).2 h0,
    fun t l s s' h0 h => (process_mixed_loop_balanced E (visit E fuel) t
      (fun u a b hu => visit_balanced E fuel u a b hu) l s s' h).2 h0,
    fun root_ n s s' h0 h => (start_loop_balanced E fuel root_ n s s' h).2 h0, ?_, ?_⟩
  · intro s h0 he
    simp only [tagged_within_paths, he, List.length_nil, Nat.le_zero_eq] at h0
    exact List.length_eq_zero.mp h0
  · intro s h0
    have h := update_variables_paths E s
    by_cases he : s.variable_path_table_ = []
    · rw [h.2.1 he]
      simp only [tagged_within_paths, he, List.length_nil, Nat.le_zero_eq] at h0
      exact ⟨he, List.length_eq_zero.mp h0⟩
    · exact h.2.2 he

/-- Witness for C38: the fresh solver state, the state after the visit of
`(not x)` with a relational string engine that tags `x`, and the state after
the refinement pass that follows. -/
theorem tagged_variables_within_paths_witness :
    tagged_within_paths state_x_true ∧
    (∃ s' : State refCarrier RefWorld,
      visit refEnvTagging 2 (.Not 1 (.QualIdentifier 2 "x")) state_x_true = .ok s' ∧
      s'.tagged_variables = ["x"] ∧ tagged_within_paths s' ∧
      (update_variables refEnvTagging s').variable_path_table_ = [] ∧
      (update_variables refEnvTagging s').tagged_variables = []) :=
  have h1 := (tagged_variables_within_paths refEnvTagging 2).1
    (.Not 1 (.QualIdentifier 2 "x")) state_x_true _ (Nat.zero_le _) rfl
  ⟨Nat.zero_le _, ⟨_, rfl, rfl, h1,
    (tagged_variables_within_paths refEnvTagging 2).2.2.2.2.2 _ h1⟩⟩

/-- C39, the code at the failing input: `save` writes for -5 the flag `true`
(the `int` sign -1 converted to `bool`), one limb and the limb 5, which is
item for item what it writes for 5; `load` into a fresh target reads these
three items and leaves the archive empty, but the flag, promoted to 1, equals
the sign of the freshly read magnitude, so the backend is not negated and the
loaded number is 5, not -5. -/
theorem load_save_loses_sign :
    Util.Serialize.save Util.Serialize.refBigInteger [] Util.Serialize.minus_five =
      [.boolean true, .size 1, .binary_data [5]] ∧
    Util.Serialize.save Util.Serialize.refBigInteger [] Util.Serialize.minus_five =
      Util.Serialize.save Util.Serialize.refBigInteger [] Util.Serialize.plus_five ∧
    Util.Serialize.load Util.Serialize.refBigInteger
      (Util.Serialize.save Util.Serialize.refBigInteger [] Util.Serialize.minus_five)
      Util.Serialize.zero = some ([], Util.Serialize.plus_five) ∧
    Util.Serialize.minus_five.toInt = -5 ∧ Util.Serialize.plus_five.toInt = 5 := by
  decide

end Claims

end Solver
end Vlab
